import Mathlib

/-!
Cache-aside demo services (`3.redis基础教程/experiments/cache-demo`)

A shallow embedding of the cache layer (`cache/*.go`) and of the lookup services
(`service/*.go`) over an explicit world: the Redis keyspace with a clock, the users table,
the Bloom filter bits, the random source and a trace of the calls that were made.

External collaborators are modelled by their contracts:

* Redis (go-zero client): `Get`, `Setex`, `Del` over a keyspace with expiry instants; every
  call may fail, the outcome of the upcoming calls is given by a fault schedule.
* The repository (`model.UserRepo`): a table of rows, with its own fault schedule.
* `encoding/json`: a `Codec` (marshal / unmarshal) that the cache functions take as a
  parameter; `goJSON` further down models the encoding of `model.User`.
* `math/rand`: `rand.Intn n` returns any value of `[0, n)` and panics for `n ≤ 0`.

Two smaller programs of the repository follow the services: the retry decorator of
`1.golang基础教程/experiments/decorator_demo.go` (namespace `Experiments`) and the
distributed-lock demo `cache-demo/lock-demo/test_distributed_lock.go` (namespace `LockDemo`).
-/

namespace CacheDemo

/-! ## Go values -/

/-- Go `error` values: the two sentinels the services test with `errors.Is`, leaf errors
(`errors.New`, `fmt.Errorf` without `%w`, library errors) and `fmt.Errorf("...%w", cause)`. -/
inductive GoError where
  | recordNotFound : GoError
  | nullCache : GoError
  | leaf (msg : String) : GoError
  | wrap (msg : String) (cause : GoError) : GoError
  deriving DecidableEq, Repr

/-- The text returned by `err.Error()`. -/
def GoError.message : GoError → String
  | .recordNotFound => "record not found"
  | .nullCache => "空值缓存命中"
  | .leaf msg => msg
  | .wrap msg cause => msg ++ cause.message

/-- The result of `errors.Unwrap(err)`. -/
def GoError.unwrap : GoError → Option GoError
  | .wrap _ cause => some cause
  | _ => none

/-- The result of `errors.Is(err, target)`: `target` occurs on the unwrap chain of `err`. -/
def errorsIs : GoError → GoError → Bool
  | .wrap msg cause, target => (GoError.wrap msg cause == target) || errorsIs cause target
  | err, target => err == target

/-- One element of a Go string as `for range` and `encoding/json` see it: a validly encoded
rune, or a byte that is not part of any valid UTF-8 sequence. -/
inductive GoChar where
  | rune (c : Char) : GoChar
  | bad (byte : Nat) : GoChar
  deriving DecidableEq, Repr

/-- A Go `string`: a byte sequence, given as its runes and invalid bytes. -/
abbrev GoString := List GoChar

/-- The Go string with the given (valid) text. -/
def GoString.ofString (s : String) : GoString := s.toList.map GoChar.rune

/-- A `time.Time`, given by its civil reading in its own zone and the zone offset in seconds
east of UTC. The monotonic-clock reading and the identity of the `*Location` are not
modelled. -/
structure GoTime where
  year : Int
  month : Nat
  day : Nat
  hour : Nat
  minute : Nat
  second : Nat
  nano : Nat
  offset : Int
  deriving DecidableEq, Repr

/-- The zero `time.Time`: January 1, year 1, 00:00:00 UTC. -/
def GoTime.zero : GoTime :=
  { year := 1, month := 1, day := 1, hour := 0, minute := 0, second := 0, nano := 0, offset := 0 }

/-- The record `model.User`. -/
structure User where
  ID : Int
  Username : GoString
  Email : GoString
  Age : Int
  CreatedAt : GoTime
  UpdatedAt : GoTime
  deriving DecidableEq, Repr

/-- The two `encoding/json` entry points the cache layer calls, on `model.User`:
`json.Marshal(user)` and `json.Unmarshal([]byte(val), &user)` into a zero `User`.
`json.Unmarshal` rejects the empty input ("unexpected end of JSON input") with an error of its
own, which does not wrap `cache.ErrNullCache`. -/
structure Codec where
  marshal : User → Except GoError String
  unmarshal : String → Except GoError User
  unmarshal_empty : ∃ e, unmarshal "" = .error e ∧ errorsIs e .nullCache = false

/-- What the cache hands back for a record: `json.Unmarshal` of what `json.Marshal` wrote;
`none` when either call fails. -/
def roundTrip (c : Codec) (u : User) : Option User :=
  match c.marshal u with
  | .ok payload =>
    match c.unmarshal payload with
    | .ok v => some v
    | .error _ => none
  | .error _ => none

/-! ## Machine integers -/

/-- Two's-complement wrap-around of Go's `int` (64 bits). -/
def wrapInt (x : Int) : Int := (x + 2 ^ 63) % 2 ^ 64 - 2 ^ 63

/-- The largest `int`. -/
def maxInt : Int := 2 ^ 63 - 1

/-- The value fits Go's `int`. -/
def IsInt (x : Int) : Prop := -(2 ^ 63) ≤ x ∧ x ≤ maxInt

instance (x : Int) : Decidable (IsInt x) := by unfold IsInt; infer_instance

/-- The result of `rand.Intn(n)` when the generator draws `draw`: a value of `[0, n)`;
`none` is the panic for `n ≤ 0`. -/
def randIntn (n : Int) (draw : Nat) : Option Int :=
  if n ≤ 0 then none else some ((draw : Int) % n)

/-! ## Constants of package `cache` -/

def UserCacheKeyPrefix : String := "user:"
def DefaultExpireSeconds : Int := 300
def AvalancheBaseExpireSeconds : Int := 60
def AvalancheRandomRangePercent : Int := 10
def NullCacheValue : String := "NULL"
def NullCacheExpireSeconds : Int := 60
def ErrNullCache : GoError := .nullCache

/-- The function `GetRandomExpireTime`, for the draw `draw` of the random source; `none` is
the panic of `rand.Intn`. -/
def GetRandomExpireTime (baseExpireSeconds : Int) (draw : Nat) : Option Int :=
  let baseExpireSeconds := if baseExpireSeconds ≤ 0 then DefaultExpireSeconds else baseExpireSeconds
  let randomRange := (wrapInt (baseExpireSeconds * AvalancheRandomRangePercent)).tdiv 100
  let randomRange := if randomRange = 0 then 1 else randomRange
  match randIntn randomRange draw with
  | none => none
  | some randomExpire => some (wrapInt (baseExpireSeconds + randomExpire))

/-! ## The world the services run in -/

/-- A live Redis entry: the value and the instant (in seconds) at which it expires. -/
structure Entry where
  value : String
  expireAt : Nat
  deriving DecidableEq, Repr

/-- The calls recorded in the trace, most recent first. -/
inductive Event where
  | rdsGet (key : String) : Event
  | rdsSetex (key value : String) (seconds : Int) : Event
  | rdsDel (key : String) : Event
  | bloomAdd (key : String) : Event
  | bloomExists (key : String) : Event
  | repoFindByID (id : Int) : Event
  | repoUpdate (id : Int) : Event
  | repoDelete (id : Int) : Event
  | repoCreate (id : Int) : Event
  | cacheGetUser (id : Int) : Event
  | cacheSetUser (id : Option Int) (expireSeconds : Int) : Event
  | cacheSetUserWithRandomExpire (id : Option Int) (baseExpireSeconds : Int) : Event
  | cacheSetUserWithFixedExpire (id : Option Int) (expireSeconds : Int) : Event
  | cacheSetNullUser (id : Int) : Event
  | cacheDeleteUser (id : Int) : Event
  | cacheAddToBloomFilter (id : Int) : Event
  | cacheExistsInBloomFilter (id : Int) : Event
  deriving DecidableEq, Repr

/-- The state around the services.

* `now`, `store`: the Redis clock and keyspace; `rdsFaults` gives the outcome of the upcoming
  Redis calls (`some e`: the call fails with `e` and has no effect; an exhausted schedule means
  success).
* `rows`: the users table; `repoFaults` is the fault schedule of the repository calls;
  `nilOnMiss` is the convention of the `UserRepo` at hand for an absent row: `false` reports
  `gorm.ErrRecordNotFound` (the `userRepo` of `model/user.go`), `true` returns `(nil, nil)`.
* `bloomBits`, `bloomHash`: the bits that are set in the Bloom filter and the positions that
  the filter derives from a key.
* `rand`: the upcoming draws of the random source.
* `trace`: the calls made so far, most recent first.
* `autoIncrement`: the id the users table gives to the next row created without one.
* `clock`: the time that gorm's `NowFunc` reads while a repository write runs. -/
structure World where
  now : Nat
  store : String → Option Entry
  rdsFaults : List (Option GoError)
  rows : Int → Option User
  repoFaults : List (Option GoError)
  nilOnMiss : Bool
  bloomBits : List Nat
  bloomHash : String → List Nat
  rand : List Nat
  trace : List Event
  autoIncrement : Int := 1
  clock : GoTime := GoTime.zero

/-- Record a call. -/
def World.log (w : World) (e : Event) : World := { w with trace := e :: w.trace }

/-- Let `d` seconds pass. -/
def World.advance (w : World) (d : Nat) : World := { w with now := w.now + d }

/-- The number of calls in the trace that satisfy `p`. -/
def World.count (w : World) (p : Event → Bool) : Nat := w.trace.countP p

/-- The number of `repo.FindByID` calls made so far. -/
def World.findByIDCalls (w : World) : Nat :=
  w.count fun e => match e with | .repoFindByID _ => true | _ => false

/-- The number of cache `SetUser` calls made so far. -/
def World.setUserCalls (w : World) : Nat :=
  w.count fun e => match e with | .cacheSetUser _ _ => true | _ => false

/-- The number of cache `GetUser` calls made so far. -/
def World.getUserCalls (w : World) : Nat :=
  w.count fun e => match e with | .cacheGetUser _ => true | _ => false

/-- The number of Redis calls (`Get`, `Setex`, `Del`, Bloom scripts) made so far. -/
def World.redisCalls (w : World) : Nat :=
  w.count fun e => match e with
    | .rdsGet _ | .rdsSetex _ _ _ | .rdsDel _ | .bloomAdd _ | .bloomExists _ => true
    | _ => false

/-- The number of cache `DeleteUser` calls made so far. -/
def World.deleteUserCalls (w : World) : Nat :=
  w.count fun e => match e with | .cacheDeleteUser _ => true | _ => false

/-- The number of calls made so far to a cache method that writes: `SetUser`,
`SetUserWithRandomExpire`, `SetUserWithFixedExpire`, `SetNullUser`, `DeleteUser`,
`AddToBloomFilter`. -/
def World.cacheWriteCalls (w : World) : Nat :=
  w.count fun e => match e with
    | .cacheSetUser _ _ | .cacheSetUserWithRandomExpire _ _ | .cacheSetUserWithFixedExpire _ _
    | .cacheSetNullUser _ | .cacheDeleteUser _ | .cacheAddToBloomFilter _ => true
    | _ => false

/-- The call is a cache `AddToBloomFilter`. -/
def Event.isAddToBloomFilter : Event → Bool
  | .cacheAddToBloomFilter _ => true
  | _ => false

/-- The number of cache `AddToBloomFilter` calls made so far. -/
def World.addToBloomCalls (w : World) : Nat := w.count Event.isAddToBloomFilter

/-- The call writes to the Bloom filter: a cache `AddToBloomFilter` or the `Add` of the
filter. -/
def Event.isFilterWrite : Event → Bool
  | .cacheAddToBloomFilter _ => true
  | .bloomAdd _ => true
  | _ => false

/-- The number of cache `AddToBloomFilter(id)` calls made so far for the given id. -/
def World.addCalls (w : World) (id : Int) : Nat :=
  w.count fun e => decide (e = Event.cacheAddToBloomFilter id)

/-- The number of `bloomFilter.Add(key)` calls made so far for the given key. -/
def World.filterAdds (w : World) (key : String) : Nat :=
  w.count fun e => decide (e = Event.bloomAdd key)

/-- The entry that is live at `key`, if any. -/
def World.live (w : World) (key : String) : Option Entry :=
  match w.store key with
  | some e => if w.now < e.expireAt then some e else none
  | none => none

/-- The keyspace after `key` has been set to `value` with an expiry of `seconds`. -/
def World.put (w : World) (key value : String) (seconds : Int) : World :=
  { w with store := fun k =>
      if k = key then some { value := value, expireAt := w.now + seconds.toNat } else w.store k }

/-- The keyspace after `key` has been deleted. -/
def World.del (w : World) (key : String) : World :=
  { w with store := fun k => if k = key then none else w.store k }

/-- The users table after the row of `user.ID` has been saved. -/
def World.setRow (w : World) (user : User) : World :=
  { w with rows := fun i => if i = user.ID then some user else w.rows i }

/-- The users table after the row of `id` has been deleted. -/
def World.delRow (w : World) (id : Int) : World :=
  { w with rows := fun i => if i = id then none else w.rows i }

/-- The users table after a row has been inserted under `user.ID`: the counter moves past
that id. -/
def World.insertRow (w : World) (user : User) : World :=
  { w with rows := fun i => if i = user.ID then some user else w.rows i,
           autoIncrement := max w.autoIncrement user.ID + 1 }

/-- The users table after `user` has been written under `user.ID`: over the row of that id when
there is one, as a new row otherwise. -/
def World.saveRow (w : World) (user : User) : World :=
  match w.rows user.ID with
  | some _ => w.setRow user
  | none => w.insertRow user

/-- The world with the given reading of gorm's clock. -/
def World.setClock (w : World) (t : GoTime) : World := { w with clock := t }

/-- The Bloom filter after the given positions have been set. -/
def World.setBits (w : World) (positions : List Nat) : World :=
  { w with bloomBits := positions ++ w.bloomBits }

/-- The world with the given schedule for the upcoming Redis calls. -/
def World.setRdsFaults (w : World) (faults : List (Option GoError)) : World :=
  { w with rdsFaults := faults }

/-- The world with the given schedule for the upcoming repository calls. -/
def World.setRepoFaults (w : World) (faults : List (Option GoError)) : World :=
  { w with repoFaults := faults }

/-- The world with the given upcoming draws of the random source. -/
def World.setRand (w : World) (draws : List Nat) : World :=
  { w with rand := draws }

/-- Take the outcome of the next Redis call from the schedule. -/
def World.nextRdsFault (w : World) : Option GoError × World :=
  match w.rdsFaults with
  | [] => (none, w)
  | f :: rest => (f, w.setRdsFaults rest)

/-- Take the outcome of the next repository call from the schedule. -/
def World.nextRepoFault (w : World) : Option GoError × World :=
  match w.repoFaults with
  | [] => (none, w)
  | f :: rest => (f, w.setRepoFaults rest)

/-- Take the next draw of the random source. -/
def World.nextRand (w : World) : Nat × World :=
  match w.rand with
  | [] => (0, w)
  | d :: rest => (d, w.setRand rest)

/-- The expiry of the most recent `Setex` call, if there was one. -/
def lastSetexSeconds : List Event → Option Int
  | [] => none
  | .rdsSetex _ _ seconds :: _ => some seconds
  | _ :: rest => lastSetexSeconds rest

/-! ## Redis (go-zero `redis.Redis`) -/

/-- The call `rds.Get(key)`: the value of a live key; the empty string and no error for an
absent key. -/
def rdsGet (w : World) (key : String) : (String × Option GoError) × World :=
  match (w.log (.rdsGet key)).nextRdsFault with
  | (some err, w) => (("", some err), w)
  | (none, w) =>
    match w.live key with
    | some e => ((e.value, none), w)
    | none => (("", none), w)

/-- The call `rds.Setex(key, value, seconds)`; Redis rejects a non-positive expiry. -/
def rdsSetex (w : World) (key value : String) (seconds : Int) : Option GoError × World :=
  match (w.log (.rdsSetex key value seconds)).nextRdsFault with
  | (some err, w) => (some err, w)
  | (none, w) =>
    if seconds ≤ 0 then (some (.leaf "ERR invalid expire time in 'setex' command"), w)
    else (none, w.put key value seconds)

/-- The call `rds.Del(key)`; deleting an absent key is not an error. -/
def rdsDel (w : World) (key : String) : Option GoError × World :=
  match (w.log (.rdsDel key)).nextRdsFault with
  | (some err, w) => (some err, w)
  | (none, w) => (none, w.del key)

/-- The call `bloomFilter.Add(key)`: sets the bits of the key. -/
def bloomAdd (w : World) (key : String) : Option GoError × World :=
  match (w.log (.bloomAdd key)).nextRdsFault with
  | (some err, w) => (some err, w)
  | (none, w) => (none, w.setBits (w.bloomHash key))

/-- The call `bloomFilter.Exists(key)`: all bits of the key are set. -/
def bloomExists (w : World) (key : String) : (Bool × Option GoError) × World :=
  match (w.log (.bloomExists key)).nextRdsFault with
  | (some err, w) => ((false, some err), w)
  | (none, w) => (((w.bloomHash key).all fun i => w.bloomBits.contains i, none), w)

/-! ## The repository (`model.UserRepo`) -/

/-- The call `repo.FindByID(id)`. -/
def repoFindByID (w : World) (id : Int) : (Option User × Option GoError) × World :=
  match (w.log (.repoFindByID id)).nextRepoFault with
  | (some err, w) => ((none, some err), w)
  | (none, w) =>
    match w.rows id with
    | some user => ((some user, none), w)
    | none => if w.nilOnMiss then ((none, none), w) else ((none, some .recordNotFound), w)

/-- A timestamp field after gorm's create has gone over it: a zero `time.Time` is set to the
current time, any other value is kept. -/
def fillTime (clock t : GoTime) : GoTime := if t = GoTime.zero then clock else t

/-- The struct as a successful `db.Create(user)` leaves it: a zero `ID` is set to the next id of
the table, zero `CreatedAt` / `UpdatedAt` are set to the current time. -/
def World.created (w : World) (user : User) : User :=
  { user with ID := if user.ID = 0 then w.autoIncrement else user.ID,
              CreatedAt := fillTime w.clock user.CreatedAt,
              UpdatedAt := fillTime w.clock user.UpdatedAt }

/-- The struct as a successful `db.Save(user)` leaves it. With a zero `ID`, `Save` is `Create`.
Otherwise all columns are updated and `UpdatedAt` is set to the current time; when no row has
that id the record is inserted, and a zero `CreatedAt` is then set to the current time too. -/
def World.saved (w : World) (user : User) : User :=
  if user.ID = 0 then w.created user
  else
    match w.rows user.ID with
    | some _ => { user with UpdatedAt := w.clock }
    | none => { user with CreatedAt := fillTime w.clock user.CreatedAt, UpdatedAt := w.clock }

/-- The call `repo.Update(user)`, which is `db.Save(user)`: on success the row is written and
the caller's struct is returned as `Save` leaves it; on a failure the services return without
reading the struct again, and it is returned as it was. -/
def repoUpdate (w : World) (user : User) : (Option GoError × User) × World :=
  match (w.log (.repoUpdate user.ID)).nextRepoFault with
  | (some err, w) => ((some err, user), w)
  | (none, w) => ((none, w.saved user), w.saveRow (w.saved user))

/-- The call `repo.Delete(id)`: deletes the row; deleting an absent row is not an error. -/
def repoDelete (w : World) (id : Int) : Option GoError × World :=
  match (w.log (.repoDelete id)).nextRepoFault with
  | (some err, w) => (some err, w)
  | (none, w) => (none, w.delRow id)

/-- The call `repo.Create(user)`, which is `db.Create(user)`: a row without an id (`ID == 0`)
gets the next id of the table, zero `CreatedAt` / `UpdatedAt` get the current time, and both are
written back into `user`; an id that is taken is a duplicate-key error. On a failure the services
return without reading the struct again, and it is returned as it was. -/
def repoCreate (w : World) (user : User) : (Option GoError × User) × World :=
  match (w.log (.repoCreate user.ID)).nextRepoFault with
  | (some err, w) => ((some err, user), w)
  | (none, w) =>
    match w.rows (w.created user).ID with
    | some _ => ((some (.leaf "Error 1062 (23000): Duplicate entry for key 'PRIMARY'"), user), w)
    | none => ((none, w.created user), w.insertRow (w.created user))

/-! ## Package `cache` -/

/-- The function `getUserKey` (the same in all four cache variants):
`fmt.Sprintf("%s%d", UserCacheKeyPrefix, id)`. -/
def getUserKey (id : Int) : String := UserCacheKeyPrefix ++ toString id

/-- The body shared by `SetUser` / `SetUserWithFixedExpire` of all variants after the call has
been recorded: nil check, key, `json.Marshal`, default expiry, `Setex`. -/
def setUserBody (c : Codec) (w : World) (user : Option User) (expireSeconds : Int) :
    Option GoError × World :=
  match user with
  | none => (some (.leaf "用户数据不能为空"), w)
  | some user =>
    let key := getUserKey user.ID
    match c.marshal user with
    | .error err => (some (.wrap "序列化用户数据失败: " err), w)
    | .ok data =>
      let expireSeconds := if expireSeconds ≤ 0 then DefaultExpireSeconds else expireSeconds
      match rdsSetex w key data expireSeconds with
      | (some err, w) => (some (.wrap "设置缓存失败: " err), w)
      | (none, w) => (none, w)

/-- The body shared by `GetUser` of the plain, avalanche and Bloom variants after the call has
been recorded: `Get`, then `json.Unmarshal`. -/
def getUserBody (c : Codec) (w : World) (id : Int) : (Option User × Option GoError) × World :=
  let key := getUserKey id
  match rdsGet w key with
  | ((_, some err), w) => ((none, some err), w)
  | ((val, none), w) =>
    match c.unmarshal val with
    | .error err => ((none, some (.wrap "反序列化用户数据失败: " err)), w)
    | .ok user => ((some user, none), w)

/-- The body shared by `DeleteUser` of all variants after the call has been recorded. -/
def deleteUserBody (w : World) (id : Int) : Option GoError × World :=
  let key := getUserKey id
  rdsDel w key

namespace userCache

/-- The method `userCache.GetUser`. -/
def GetUser (c : Codec) (w : World) (id : Int) : (Option User × Option GoError) × World :=
  getUserBody c (w.log (.cacheGetUser id)) id

/-- The method `userCache.SetUser`. -/
def SetUser (c : Codec) (w : World) (user : Option User) (expireSeconds : Int) :
    Option GoError × World :=
  setUserBody c (w.log (.cacheSetUser (user.map (·.ID)) expireSeconds)) user expireSeconds

/-- The method `userCache.DeleteUser`. -/
def DeleteUser (w : World) (id : Int) : Option GoError × World :=
  deleteUserBody (w.log (.cacheDeleteUser id)) id

end userCache

namespace userCacheWithAvalanche

/-- The method `userCacheWithAvalanche.GetUser`. -/
def GetUser (c : Codec) (w : World) (id : Int) : (Option User × Option GoError) × World :=
  getUserBody c (w.log (.cacheGetUser id)) id

/-- The method `userCacheWithAvalanche.SetUserWithRandomExpire`; `none` is the panic of
`rand.Intn`. -/
def SetUserWithRandomExpire (c : Codec) (w : World) (user : Option User)
    (baseExpireSeconds : Int) : Option (Option GoError × World) :=
  let w := w.log (.cacheSetUserWithRandomExpire (user.map (·.ID)) baseExpireSeconds)
  match user with
  | none => some (some (.leaf "用户数据不能为空"), w)
  | some user =>
    let key := getUserKey user.ID
    match c.marshal user with
    | .error err => some (some (.wrap "序列化用户数据失败: " err), w)
    | .ok data =>
      let baseExpireSeconds :=
        if baseExpireSeconds ≤ 0 then DefaultExpireSeconds else baseExpireSeconds
      let randomRange := (wrapInt (baseExpireSeconds * AvalancheRandomRangePercent)).tdiv 100
      let randomRange := if randomRange = 0 then 1 else randomRange
      match w.nextRand with
      | (draw, w) =>
        match randIntn randomRange draw with
        | none => none
        | some randomExpire =>
          let expire := wrapInt (baseExpireSeconds + randomExpire)
          match rdsSetex w key data expire with
          | (some err, w) => some (some (.wrap "设置缓存失败: " err), w)
          | (none, w) => some (none, w)

/-- The method `userCacheWithAvalanche.SetUserWithFixedExpire`. -/
def SetUserWithFixedExpire (c : Codec) (w : World) (user : Option User) (expireSeconds : Int) :
    Option GoError × World :=
  setUserBody c (w.log (.cacheSetUserWithFixedExpire (user.map (·.ID)) expireSeconds))
    user expireSeconds

/-- The method `userCacheWithAvalanche.DeleteUser`. -/
def DeleteUser (w : World) (id : Int) : Option GoError × World :=
  deleteUserBody (w.log (.cacheDeleteUser id)) id

end userCacheWithAvalanche

namespace userCacheWithPenetration

/-- The method `userCacheWithPenetration.GetUser`: the sentinel is recognised before any
decoding. -/
def GetUser (c : Codec) (w : World) (id : Int) : (Option User × Option GoError) × World :=
  let w := w.log (.cacheGetUser id)
  let key := getUserKey id
  match rdsGet w key with
  | ((_, some err), w) => ((none, some err), w)
  | ((val, none), w) =>
    if val = NullCacheValue then ((none, some ErrNullCache), w)
    else
      match c.unmarshal val with
      | .error err => ((none, some (.wrap "反序列化用户数据失败: " err)), w)
      | .ok user => ((some user, none), w)

/-- The method `userCacheWithPenetration.SetUser`. -/
def SetUser (c : Codec) (w : World) (user : Option User) (expireSeconds : Int) :
    Option GoError × World :=
  setUserBody c (w.log (.cacheSetUser (user.map (·.ID)) expireSeconds)) user expireSeconds

/-- The method `userCacheWithPenetration.SetNullUser`. -/
def SetNullUser (w : World) (id : Int) : Option GoError × World :=
  let w := w.log (.cacheSetNullUser id)
  let key := getUserKey id
  match rdsSetex w key NullCacheValue NullCacheExpireSeconds with
  | (some err, w) => (some (.wrap "设置空值缓存失败: " err), w)
  | (none, w) => (none, w)

/-- The method `userCacheWithPenetration.IsNullCache`. -/
def IsNullCache (w : World) (id : Int) : (Bool × Option GoError) × World :=
  let key := getUserKey id
  match rdsGet w key with
  | ((_, some err), w) => ((false, some err), w)
  | ((val, none), w) => ((decide (val = NullCacheValue), none), w)

/-- The method `userCacheWithPenetration.DeleteUser`. -/
def DeleteUser (w : World) (id : Int) : Option GoError × World :=
  deleteUserBody (w.log (.cacheDeleteUser id)) id

end userCacheWithPenetration

namespace userCacheWithBloom

/-- The method `userCacheWithBloom.GetUser`. -/
def GetUser (c : Codec) (w : World) (id : Int) : (Option User × Option GoError) × World :=
  getUserBody c (w.log (.cacheGetUser id)) id

/-- The method `userCacheWithBloom.SetUser`. -/
def SetUser (c : Codec) (w : World) (user : Option User) (expireSeconds : Int) :
    Option GoError × World :=
  setUserBody c (w.log (.cacheSetUser (user.map (·.ID)) expireSeconds)) user expireSeconds

/-- The method `userCacheWithBloom.DeleteUser`. -/
def DeleteUser (w : World) (id : Int) : Option GoError × World :=
  deleteUserBody (w.log (.cacheDeleteUser id)) id

/-- The method `userCacheWithBloom.AddToBloomFilter`. -/
def AddToBloomFilter (w : World) (id : Int) : Option GoError × World :=
  let w := w.log (.cacheAddToBloomFilter id)
  let key := "user:" ++ toString id
  bloomAdd w key

/-- The method `userCacheWithBloom.ExistsInBloomFilter`. -/
def ExistsInBloomFilter (w : World) (id : Int) : (Bool × Option GoError) × World :=
  let w := w.log (.cacheExistsInBloomFilter id)
  let key := "user:" ++ toString id
  bloomExists w key

end userCacheWithBloom

/-- The method `userCacheWithAvalanche.getUserKey`. -/
def userCacheWithAvalanche.getUserKey (id : Int) : String := UserCacheKeyPrefix ++ toString id

/-- The method `userCacheWithPenetration.getUserKey`. -/
def userCacheWithPenetration.getUserKey (id : Int) : String := UserCacheKeyPrefix ++ toString id

/-- The method `userCacheWithBloom.getUserKey`. -/
def userCacheWithBloom.getUserKey (id : Int) : String := UserCacheKeyPrefix ++ toString id

/-! ## Package `service` -/

/-- The error `fmt.Errorf("用户不存在: user_id=%d", id)`. -/
def userNotFound (id : Int) : GoError := .leaf ("用户不存在: user_id=" ++ toString id)

/-- The error `fmt.Errorf("查询用户失败: %w", err)`. -/
def queryFailed (err : GoError) : GoError := .wrap "查询用户失败: " err

/-- The error `fmt.Errorf("更新用户失败: %w", err)`. -/
def updateFailed (err : GoError) : GoError := .wrap "更新用户失败: " err

/-- The error `fmt.Errorf("删除用户失败: %w", err)`. -/
def deleteFailed (err : GoError) : GoError := .wrap "删除用户失败: " err

/-- The error `fmt.Errorf("创建用户失败: %w", err)`. -/
def createFailed (err : GoError) : GoError := .wrap "创建用户失败: " err

/-- The type `UpdateStrategy` (an `int`). -/
abbrev UpdateStrategy := Int
def UpdateCache : UpdateStrategy := 0
def DeleteCache : UpdateStrategy := 1

/-- The type `ExpireMode` (an `int`). -/
abbrev ExpireMode := Int
def FixedExpire : ExpireMode := 0
def RandomExpire : ExpireMode := 1

namespace userService

/-- The method `userService.GetUserByID`. -/
def GetUserByID (c : Codec) (w : World) (id : Int) : (Option User × Option GoError) × World :=
  match userCache.GetUser c w id with
  | ((some user, none), w) => ((some user, none), w)
  | (_, w) =>
    match repoFindByID w id with
    | ((_, some err), w) =>
      if errorsIs err .recordNotFound then ((none, some (userNotFound id)), w)
      else ((none, some (queryFailed err)), w)
    | ((none, none), w) => ((none, some (userNotFound id)), w)
    | ((some user, none), w) =>
      match userCache.SetUser c w (some user) DefaultExpireSeconds with
      | (_, w) => ((some user, none), w)

/-- The method `userService.UpdateUser`. -/
def UpdateUser (c : Codec) (w : World) (user : User) : Option GoError × World :=
  match repoUpdate w user with
  | ((some err, _), w) => (some (updateFailed err), w)
  | ((none, user), w) =>
    match userCache.SetUser c w (some user) DefaultExpireSeconds with
    | (_, w) => (none, w)

/-- The method `userService.DeleteUser`. -/
def DeleteUser (w : World) (id : Int) : Option GoError × World :=
  match repoDelete w id with
  | (some err, w) => (some (deleteFailed err), w)
  | (none, w) =>
    match userCache.DeleteUser w id with
    | (_, w) => (none, w)

/-- The method `userService.CreateUser`; the user is returned as the call leaves it. -/
def CreateUser (w : World) (user : User) : (Option GoError × User) × World :=
  match repoCreate w user with
  | ((some err, user), w) => ((some (createFailed err), user), w)
  | ((none, user), w) => ((none, user), w)

end userService

namespace userServiceWithStrategy

/-- The method `userServiceWithStrategy.GetUserByID`. -/
def GetUserByID (c : Codec) (w : World) (id : Int) : (Option User × Option GoError) × World :=
  match userCache.GetUser c w id with
  | ((some user, none), w) => ((some user, none), w)
  | (_, w) =>
    match repoFindByID w id with
    | ((_, some err), w) => ((none, some (queryFailed err)), w)
    | ((none, none), w) => ((none, some (userNotFound id)), w)
    | ((some user, none), w) =>
      match userCache.SetUser c w (some user) DefaultExpireSeconds with
      | (_, w) => ((some user, none), w)

/-- The method `userServiceWithStrategy.UpdateUser`. -/
def UpdateUser (c : Codec) (strategy : UpdateStrategy) (w : World) (user : User) :
    Option GoError × World :=
  match repoUpdate w user with
  | ((some err, _), w) => (some (updateFailed err), w)
  | ((none, user), w) =>
    if strategy = UpdateCache then
      match userCache.SetUser c w (some user) DefaultExpireSeconds with
      | (_, w) => (none, w)
    else if strategy = DeleteCache then
      match userCache.DeleteUser w user.ID with
      | (_, w) => (none, w)
    else (none, w)

/-- The method `userServiceWithStrategy.DeleteUser`. -/
def DeleteUser (w : World) (id : Int) : Option GoError × World :=
  match repoDelete w id with
  | (some err, w) => (some (deleteFailed err), w)
  | (none, w) =>
    match userCache.DeleteUser w id with
    | (_, w) => (none, w)

/-- The method `userServiceWithStrategy.CreateUser`; the user is returned as the call leaves it. -/
def CreateUser (w : World) (user : User) : (Option GoError × User) × World :=
  match repoCreate w user with
  | ((some err, user), w) => ((some (createFailed err), user), w)
  | ((none, user), w) => ((none, user), w)

end userServiceWithStrategy

namespace userServiceWithAvalanche

/-- The method `userServiceWithAvalanche.GetUserByID`; `none` is a panic. -/
def GetUserByID (c : Codec) (expireMode : ExpireMode) (baseExpire : Int) (w : World) (id : Int) :
    Option ((Option User × Option GoError) × World) :=
  match userCacheWithAvalanche.GetUser c w id with
  | ((some user, none), w) => some ((some user, none), w)
  | (_, w) =>
    match repoFindByID w id with
    | ((_, some err), w) =>
      if errorsIs err .recordNotFound then some ((none, some (userNotFound id)), w)
      else some ((none, some (queryFailed err)), w)
    | ((none, none), w) => some ((none, some (userNotFound id)), w)
    | ((some user, none), w) =>
      if expireMode = FixedExpire then
        match userCacheWithAvalanche.SetUserWithFixedExpire c w (some user) baseExpire with
        | (_, w) => some ((some user, none), w)
      else if expireMode = RandomExpire then
        match userCacheWithAvalanche.SetUserWithRandomExpire c w (some user) baseExpire with
        | none => none
        | some (_, w) => some ((some user, none), w)
      else some ((some user, none), w)

/-- The method `userServiceWithAvalanche.UpdateUser`; `none` is a panic. -/
def UpdateUser (c : Codec) (expireMode : ExpireMode) (baseExpire : Int) (w : World)
    (user : User) : Option (Option GoError × World) :=
  match repoUpdate w user with
  | ((some err, _), w) => some (some (updateFailed err), w)
  | ((none, user), w) =>
    if expireMode = FixedExpire then
      match userCacheWithAvalanche.SetUserWithFixedExpire c w (some user) baseExpire with
      | (_, w) => some (none, w)
    else if expireMode = RandomExpire then
      match userCacheWithAvalanche.SetUserWithRandomExpire c w (some user) baseExpire with
      | none => none
      | some (_, w) => some (none, w)
    else some (none, w)

/-- The method `userServiceWithAvalanche.DeleteUser`. -/
def DeleteUser (w : World) (id : Int) : Option GoError × World :=
  match repoDelete w id with
  | (some err, w) => (some (deleteFailed err), w)
  | (none, w) =>
    match userCacheWithAvalanche.DeleteUser w id with
    | (_, w) => (none, w)

/-- The method `userServiceWithAvalanche.CreateUser`; the user is returned as the call leaves it. -/
def CreateUser (w : World) (user : User) : (Option GoError × User) × World :=
  match repoCreate w user with
  | ((some err, user), w) => ((some (createFailed err), user), w)
  | ((none, user), w) => ((none, user), w)

end userServiceWithAvalanche

namespace userServiceWithBloom

/-- The method `userServiceWithBloom.GetUserByID`; `none` is a panic (the nil dereference
`user.Username` when the repository returns `(nil, nil)`). -/
def GetUserByID (c : Codec) (w : World) (id : Int) :
    Option ((Option User × Option GoError) × World) :=
  match userCacheWithBloom.ExistsInBloomFilter w id with
  | ((false, none), w) => some ((none, some (userNotFound id)), w)
  | (_, w) =>
    match userCacheWithBloom.GetUser c w id with
    | ((some user, none), w) => some ((some user, none), w)
    | (_, w) =>
      match repoFindByID w id with
      | ((_, some err), w) =>
        if errorsIs err .recordNotFound then some ((none, some (userNotFound id)), w)
        else some ((none, some (queryFailed err)), w)
      | ((none, none), _) => none
      | ((some user, none), w) =>
        match userCacheWithBloom.SetUser c w (some user) DefaultExpireSeconds with
        | (_, w) =>
          match userCacheWithBloom.AddToBloomFilter w id with
          | (_, w) => some ((some user, none), w)

/-- The method `userServiceWithBloom.UpdateUser`. -/
def UpdateUser (c : Codec) (w : World) (user : User) : Option GoError × World :=
  match repoUpdate w user with
  | ((some err, _), w) => (some (updateFailed err), w)
  | ((none, user), w) =>
    match userCacheWithBloom.SetUser c w (some user) DefaultExpireSeconds with
    | (_, w) => (none, w)

/-- The method `userServiceWithBloom.DeleteUser`. -/
def DeleteUser (w : World) (id : Int) : Option GoError × World :=
  match repoDelete w id with
  | (some err, w) => (some (deleteFailed err), w)
  | (none, w) =>
    match userCacheWithBloom.DeleteUser w id with
    | (_, w) => (none, w)

/-- The method `userServiceWithBloom.CreateUser`; the user is returned as the call leaves
it. -/
def CreateUser (w : World) (user : User) : (Option GoError × User) × World :=
  match repoCreate w user with
  | ((some err, user), w) => ((some (createFailed err), user), w)
  | ((none, user), w) =>
    match userCacheWithBloom.AddToBloomFilter w user.ID with
    | (_, w) => ((none, user), w)

end userServiceWithBloom

namespace userServiceWithPenetration

/-- The method `userServiceWithPenetration.GetUserByID`. -/
def GetUserByID (c : Codec) (w : World) (id : Int) : (Option User × Option GoError) × World :=
  match userCacheWithPenetration.GetUser c w id with
  | ((some user, none), w) => ((some user, none), w)
  | ((_, cacheErr), w) =>
    if (cacheErr.map (errorsIs · ErrNullCache)).getD false then
      ((none, some (userNotFound id)), w)
    else
      match repoFindByID w id with
      | ((_, some err), w) =>
        if errorsIs err .recordNotFound then
          match userCacheWithPenetration.SetNullUser w id with
          | (_, w) => ((none, some (userNotFound id)), w)
        else ((none, some (queryFailed err)), w)
      | ((none, none), w) =>
        match userCacheWithPenetration.SetNullUser w id with
        | (_, w) => ((none, some (userNotFound id)), w)
      | ((some user, none), w) =>
        match userCacheWithPenetration.SetUser c w (some user) DefaultExpireSeconds with
        | (_, w) => ((some user, none), w)

/-- The method `userServiceWithPenetration.UpdateUser`. -/
def UpdateUser (c : Codec) (w : World) (user : User) : Option GoError × World :=
  match repoUpdate w user with
  | ((some err, _), w) => (some (updateFailed err), w)
  | ((none, user), w) =>
    match userCacheWithPenetration.SetUser c w (some user) DefaultExpireSeconds with
    | (_, w) => (none, w)

/-- The method `userServiceWithPenetration.DeleteUser`. -/
def DeleteUser (w : World) (id : Int) : Option GoError × World :=
  match repoDelete w id with
  | (some err, w) => (some (deleteFailed err), w)
  | (none, w) =>
    match userCacheWithPenetration.DeleteUser w id with
    | (_, w) => (none, w)

/-- The method `userServiceWithPenetration.CreateUser`; the user is returned as the call
leaves it. -/
def CreateUser (w : World) (user : User) : (Option GoError × User) × World :=
  match repoCreate w user with
  | ((some err, user), w) => ((some (createFailed err), user), w)
  | ((none, user), w) =>
    match userCacheWithPenetration.DeleteUser w user.ID with
    | (_, w) => ((none, user), w)

end userServiceWithPenetration

/-! ## `encoding/json` on `model.User`

The encoder follows `json.Marshal` on a `*model.User`: the fields in declaration order under
their `json` tags; integers in decimal; strings quoted with the escapes of `encoding/json`
(HTML escaping on, invalid UTF-8 coerced to U+FFFD); `time.Time` through `MarshalJSON`
(RFC 3339 with nanoseconds). The decoder follows `json.Unmarshal` into a zero `User`: the input
is parsed as one JSON value; an object sets the fields whose keys match a tag (case folded),
`null` leaves the destination untouched, every other value is a type error. -/

namespace Json

/-- The digit character of `d < 10`. -/
def digitChar (d : Nat) : Char := Char.ofNat (48 + d)

/-- The value of a digit character. -/
def digitVal (c : Char) : Nat := c.toNat - 48

/-- The character is one of `0` … `9`. -/
def isDigit (c : Char) : Bool := decide (48 ≤ c.toNat) && decide (c.toNat ≤ 57)

/-- Decimal digits of `n` in front of `acc`, most significant first. -/
def natDigitsAux : Nat → Nat → List Char → List Char
  | 0, _, acc => acc
  | fuel + 1, n, acc =>
    if n < 10 then digitChar n :: acc
    else natDigitsAux fuel (n / 10) (digitChar (n % 10) :: acc)

/-- The decimal representation of `n`. -/
def natDigits (n : Nat) : List Char := natDigitsAux (n + 1) n []

/-- The number a digit string denotes. -/
def digitsVal (ds : List Char) : Nat := ds.foldl (fun acc c => 10 * acc + digitVal c) 0

/-- The decimal representation of an integer (`strconv.AppendInt(b, n, 10)`). -/
def encodeInt (n : Int) : List Char :=
  if n < 0 then '-' :: natDigits n.natAbs else natDigits n.natAbs

/-- The function `appendInt(b, x, width)` of package `time`: decimal, zero-padded, with its
fast paths for two and four digits. -/
def appendInt (x : Int) (width : Nat) : List Char :=
  let u := x.natAbs
  let sign : List Char := if x < 0 then ['-'] else []
  if width = 2 ∧ u < 100 then sign ++ [digitChar (u / 10), digitChar (u % 10)]
  else if width = 4 ∧ u < 10000 then
    sign ++ [digitChar (u / 1000), digitChar (u / 100 % 10), digitChar (u / 10 % 10),
      digitChar (u % 10)]
  else
    let ds := natDigits u
    sign ++ (List.replicate (width - ds.length) '0' ++ ds)

/-- The hexadecimal digit of `d < 16` (lower case). -/
def hexChar (d : Nat) : Char := if d < 10 then Char.ofNat (48 + d) else Char.ofNat (87 + d)

/-- The value of a hexadecimal digit, if it is one. -/
def hexVal (c : Char) : Option Nat :=
  let n := c.toNat
  if 48 ≤ n ∧ n ≤ 57 then some (n - 48)
  else if 97 ≤ n ∧ n ≤ 102 then some (n - 87)
  else if 65 ≤ n ∧ n ≤ 70 then some (n - 55)
  else none

/-- The escape `\u` with four hexadecimal digits for a code unit below 0x10000. -/
def escapeU (n : Nat) : List Char :=
  ['\\', 'u', hexChar (n / 4096 % 16), hexChar (n / 256 % 16), hexChar (n / 16 % 16),
    hexChar (n % 16)]

/-- How `json.Marshal` writes one element of a string. -/
def escapeChar : GoChar → List Char
  | .bad _ => ['\\', 'u', 'f', 'f', 'f', 'd']
  | .rune c =>
    if c = '"' then ['\\', '"']
    else if c = '\\' then ['\\', '\\']
    else if c = '\n' then ['\\', 'n']
    else if c = '\r' then ['\\', 'r']
    else if c = '\t' then ['\\', 't']
    else if c.toNat = 8 then ['\\', 'b']
    else if c.toNat = 12 then ['\\', 'f']
    else if c.toNat < 32 ∨ c = '<' ∨ c = '>' ∨ c = '&' ∨ c.toNat = 8232 ∨ c.toNat = 8233 then
      escapeU c.toNat
    else [c]

/-- The escaped elements of a Go string. -/
def escapeAll : GoString → List Char
  | [] => []
  | c :: s => escapeChar c ++ escapeAll s

/-- The rune `json.Unmarshal` gets back for one element of a string that `json.Marshal` wrote:
the rune itself, U+FFFD for an invalid byte. -/
def coerced : GoChar → Char
  | .rune c => c
  | .bad _ => Char.ofNat 65533

/-- The character stands for itself in a JSON string: no quote, no backslash, no control
character. -/
def plainChar (c : Char) : Prop := c ≠ '"' ∧ c ≠ '\\' ∧ 32 ≤ c.toNat

instance (c : Char) : Decidable (plainChar c) := by unfold plainChar; infer_instance

/-- A Go string as a JSON string literal. -/
def encodeString (s : GoString) : List Char :=
  '"' :: (escapeAll s ++ ['"'])

/-- The code unit of an escape `\u` with the four given hexadecimal digits. -/
def hex4 (a b c d : Char) : Option Nat :=
  match hexVal a, hexVal b, hexVal c, hexVal d with
  | some x, some y, some z, some w => some (x * 4096 + y * 256 + z * 16 + w)
  | _, _, _, _ => none

/-- The rune of a code unit outside a valid surrogate pair: U+FFFD for a surrogate. -/
def unitRune (n : Nat) : Char := if 55296 ≤ n ∧ n ≤ 57343 then Char.ofNat 65533 else Char.ofNat n

/-- The low surrogate that follows, if the text goes on with the escape of one. -/
def lowSurrogate : List Char → Option Nat
  | '\\' :: 'u' :: a :: b :: c :: d :: _ =>
    match hex4 a b c d with
    | some n => if 56320 ≤ n ∧ n ≤ 57343 then some n else none
    | none => none
  | _ => none

/-- The text after the opening quote of a JSON string: the raw literal, the string it denotes and
the text after the closing quote. `skip` is the number of characters of a pending surrogate
escape that were consumed already. -/
def parseStrBody : Nat → List Char → Option (List Char × List Char × List Char)
  | _, [] => none
  | skip + 1, c :: rest =>
    match parseStrBody skip rest with
    | some (raw, val, rest) => some (c :: raw, val, rest)
    | none => none
  | 0, '"' :: rest => some ([], [], rest)
  | 0, '\\' :: rest =>
    match rest with
    | 'u' :: a :: b :: c :: d :: rest' =>
      match hex4 a b c d with
      | none => none
      | some n =>
        if 55296 ≤ n ∧ n ≤ 56319 then
          match lowSurrogate rest' with
          | some m =>
            match parseStrBody 11 rest with
            | some (raw, val, rest) =>
              some ('\\' :: raw, Char.ofNat (65536 + (n - 55296) * 1024 + (m - 56320)) :: val, rest)
            | none => none
          | none =>
            match parseStrBody 5 rest with
            | some (raw, val, rest) => some ('\\' :: raw, Char.ofNat 65533 :: val, rest)
            | none => none
        else
          match parseStrBody 5 rest with
          | some (raw, val, rest) => some ('\\' :: raw, unitRune n :: val, rest)
          | none => none
    | e :: _ =>
      let r : Option Char :=
        if e = '"' then some '"' else if e = '\\' then some '\\' else if e = '/' then some '/'
        else if e = 'b' then some (Char.ofNat 8) else if e = 'f' then some (Char.ofNat 12)
        else if e = 'n' then some '\n' else if e = 'r' then some '\r'
        else if e = 't' then some '\t' else none
      match r with
      | none => none
      | some ch =>
        match parseStrBody 1 rest with
        | some (raw, val, rest) => some ('\\' :: raw, ch :: val, rest)
        | none => none
    | [] => none
  | 0, c :: rest =>
    if c.toNat < 32 then none
    else
      match parseStrBody 0 rest with
      | some (raw, val, rest) => some (c :: raw, c :: val, rest)
      | none => none

/-! ### `time.Time` as JSON -/

/-- The function `isLeap` of package `time`. -/
def isLeap (year : Nat) : Bool := year % 4 = 0 && (year % 100 ≠ 0 || year % 400 = 0)

/-- The function `daysIn(month, year)` of package `time`. -/
def daysIn (month year : Nat) : Nat :=
  if month = 2 then (if isLeap year then 29 else 28)
  else if month = 4 ∨ month = 6 ∨ month = 9 ∨ month = 11 then 30
  else 31

/-- A digit string without its trailing zeros. -/
def trimZeros (ds : List Char) : List Char := (ds.reverse.dropWhile (· = '0')).reverse

/-- The fraction of a second as `appendNano` writes it for the layout `.999999999`. -/
def formatNano (nano : Nat) : List Char :=
  if nano = 0 then [] else '.' :: trimZeros (appendInt nano 9)

/-- The zone as `appendFormatRFC3339` writes it. -/
def formatZone (offset : Int) : List Char :=
  if offset = 0 then ['Z']
  else
    let zone := offset.tdiv 60
    (if zone < 0 then '-' else '+') ::
      (appendInt ((zone.natAbs / 60 : Nat) : Int) 2 ++ ':' :: appendInt ((zone.natAbs % 60 : Nat) : Int) 2)

/-- The text between the quotes of `Time.MarshalJSON`: RFC 3339 with nanoseconds; an error for
a year outside `[0, 9999]` and for a zone hour outside `[0, 23]`. -/
def formatTime (t : GoTime) : Except GoError (List Char) :=
  if t.year < 0 ∨ 9999 < t.year then
    .error (.leaf "Time.MarshalJSON: year outside of range [0,9999]")
  else if 24 ≤ (t.offset.tdiv 60).natAbs / 60 then
    .error (.leaf "Time.MarshalJSON: timezone hour outside of range [0,23]")
  else
    .ok (appendInt t.year 4 ++ '-' :: appendInt t.month 2 ++ '-' :: appendInt t.day 2 ++ 'T' ::
      appendInt t.hour 2 ++ ':' :: appendInt t.minute 2 ++ ':' :: appendInt t.second 2 ++
      formatNano t.nano ++ formatZone t.offset)

/-- The function `parseUint(s, min, max)` of `parseRFC3339` on a fixed number of characters. -/
def parseUint (s : List Char) (lo hi : Nat) : Option Nat :=
  if s.all isDigit ∧ lo ≤ digitsVal s ∧ digitsVal s ≤ hi then some (digitsVal s) else none

/-- The function `parseNanoseconds` on the digits after the point: at most nine digits count. -/
def parseNano (ds : List Char) : Nat :=
  let ds := ds.take 9
  digitsVal ds * 10 ^ (9 - ds.length)

/-- The value of a fraction of at most nine digits. -/
def fracVal (ds : List Char) : Nat := digitsVal ds * 10 ^ (9 - ds.length)

/-- The zone of an RFC 3339 text: `Z`, or a sign, two digits, a colon and two digits. -/
def parseZone : List Char → Option Int
  | ['Z'] => some 0
  | [sign, h1, h2, ':', m1, m2] =>
    match parseUint [h1, h2] 0 23, parseUint [m1, m2] 0 59 with
    | some hr, some mm =>
      if sign = '+' then some (((hr * 60 + mm) * 60 : Nat) : Int)
      else if sign = '-' then some (-(((hr * 60 + mm) * 60 : Nat) : Int))
      else none
    | _, _ => none
  | _ => none

/-- The digits of the fraction of a second, if the text starts with one, and the text after
them. -/
def splitFraction : List Char → List Char × List Char
  | '.' :: c :: rest =>
    if isDigit c then ((c :: rest).takeWhile isDigit, (c :: rest).dropWhile isDigit)
    else ([], '.' :: c :: rest)
  | rest => ([], rest)

/-- The function `parseStrictRFC3339` on the text between the quotes. -/
def parseTime : List Char → Option GoTime
  | y1 :: y2 :: y3 :: y4 :: '-' :: m1 :: m2 :: '-' :: d1 :: d2 :: 'T' :: h1 :: h2 :: ':' ::
      n1 :: n2 :: ':' :: s1 :: s2 :: rest =>
    match parseUint [y1, y2, y3, y4] 0 9999, parseUint [m1, m2] 1 12 with
    | some year, some month =>
      match parseUint [d1, d2] 1 (daysIn month year), parseUint [h1, h2] 0 23,
        parseUint [n1, n2] 0 59, parseUint [s1, s2] 0 59 with
      | some day, some hour, some minute, some second =>
        let frac := splitFraction rest
        match parseZone frac.2 with
        | some offset =>
          some { year := year, month := month, day := day, hour := hour, minute := minute,
                 second := second, nano := parseNano frac.1, offset := offset }
        | none => none
      | _, _, _, _ => none
    | _, _ => none
  | _ => none

/-! ### JSON values -/

/-- A parsed JSON value. A number keeps its sign, the digits of its integer part and whether it
is an integer literal (no fraction, no exponent); a string keeps the raw text between its quotes
next to the string it denotes. -/
inductive JVal where
  | null : JVal
  | bool (b : Bool) : JVal
  | num (neg : Bool) (digits : List Char) (integral : Bool) : JVal
  | str (raw val : List Char) : JVal
  | arr (items : List JVal) : JVal
  | obj (members : List (List Char × JVal)) : JVal

/-- The text without its leading JSON white space. -/
def skipWs : List Char → List Char
  | [] => []
  | c :: cs => if c = ' ' ∨ c = '\t' ∨ c = '\n' ∨ c = '\r' then skipWs cs else c :: cs

/-- The optional fraction of a number: whether there is one, and the text after it. -/
def parseFrac : List Char → Option (Bool × List Char)
  | '.' :: d :: rest => if isDigit d then some (true, rest.dropWhile isDigit) else none
  | ['.'] => none
  | rest => some (false, rest)

/-- The digits of an exponent and what follows them. -/
def parseExpDigits : List Char → Option (Bool × List Char)
  | d :: rest => if isDigit d then some (true, rest.dropWhile isDigit) else none
  | [] => none

/-- The optional exponent of a number: whether there is one, and the text after it. -/
def parseExp : List Char → Option (Bool × List Char)
  | [] => some (false, [])
  | e :: rest =>
    if e = 'e' ∨ e = 'E' then
      match rest with
      | '+' :: rest' => parseExpDigits rest'
      | '-' :: rest' => parseExpDigits rest'
      | _ => parseExpDigits rest
    else some (false, e :: rest)

/-- A number literal without its sign. -/
def parseUnsigned (neg : Bool) : List Char → Option (JVal × List Char)
  | [] => none
  | c :: rest =>
    if isDigit c then
      let intPart : List Char × List Char :=
        if c = '0' then (['0'], rest) else (c :: rest.takeWhile isDigit, rest.dropWhile isDigit)
      match parseFrac intPart.2 with
      | none => none
      | some (hasFrac, rest) =>
        match parseExp rest with
        | none => none
        | some (hasExp, rest) => some (.num neg intPart.1 (!hasFrac && !hasExp), rest)
    else none

/-- A number literal. -/
def parseNumber : List Char → Option (JVal × List Char)
  | '-' :: rest => parseUnsigned true rest
  | cs => parseUnsigned false cs

mutual

/-- One JSON value, after optional white space, and the text after it. -/
def parseValue : Nat → List Char → Option (JVal × List Char)
  | 0, _ => none
  | fuel + 1, cs =>
    match skipWs cs with
    | '{' :: rest =>
      match skipWs rest with
      | '}' :: rest => some (.obj [], rest)
      | rest =>
        match parseMembers fuel rest with
        | some (members, rest) => some (.obj members, rest)
        | none => none
    | '[' :: rest =>
      match skipWs rest with
      | ']' :: rest => some (.arr [], rest)
      | rest =>
        match parseItems fuel rest with
        | some (items, rest) => some (.arr items, rest)
        | none => none
    | '"' :: rest =>
      match parseStrBody 0 rest with
      | some (raw, val, rest) => some (.str raw val, rest)
      | none => none
    | 't' :: 'r' :: 'u' :: 'e' :: rest => some (.bool true, rest)
    | 'f' :: 'a' :: 'l' :: 's' :: 'e' :: rest => some (.bool false, rest)
    | 'n' :: 'u' :: 'l' :: 'l' :: rest => some (.null, rest)
    | cs => parseNumber cs

/-- The members of a non-empty object up to its closing brace. -/
def parseMembers : Nat → List Char → Option (List (List Char × JVal) × List Char)
  | 0, _ => none
  | fuel + 1, cs =>
    match skipWs cs with
    | '"' :: rest =>
      match parseStrBody 0 rest with
      | none => none
      | some (_, key, rest) =>
        match skipWs rest with
        | ':' :: rest =>
          match parseValue fuel rest with
          | none => none
          | some (v, rest) =>
            match skipWs rest with
            | ',' :: rest =>
              match parseMembers fuel rest with
              | some (members, rest) => some ((key, v) :: members, rest)
              | none => none
            | '}' :: rest => some ([(key, v)], rest)
            | _ => none
        | _ => none
    | _ => none

/-- The items of a non-empty array up to its closing bracket. -/
def parseItems : Nat → List Char → Option (List JVal × List Char)
  | 0, _ => none
  | fuel + 1, cs =>
    match parseValue fuel cs with
    | none => none
    | some (v, rest) =>
      match skipWs rest with
      | ',' :: rest =>
        match parseItems fuel rest with
        | some (items, rest) => some (v :: items, rest)
        | none => none
      | ']' :: rest => some ([v], rest)
      | _ => none

end

/-- The whole text as one JSON value (`checkValid`). -/
def parseJson (cs : List Char) : Option JVal :=
  match parseValue (cs.length + 1) cs with
  | some (v, rest) => if skipWs rest = [] then some v else none
  | none => none

/-! ### `model.User` as JSON -/

/-- Case folding of object keys (`foldName`): upper-case ASCII letters, the long s and the Kelvin
sign fold to the lower-case ASCII letter. -/
def foldRune (c : Char) : Char :=
  if 65 ≤ c.toNat ∧ c.toNat ≤ 90 then Char.ofNat (c.toNat + 32)
  else if c.toNat = 383 then 's'
  else if c.toNat = 8490 then 'k'
  else c

/-- A JSON number stored into an `int64` / `int` field (`strconv.ParseInt(s, 10, 64)`). -/
def decodeInt (neg : Bool) (digits : List Char) (integral : Bool) : Except GoError Int :=
  let v : Int := if neg then -(digitsVal digits : Int) else (digitsVal digits : Int)
  if integral ∧ -(2 ^ 63) ≤ v ∧ v ≤ 2 ^ 63 - 1 then .ok v
  else .error (.leaf "json: cannot unmarshal number into Go struct field of type int64")

/-- Store one object member into the `User`. -/
def setField (u : User) (key : List Char) (v : JVal) : Except GoError User :=
  let k := String.mk (key.map foldRune)
  if k = "id" then
    match v with
    | .null => .ok u
    | .num neg ds integral => (decodeInt neg ds integral).map fun n => { u with ID := n }
    | _ => .error (.leaf "json: cannot unmarshal into Go struct field User.id of type int64")
  else if k = "username" then
    match v with
    | .null => .ok u
    | .str _ val => .ok { u with Username := val.map GoChar.rune }
    | _ => .error (.leaf "json: cannot unmarshal into Go struct field User.username of type string")
  else if k = "email" then
    match v with
    | .null => .ok u
    | .str _ val => .ok { u with Email := val.map GoChar.rune }
    | _ => .error (.leaf "json: cannot unmarshal into Go struct field User.email of type string")
  else if k = "age" then
    match v with
    | .null => .ok u
    | .num neg ds integral => (decodeInt neg ds integral).map fun n => { u with Age := n }
    | _ => .error (.leaf "json: cannot unmarshal into Go struct field User.age of type int")
  else if k = "created_at" then
    match v with
    | .null => .ok u
    | .str raw _ =>
      match parseTime raw with
      | some t => .ok { u with CreatedAt := t }
      | none => .error (.leaf "parsing time: cannot parse as RFC 3339")
    | _ => .error (.leaf "Time.UnmarshalJSON: input is not a JSON string")
  else if k = "updated_at" then
    match v with
    | .null => .ok u
    | .str raw _ =>
      match parseTime raw with
      | some t => .ok { u with UpdatedAt := t }
      | none => .error (.leaf "parsing time: cannot parse as RFC 3339")
    | _ => .error (.leaf "Time.UnmarshalJSON: input is not a JSON string")
  else .ok u

/-- Store the members of an object into the `User`, in order. -/
def setFields (u : User) : List (List Char × JVal) → Except GoError User
  | [] => .ok u
  | (key, v) :: rest =>
    match setField u key v with
    | .ok u => setFields u rest
    | .error e => .error e

/-- The zero value of `model.User`. -/
def zeroUser : User :=
  { ID := 0, Username := [], Email := [], Age := 0, CreatedAt := GoTime.zero,
    UpdatedAt := GoTime.zero }

/-- The call `json.Unmarshal(data, &user)` on a zero `user`. -/
def unmarshalUser (data : List Char) : Except GoError User :=
  if data = [] then .error (.leaf "unexpected end of JSON input")
  else
    match parseJson data with
    | none => .error (.leaf "invalid character in JSON input")
    | some .null => .ok zeroUser
    | some (.obj members) => setFields zeroUser members
    | some _ => .error (.leaf "json: cannot unmarshal into Go value of type model.User")

/-- The call `json.Marshal(user)`. -/
def marshalUser (u : User) : Except GoError (List Char) :=
  match formatTime u.CreatedAt, formatTime u.UpdatedAt with
  | .ok created, .ok updated =>
    .ok ("\x7b\"id\":".toList ++ encodeInt u.ID ++ ",\"username\":".toList ++
      encodeString u.Username ++ ",\"email\":".toList ++ encodeString u.Email ++
      ",\"age\":".toList ++ encodeInt u.Age ++ ",\"created_at\":\"".toList ++ created ++
      "\",\"updated_at\":\"".toList ++ updated ++ "\"\x7d".toList)
  | .error e, _ => .error (.wrap "json: error calling MarshalJSON for type time.Time: " e)
  | _, .error e => .error (.wrap "json: error calling MarshalJSON for type time.Time: " e)

end Json

/-- The timestamp survives `Time.MarshalJSON` / `Time.UnmarshalJSON`: a civil reading of a year
in `[0, 9999]`, and a zone offset of whole minutes within a day. -/
def GoTime.jsonSafe (t : GoTime) : Prop :=
  0 ≤ t.year ∧ t.year ≤ 9999 ∧ 1 ≤ t.month ∧ t.month ≤ 12 ∧ 1 ≤ t.day ∧
    t.day ≤ Json.daysIn t.month t.year.toNat ∧ t.hour ≤ 23 ∧ t.minute ≤ 59 ∧ t.second ≤ 59 ∧
    t.nano < 10 ^ 9 ∧ t.offset % 60 = 0 ∧ -86400 < t.offset ∧ t.offset < 86400

instance (t : GoTime) : Decidable t.jsonSafe := by unfold GoTime.jsonSafe; infer_instance

/-- The string holds no invalid byte (it is valid UTF-8). -/
def validUTF8 (s : GoString) : Prop := ∀ g ∈ s, ∃ c, g = GoChar.rune c

instance (g : GoChar) : Decidable (∃ c, g = GoChar.rune c) :=
  match g with
  | .rune c => isTrue ⟨c, rfl⟩
  | .bad _ => isFalse (fun h => by obtain ⟨c, hc⟩ := h; cases hc)

instance (s : GoString) : Decidable (validUTF8 s) := by unfold validUTF8; infer_instance

/-- The record survives the JSON codec: `ID` fits `int64` and `Age` fits `int`, the strings are
valid UTF-8 and the timestamps survive `Time.MarshalJSON`. -/
def User.jsonSafe (u : User) : Prop :=
  IsInt u.ID ∧ IsInt u.Age ∧ validUTF8 u.Username ∧ validUTF8 u.Email ∧
    u.CreatedAt.jsonSafe ∧ u.UpdatedAt.jsonSafe

instance (u : User) : Decidable u.jsonSafe := by unfold User.jsonSafe; infer_instance

/-- The civil reading is one a `time.Time` can have: a day of the month, a time of the day, and
less than a second of nanoseconds. -/
def GoTime.civil (t : GoTime) : Prop :=
  1 ≤ t.month ∧ t.month ≤ 12 ∧ 1 ≤ t.day ∧ t.day ≤ Json.daysIn t.month t.year.toNat ∧
    t.hour ≤ 23 ∧ t.minute ≤ 59 ∧ t.second ≤ 59 ∧ t.nano < 10 ^ 9

instance (t : GoTime) : Decidable t.civil := by unfold GoTime.civil; infer_instance

/-- The record is a value of the Go type `model.User`: `ID` fits `int64`, `Age` fits `int`, and
the timestamps have a civil reading. -/
def User.wellTyped (u : User) : Prop :=
  IsInt u.ID ∧ IsInt u.Age ∧ u.CreatedAt.civil ∧ u.UpdatedAt.civil

instance (u : User) : Decidable u.wellTyped := by unfold User.wellTyped; infer_instance

/-- The codec the cache layer uses: `json.Marshal` and `json.Unmarshal` on `model.User`. -/
def goJSON : Codec where
  marshal u := (Json.marshalUser u).map String.mk
  unmarshal s := Json.unmarshalUser s.toList
  unmarshal_empty := ⟨_, rfl, rfl⟩

/-! ## The records under the user keys -/

/-- Every entry that the keyspace holds at a key `user:<k>` and that is not the absent-marker
decodes to a user whose id is `k`. -/
def KeyRecordInv (w : World) : Prop :=
  ∀ (k : Int) (entry : Entry), w.store (getUserKey k) = some entry →
    entry.value ≠ NullCacheValue → ∃ u, goJSON.unmarshal entry.value = .ok u ∧ u.ID = k

/-- The worlds whose entries under the keys `user:<k>` were written by the cache operations
only: no such entry to start with, and then any number of `SetUser` (of every variant),
`SetUserWithFixedExpire`, `SetUserWithRandomExpire`, `SetNullUser` and `DeleteUser` calls, with
any arguments of their Go types and any outcome, between steps that leave the entries under
these keys alone (the clock, the repository, the Bloom filter, the fault schedules, the
reads). -/
inductive ServiceWritten : World → Prop
  | fresh (w : World) : (∀ k, w.store (getUserKey k) = none) → ServiceWritten w
  | other (w w' : World) : ServiceWritten w →
      (∀ k, w'.store (getUserKey k) = w.store (getUserKey k)) → ServiceWritten w'
  | setUser (w : World) (user : Option User) (expireSeconds : Int) : ServiceWritten w →
      (∀ u, user = some u → u.wellTyped) →
      ServiceWritten (userCache.SetUser goJSON w user expireSeconds).2
  | setUserWithFixedExpire (w : World) (user : Option User) (expireSeconds : Int) :
      ServiceWritten w → (∀ u, user = some u → u.wellTyped) →
      ServiceWritten (userCacheWithAvalanche.SetUserWithFixedExpire goJSON w user expireSeconds).2
  | setUserWithRandomExpire (w : World) (user : Option User) (baseExpireSeconds : Int)
      (res : Option GoError × World) : ServiceWritten w →
      (∀ u, user = some u → u.wellTyped) →
      userCacheWithAvalanche.SetUserWithRandomExpire goJSON w user baseExpireSeconds = some res →
      ServiceWritten res.2
  | penetrationSetUser (w : World) (user : Option User) (expireSeconds : Int) :
      ServiceWritten w → (∀ u, user = some u → u.wellTyped) →
      ServiceWritten (userCacheWithPenetration.SetUser goJSON w user expireSeconds).2
  | bloomSetUser (w : World) (user : Option User) (expireSeconds : Int) :
      ServiceWritten w → (∀ u, user = some u → u.wellTyped) →
      ServiceWritten (userCacheWithBloom.SetUser goJSON w user expireSeconds).2
  | setNullUser (w : World) (id : Int) : ServiceWritten w →
      ServiceWritten (userCacheWithPenetration.SetNullUser w id).2
  | deleteUser (w : World) (id : Int) : ServiceWritten w →
      ServiceWritten (userCache.DeleteUser w id).2
  | avalancheDeleteUser (w : World) (id : Int) : ServiceWritten w →
      ServiceWritten (userCacheWithAvalanche.DeleteUser w id).2
  | penetrationDeleteUser (w : World) (id : Int) : ServiceWritten w →
      ServiceWritten (userCacheWithPenetration.DeleteUser w id).2
  | bloomDeleteUser (w : World) (id : Int) : ServiceWritten w →
      ServiceWritten (userCacheWithBloom.DeleteUser w id).2

/-! ## Example data -/

/-- The record of the example scenario: id 1, username "alice", age 25. -/
def alice : User :=
  { ID := 1, Username := GoString.ofString "alice", Email := GoString.ofString "alice@example.com",
    Age := 25,
    CreatedAt := { year := 2024, month := 1, day := 15, hour := 10, minute := 30, second := 0,
                   nano := 0, offset := 28800 },
    UpdatedAt := { year := 2024, month := 1, day := 15, hour := 10, minute := 30, second := 0,
                   nano := 0, offset := 28800 } }

/-- The record `alice` after `user1.Age = 26`. -/
def alice26 : User := { alice with Age := 26 }

/-- The time of the example scenario at which the repository writes: half an hour after `alice`
was created. -/
def saveTime : GoTime :=
  { year := 2024, month := 1, day := 15, hour := 11, minute := 0, second := 0, nano := 0,
    offset := 28800 }

/-- The record `alice26` as `repo.Update` leaves it at `saveTime`. -/
def alice26Saved : User := { alice26 with UpdatedAt := saveTime }

/-- A record whose username is the single invalid byte 0xff. -/
def mallory : User := { alice with ID := 2, Username := [GoChar.bad 255] }

/-- A record whose `CreatedAt` lies in the year 10000, which `Time.MarshalJSON` rejects. -/
def farFuture : User := { alice with ID := 3, CreatedAt := { alice.CreatedAt with year := 10000 } }

/-- A decoder that accepts every non-empty text, the sentinel "NULL" included, and a trivial
encoder: a stand-in for `encoding/json` that shows whether a text reached the decoder. -/
def acceptAll : Codec where
  marshal _ := .ok "x"
  unmarshal s := if s = "" then .error (.leaf "unexpected end of JSON input") else .ok alice
  unmarshal_empty := ⟨_, rfl, rfl⟩

/-- A world with an empty keyspace, an empty table, an empty Bloom filter whose positions are
derived from the length of the key, no fault scheduled, and gorm's clock at `saveTime`. -/
def emptyWorld : World :=
  { now := 0, store := fun _ => none, rdsFaults := [], rows := fun _ => none, repoFaults := [],
    nilOnMiss := false, bloomBits := [], bloomHash := fun key => [key.length % 8],
    rand := [], trace := [], clock := saveTime }

/-- The empty world with the row of `alice`. -/
def aliceWorld : World := emptyWorld.setRow alice

/-- The world of `alice` with her key in the Bloom filter, and a repository whose next call
fails ("connection refused"). -/
def repoDownWorld : World :=
  ((aliceWorld.setBits (aliceWorld.bloomHash (getUserKey 1))).setRepoFaults
    [some (.leaf "connection refused")])

/-- The world of `alice` with a store whose next four calls fail ("i/o timeout"). -/
def redisDownWorld : World :=
  aliceWorld.setRdsFaults [some (.leaf "i/o timeout"), some (.leaf "i/o timeout"),
    some (.leaf "i/o timeout"), some (.leaf "i/o timeout")]


/-- The world of `alice` with her key in the Bloom filter and a store whose next call, the
filter's, fails ("i/o timeout"). -/
def filterDownWorld : World :=
  (aliceWorld.setBits (aliceWorld.bloomHash (getUserKey 1))).setRdsFaults
    [some (.leaf "i/o timeout")]

/-- The world of `alice` with her key in the Bloom filter and a store that answers. -/
def filterUpWorld : World :=
  (aliceWorld.setBits (aliceWorld.bloomHash (getUserKey 1))).setRdsFaults [none]

/-- The world of `alice` with her key in the Bloom filter, over a `UserRepo` that returns
`(nil, nil)` for an absent row. -/
def nilRepoWorld : World :=
  { aliceWorld.setBits (aliceWorld.bloomHash (getUserKey 1)) with nilOnMiss := true }

/-- An empty table whose key `user:1` holds the absent-marker. -/
def markerWorld : World := emptyWorld.put (getUserKey 1) NullCacheValue NullCacheExpireSeconds

/-- The record `alice` before it is created: no id yet. -/
def newAlice : User := { alice with ID := 0 }

/-- The world of `alice` after `SetUser(alice, DefaultExpireSeconds)`. -/
def cachedAliceWorld : World :=
  (userCache.SetUser goJSON aliceWorld (some alice) DefaultExpireSeconds).2

/-! ## Package `experiments`: the retry decorator (`1.golang基础教程/experiments/decorator_demo.go`)

The wrapped function `fn func() error` is a function on an explicit state; a run of the function
that `retryDecorator` returns records what it returned, the state it left, how many times it
called `fn`, and the durations it slept. -/

namespace Experiments

/-- A finished run of the function returned by `retryDecorator`. -/
structure RetryRun (σ : Type) where
  result : Option GoError
  state : σ
  calls : Nat
  sleeps : List Int

/-- The error `fmt.Errorf("重试 %d 次后仍然失败: %w", maxRetries, lastErr)`: it wraps `lastErr`;
for a nil `lastErr` the verb `%w` has no error operand, the text ends in `%!w(<nil>)` and the
error wraps nothing. -/
def retryExhausted (maxRetries : Int) (lastErr : Option GoError) : GoError :=
  match lastErr with
  | some err => .wrap ("重试 " ++ toString maxRetries ++ " 次后仍然失败: ") err
  | none => .leaf ("重试 " ++ toString maxRetries ++ " 次后仍然失败: %!w(<nil>)")

/-- The loop `for i := 0; i < maxRetries; i++` of `retryDecorator` from the test of its
condition on, at index `i`; `fuel` bounds the iterations still to run, `none` is out of fuel. -/
def retryLoop {σ : Type} (maxRetries : Int) (delay : Int) (fn : σ → Option GoError × σ) :
    Nat → Int → Option GoError → RetryRun σ → Option (RetryRun σ)
  | 0, i, lastErr, run =>
    if i < maxRetries then none
    else some { run with result := some (retryExhausted maxRetries lastErr) }
  | fuel + 1, i, lastErr, run =>
    if i < maxRetries then
      match fn run.state with
      | (none, s) => some { run with result := none, state := s, calls := run.calls + 1 }
      | (some err, s) =>
        retryLoop maxRetries delay fn fuel (i + 1) (some err)
          { run with state := s, calls := run.calls + 1,
                     sleeps := if i < maxRetries - 1 then delay :: run.sleeps else run.sleeps }
    else some { run with result := some (retryExhausted maxRetries lastErr) }

/-- The function returned by `retryDecorator(maxRetries, delay, fn)`, run from state `s`. -/
def retryDecorator {σ : Type} (maxRetries : Int) (delay : Int) (fn : σ → Option GoError × σ)
    (s : σ) : Option (RetryRun σ) :=
  retryLoop maxRetries delay fn maxRetries.toNat 0 none
    { result := none, state := s, calls := 0, sleeps := [] }

/-- The state before the `k`-th call of `fn` (counting from 0) when every call is made. -/
def stateBefore {σ : Type} (fn : σ → Option GoError × σ) (k : Nat) (s : σ) : σ :=
  (fun t => (fn t).2)^[k] s

/-- An operation on a counter that fails until the counter has reached 2. -/
def failsTwice (n : Nat) : Option GoError × Nat :=
  if n < 2 then (some (.leaf "操作失败"), n + 1) else (none, n + 1)

end Experiments

/-! ## The distributed-lock demo (`cache-demo/lock-demo/test_distributed_lock.go`)

The run of `main` from the stock set-up on, against an environment that other processes share:
it answers `Exists`, the successive `Get` calls and the successive `lock.AcquireCtx` calls. The
run records every call it makes, most recent first. -/

namespace LockDemo

/-- The calls `main` makes, with what they returned. -/
inductive LockEvent where
  | rdsExists (key : String) (reply : Bool) : LockEvent
  | rdsSet (key value : String) : LockEvent
  | rdsGet (key : String) (reply : String) : LockEvent
  | lock (key : String) (expire : Int) (ok : Bool) (err : Option GoError) : LockEvent
  | sleep (seconds : Nat) : LockEvent
  | release : LockEvent
  deriving DecidableEq, Repr

/-- What the environment answers: whether the stock key exists, the replies of the upcoming
`Get` calls (an error counts as the empty reply, the demo ignores it), the outcomes of the
upcoming `lock.AcquireCtx` calls. An exhausted list of replies answers `""`, an exhausted list
of lock outcomes grants the lock. -/
structure Env where
  stockExists : Bool
  gets : List String
  locks : List (Bool × Option GoError)

/-- The state of a run: what the environment will still answer, and the calls made. -/
structure Run where
  env : Env
  trace : List LockEvent

/-- The smallest `int`. -/
def minInt : Int := -(2 ^ 63)

/-- The value of a decimal digit string. -/
def digitsValue (ds : List Char) : Nat := ds.foldl (fun a c => a * 10 + (c.toNat - 48)) 0

/-- The nearest `int` to `v`; the flag tells whether `v` itself is one. -/
def clampInt (v : Int) : Int × Bool :=
  if maxInt < v then (maxInt, false)
  else if v < minInt then (minInt, false)
  else (v, true)

/-- The value of `strconv.Atoi` on the characters after the sign: 0 on a syntax error (no
character, or one that is not a decimal digit), the nearest `int` on a range error. -/
def atoiDigits (neg : Bool) (ds : List Char) : Int × Bool :=
  if ds.isEmpty || !(ds.all Char.isDigit) then (0, false)
  else clampInt (if neg then -(digitsValue ds : Int) else (digitsValue ds : Int))

/-- The function `strconv.Atoi`: an optional sign and decimal digits. The flag is
`err == nil`. -/
def Atoi (s : String) : Int × Bool :=
  match s.data with
  | '-' :: rest => atoiDigits true rest
  | '+' :: rest => atoiDigits false rest
  | cs => atoiDigits false cs

/-- The function `strconv.Itoa`. -/
def Itoa (n : Int) : String := toString n

/-- The constant `productID`. -/
def productID : String := "product:1001"

/-- The value `lockKey`. -/
def lockKey : String := "lock:stock:" ++ productID

/-- The value `stockKey`. -/
def stockKey : String := "stock:" ++ productID

/-- The constant `purchaseQuantity`. -/
def purchaseQuantity : Int := 10

/-- The constant `maxRetries` of the wait loop. -/
def maxRetries : Int := 30

/-- The call `redisClient.Exists(key)`. -/
def rdsExists (r : Run) (key : String) : Bool × Run :=
  (r.env.stockExists, { r with trace := .rdsExists key r.env.stockExists :: r.trace })

/-- The call `redisClient.Set(key, value)`; the demo ignores its result. -/
def rdsSet (r : Run) (key value : String) : Run :=
  { r with trace := .rdsSet key value :: r.trace }

/-- The call `redisClient.Get(key)`. -/
def rdsGet (r : Run) (key : String) : String × Run :=
  match r.env.gets with
  | [] => ("", { r with trace := .rdsGet key "" :: r.trace })
  | reply :: rest =>
    (reply, { env := { r.env with gets := rest }, trace := .rdsGet key reply :: r.trace })

/-- The call `time.Sleep(seconds * time.Second)`. -/
def sleep (r : Run) (seconds : Nat) : Run :=
  { r with trace := .sleep seconds :: r.trace }

/-- The function `Lock`: `lock.AcquireCtx`, its error wrapped as "lock AcquireCtx err: ". -/
def Lock (r : Run) (key : String) (expire : Int) : (Bool × Option GoError) × Run :=
  match r.env.locks with
  | [] => ((true, none), { r with trace := .lock key expire true none :: r.trace })
  | (ok, err) :: rest =>
    ((ok, err.map (GoError.wrap "lock AcquireCtx err: ")),
      { env := { r.env with locks := rest },
        trace := .lock key expire ok (err.map (GoError.wrap "lock AcquireCtx err: "))
          :: r.trace })

/-- The function `ReleaseLock`. -/
def ReleaseLock (r : Run) : Run :=
  { r with trace := .release :: r.trace }

/-- The wait loop `for i := 0; i < maxRetries; i++` of `main` from the test of its condition
on, at index `i`. The flag of the result tells whether `main` goes on after the loop (`false`:
it has returned); `fuel` bounds the iterations still to run, `none` is out of fuel. -/
def waitForLock : Nat → Int → Run → Option (Bool × Run)
  | 0, i, r => if i < maxRetries then none else some (true, r)
  | fuel + 1, i, r =>
    if i < maxRetries then
      match Lock (sleep r 1) lockKey 10 with
      | ((_, some _), r) => some (false, r)
      | ((true, none), r) => some (true, r)
      | ((false, none), r) =>
        if i = maxRetries - 1 then some (false, r)
        else waitForLock fuel (i + 1) r
    else some (true, r)

/-- The part of `main` after the lock has been taken: the deferred release, the re-read of the
stock, the check, the deduction. -/
def deductStock (r : Run) : Run :=
  match rdsGet r stockKey with
  | (currentStock, r) =>
    let stockValue := (Atoi currentStock).1
    if stockValue < purchaseQuantity then ReleaseLock r
    else
      let r := sleep r 1
      let newStock := wrapInt (stockValue - purchaseQuantity)
      let r := rdsSet r stockKey (Itoa newStock)
      match rdsGet r stockKey with
      | (_, r) => ReleaseLock r

/-- The function `main` from the stock set-up on; `none` is out of fuel in the wait loop. -/
def main (env : Env) : Option Run :=
  match rdsExists { env := env, trace := [] } stockKey with
  | (found, r) =>
    let r := if !found then rdsSet r stockKey "100" else r
    match rdsGet r stockKey with
    | (_, r) =>
      match Lock r lockKey 10 with
      | ((_, some _), r) => some r
      | ((false, none), r) =>
        match waitForLock maxRetries.toNat 0 r with
        | none => none
        | some (false, r) => some r
        | some (true, r) => some (deductStock r)
      | ((true, none), r) => some (deductStock r)

/-- The number of `Lock` calls in a trace. -/
def lockCalls : List LockEvent → Nat
  | [] => 0
  | .lock _ _ _ _ :: rest => lockCalls rest + 1
  | _ :: rest => lockCalls rest

/-- What the most recent `Lock` call of a trace returned. -/
def lastLock : List LockEvent → Option (Bool × Option GoError)
  | [] => none
  | .lock _ _ ok err :: _ => some (ok, err)
  | _ :: rest => lastLock rest

/-- The reply of the most recent `Get` call of a trace. -/
def lastGet : List LockEvent → Option String
  | [] => none
  | .rdsGet _ reply :: _ => some reply
  | _ :: rest => lastGet rest

/-- The condition under which a `Set` of `key` to `value` may follow the calls `earlier`: it is
the set-up write of "100" before any `Lock`, or a deduction under the lock. -/
def SetAllowed (earlier : List LockEvent) (key value : String) : Prop :=
  (lockCalls earlier = 0 ∧ earlier = [.rdsExists stockKey false] ∧ key = stockKey ∧
    value = "100") ∨
  (lastLock earlier = some (true, none) ∧ lockCalls earlier ≤ 31 ∧ key = stockKey ∧
    ∃ reply, lastGet earlier = some reply ∧ purchaseQuantity ≤ (Atoi reply).1 ∧
      value = Itoa ((Atoi reply).1 - purchaseQuantity) ∧
      0 ≤ (Atoi reply).1 - purchaseQuantity)

/-- Every `Set` of a trace is allowed after the calls before it. -/
def SetsAllowed : List LockEvent → Prop
  | [] => True
  | .rdsSet key value :: earlier => SetAllowed earlier key value ∧ SetsAllowed earlier
  | _ :: earlier => SetsAllowed earlier

/-- An environment in which the stock is 25 and the lock is held by another process for the
first two attempts. -/
def busyEnv : Env :=
  { stockExists := true, gets := ["25", "25", "15"],
    locks := [(false, none), (false, none), (true, none)] }

/-- An environment in which the lock is never granted. -/
def heldEnv : Env :=
  { stockExists := false, gets := ["100"], locks := List.replicate 40 (false, none) }

end LockDemo
/-! ## The effect of the world updates on each component -/

@[simp]
theorem World.log_now (w : World) (e : Event) : (w.log e).now = w.now := rfl

@[simp]
theorem World.log_store (w : World) (e : Event) : (w.log e).store = w.store := rfl

@[simp]
theorem World.log_rdsFaults (w : World) (e : Event) : (w.log e).rdsFaults = w.rdsFaults := rfl

@[simp]
theorem World.log_rows (w : World) (e : Event) : (w.log e).rows = w.rows := rfl

@[simp]
theorem World.log_repoFaults (w : World) (e : Event) : (w.log e).repoFaults = w.repoFaults := rfl

@[simp]
theorem World.log_nilOnMiss (w : World) (e : Event) : (w.log e).nilOnMiss = w.nilOnMiss := rfl

@[simp]
theorem World.log_bloomBits (w : World) (e : Event) : (w.log e).bloomBits = w.bloomBits := rfl

@[simp]
theorem World.log_bloomHash (w : World) (e : Event) : (w.log e).bloomHash = w.bloomHash := rfl

@[simp]
theorem World.log_rand (w : World) (e : Event) : (w.log e).rand = w.rand := rfl

@[simp]
theorem World.log_trace (w : World) (e : Event) : (w.log e).trace = e :: w.trace := rfl

@[simp]
theorem World.put_now (w : World) (key value : String) (seconds : Int) : (w.put key value seconds).now = w.now := rfl

@[simp]
theorem World.put_rdsFaults (w : World) (key value : String) (seconds : Int) : (w.put key value seconds).rdsFaults = w.rdsFaults := rfl

@[simp]
theorem World.put_rows (w : World) (key value : String) (seconds : Int) : (w.put key value seconds).rows = w.rows := rfl

@[simp]
theorem World.put_repoFaults (w : World) (key value : String) (seconds : Int) : (w.put key value seconds).repoFaults = w.repoFaults := rfl

@[simp]
theorem World.put_nilOnMiss (w : World) (key value : String) (seconds : Int) : (w.put key value seconds).nilOnMiss = w.nilOnMiss := rfl

@[simp]
theorem World.put_bloomBits (w : World) (key value : String) (seconds : Int) : (w.put key value seconds).bloomBits = w.bloomBits := rfl

@[simp]
theorem World.put_bloomHash (w : World) (key value : String) (seconds : Int) : (w.put key value seconds).bloomHash = w.bloomHash := rfl

@[simp]
theorem World.put_rand (w : World) (key value : String) (seconds : Int) : (w.put key value seconds).rand = w.rand := rfl

@[simp]
theorem World.put_trace (w : World) (key value : String) (seconds : Int) : (w.put key value seconds).trace = w.trace := rfl

@[simp]
theorem World.del_now (w : World) (key : String) : (w.del key).now = w.now := rfl

@[simp]
theorem World.del_rdsFaults (w : World) (key : String) : (w.del key).rdsFaults = w.rdsFaults := rfl

@[simp]
theorem World.del_rows (w : World) (key : String) : (w.del key).rows = w.rows := rfl

@[simp]
theorem World.del_repoFaults (w : World) (key : String) : (w.del key).repoFaults = w.repoFaults := rfl

@[simp]
theorem World.del_nilOnMiss (w : World) (key : String) : (w.del key).nilOnMiss = w.nilOnMiss := rfl

@[simp]
theorem World.del_bloomBits (w : World) (key : String) : (w.del key).bloomBits = w.bloomBits := rfl

@[simp]
theorem World.del_bloomHash (w : World) (key : String) : (w.del key).bloomHash = w.bloomHash := rfl

@[simp]
theorem World.del_rand (w : World) (key : String) : (w.del key).rand = w.rand := rfl

@[simp]
theorem World.del_trace (w : World) (key : String) : (w.del key).trace = w.trace := rfl

@[simp]
theorem World.setRow_now (w : World) (user : User) : (w.setRow user).now = w.now := rfl

@[simp]
theorem World.setRow_store (w : World) (user : User) : (w.setRow user).store = w.store := rfl

@[simp]
theorem World.setRow_rdsFaults (w : World) (user : User) : (w.setRow user).rdsFaults = w.rdsFaults := rfl

@[simp]
theorem World.setRow_repoFaults (w : World) (user : User) : (w.setRow user).repoFaults = w.repoFaults := rfl

@[simp]
theorem World.setRow_nilOnMiss (w : World) (user : User) : (w.setRow user).nilOnMiss = w.nilOnMiss := rfl

@[simp]
theorem World.setRow_bloomBits (w : World) (user : User) : (w.setRow user).bloomBits = w.bloomBits := rfl

@[simp]
theorem World.setRow_bloomHash (w : World) (user : User) : (w.setRow user).bloomHash = w.bloomHash := rfl

@[simp]
theorem World.setRow_rand (w : World) (user : User) : (w.setRow user).rand = w.rand := rfl

@[simp]
theorem World.setRow_trace (w : World) (user : User) : (w.setRow user).trace = w.trace := rfl

@[simp]
theorem World.setBits_now (w : World) (positions : List Nat) : (w.setBits positions).now = w.now := rfl

@[simp]
theorem World.setBits_store (w : World) (positions : List Nat) : (w.setBits positions).store = w.store := rfl

@[simp]
theorem World.setBits_rdsFaults (w : World) (positions : List Nat) : (w.setBits positions).rdsFaults = w.rdsFaults := rfl

@[simp]
theorem World.setBits_rows (w : World) (positions : List Nat) : (w.setBits positions).rows = w.rows := rfl

@[simp]
theorem World.setBits_repoFaults (w : World) (positions : List Nat) : (w.setBits positions).repoFaults = w.repoFaults := rfl

@[simp]
theorem World.setBits_nilOnMiss (w : World) (positions : List Nat) : (w.setBits positions).nilOnMiss = w.nilOnMiss := rfl

@[simp]
theorem World.setBits_bloomBits (w : World) (positions : List Nat) : (w.setBits positions).bloomBits = positions ++ w.bloomBits := rfl

@[simp]
theorem World.setBits_bloomHash (w : World) (positions : List Nat) : (w.setBits positions).bloomHash = w.bloomHash := rfl

@[simp]
theorem World.setBits_rand (w : World) (positions : List Nat) : (w.setBits positions).rand = w.rand := rfl

@[simp]
theorem World.setBits_trace (w : World) (positions : List Nat) : (w.setBits positions).trace = w.trace := rfl

@[simp]
theorem World.advance_now (w : World) (d : Nat) : (w.advance d).now = w.now + d := rfl

@[simp]
theorem World.advance_store (w : World) (d : Nat) : (w.advance d).store = w.store := rfl

@[simp]
theorem World.advance_rdsFaults (w : World) (d : Nat) : (w.advance d).rdsFaults = w.rdsFaults := rfl

@[simp]
theorem World.advance_rows (w : World) (d : Nat) : (w.advance d).rows = w.rows := rfl

@[simp]
theorem World.advance_repoFaults (w : World) (d : Nat) : (w.advance d).repoFaults = w.repoFaults := rfl

@[simp]
theorem World.advance_nilOnMiss (w : World) (d : Nat) : (w.advance d).nilOnMiss = w.nilOnMiss := rfl

@[simp]
theorem World.advance_bloomBits (w : World) (d : Nat) : (w.advance d).bloomBits = w.bloomBits := rfl

@[simp]
theorem World.advance_bloomHash (w : World) (d : Nat) : (w.advance d).bloomHash = w.bloomHash := rfl

@[simp]
theorem World.advance_rand (w : World) (d : Nat) : (w.advance d).rand = w.rand := rfl

@[simp]
theorem World.advance_trace (w : World) (d : Nat) : (w.advance d).trace = w.trace := rfl

@[simp]
theorem World.setRdsFaults_now (w : World) (faults : List (Option GoError)) : (w.setRdsFaults faults).now = w.now := rfl

@[simp]
theorem World.setRdsFaults_store (w : World) (faults : List (Option GoError)) : (w.setRdsFaults faults).store = w.store := rfl

@[simp]
theorem World.setRdsFaults_rdsFaults (w : World) (faults : List (Option GoError)) : (w.setRdsFaults faults).rdsFaults = faults := rfl

@[simp]
theorem World.setRdsFaults_rows (w : World) (faults : List (Option GoError)) : (w.setRdsFaults faults).rows = w.rows := rfl

@[simp]
theorem World.setRdsFaults_repoFaults (w : World) (faults : List (Option GoError)) : (w.setRdsFaults faults).repoFaults = w.repoFaults := rfl

@[simp]
theorem World.setRdsFaults_nilOnMiss (w : World) (faults : List (Option GoError)) : (w.setRdsFaults faults).nilOnMiss = w.nilOnMiss := rfl

@[simp]
theorem World.setRdsFaults_bloomBits (w : World) (faults : List (Option GoError)) : (w.setRdsFaults faults).bloomBits = w.bloomBits := rfl

@[simp]
theorem World.setRdsFaults_bloomHash (w : World) (faults : List (Option GoError)) : (w.setRdsFaults faults).bloomHash = w.bloomHash := rfl

@[simp]
theorem World.setRdsFaults_rand (w : World) (faults : List (Option GoError)) : (w.setRdsFaults faults).rand = w.rand := rfl

@[simp]
theorem World.setRdsFaults_trace (w : World) (faults : List (Option GoError)) : (w.setRdsFaults faults).trace = w.trace := rfl

@[simp]
theorem World.setRepoFaults_now (w : World) (faults : List (Option GoError)) : (w.setRepoFaults faults).now = w.now := rfl

@[simp]
theorem World.setRepoFaults_store (w : World) (faults : List (Option GoError)) : (w.setRepoFaults faults).store = w.store := rfl

@[simp]
theorem World.setRepoFaults_rdsFaults (w : World) (faults : List (Option GoError)) : (w.setRepoFaults faults).rdsFaults = w.rdsFaults := rfl

@[simp]
theorem World.setRepoFaults_rows (w : World) (faults : List (Option GoError)) : (w.setRepoFaults faults).rows = w.rows := rfl

@[simp]
theorem World.setRepoFaults_repoFaults (w : World) (faults : List (Option GoError)) : (w.setRepoFaults faults).repoFaults = faults := rfl

@[simp]
theorem World.setRepoFaults_nilOnMiss (w : World) (faults : List (Option GoError)) : (w.setRepoFaults faults).nilOnMiss = w.nilOnMiss := rfl

@[simp]
theorem World.setRepoFaults_bloomBits (w : World) (faults : List (Option GoError)) : (w.setRepoFaults faults).bloomBits = w.bloomBits := rfl

@[simp]
theorem World.setRepoFaults_bloomHash (w : World) (faults : List (Option GoError)) : (w.setRepoFaults faults).bloomHash = w.bloomHash := rfl

@[simp]
theorem World.setRepoFaults_rand (w : World) (faults : List (Option GoError)) : (w.setRepoFaults faults).rand = w.rand := rfl

@[simp]
theorem World.setRepoFaults_trace (w : World) (faults : List (Option GoError)) : (w.setRepoFaults faults).trace = w.trace := rfl

@[simp]
theorem World.setRand_now (w : World) (draws : List Nat) : (w.setRand draws).now = w.now := rfl

@[simp]
theorem World.setRand_store (w : World) (draws : List Nat) : (w.setRand draws).store = w.store := rfl

@[simp]
theorem World.setRand_rdsFaults (w : World) (draws : List Nat) : (w.setRand draws).rdsFaults = w.rdsFaults := rfl

@[simp]
theorem World.setRand_rows (w : World) (draws : List Nat) : (w.setRand draws).rows = w.rows := rfl

@[simp]
theorem World.setRand_repoFaults (w : World) (draws : List Nat) : (w.setRand draws).repoFaults = w.repoFaults := rfl

@[simp]
theorem World.setRand_nilOnMiss (w : World) (draws : List Nat) : (w.setRand draws).nilOnMiss = w.nilOnMiss := rfl

@[simp]
theorem World.setRand_bloomBits (w : World) (draws : List Nat) : (w.setRand draws).bloomBits = w.bloomBits := rfl

@[simp]
theorem World.setRand_bloomHash (w : World) (draws : List Nat) : (w.setRand draws).bloomHash = w.bloomHash := rfl

@[simp]
theorem World.setRand_rand (w : World) (draws : List Nat) : (w.setRand draws).rand = draws := rfl

@[simp]
theorem World.setRand_trace (w : World) (draws : List Nat) : (w.setRand draws).trace = w.trace := rfl

/-! ## Counting calls -/

@[simp]
theorem World.findByIDCalls_log (w : World) (e : Event) :
    (w.log e).findByIDCalls
      = w.findByIDCalls + (match e with | .repoFindByID _ => 1 | _ => 0) := by
  cases e <;> simp [World.findByIDCalls, World.count, World.log]

@[simp]
theorem World.setUserCalls_log (w : World) (e : Event) :
    (w.log e).setUserCalls
      = w.setUserCalls + (match e with | .cacheSetUser _ _ => 1 | _ => 0) := by
  cases e <;> simp [World.setUserCalls, World.count, World.log]

@[simp]
theorem World.getUserCalls_log (w : World) (e : Event) :
    (w.log e).getUserCalls
      = w.getUserCalls + (match e with | .cacheGetUser _ => 1 | _ => 0) := by
  cases e <;> simp [World.getUserCalls, World.count, World.log]

@[simp]
theorem World.redisCalls_log (w : World) (e : Event) :
    (w.log e).redisCalls
      = w.redisCalls + (match e with
          | .rdsGet _ | .rdsSetex _ _ _ | .rdsDel _ | .bloomAdd _ | .bloomExists _ => 1
          | _ => 0) := by
  cases e <;> simp [World.redisCalls, World.count, World.log]

theorem World.findByIDCalls_congr {w w' : World} (h : w'.trace = w.trace) :
    w'.findByIDCalls = w.findByIDCalls := by
  simp [World.findByIDCalls, World.count, h]

theorem World.setUserCalls_congr {w w' : World} (h : w'.trace = w.trace) :
    w'.setUserCalls = w.setUserCalls := by
  simp [World.setUserCalls, World.count, h]

theorem World.getUserCalls_congr {w w' : World} (h : w'.trace = w.trace) :
    w'.getUserCalls = w.getUserCalls := by
  simp [World.getUserCalls, World.count, h]

theorem World.redisCalls_congr {w w' : World} (h : w'.trace = w.trace) :
    w'.redisCalls = w.redisCalls := by
  simp [World.redisCalls, World.count, h]

@[simp]
theorem World.findByIDCalls_put (w : World) (key value : String) (seconds : Int) :
    (w.put key value seconds).findByIDCalls = w.findByIDCalls :=
  World.findByIDCalls_congr rfl

@[simp]
theorem World.findByIDCalls_del (w : World) (key : String) :
    (w.del key).findByIDCalls = w.findByIDCalls :=
  World.findByIDCalls_congr rfl

@[simp]
theorem World.findByIDCalls_setRow (w : World) (user : User) :
    (w.setRow user).findByIDCalls = w.findByIDCalls :=
  World.findByIDCalls_congr rfl

@[simp]
theorem World.findByIDCalls_setBits (w : World) (positions : List Nat) :
    (w.setBits positions).findByIDCalls = w.findByIDCalls :=
  World.findByIDCalls_congr rfl

@[simp]
theorem World.findByIDCalls_advance (w : World) (d : Nat) :
    (w.advance d).findByIDCalls = w.findByIDCalls :=
  World.findByIDCalls_congr rfl

@[simp]
theorem World.setUserCalls_put (w : World) (key value : String) (seconds : Int) :
    (w.put key value seconds).setUserCalls = w.setUserCalls :=
  World.setUserCalls_congr rfl

@[simp]
theorem World.setUserCalls_del (w : World) (key : String) :
    (w.del key).setUserCalls = w.setUserCalls :=
  World.setUserCalls_congr rfl

@[simp]
theorem World.setUserCalls_setRow (w : World) (user : User) :
    (w.setRow user).setUserCalls = w.setUserCalls :=
  World.setUserCalls_congr rfl

@[simp]
theorem World.setUserCalls_setBits (w : World) (positions : List Nat) :
    (w.setBits positions).setUserCalls = w.setUserCalls :=
  World.setUserCalls_congr rfl

@[simp]
theorem World.setUserCalls_advance (w : World) (d : Nat) :
    (w.advance d).setUserCalls = w.setUserCalls :=
  World.setUserCalls_congr rfl

@[simp]
theorem World.getUserCalls_put (w : World) (key value : String) (seconds : Int) :
    (w.put key value seconds).getUserCalls = w.getUserCalls :=
  World.getUserCalls_congr rfl

@[simp]
theorem World.getUserCalls_del (w : World) (key : String) :
    (w.del key).getUserCalls = w.getUserCalls :=
  World.getUserCalls_congr rfl

@[simp]
theorem World.getUserCalls_setRow (w : World) (user : User) :
    (w.setRow user).getUserCalls = w.getUserCalls :=
  World.getUserCalls_congr rfl

@[simp]
theorem World.getUserCalls_setBits (w : World) (positions : List Nat) :
    (w.setBits positions).getUserCalls = w.getUserCalls :=
  World.getUserCalls_congr rfl

@[simp]
theorem World.getUserCalls_advance (w : World) (d : Nat) :
    (w.advance d).getUserCalls = w.getUserCalls :=
  World.getUserCalls_congr rfl

@[simp]
theorem World.redisCalls_put (w : World) (key value : String) (seconds : Int) :
    (w.put key value seconds).redisCalls = w.redisCalls :=
  World.redisCalls_congr rfl

@[simp]
theorem World.redisCalls_del (w : World) (key : String) :
    (w.del key).redisCalls = w.redisCalls :=
  World.redisCalls_congr rfl

@[simp]
theorem World.redisCalls_setRow (w : World) (user : User) :
    (w.setRow user).redisCalls = w.redisCalls :=
  World.redisCalls_congr rfl

@[simp]
theorem World.redisCalls_setBits (w : World) (positions : List Nat) :
    (w.setBits positions).redisCalls = w.redisCalls :=
  World.redisCalls_congr rfl

@[simp]
theorem World.redisCalls_advance (w : World) (d : Nat) :
    (w.advance d).redisCalls = w.redisCalls :=
  World.redisCalls_congr rfl

@[simp]
theorem World.findByIDCalls_setRdsFaults (w : World) (faults : List (Option GoError)) :
    (w.setRdsFaults faults).findByIDCalls = w.findByIDCalls :=
  World.findByIDCalls_congr rfl

@[simp]
theorem World.findByIDCalls_setRepoFaults (w : World) (faults : List (Option GoError)) :
    (w.setRepoFaults faults).findByIDCalls = w.findByIDCalls :=
  World.findByIDCalls_congr rfl

@[simp]
theorem World.findByIDCalls_setRand (w : World) (draws : List Nat) :
    (w.setRand draws).findByIDCalls = w.findByIDCalls :=
  World.findByIDCalls_congr rfl

@[simp]
theorem World.setUserCalls_setRdsFaults (w : World) (faults : List (Option GoError)) :
    (w.setRdsFaults faults).setUserCalls = w.setUserCalls :=
  World.setUserCalls_congr rfl

@[simp]
theorem World.setUserCalls_setRepoFaults (w : World) (faults : List (Option GoError)) :
    (w.setRepoFaults faults).setUserCalls = w.setUserCalls :=
  World.setUserCalls_congr rfl

@[simp]
theorem World.setUserCalls_setRand (w : World) (draws : List Nat) :
    (w.setRand draws).setUserCalls = w.setUserCalls :=
  World.setUserCalls_congr rfl

@[simp]
theorem World.getUserCalls_setRdsFaults (w : World) (faults : List (Option GoError)) :
    (w.setRdsFaults faults).getUserCalls = w.getUserCalls :=
  World.getUserCalls_congr rfl

@[simp]
theorem World.getUserCalls_setRepoFaults (w : World) (faults : List (Option GoError)) :
    (w.setRepoFaults faults).getUserCalls = w.getUserCalls :=
  World.getUserCalls_congr rfl

@[simp]
theorem World.getUserCalls_setRand (w : World) (draws : List Nat) :
    (w.setRand draws).getUserCalls = w.getUserCalls :=
  World.getUserCalls_congr rfl

@[simp]
theorem World.redisCalls_setRdsFaults (w : World) (faults : List (Option GoError)) :
    (w.setRdsFaults faults).redisCalls = w.redisCalls :=
  World.redisCalls_congr rfl

@[simp]
theorem World.redisCalls_setRepoFaults (w : World) (faults : List (Option GoError)) :
    (w.setRepoFaults faults).redisCalls = w.redisCalls :=
  World.redisCalls_congr rfl

@[simp]
theorem World.redisCalls_setRand (w : World) (draws : List Nat) :
    (w.setRand draws).redisCalls = w.redisCalls :=
  World.redisCalls_congr rfl

/-! ## Live entries -/

@[simp]
theorem World.live_setRdsFaults (w : World) (faults : List (Option GoError)) (k : String) :
    (w.setRdsFaults faults).live k = w.live k := rfl

@[simp]
theorem World.live_setRepoFaults (w : World) (faults : List (Option GoError)) (k : String) :
    (w.setRepoFaults faults).live k = w.live k := rfl

@[simp]
theorem World.live_setRand (w : World) (draws : List Nat) (k : String) :
    (w.setRand draws).live k = w.live k := rfl

@[simp]
theorem World.live_log (w : World) (e : Event) (k : String) : (w.log e).live k = w.live k := rfl

@[simp]
theorem World.live_setRow (w : World) (user : User) (k : String) :
    (w.setRow user).live k = w.live k := rfl

@[simp]
theorem World.live_setBits (w : World) (positions : List Nat) (k : String) :
    (w.setBits positions).live k = w.live k := rfl

theorem World.live_put (w : World) (key value : String) (seconds : Int) (k : String) :
    (w.put key value seconds).live k
      = if k = key then
          (if 0 < seconds then some { value := value, expireAt := w.now + seconds.toNat } else none)
        else w.live k := by
  unfold World.live World.put
  by_cases hk : k = key
  · by_cases hs : 0 < seconds
    · have : 0 < seconds.toNat := by omega
      simp [hk, hs, this]
    · have : seconds.toNat = 0 := by omega
      simp [hk, hs, this]
  · simp [hk]

@[simp]
theorem World.live_del (w : World) (key k : String) :
    (w.del key).live k = if k = key then none else w.live k := by
  unfold World.live World.del
  by_cases hk : k = key <;> simp [hk]

/-- A key that was set for `seconds` seconds is still live `d < seconds` seconds later. -/
theorem World.live_advance_put (w : World) (key value : String) (seconds : Int) (d : Nat)
    (hd : (d : Int) < seconds) :
    ((w.put key value seconds).advance d).live key
      = some { value := value, expireAt := w.now + seconds.toNat } := by
  have : w.now + d < w.now + seconds.toNat := by omega
  simp [World.live, World.put, World.advance, this]

/-- Passing time never brings an entry back. -/
theorem World.live_advance_none (w : World) (k : String) (d : Nat) (h : w.live k = none) :
    (w.advance d).live k = none := by
  unfold World.live at h ⊢
  simp only [World.advance]
  cases hs : w.store k with
  | none => simp
  | some e =>
    simp only [hs] at h
    by_cases hlt : w.now < e.expireAt
    · simp [hlt] at h
    · have : ¬ w.now + d < e.expireAt := by omega
      simp [this]

/-! ## The collaborators when no fault is scheduled -/

theorem rdsGet_ok (w : World) (key : String) (h : w.rdsFaults = []) :
    rdsGet w key
      = ((match w.live key with | some e => e.value | none => "", none), w.log (.rdsGet key)) := by
  unfold rdsGet World.nextRdsFault
  simp only [World.log_rdsFaults, h]
  cases hl : (w.log (.rdsGet key)).live key <;> simp_all

theorem rdsSetex_ok (w : World) (key value : String) (seconds : Int) (h : w.rdsFaults = [])
    (hs : 0 < seconds) :
    rdsSetex w key value seconds = (none, (w.log (.rdsSetex key value seconds)).put key value seconds) := by
  unfold rdsSetex World.nextRdsFault
  have : ¬ seconds ≤ 0 := by omega
  simp [h, this]

theorem rdsDel_ok (w : World) (key : String) (h : w.rdsFaults = []) :
    rdsDel w key = (none, (w.log (.rdsDel key)).del key) := by
  unfold rdsDel World.nextRdsFault
  simp [h]

theorem repoFindByID_found (w : World) (id : Int) (user : User) (h : w.repoFaults = [])
    (hrow : w.rows id = some user) :
    repoFindByID w id = ((some user, none), w.log (.repoFindByID id)) := by
  unfold repoFindByID World.nextRepoFault
  simp [h, hrow]

theorem repoFindByID_absent (w : World) (id : Int) (h : w.repoFaults = [])
    (hrow : w.rows id = none) :
    repoFindByID w id
      = ((none, if w.nilOnMiss then none else some .recordNotFound), w.log (.repoFindByID id)) := by
  unfold repoFindByID World.nextRepoFault
  cases hn : w.nilOnMiss <;> simp [h, hrow, hn]

/-- Writing a row leaves everything but the table and its counter as it was. -/
theorem World.saveRow_frame (w : World) (user : User) :
    (w.saveRow user).now = w.now ∧ (w.saveRow user).store = w.store ∧
    (w.saveRow user).rdsFaults = w.rdsFaults ∧ (w.saveRow user).repoFaults = w.repoFaults ∧
    (w.saveRow user).nilOnMiss = w.nilOnMiss ∧ (w.saveRow user).bloomBits = w.bloomBits ∧
    (w.saveRow user).bloomHash = w.bloomHash ∧ (w.saveRow user).rand = w.rand ∧
    (w.saveRow user).trace = w.trace ∧ (w.saveRow user).clock = w.clock := by
  unfold World.saveRow
  split <;> exact ⟨rfl, rfl, rfl, rfl, rfl, rfl, rfl, rfl, rfl, rfl⟩

@[simp]
theorem World.saveRow_now (w : World) (user : User) : (w.saveRow user).now = w.now :=
  (w.saveRow_frame user).1

@[simp]
theorem World.saveRow_store (w : World) (user : User) : (w.saveRow user).store = w.store :=
  (w.saveRow_frame user).2.1

@[simp]
theorem World.saveRow_rdsFaults (w : World) (user : User) :
    (w.saveRow user).rdsFaults = w.rdsFaults :=
  (w.saveRow_frame user).2.2.1

@[simp]
theorem World.saveRow_repoFaults (w : World) (user : User) :
    (w.saveRow user).repoFaults = w.repoFaults :=
  (w.saveRow_frame user).2.2.2.1

@[simp]
theorem World.saveRow_nilOnMiss (w : World) (user : User) :
    (w.saveRow user).nilOnMiss = w.nilOnMiss :=
  (w.saveRow_frame user).2.2.2.2.1

@[simp]
theorem World.saveRow_bloomBits (w : World) (user : User) :
    (w.saveRow user).bloomBits = w.bloomBits :=
  (w.saveRow_frame user).2.2.2.2.2.1

@[simp]
theorem World.saveRow_bloomHash (w : World) (user : User) :
    (w.saveRow user).bloomHash = w.bloomHash :=
  (w.saveRow_frame user).2.2.2.2.2.2.1

@[simp]
theorem World.saveRow_rand (w : World) (user : User) : (w.saveRow user).rand = w.rand :=
  (w.saveRow_frame user).2.2.2.2.2.2.2.1

@[simp]
theorem World.saveRow_trace (w : World) (user : User) : (w.saveRow user).trace = w.trace :=
  (w.saveRow_frame user).2.2.2.2.2.2.2.2.1

@[simp]
theorem World.saveRow_rows_self (w : World) (user : User) :
    (w.saveRow user).rows user.ID = some user := by
  unfold World.saveRow
  split <;> simp [World.setRow, World.insertRow]

theorem World.saveRow_rows_other (w : World) (user : User) (i : Int) (h : i ≠ user.ID) :
    (w.saveRow user).rows i = w.rows i := by
  unfold World.saveRow
  split <;> simp [World.setRow, World.insertRow, h]

@[simp]
theorem World.live_saveRow (w : World) (user : User) (k : String) :
    (w.saveRow user).live k = w.live k := by
  unfold World.live
  simp

@[simp]
theorem World.findByIDCalls_saveRow (w : World) (user : User) :
    (w.saveRow user).findByIDCalls = w.findByIDCalls :=
  World.findByIDCalls_congr (w.saveRow_trace user)

@[simp]
theorem World.setUserCalls_saveRow (w : World) (user : User) :
    (w.saveRow user).setUserCalls = w.setUserCalls :=
  World.setUserCalls_congr (w.saveRow_trace user)

@[simp]
theorem World.getUserCalls_saveRow (w : World) (user : User) :
    (w.saveRow user).getUserCalls = w.getUserCalls :=
  World.getUserCalls_congr (w.saveRow_trace user)

@[simp]
theorem World.redisCalls_saveRow (w : World) (user : User) :
    (w.saveRow user).redisCalls = w.redisCalls :=
  World.redisCalls_congr (w.saveRow_trace user)

/-- Recording a call does not change what `Save` makes of a struct. -/
@[simp]
theorem World.saved_log (w : World) (e : Event) (user : User) :
    (w.log e).saved user = w.saved user := rfl

@[simp]
theorem World.saved_setRepoFaults (w : World) (faults : List (Option GoError)) (user : User) :
    (w.setRepoFaults faults).saved user = w.saved user := rfl

@[simp]
theorem World.created_setRepoFaults (w : World) (faults : List (Option GoError)) (user : User) :
    (w.setRepoFaults faults).created user = w.created user := rfl

/-- Recording a call does not change what `Create` makes of a struct. -/
@[simp]
theorem World.created_log (w : World) (e : Event) (user : User) :
    (w.log e).created user = w.created user := rfl

/-- The struct keeps its id through `Save` when it has one. -/
theorem World.saved_ID (w : World) (user : User) (h : user.ID ≠ 0) :
    (w.saved user).ID = user.ID := by
  unfold World.saved
  rw [if_neg h]
  split <;> rfl

/-- The struct keeps its name, mail address and age through `Save`. -/
theorem World.saved_fields (w : World) (user : User) :
    (w.saved user).Username = user.Username ∧ (w.saved user).Email = user.Email ∧
    (w.saved user).Age = user.Age := by
  unfold World.saved World.created
  split
  · exact ⟨rfl, rfl, rfl⟩
  · split <;> exact ⟨rfl, rfl, rfl⟩

/-- The struct of a row that exists gets the current time as `UpdatedAt` through `Save`, and
nothing else changes. -/
theorem World.saved_of_row (w : World) (user row : User) (h : user.ID ≠ 0)
    (hrow : w.rows user.ID = some row) :
    w.saved user = { user with UpdatedAt := w.clock } := by
  unfold World.saved
  rw [if_neg h, hrow]

theorem repoUpdate_ok (w : World) (user : User) (h : w.repoFaults = []) :
    repoUpdate w user
      = ((none, w.saved user), (w.log (.repoUpdate user.ID)).saveRow (w.saved user)) := by
  unfold repoUpdate World.nextRepoFault
  simp [h]

/-! ## The cache methods when no fault is scheduled -/

theorem getUserBody_miss (c : Codec) (w : World) (id : Int) (e : GoError)
    (h : w.rdsFaults = []) (hcold : w.live (getUserKey id) = none)
    (he : c.unmarshal "" = .error e) :
    getUserBody c w id
      = ((none, some (.wrap "反序列化用户数据失败: " e)), w.log (.rdsGet (getUserKey id))) := by
  simp [getUserBody, rdsGet_ok w _ h, hcold, he]

theorem getUserBody_hit (c : Codec) (w : World) (id : Int) (entry : Entry) (user : User)
    (h : w.rdsFaults = []) (hlive : w.live (getUserKey id) = some entry)
    (hu : c.unmarshal entry.value = .ok user) :
    getUserBody c w id = ((some user, none), w.log (.rdsGet (getUserKey id))) := by
  simp [getUserBody, rdsGet_ok w _ h, hlive, hu]

theorem getUserBody_corrupt (c : Codec) (w : World) (id : Int) (entry : Entry) (e : GoError)
    (h : w.rdsFaults = []) (hlive : w.live (getUserKey id) = some entry)
    (hu : c.unmarshal entry.value = .error e) :
    getUserBody c w id
      = ((none, some (.wrap "反序列化用户数据失败: " e)), w.log (.rdsGet (getUserKey id))) := by
  simp [getUserBody, rdsGet_ok w _ h, hlive, hu]

theorem setUserBody_ok (c : Codec) (w : World) (user : User) (payload : String)
    (expireSeconds : Int) (h : w.rdsFaults = []) (hm : c.marshal user = .ok payload)
    (hs : 0 < expireSeconds) :
    setUserBody c w (some user) expireSeconds
      = (none, (w.log (.rdsSetex (getUserKey user.ID) payload expireSeconds)).put
          (getUserKey user.ID) payload expireSeconds) := by
  have hn : ¬ expireSeconds ≤ 0 := by omega
  simp [setUserBody, hm, hn, rdsSetex_ok w _ _ _ h hs]

theorem deleteUserBody_ok (w : World) (id : Int) (h : w.rdsFaults = []) :
    deleteUserBody w id = (none, (w.log (.rdsDel (getUserKey id))).del (getUserKey id)) := by
  simp [deleteUserBody, rdsDel_ok w _ h]

/-! ## Characters and digits -/

namespace Json

theorem toNat_ofNat (n : Nat) (h : n < 55296) : (Char.ofNat n).toNat = n := by
  have hv : n.isValidChar := Or.inl h
  simp only [Char.ofNat, hv, dite_true]
  rfl

theorem char_eq_of_toNat {c d : Char} (h : c.toNat = d.toNat) : c = d := by
  rw [← Char.ofNat_toNat c, ← Char.ofNat_toNat d, h]

theorem toNat_digitChar (d : Nat) (h : d < 10) : (digitChar d).toNat = 48 + d :=
  toNat_ofNat _ (by omega)

theorem digitVal_digitChar (d : Nat) (h : d < 10) : digitVal (digitChar d) = d := by
  simp [digitVal, toNat_digitChar d h]

theorem isDigit_digitChar (d : Nat) (h : d < 10) : isDigit (digitChar d) = true := by
  simp [isDigit, toNat_digitChar d h]
  omega

theorem isDigit_iff (c : Char) : isDigit c = true ↔ 48 ≤ c.toNat ∧ c.toNat ≤ 57 := by
  simp [isDigit]

theorem foldl_digits (ys : List Char) (a : Nat) :
    ys.foldl (fun acc c => 10 * acc + digitVal c) a
      = a * 10 ^ ys.length + ys.foldl (fun acc c => 10 * acc + digitVal c) 0 := by
  induction ys generalizing a with
  | nil => simp
  | cons y ys ih =>
    simp only [List.foldl_cons, List.length_cons]
    rw [ih (10 * a + digitVal y), ih (10 * 0 + digitVal y)]
    ring

theorem digitsVal_append (xs ys : List Char) :
    digitsVal (xs ++ ys) = digitsVal xs * 10 ^ ys.length + digitsVal ys := by
  unfold digitsVal
  rw [List.foldl_append, foldl_digits]

theorem digitsVal_singleton (c : Char) : digitsVal [c] = digitVal c := by
  simp [digitsVal]

/-- What `natDigitsAux` puts in front of the accumulator. -/
theorem natDigitsAux_spec (fuel n : Nat) (acc : List Char) (h : n < fuel) :
    ∃ ds : List Char, natDigitsAux fuel n acc = ds ++ acc ∧ (∀ c ∈ ds, isDigit c = true) ∧
      digitsVal ds = n ∧ (∃ c rest, ds = c :: rest ∧ (c = '0' → n = 0 ∧ rest = [])) := by
  induction fuel generalizing n acc with
  | zero => omega
  | succ fuel ih =>
    unfold natDigitsAux
    by_cases h10 : n < 10
    · refine ⟨[digitChar n], by simp [h10], ?_, ?_, digitChar n, [], rfl, ?_⟩
      · intro c hc
        simp at hc
        subst hc
        exact isDigit_digitChar n h10
      · simp [digitsVal_singleton, digitVal_digitChar n h10]
      · intro h0
        have := toNat_digitChar n h10
        rw [h0] at this
        have h48 : ('0' : Char).toNat = 48 := by decide
        exact ⟨by omega, rfl⟩
    · have hlt : n / 10 < fuel := by omega
      obtain ⟨ds, hds, hall, hval, c, rest, hcr, hc0⟩ := ih (n / 10) (digitChar (n % 10) :: acc) hlt
      have hmod : n % 10 < 10 := Nat.mod_lt _ (by omega)
      refine ⟨ds ++ [digitChar (n % 10)], by simp [h10, hds], ?_, ?_, c,
        rest ++ [digitChar (n % 10)], by simp [hcr], ?_⟩
      · intro x hx
        rcases List.mem_append.mp hx with hx | hx
        · exact hall x hx
        · simp at hx
          subst hx
          exact isDigit_digitChar _ hmod
      · rw [digitsVal_append, hval, digitsVal_singleton, digitVal_digitChar _ hmod]
        simp
        omega
      · intro h0
        have := (hc0 h0).1
        omega

theorem natDigits_spec (n : Nat) :
    (∀ c ∈ natDigits n, isDigit c = true) ∧ digitsVal (natDigits n) = n ∧
      (∃ c rest, natDigits n = c :: rest ∧ (c = '0' → n = 0 ∧ rest = [])) := by
  obtain ⟨ds, hds, h⟩ := natDigitsAux_spec (n + 1) n [] (by omega)
  simp only [List.append_nil] at hds
  unfold natDigits
  rw [hds]
  exact h

end Json

namespace Json

/-! ## Numbers -/

theorem digit_cases (c : Char) (h : isDigit c = true) :
    c = '0' ∨ c = '1' ∨ c = '2' ∨ c = '3' ∨ c = '4' ∨ c = '5' ∨ c = '6' ∨ c = '7' ∨ c = '8' ∨
      c = '9' := by
  rw [isDigit_iff] at h
  obtain ⟨h1, h2⟩ := h
  have hc : c = Char.ofNat c.toNat := (Char.ofNat_toNat c).symm
  generalize c.toNat = k at h1 h2 hc
  subst hc
  interval_cases k <;> decide

theorem span_digits (ds rest : List Char) (hall : ∀ c ∈ ds, isDigit c = true)
    (hrest : ∀ c r, rest = c :: r → isDigit c = false) :
    (ds ++ rest).takeWhile isDigit = ds ∧ (ds ++ rest).dropWhile isDigit = rest := by
  induction ds with
  | nil =>
    cases rest with
    | nil => simp
    | cons c r => simp [hrest c r rfl]
  | cons d ds ih =>
    have hd : isDigit d = true := hall d (by simp)
    have := ih (fun c hc => hall c (by simp [hc]))
    simp [hd, this]

theorem parseUnsigned_natDigits (neg : Bool) (n : Nat) (rest : List Char) :
    parseUnsigned neg (natDigits n ++ ',' :: rest)
      = some (.num neg (natDigits n) true, ',' :: rest) := by
  obtain ⟨hall, -, c, ds, hcd, hzero⟩ := natDigits_spec n
  have hc : isDigit c = true := hall c (by simp [hcd])
  have hds : ∀ x ∈ ds, isDigit x = true := fun x hx => hall x (by simp [hcd, hx])
  have hsp := span_digits ds (',' :: rest) hds (by
    intro x r hx
    simp at hx
    rw [← hx.1]
    decide)
  rw [hcd]
  simp only [List.cons_append, parseUnsigned, hc, if_true]
  by_cases h0 : c = '0'
  · obtain ⟨-, hnil⟩ := hzero h0
    subst hnil
    simp [h0, parseFrac, parseExp]
  · simp [h0, hsp.1, hsp.2, parseFrac, parseExp]

theorem head_natDigits (n : Nat) : ∃ c ds, natDigits n = c :: ds ∧ isDigit c = true := by
  obtain ⟨hall, -, c, ds, hcd, -⟩ := natDigits_spec n
  exact ⟨c, ds, hcd, hall c (by simp [hcd])⟩

theorem parseNumber_encodeInt (n : Int) (rest : List Char) :
    parseNumber (encodeInt n ++ ',' :: rest)
      = some (.num (decide (n < 0)) (natDigits n.natAbs) true, ',' :: rest) := by
  unfold encodeInt
  by_cases hn : n < 0
  · simp [hn, parseNumber, parseUnsigned_natDigits]
  · obtain ⟨c, ds, hcd, hc⟩ := head_natDigits n.natAbs
    have hne : c ≠ '-' := by
      rcases digit_cases c hc with h | h | h | h | h | h | h | h | h | h <;> subst h <;> decide
    have := parseUnsigned_natDigits false n.natAbs rest
    rw [hcd] at this ⊢
    simp only [hn, if_false, List.cons_append, decide_False] at this ⊢
    unfold parseNumber
    split
    · rename_i heq
      simp at heq
      exact absurd heq.1 hne
    · exact this

theorem parseValue_number (fuel : Nat) (c : Char) (rest : List Char)
    (h : isDigit c = true ∨ c = '-') :
    parseValue (fuel + 1) (c :: rest) = parseNumber (c :: rest) := by
  have hc : c = '0' ∨ c = '1' ∨ c = '2' ∨ c = '3' ∨ c = '4' ∨ c = '5' ∨ c = '6' ∨ c = '7' ∨
      c = '8' ∨ c = '9' ∨ c = '-' := by
    rcases h with h | h
    · have := digit_cases c h
      tauto
    · simp [h]
  rcases hc with h | h | h | h | h | h | h | h | h | h | h <;> subst h <;> rfl

theorem parseValue_encodeInt (fuel : Nat) (n : Int) (rest : List Char) :
    parseValue (fuel + 1) (encodeInt n ++ ',' :: rest)
      = some (.num (decide (n < 0)) (natDigits n.natAbs) true, ',' :: rest) := by
  rw [← parseNumber_encodeInt]
  unfold encodeInt
  by_cases hn : n < 0
  · simp only [hn, if_true, List.cons_append]
    exact parseValue_number _ _ _ (Or.inr rfl)
  · obtain ⟨c, ds, hcd, hc⟩ := head_natDigits n.natAbs
    simp only [hn, if_false, hcd, List.cons_append]
    exact parseValue_number _ _ _ (Or.inl hc)

theorem decodeInt_encodeInt (n : Int) (h : -(2 ^ 63) ≤ n ∧ n ≤ 2 ^ 63 - 1) :
    decodeInt (decide (n < 0)) (natDigits n.natAbs) true = .ok n := by
  have hv := (natDigits_spec n.natAbs).2.1
  unfold decodeInt
  rw [hv]
  by_cases hn : n < 0
  · have : -((n.natAbs : Nat) : Int) = n := by omega
    simp only [hn, decide_True, if_true, this]
    rw [if_pos ⟨trivial, h⟩]
  · have : ((n.natAbs : Nat) : Int) = n := by omega
    simp only [hn, decide_False, this]
    rw [if_pos ⟨trivial, h⟩]
    rfl

end Json

namespace Json

/-! ## Strings -/

theorem parseStrBody_skip (xs ys : List Char) :
    parseStrBody xs.length (xs ++ ys)
      = (parseStrBody 0 ys).map fun r => (xs ++ r.1, r.2.1, r.2.2) := by
  induction xs with
  | nil => cases h : parseStrBody 0 ys <;> simp [h]
  | cons x xs ih =>
    simp only [List.length_cons, List.cons_append]
    rw [parseStrBody, ih]
    cases h : parseStrBody 0 ys <;> simp

theorem hexVal_hexChar (d : Nat) (h : d < 16) : hexVal (hexChar d) = some d := by
  interval_cases d <;> decide

theorem hex4_escape (n : Nat) (h : n < 65536) :
    hex4 (hexChar (n / 4096 % 16)) (hexChar (n / 256 % 16)) (hexChar (n / 16 % 16))
      (hexChar (n % 16)) = some n := by
  unfold hex4
  rw [hexVal_hexChar _ (Nat.mod_lt _ (by omega)), hexVal_hexChar _ (Nat.mod_lt _ (by omega)),
    hexVal_hexChar _ (Nat.mod_lt _ (by omega)), hexVal_hexChar _ (Nat.mod_lt _ (by omega))]
  simp only [Option.some.injEq]
  omega

theorem parseStrBody_escapeU (n : Nat) (h : n < 65536) (hs : ¬ (55296 ≤ n ∧ n ≤ 57343))
    (tail : List Char) :
    parseStrBody 0 (escapeU n ++ tail)
      = (parseStrBody 0 tail).map fun r => (escapeU n ++ r.1, Char.ofNat n :: r.2.1, r.2.2) := by
  have hskip := parseStrBody_skip
    ['u', hexChar (n / 4096 % 16), hexChar (n / 256 % 16), hexChar (n / 16 % 16),
      hexChar (n % 16)] tail
  simp only [List.length_cons, List.length_nil, List.cons_append, List.nil_append] at hskip
  have hn1 : ¬ (55296 ≤ n ∧ n ≤ 56319) := by omega
  simp only [escapeU, List.cons_append, List.nil_append]
  rw [parseStrBody]
  simp only [hex4_escape n h, hn1, if_false, unitRune, hs]
  rw [hskip]
  cases parseStrBody 0 tail <;> simp

end Json

namespace Json

theorem parseStrBody_simple (e ch : Char) (tail : List Char)
    (he : e ≠ 'u')
    (hr : (if e = '"' then some '"' else if e = '\\' then some '\\' else if e = '/' then some '/'
        else if e = 'b' then some (Char.ofNat 8) else if e = 'f' then some (Char.ofNat 12)
        else if e = 'n' then some '\n' else if e = 'r' then some '\r'
        else if e = 't' then some '\t' else none) = some ch) :
    parseStrBody 0 ('\\' :: e :: tail)
      = (parseStrBody 0 tail).map fun r => ('\\' :: e :: r.1, ch :: r.2.1, r.2.2) := by
  have hskip := parseStrBody_skip [e] tail
  simp only [List.length_cons, List.length_nil, List.cons_append, List.nil_append] at hskip
  simp only [zero_add] at hskip
  rw [parseStrBody]
  · rw [hr]
    simp only []
    rw [hskip]
    cases parseStrBody 0 tail <;> simp
  · intro a b c d rest' h _
    exact he h

theorem parseStrBody_plain_char (c : Char) (tail : List Char) (h1 : c ≠ '"') (h2 : c ≠ '\\')
    (h3 : 32 ≤ c.toNat) :
    parseStrBody 0 (c :: tail)
      = (parseStrBody 0 tail).map fun r => (c :: r.1, c :: r.2.1, r.2.2) := by
  have h3' : ¬ c.toNat < 32 := by omega
  rw [parseStrBody]
  · simp only [h3', if_false]
    cases parseStrBody 0 tail <;> simp
  · exact h1
  · exact h2

theorem toNat_ne_of_ne {c d : Char} (h : c ≠ d) : c.toNat ≠ d.toNat :=
  fun hn => h (char_eq_of_toNat hn)

theorem parseStrBody_escapeChar (g : GoChar) (tail : List Char) :
    parseStrBody 0 (escapeChar g ++ tail)
      = (parseStrBody 0 tail).map fun r => (escapeChar g ++ r.1, coerced g :: r.2.1, r.2.2) := by
  cases g with
  | bad b =>
    exact parseStrBody_escapeU 65533 (by omega) (by omega) tail
  | rune c =>
    unfold escapeChar coerced
    simp only []
    split_ifs with h1 h2 h3 h4 h5 h6 h7 h8
    · subst h1
      exact parseStrBody_simple _ _ _ (by decide) (by decide)
    · subst h2
      exact parseStrBody_simple _ _ _ (by decide) (by decide)
    · subst h3
      exact parseStrBody_simple _ _ _ (by decide) (by decide)
    · subst h4
      exact parseStrBody_simple _ _ _ (by decide) (by decide)
    · subst h5
      exact parseStrBody_simple _ _ _ (by decide) (by decide)
    · have hc : c = Char.ofNat 8 := by rw [← h6, Char.ofNat_toNat]
      rw [hc]
      exact parseStrBody_simple _ _ _ (by decide) (by decide)
    · have hc : c = Char.ofNat 12 := by rw [← h7, Char.ofNat_toNat]
      rw [hc]
      exact parseStrBody_simple _ _ _ (by decide) (by decide)
    · have hlt : c.toNat < 55296 := by
        rcases h8 with h | h | h | h | h | h
        · omega
        · subst h; decide
        · subst h; decide
        · subst h; decide
        · omega
        · omega
      have := parseStrBody_escapeU c.toNat (by omega) (by omega) tail
      rw [Char.ofNat_toNat] at this
      exact this
    · have h32 : 32 ≤ c.toNat := by
        by_contra hlt
        exact h8 (Or.inl (by omega))
      exact parseStrBody_plain_char c tail h1 h2 h32

end Json

namespace Json

theorem parseStrBody_escapeAll (s : GoString) (rest : List Char) :
    parseStrBody 0 (escapeAll s ++ '"' :: rest) = some (escapeAll s, s.map coerced, rest) := by
  induction s with
  | nil => simp [escapeAll, parseStrBody]
  | cons g s ih =>
    simp only [escapeAll, List.append_assoc, List.map_cons]
    rw [parseStrBody_escapeChar, ih]
    simp

theorem parseStrBody_plain (cs rest : List Char)
    (h : ∀ c ∈ cs, c ≠ '"' ∧ c ≠ '\\' ∧ 32 ≤ c.toNat) :
    parseStrBody 0 (cs ++ '"' :: rest) = some (cs, cs, rest) := by
  induction cs with
  | nil => simp [parseStrBody]
  | cons c cs ih =>
    obtain ⟨h1, h2, h3⟩ := h c (by simp)
    simp only [List.cons_append]
    rw [parseStrBody_plain_char c _ h1 h2 h3, ih (fun x hx => h x (by simp [hx]))]
    simp

theorem parseValue_quote (fuel : Nat) (cs : List Char) :
    parseValue (fuel + 1) ('"' :: cs)
      = match parseStrBody 0 cs with
        | some (raw, val, rest) => some (.str raw val, rest)
        | none => none := rfl

theorem parseValue_encodeString (fuel : Nat) (s : GoString) (rest : List Char) :
    parseValue (fuel + 1) (encodeString s ++ rest)
      = some (.str (escapeAll s) (s.map coerced), rest) := by
  simp only [encodeString, List.cons_append, List.append_assoc, List.singleton_append]
  rw [parseValue_quote, parseStrBody_escapeAll]
  simp

/-- A string without invalid bytes is read back as it is. -/
theorem map_coerced_of_valid (s : GoString) (h : ∀ g ∈ s, ∃ c, g = .rune c) :
    (s.map coerced).map GoChar.rune = s := by
  induction s with
  | nil => rfl
  | cons g s ih =>
    obtain ⟨c, hc⟩ := h g (by simp)
    subst hc
    simp only [List.map_cons, coerced]
    rw [ih (fun x hx => h x (by simp [hx]))]

end Json

namespace Json

/-! ## Timestamps -/

theorem appendInt_two (n : Nat) (h : n < 100) :
    appendInt (n : Int) 2 = [digitChar (n / 10), digitChar (n % 10)] := by
  have hneg : ¬ ((n : Int) < 0) := by omega
  simp [appendInt, h, hneg]

theorem appendInt_four (n : Nat) (h : n < 10000) :
    appendInt (n : Int) 4
      = [digitChar (n / 1000), digitChar (n / 100 % 10), digitChar (n / 10 % 10),
          digitChar (n % 10)] := by
  have hneg : ¬ ((n : Int) < 0) := by omega
  simp [appendInt, h, hneg]

theorem parseUint_two (n lo hi : Nat) (h : n < 100) (hlo : lo ≤ n) (hhi : n ≤ hi) :
    parseUint [digitChar (n / 10), digitChar (n % 10)] lo hi = some n := by
  have h1 : n / 10 < 10 := by omega
  have h2 : n % 10 < 10 := by omega
  have hv : digitsVal [digitChar (n / 10), digitChar (n % 10)] = n := by
    simp only [digitsVal, List.foldl_cons, List.foldl_nil, digitVal_digitChar _ h1,
      digitVal_digitChar _ h2]
    omega
  unfold parseUint
  rw [hv]
  simp [isDigit_digitChar _ h1, isDigit_digitChar _ h2, hlo, hhi]

theorem parseUint_four (n lo hi : Nat) (h : n < 10000) (hlo : lo ≤ n) (hhi : n ≤ hi) :
    parseUint [digitChar (n / 1000), digitChar (n / 100 % 10), digitChar (n / 10 % 10),
        digitChar (n % 10)] lo hi = some n := by
  have h1 : n / 1000 < 10 := by omega
  have h2 : n / 100 % 10 < 10 := by omega
  have h3 : n / 10 % 10 < 10 := by omega
  have h4 : n % 10 < 10 := by omega
  have hv : digitsVal [digitChar (n / 1000), digitChar (n / 100 % 10), digitChar (n / 10 % 10),
      digitChar (n % 10)] = n := by
    simp only [digitsVal, List.foldl_cons, List.foldl_nil, digitVal_digitChar _ h1,
      digitVal_digitChar _ h2, digitVal_digitChar _ h3, digitVal_digitChar _ h4]
    omega
  unfold parseUint
  rw [hv]
  simp [isDigit_digitChar _ h1, isDigit_digitChar _ h2, isDigit_digitChar _ h3,
    isDigit_digitChar _ h4, hlo, hhi]

/-- The zone is read back when it is a whole number of minutes within a day. -/
theorem parseZone_formatZone (offset : Int) (hmin : offset % 60 = 0)
    (hlo : -86400 < offset) (hhi : offset < 86400) :
    parseZone (formatZone offset) = some offset := by
  obtain ⟨k, hk⟩ : ∃ k : Int, offset = 60 * k := ⟨offset / 60, by omega⟩
  have hdiv : offset.tdiv 60 = k := by
    rw [hk]
    exact Int.mul_tdiv_cancel_left k (by decide)
  unfold formatZone
  by_cases h0 : offset = 0
  · simp [h0, parseZone]
  · simp only [h0, if_false, hdiv]
    have hz : k.natAbs < 1440 := by omega
    have hh : k.natAbs / 60 < 100 := by omega
    have hm : k.natAbs % 60 < 100 := by omega
    have h1 := parseUint_two _ 0 23 hh (by omega) (by omega)
    have h2 := parseUint_two _ 0 59 hm (by omega) (by omega)
    rw [appendInt_two _ hh, appendInt_two _ hm]
    simp only [List.cons_append, List.nil_append]
    by_cases hneg : k < 0
    · simp only [hneg, if_true]
      simp only [parseZone, h1, h2]
      have : ('-' : Char) ≠ '+' := by decide
      simp only [this, if_false, if_true, Option.some.injEq]
      omega
    · simp only [hneg, if_false]
      simp only [parseZone, h1, h2]
      simp only [if_true, Option.some.injEq]
      omega

end Json

namespace Json

theorem digitVal_zero : digitVal '0' = 0 := by decide

theorem digitsVal_zeros (k : Nat) (ds : List Char) :
    digitsVal (List.replicate k '0' ++ ds) = digitsVal ds := by
  induction k with
  | zero => simp
  | succ k ih =>
    have : digitsVal ('0' :: (List.replicate k '0' ++ ds))
        = digitsVal (List.replicate k '0' ++ ds) := by
      have h := digitsVal_append ['0'] (List.replicate k '0' ++ ds)
      simp only [List.singleton_append] at h
      rw [h, digitsVal_singleton, digitVal_zero]
      simp
    simp only [List.replicate_succ, List.cons_append]
    rw [this, ih]

theorem length_natDigits_le (n k : Nat) (h : n < 10 ^ k) (hk : 0 < k) :
    (natDigits n).length ≤ k := by
  obtain ⟨hall, hval, c, rest, hcr, hzero⟩ := natDigits_spec n
  by_cases hc : c = '0'
  · obtain ⟨-, hrest⟩ := hzero hc
    rw [hcr, hrest]
    simpa using hk
  · have hdig : isDigit c = true := hall c (by simp [hcr])
    rw [isDigit_iff] at hdig
    have h48 : c.toNat ≠ 48 := fun h => hc (char_eq_of_toNat (by rw [h]; decide))
    have hge : 1 ≤ digitVal c := by unfold digitVal; omega
    have hv : digitsVal (c :: rest) = digitVal c * 10 ^ rest.length + digitsVal rest := by
      have := digitsVal_append [c] rest
      simpa [digitsVal_singleton] using this
    rw [hcr] at hval ⊢
    have hpow : 10 ^ rest.length ≤ n := by
      calc 10 ^ rest.length ≤ digitVal c * 10 ^ rest.length := Nat.le_mul_of_pos_left _ hge
        _ ≤ n := by omega
    have hlt : 10 ^ rest.length < 10 ^ k := lt_of_le_of_lt hpow h
    have := (Nat.pow_lt_pow_iff_right (by decide : 1 < 10)).mp hlt
    simp only [List.length_cons]
    omega

/-- The nine digits of the nanoseconds. -/
theorem appendInt_nine (n : Nat) (h : n < 10 ^ 9) :
    (appendInt (n : Int) 9).length = 9 ∧ (∀ c ∈ appendInt (n : Int) 9, isDigit c = true) ∧
      digitsVal (appendInt (n : Int) 9) = n := by
  have hneg : ¬ ((n : Int) < 0) := by omega
  have hlen := length_natDigits_le n 9 h (by decide)
  obtain ⟨hall, hval, -⟩ := natDigits_spec n
  have heq : appendInt (n : Int) 9
      = List.replicate (9 - (natDigits n).length) '0' ++ natDigits n := by
    simp [appendInt, hneg]
  rw [heq]
  refine ⟨by simp; omega, ?_, by rw [digitsVal_zeros, hval]⟩
  intro c hc
  rcases List.mem_append.mp hc with hc | hc
  · rw [(List.mem_replicate.mp hc).2]
    decide
  · exact hall c hc

theorem trimZeros_append_zero (ds : List Char) : trimZeros (ds ++ ['0']) = trimZeros ds := by
  simp [trimZeros]

theorem trimZeros_append_other (ds : List Char) (c : Char) (h : c ≠ '0') :
    trimZeros (ds ++ [c]) = ds ++ [c] := by
  simp [trimZeros, h]

theorem trimZeros_spec (ds : List Char) (h : ds.length ≤ 9) :
    fracVal (trimZeros ds) = fracVal ds ∧ (trimZeros ds).length ≤ ds.length ∧
      (∀ c ∈ trimZeros ds, c ∈ ds) := by
  induction ds using List.reverseRecOn with
  | nil => simp [trimZeros]
  | append_singleton ds c ih =>
    simp only [List.length_append, List.length_singleton] at h
    by_cases hc : c = '0'
    · subst hc
      rw [trimZeros_append_zero]
      obtain ⟨h1, h2, h3⟩ := ih (by omega)
      refine ⟨?_, by simp; omega, fun x hx => by simp [h3 x hx]⟩
      rw [h1]
      unfold fracVal
      rw [digitsVal_append, digitsVal_singleton, digitVal_zero]
      simp only [List.length_singleton, pow_one, add_zero, List.length_append]
      have : 9 - ds.length = (9 - (ds.length + 1)) + 1 := by omega
      rw [this, pow_succ]
      ring
    · rw [trimZeros_append_other ds c hc]
      exact ⟨rfl, le_refl _, fun x hx => hx⟩

theorem parseNano_eq_fracVal (ds : List Char) (h : ds.length ≤ 9) : parseNano ds = fracVal ds := by
  unfold parseNano fracVal
  rw [List.take_of_length_le h]

theorem formatZone_head (offset : Int) :
    ∃ c rest, formatZone offset = c :: rest ∧ (c = 'Z' ∨ c = '+' ∨ c = '-') := by
  unfold formatZone
  by_cases h0 : offset = 0
  · exact ⟨'Z', [], by simp [h0], Or.inl rfl⟩
  · by_cases hneg : offset.tdiv 60 < 0
    · exact ⟨'-', _, by simp only [h0, hneg, if_false, if_true]; rfl, Or.inr (Or.inr rfl)⟩
    · exact ⟨'+', _, by simp only [h0, hneg, if_false]; rfl, Or.inr (Or.inl rfl)⟩

/-- The fraction of a second is read back. -/
theorem splitFraction_format (nano : Nat) (offset : Int) (h : nano < 10 ^ 9) :
    (splitFraction (formatNano nano ++ formatZone offset)).2 = formatZone offset ∧
      parseNano (splitFraction (formatNano nano ++ formatZone offset)).1 = nano := by
  obtain ⟨z, zs, hz, hzc⟩ := formatZone_head offset
  have hznd : isDigit z = false := by rcases hzc with h | h | h <;> subst h <;> decide
  unfold formatNano
  by_cases h0 : nano = 0
  · simp only [h0, if_true, List.nil_append]
    rw [hz]
    have hsplit : splitFraction (z :: zs) = ([], z :: zs) := by
      rcases hzc with h | h | h <;> subst h <;> rfl
    rw [hsplit]
    exact ⟨rfl, by simp [parseNano, digitsVal]⟩
  · simp only [h0, if_false, List.cons_append]
    obtain ⟨hlen, hall, hval⟩ := appendInt_nine nano h
    obtain ⟨h1, h2, h3⟩ := trimZeros_spec (appendInt (nano : Int) 9) (by omega)
    have hfv : fracVal (trimZeros (appendInt (nano : Int) 9)) = nano := by
      rw [h1]
      unfold fracVal
      rw [hval, hlen]
      simp
    have hdig : ∀ c ∈ trimZeros (appendInt (nano : Int) 9), isDigit c = true :=
      fun c hc => hall c (h3 c hc)
    cases htr : trimZeros (appendInt (nano : Int) 9) with
    | nil =>
      rw [htr] at hfv
      simp [fracVal, digitsVal] at hfv
      omega
    | cons d ds =>
      rw [htr] at hdig hfv h2
      have hd : isDigit d = true := hdig d (by simp)
      have hsp := span_digits (d :: ds) (formatZone offset) hdig (by
        intro c r hc
        rw [hz] at hc
        simp only [List.cons.injEq] at hc
        rw [← hc.1]
        exact hznd)
      simp only [List.cons_append] at hsp ⊢
      simp only [splitFraction, hd, if_true]
      refine ⟨hsp.2, ?_⟩
      rw [hsp.1, parseNano_eq_fracVal _ (by omega), hfv]

end Json

namespace Json

theorem formatTime_ok (t : GoTime) (h : t.jsonSafe) :
    formatTime t
      = .ok (appendInt t.year 4 ++ '-' :: appendInt t.month 2 ++ '-' :: appendInt t.day 2 ++
          'T' :: appendInt t.hour 2 ++ ':' :: appendInt t.minute 2 ++ ':' ::
          appendInt t.second 2 ++ formatNano t.nano ++ formatZone t.offset) := by
  obtain ⟨hy0, hy1, -, -, -, -, -, -, -, -, hmin, hlo, hhi⟩ := h
  obtain ⟨k, hk⟩ : ∃ k : Int, t.offset = 60 * k := ⟨t.offset / 60, by omega⟩
  have hdiv : t.offset.tdiv 60 = k := by
    rw [hk]
    exact Int.mul_tdiv_cancel_left k (by decide)
  have h1 : ¬ (t.year < 0 ∨ 9999 < t.year) := by omega
  have h2 : ¬ (24 ≤ (t.offset.tdiv 60).natAbs / 60) := by rw [hdiv]; omega
  simp only [formatTime, h1, h2, if_false]

/-- A timestamp that is safe for JSON is read back from its RFC 3339 text. -/
theorem parseTime_formatTime (t : GoTime) (h : t.jsonSafe) :
    parseTime (appendInt t.year 4 ++ '-' :: appendInt t.month 2 ++ '-' :: appendInt t.day 2 ++
          'T' :: appendInt t.hour 2 ++ ':' :: appendInt t.minute 2 ++ ':' ::
          appendInt t.second 2 ++ formatNano t.nano ++ formatZone t.offset) = some t := by
  obtain ⟨hy0, hy1, hm0, hm1, hd0, hd1, hh, hmi, hs, hn, hmin, hlo, hhi⟩ := h
  obtain ⟨y, hy⟩ : ∃ y : Nat, t.year = (y : Int) := ⟨t.year.toNat, by omega⟩
  have hylt : y < 10000 := by omega
  have hdl : t.day ≤ 31 := by
    have : daysIn t.month t.year.toNat ≤ 31 := by
      unfold daysIn
      split_ifs <;> omega
    omega
  rw [hy] at hd1
  simp only [Int.toNat_ofNat] at hd1
  obtain ⟨hz1, hz2⟩ := splitFraction_format t.nano t.offset hn
  rw [hy, appendInt_four y hylt, appendInt_two t.month (by omega), appendInt_two t.day (by omega),
    appendInt_two t.hour (by omega), appendInt_two t.minute (by omega),
    appendInt_two t.second (by omega)]
  simp only [List.cons_append, List.nil_append, List.append_assoc, parseTime]
  rw [parseUint_four y 0 9999 hylt (by omega) (by omega),
    parseUint_two t.month 1 12 (by omega) hm0 hm1]
  simp only []
  rw [parseUint_two t.day 1 _ (by omega) hd0 hd1,
    parseUint_two t.hour 0 23 (by omega) (by omega) hh,
    parseUint_two t.minute 0 59 (by omega) (by omega) hmi,
    parseUint_two t.second 0 59 (by omega) (by omega) hs]
  simp only [hz1, hz2, parseZone_formatZone t.offset hmin hlo hhi]
  cases t
  simp_all

end Json

namespace Json

/-! ## The text of a timestamp inside a JSON string -/

theorem plainChar_of_toNat (c : Char) (h1 : c.toNat ≠ 34) (h2 : c.toNat ≠ 92) (h3 : 32 ≤ c.toNat) :
    plainChar c := by
  refine ⟨?_, ?_, h3⟩
  · intro h
    rw [h] at h1
    exact h1 (by decide)
  · intro h
    rw [h] at h2
    exact h2 (by decide)

theorem plainChar_digit (c : Char) (h : isDigit c = true) : plainChar c := by
  rw [isDigit_iff] at h
  exact plainChar_of_toNat c (by omega) (by omega) (by omega)

theorem plainChar_digitChar (d : Nat) (h : d < 10) : plainChar (digitChar d) :=
  plainChar_digit _ (isDigit_digitChar d h)

theorem formatNano_plain (nano : Nat) (h : nano < 10 ^ 9) : ∀ c ∈ formatNano nano, plainChar c := by
  intro c hc
  unfold formatNano at hc
  by_cases h0 : nano = 0
  · simp [h0] at hc
  · simp only [h0, if_false, List.mem_cons] at hc
    rcases hc with hc | hc
    · subst hc
      exact plainChar_of_toNat _ (by decide) (by decide) (by decide)
    · obtain ⟨hlen, hall, -⟩ := appendInt_nine nano h
      obtain ⟨-, -, h3⟩ := trimZeros_spec (appendInt (nano : Int) 9) (by omega)
      exact plainChar_digit c (hall c (h3 c hc))

theorem formatZone_plain (offset : Int) (hmin : offset % 60 = 0) (hlo : -86400 < offset)
    (hhi : offset < 86400) : ∀ c ∈ formatZone offset, plainChar c := by
  obtain ⟨k, hk⟩ : ∃ k : Int, offset = 60 * k := ⟨offset / 60, by omega⟩
  have hdiv : offset.tdiv 60 = k := by
    rw [hk]
    exact Int.mul_tdiv_cancel_left k (by decide)
  intro c hc
  unfold formatZone at hc
  by_cases h0 : offset = 0
  · simp only [h0, if_true, List.mem_singleton] at hc
    subst hc
    exact plainChar_of_toNat _ (by decide) (by decide) (by decide)
  · simp only [h0, if_false, hdiv] at hc
    have hh : k.natAbs / 60 < 100 := by omega
    have hm : k.natAbs % 60 < 100 := by omega
    rw [appendInt_two _ hh, appendInt_two _ hm] at hc
    simp only [List.cons_append, List.nil_append, List.mem_cons, List.mem_singleton,
      List.not_mem_nil, or_false] at hc
    rcases hc with hc | hc | hc | hc | hc | hc
    · subst hc
      split_ifs <;> exact plainChar_of_toNat _ (by decide) (by decide) (by decide)
    · subst hc; exact plainChar_digitChar _ (by omega)
    · subst hc; exact plainChar_digitChar _ (by omega)
    · subst hc; exact plainChar_of_toNat _ (by decide) (by decide) (by decide)
    · subst hc; exact plainChar_digitChar _ (by omega)
    · subst hc; exact plainChar_digitChar _ (by omega)

theorem timeText_plain (t : GoTime) (h : t.jsonSafe) :
    ∀ c ∈ appendInt t.year 4 ++ '-' :: appendInt t.month 2 ++ '-' :: appendInt t.day 2 ++
          'T' :: appendInt t.hour 2 ++ ':' :: appendInt t.minute 2 ++ ':' ::
          appendInt t.second 2 ++ formatNano t.nano ++ formatZone t.offset, plainChar c := by
  obtain ⟨hy0, hy1, hm0, hm1, hd0, hd1, hh, hmi, hs, hn, hmin, hlo, hhi⟩ := h
  obtain ⟨y, hy⟩ : ∃ y : Nat, t.year = (y : Int) := ⟨t.year.toNat, by omega⟩
  have hylt : y < 10000 := by omega
  have hdl : t.day ≤ 31 := by
    have : daysIn t.month t.year.toNat ≤ 31 := by
      unfold daysIn
      split_ifs <;> omega
    omega
  rw [hy, appendInt_four y hylt, appendInt_two t.month (by omega), appendInt_two t.day (by omega),
    appendInt_two t.hour (by omega), appendInt_two t.minute (by omega),
    appendInt_two t.second (by omega)]
  intro c hc
  simp only [List.cons_append, List.nil_append, List.append_assoc, List.mem_cons,
    List.mem_append] at hc
  rcases hc with hc | hc | hc | hc | hc | hc | hc | hc | hc | hc | hc | hc | hc | hc | hc | hc |
    hc | hc | hc | hc | hc
  all_goals first
    | exact formatNano_plain t.nano hn c hc
    | exact formatZone_plain t.offset hmin hlo hhi c hc
    | (subst hc; apply plainChar_of_toNat <;> decide)
    | (subst hc; apply plainChar_digitChar; omega)

theorem parseValue_plain (fuel : Nat) (cs rest : List Char) (h : ∀ c ∈ cs, plainChar c) :
    parseValue (fuel + 1) ('"' :: (cs ++ '"' :: rest)) = some (.str cs cs, rest) := by
  rw [parseValue_quote, parseStrBody_plain cs rest h]

end Json

namespace Json

/-! ## The object of a `User` -/

theorem parseMembers_cons (fuel : Nat) (key vt more : List Char) (v : JVal)
    (hkey : ∀ c ∈ key, plainChar c)
    (hv : parseValue (fuel + 1) (vt ++ ',' :: more) = some (v, ',' :: more)) :
    parseMembers (fuel + 2) ('"' :: (key ++ '"' :: ':' :: (vt ++ ',' :: more)))
      = match parseMembers (fuel + 1) more with
        | some (ms, r) => some ((key, v) :: ms, r)
        | none => none := by
  have h1 : ∀ xs : List Char, skipWs ('"' :: xs) = '"' :: xs := fun _ => rfl
  have h2 : ∀ xs : List Char, skipWs (':' :: xs) = ':' :: xs := fun _ => rfl
  have h3 : ∀ xs : List Char, skipWs (',' :: xs) = ',' :: xs := fun _ => rfl
  rw [parseMembers]
  simp only [h1, parseStrBody_plain key _ hkey, h2, hv, h3]

theorem parseMembers_last (fuel : Nat) (key vt : List Char) (v : JVal)
    (hkey : ∀ c ∈ key, plainChar c)
    (hv : parseValue (fuel + 1) (vt ++ ['}']) = some (v, ['}'])) :
    parseMembers (fuel + 2) ('"' :: (key ++ '"' :: ':' :: (vt ++ ['}'])))
      = some ([(key, v)], []) := by
  have h1 : ∀ xs : List Char, skipWs ('"' :: xs) = '"' :: xs := fun _ => rfl
  have h2 : ∀ xs : List Char, skipWs (':' :: xs) = ':' :: xs := fun _ => rfl
  have h3 : ∀ xs : List Char, skipWs ('}' :: xs) = '}' :: xs := fun _ => rfl
  rw [parseMembers]
  simp only [h1, parseStrBody_plain key _ hkey, h2, hv, h3]

theorem parseValue_object (fuel : Nat) (cs : List Char) :
    parseValue (fuel + 1) ('{' :: '"' :: cs)
      = match parseMembers fuel ('"' :: cs) with
        | some (members, rest) => some (.obj members, rest)
        | none => none := rfl

end Json

namespace Json

theorem setField_id (u : User) (neg : Bool) (ds : List Char) (integral : Bool) :
    setField u ['i', 'd'] (.num neg ds integral)
      = (decodeInt neg ds integral).map fun n => { u with ID := n } := rfl

theorem setField_username (u : User) (raw val : List Char) :
    setField u ['u', 's', 'e', 'r', 'n', 'a', 'm', 'e'] (.str raw val)
      = .ok { u with Username := val.map GoChar.rune } := rfl

theorem setField_email (u : User) (raw val : List Char) :
    setField u ['e', 'm', 'a', 'i', 'l'] (.str raw val)
      = .ok { u with Email := val.map GoChar.rune } := rfl

theorem setField_age (u : User) (neg : Bool) (ds : List Char) (integral : Bool) :
    setField u ['a', 'g', 'e'] (.num neg ds integral)
      = (decodeInt neg ds integral).map fun n => { u with Age := n } := rfl

theorem setField_created_at (u : User) (raw val : List Char) :
    setField u ['c', 'r', 'e', 'a', 't', 'e', 'd', '_', 'a', 't'] (.str raw val)
      = match parseTime raw with
        | some t => .ok { u with CreatedAt := t }
        | none => .error (.leaf "parsing time: cannot parse as RFC 3339") := rfl

theorem setField_updated_at (u : User) (raw val : List Char) :
    setField u ['u', 'p', 'd', 'a', 't', 'e', 'd', '_', 'a', 't'] (.str raw val)
      = match parseTime raw with
        | some t => .ok { u with UpdatedAt := t }
        | none => .error (.leaf "parsing time: cannot parse as RFC 3339") := rfl

end Json

namespace Json

/-- The text `json.Marshal` writes for a user, given the texts of the two timestamps. -/
theorem marshalUser_text (u : User) (created updated : List Char)
    (hc : formatTime u.CreatedAt = .ok created) (hu : formatTime u.UpdatedAt = .ok updated) :
    marshalUser u
      = .ok ('{' :: '"' :: (['i', 'd'] ++ '"' :: ':' :: (encodeInt u.ID ++ ',' ::
          '"' :: (['u', 's', 'e', 'r', 'n', 'a', 'm', 'e'] ++ '"' :: ':' ::
            (encodeString u.Username ++ ',' ::
          '"' :: (['e', 'm', 'a', 'i', 'l'] ++ '"' :: ':' :: (encodeString u.Email ++ ',' ::
          '"' :: (['a', 'g', 'e'] ++ '"' :: ':' :: (encodeInt u.Age ++ ',' ::
          '"' :: (['c', 'r', 'e', 'a', 't', 'e', 'd', '_', 'a', 't'] ++ '"' :: ':' ::
            (('"' :: (created ++ ['"'])) ++ ',' ::
          '"' :: (['u', 'p', 'd', 'a', 't', 'e', 'd', '_', 'a', 't'] ++ '"' :: ':' ::
            (('"' :: (updated ++ ['"'])) ++ ['}']))))))))))))) := by
  have k1 : "\x7b\"id\":".toList = ['{', '"', 'i', 'd', '"', ':'] := rfl
  have k2 : ",\"username\":".toList
      = [',', '"', 'u', 's', 'e', 'r', 'n', 'a', 'm', 'e', '"', ':'] := rfl
  have k3 : ",\"email\":".toList = [',', '"', 'e', 'm', 'a', 'i', 'l', '"', ':'] := rfl
  have k4 : ",\"age\":".toList = [',', '"', 'a', 'g', 'e', '"', ':'] := rfl
  have k5 : ",\"created_at\":\"".toList
      = [',', '"', 'c', 'r', 'e', 'a', 't', 'e', 'd', '_', 'a', 't', '"', ':', '"'] := rfl
  have k6 : "\",\"updated_at\":\"".toList
      = ['"', ',', '"', 'u', 'p', 'd', 'a', 't', 'e', 'd', '_', 'a', 't', '"', ':', '"'] := rfl
  have k7 : "\"\x7d".toList = ['"', '}'] := rfl
  simp only [marshalUser, hc, hu, k1, k2, k3, k4, k5, k6, k7, List.append_assoc, List.cons_append,
    List.nil_append]

theorem plain_keys :
    (∀ c ∈ ['i', 'd'], plainChar c) ∧
    (∀ c ∈ ['u', 's', 'e', 'r', 'n', 'a', 'm', 'e'], plainChar c) ∧
    (∀ c ∈ ['e', 'm', 'a', 'i', 'l'], plainChar c) ∧
    (∀ c ∈ ['a', 'g', 'e'], plainChar c) ∧
    (∀ c ∈ ['c', 'r', 'e', 'a', 't', 'e', 'd', '_', 'a', 't'], plainChar c) ∧
    (∀ c ∈ ['u', 'p', 'd', 'a', 't', 'e', 'd', '_', 'a', 't'], plainChar c) := by
  decide

end Json

namespace Json

theorem parseJson_object (cs : List Char) (ms : List (List Char × JVal))
    (h : ∀ f, parseMembers (f + 7) ('"' :: cs) = some (ms, [])) (hlen : 7 ≤ cs.length) :
    parseJson ('{' :: '"' :: cs) = some (.obj ms) := by
  obtain ⟨f, hf⟩ : ∃ f, ('{' :: '"' :: cs).length + 1 = f + 7 + 1 := ⟨cs.length - 5, by
    simp only [List.length_cons]
    omega⟩
  unfold parseJson
  rw [hf, parseValue_object, h f]
  rfl

/-- What `json.Unmarshal` reads from the text `json.Marshal` wrote for a user whose integers and
timestamps are safe: the user with its strings coerced to valid UTF-8. -/
theorem unmarshal_marshal_coerced (u : User) (hid : IsInt u.ID) (hage : IsInt u.Age)
    (hc : u.CreatedAt.jsonSafe) (hu : u.UpdatedAt.jsonSafe) :
    ∃ cs, marshalUser u = .ok cs ∧
      unmarshalUser cs = .ok { u with
        Username := (u.Username.map coerced).map GoChar.rune,
        Email := (u.Email.map coerced).map GoChar.rune } := by
  obtain ⟨p1, p2, p3, p4, p5, p6⟩ := plain_keys
  refine ⟨_, marshalUser_text u _ _ (formatTime_ok _ hc) (formatTime_ok _ hu), ?_⟩
  generalize hcre : appendInt u.CreatedAt.year 4 ++ '-' :: appendInt u.CreatedAt.month 2 ++ '-' ::
    appendInt u.CreatedAt.day 2 ++ 'T' :: appendInt u.CreatedAt.hour 2 ++ ':' ::
    appendInt u.CreatedAt.minute 2 ++ ':' :: appendInt u.CreatedAt.second 2 ++
    formatNano u.CreatedAt.nano ++ formatZone u.CreatedAt.offset = created
  generalize hupd : appendInt u.UpdatedAt.year 4 ++ '-' :: appendInt u.UpdatedAt.month 2 ++ '-' ::
    appendInt u.UpdatedAt.day 2 ++ 'T' :: appendInt u.UpdatedAt.hour 2 ++ ':' ::
    appendInt u.UpdatedAt.minute 2 ++ ':' :: appendInt u.UpdatedAt.second 2 ++
    formatNano u.UpdatedAt.nano ++ formatZone u.UpdatedAt.offset = updated
  have hcp : ∀ c ∈ created, plainChar c := hcre ▸ timeText_plain _ hc
  have hup : ∀ c ∈ updated, plainChar c := hupd ▸ timeText_plain _ hu
  have hct : parseTime created = some u.CreatedAt := hcre ▸ parseTime_formatTime _ hc
  have hut : parseTime updated = some u.UpdatedAt := hupd ▸ parseTime_formatTime _ hu
  -- the members, from the last to the first
  have m6 : ∀ f, parseMembers (f + 2) ('"' :: (['u', 'p', 'd', 'a', 't', 'e', 'd', '_', 'a', 't'] ++
      '"' :: ':' :: (('"' :: (updated ++ ['"'])) ++ ['}'])))
      = some ([(['u', 'p', 'd', 'a', 't', 'e', 'd', '_', 'a', 't'], .str updated updated)], []) := by
    intro f
    apply parseMembers_last f _ _ _ p6
    have := parseValue_plain f updated ['}'] hup
    simpa using this
  have m5 : ∀ f, parseMembers (f + 3)
      ('"' :: (['c', 'r', 'e', 'a', 't', 'e', 'd', '_', 'a', 't'] ++ '"' :: ':' ::
        (('"' :: (created ++ ['"'])) ++ ',' ::
      '"' :: (['u', 'p', 'd', 'a', 't', 'e', 'd', '_', 'a', 't'] ++
      '"' :: ':' :: (('"' :: (updated ++ ['"'])) ++ ['}'])))))
      = some ([(['c', 'r', 'e', 'a', 't', 'e', 'd', '_', 'a', 't'], .str created created),
          (['u', 'p', 'd', 'a', 't', 'e', 'd', '_', 'a', 't'], .str updated updated)], []) := by
    intro f
    rw [parseMembers_cons (f + 1) _ _ _ (.str created created) p5 (by
      have := parseValue_plain (f + 1) created (',' :: '"' ::
        (['u', 'p', 'd', 'a', 't', 'e', 'd', '_', 'a', 't'] ++
          '"' :: ':' :: (('"' :: (updated ++ ['"'])) ++ ['}']))) hcp
      simpa using this), m6 f]
  have m4 : ∀ f, parseMembers (f + 4) ('"' :: (['a', 'g', 'e'] ++ '"' :: ':' :: (encodeInt u.Age ++ ',' ::
      '"' :: (['c', 'r', 'e', 'a', 't', 'e', 'd', '_', 'a', 't'] ++ '"' :: ':' ::
        (('"' :: (created ++ ['"'])) ++ ',' ::
      '"' :: (['u', 'p', 'd', 'a', 't', 'e', 'd', '_', 'a', 't'] ++
      '"' :: ':' :: (('"' :: (updated ++ ['"'])) ++ ['}'])))))))
      = some ([(['a', 'g', 'e'], .num (decide (u.Age < 0)) (natDigits u.Age.natAbs) true),
          (['c', 'r', 'e', 'a', 't', 'e', 'd', '_', 'a', 't'], .str created created),
          (['u', 'p', 'd', 'a', 't', 'e', 'd', '_', 'a', 't'], .str updated updated)], []) := by
    intro f
    rw [parseMembers_cons (f + 2) _ _ _ _ p4 (parseValue_encodeInt (f + 2) u.Age _), m5 f]
  have m3 : ∀ f, parseMembers (f + 5) ('"' :: (['e', 'm', 'a', 'i', 'l'] ++ '"' :: ':' ::
      (encodeString u.Email ++ ',' ::
      '"' :: (['a', 'g', 'e'] ++ '"' :: ':' :: (encodeInt u.Age ++ ',' ::
      '"' :: (['c', 'r', 'e', 'a', 't', 'e', 'd', '_', 'a', 't'] ++ '"' :: ':' ::
        (('"' :: (created ++ ['"'])) ++ ',' ::
      '"' :: (['u', 'p', 'd', 'a', 't', 'e', 'd', '_', 'a', 't'] ++
      '"' :: ':' :: (('"' :: (updated ++ ['"'])) ++ ['}'])))))))))
      = some ([(['e', 'm', 'a', 'i', 'l'], .str (escapeAll u.Email) (u.Email.map coerced)),
          (['a', 'g', 'e'], .num (decide (u.Age < 0)) (natDigits u.Age.natAbs) true),
          (['c', 'r', 'e', 'a', 't', 'e', 'd', '_', 'a', 't'], .str created created),
          (['u', 'p', 'd', 'a', 't', 'e', 'd', '_', 'a', 't'], .str updated updated)], []) := by
    intro f
    rw [parseMembers_cons (f + 3) _ _ _ _ p3 (parseValue_encodeString (f + 3) u.Email _), m4 f]
  have m2 : ∀ f, parseMembers (f + 6) ('"' :: (['u', 's', 'e', 'r', 'n', 'a', 'm', 'e'] ++ '"' :: ':' ::
      (encodeString u.Username ++ ',' ::
      '"' :: (['e', 'm', 'a', 'i', 'l'] ++ '"' :: ':' :: (encodeString u.Email ++ ',' ::
      '"' :: (['a', 'g', 'e'] ++ '"' :: ':' :: (encodeInt u.Age ++ ',' ::
      '"' :: (['c', 'r', 'e', 'a', 't', 'e', 'd', '_', 'a', 't'] ++ '"' :: ':' ::
        (('"' :: (created ++ ['"'])) ++ ',' ::
      '"' :: (['u', 'p', 'd', 'a', 't', 'e', 'd', '_', 'a', 't'] ++
      '"' :: ':' :: (('"' :: (updated ++ ['"'])) ++ ['}'])))))))))))
      = some ([(['u', 's', 'e', 'r', 'n', 'a', 'm', 'e'],
            .str (escapeAll u.Username) (u.Username.map coerced)),
          (['e', 'm', 'a', 'i', 'l'], .str (escapeAll u.Email) (u.Email.map coerced)),
          (['a', 'g', 'e'], .num (decide (u.Age < 0)) (natDigits u.Age.natAbs) true),
          (['c', 'r', 'e', 'a', 't', 'e', 'd', '_', 'a', 't'], .str created created),
          (['u', 'p', 'd', 'a', 't', 'e', 'd', '_', 'a', 't'], .str updated updated)], []) := by
    intro f
    rw [parseMembers_cons (f + 4) _ _ _ _ p2 (parseValue_encodeString (f + 4) u.Username _), m3 f]
  have m1 : ∀ f, parseMembers (f + 7) ('"' :: (['i', 'd'] ++ '"' :: ':' :: (encodeInt u.ID ++ ',' ::
      '"' :: (['u', 's', 'e', 'r', 'n', 'a', 'm', 'e'] ++ '"' :: ':' ::
      (encodeString u.Username ++ ',' ::
      '"' :: (['e', 'm', 'a', 'i', 'l'] ++ '"' :: ':' :: (encodeString u.Email ++ ',' ::
      '"' :: (['a', 'g', 'e'] ++ '"' :: ':' :: (encodeInt u.Age ++ ',' ::
      '"' :: (['c', 'r', 'e', 'a', 't', 'e', 'd', '_', 'a', 't'] ++ '"' :: ':' ::
        (('"' :: (created ++ ['"'])) ++ ',' ::
      '"' :: (['u', 'p', 'd', 'a', 't', 'e', 'd', '_', 'a', 't'] ++
      '"' :: ':' :: (('"' :: (updated ++ ['"'])) ++ ['}'])))))))))))))
      = some ([(['i', 'd'], .num (decide (u.ID < 0)) (natDigits u.ID.natAbs) true),
          (['u', 's', 'e', 'r', 'n', 'a', 'm', 'e'],
            .str (escapeAll u.Username) (u.Username.map coerced)),
          (['e', 'm', 'a', 'i', 'l'], .str (escapeAll u.Email) (u.Email.map coerced)),
          (['a', 'g', 'e'], .num (decide (u.Age < 0)) (natDigits u.Age.natAbs) true),
          (['c', 'r', 'e', 'a', 't', 'e', 'd', '_', 'a', 't'], .str created created),
          (['u', 'p', 'd', 'a', 't', 'e', 'd', '_', 'a', 't'], .str updated updated)], []) := by
    intro f
    rw [parseMembers_cons (f + 5) _ _ _ _ p1 (parseValue_encodeInt (f + 5) u.ID _), m2 f]
  have hparse := parseJson_object _ _ m1 (by
    simp only [List.length_cons, List.length_append, List.length_nil]
    omega)
  unfold unmarshalUser
  rw [if_neg (by simp), hparse]
  simp only [setFields, setField_id, setField_username, setField_email, setField_age,
    setField_created_at, setField_updated_at, decodeInt_encodeInt u.ID hid,
    decodeInt_encodeInt u.Age hage, hct, hut, Except.map, zeroUser]

end Json

/-! ## The JSON codec -/

theorem roundTrip_eq_some (c : Codec) (u v : User) :
    roundTrip c u = some v ↔ ∃ payload, c.marshal u = .ok payload ∧ c.unmarshal payload = .ok v := by
  unfold roundTrip
  cases hm : c.marshal u with
  | error e => simp
  | ok payload =>
    cases hu : c.unmarshal payload with
    | error e => simp [hu]
    | ok v' => simp [hu]

theorem goJSON_roundTrip_coerced (u : User) (hid : IsInt u.ID) (hage : IsInt u.Age)
    (hc : u.CreatedAt.jsonSafe) (hu : u.UpdatedAt.jsonSafe) :
    roundTrip goJSON u = some { u with
      Username := (u.Username.map Json.coerced).map GoChar.rune,
      Email := (u.Email.map Json.coerced).map GoChar.rune } := by
  obtain ⟨cs, hm, hun⟩ := Json.unmarshal_marshal_coerced u hid hage hc hu
  rw [roundTrip_eq_some]
  exact ⟨String.mk cs, by simp [goJSON, hm, Except.map], by simpa [goJSON] using hun⟩

theorem goJSON_roundTrip (u : User) (h : u.jsonSafe) : roundTrip goJSON u = some u := by
  obtain ⟨hid, hage, hun, hem, hc, hu⟩ := h
  rw [goJSON_roundTrip_coerced u hid hage hc hu, Json.map_coerced_of_valid _ hun,
    Json.map_coerced_of_valid _ hem]

theorem alice_jsonSafe : alice.jsonSafe := by decide

theorem alice26_jsonSafe : alice26.jsonSafe := by decide

/-! ## Plain cache-aside -/

/-- What `userService.GetUserByID` does on a cold key when nothing fails. -/
theorem userService_get_cold (c : Codec) (w : World) (r : User) (payload : String)
    (hrow : w.rows r.ID = some r) (hcold : w.live (getUserKey r.ID) = none)
    (hrds : w.rdsFaults = []) (hrepo : w.repoFaults = [])
    (hmarshal : c.marshal r = .ok payload) :
    userService.GetUserByID c w r.ID
      = ((some r, none),
          (((((w.log (.cacheGetUser r.ID)).log (.rdsGet (getUserKey r.ID))).log
            (.repoFindByID r.ID)).log (.cacheSetUser (some r.ID) DefaultExpireSeconds)).log
            (.rdsSetex (getUserKey r.ID) payload DefaultExpireSeconds)).put
            (getUserKey r.ID) payload DefaultExpireSeconds) := by
  obtain ⟨e, he, -⟩ := c.unmarshal_empty
  have h300 : (0 : Int) < DefaultExpireSeconds := by decide
  unfold userService.GetUserByID userCache.GetUser userCache.SetUser
  rw [getUserBody_miss c _ _ e (by simpa using hrds) (by simpa using hcold) he]
  simp only []
  rw [repoFindByID_found _ _ r (by simpa using hrepo) (by simpa using hrow)]
  simp only []
  rw [setUserBody_ok c _ r payload _ (by simpa using hrds) hmarshal h300]
  rfl

/-- What `userService.GetUserByID` does on a key that holds a decodable payload. -/
theorem userService_get_hit (c : Codec) (w : World) (id : Int) (entry : Entry) (user : User)
    (hrds : w.rdsFaults = []) (hlive : w.live (getUserKey id) = some entry)
    (hu : c.unmarshal entry.value = .ok user) :
    userService.GetUserByID c w id
      = ((some user, none), (w.log (.cacheGetUser id)).log (.rdsGet (getUserKey id))) := by
  unfold userService.GetUserByID userCache.GetUser
  rw [getUserBody_hit c _ _ entry user (by simpa using hrds) (by simpa using hlive) hu]

/-- The world after a successful `SetUser` of `r`: the entry stays readable for
`DefaultExpireSeconds`. -/
theorem userService_get_cold_spec (c : Codec) (w : World) (r : User) (payload : String)
    (hrow : w.rows r.ID = some r) (hcold : w.live (getUserKey r.ID) = none)
    (hrds : w.rdsFaults = []) (hrepo : w.repoFaults = [])
    (hmarshal : c.marshal r = .ok payload) :
    ∃ w1, userService.GetUserByID c w r.ID = ((some r, none), w1) ∧
      w1.rdsFaults = [] ∧ w1.repoFaults = [] ∧ w1.rows = w.rows ∧
      w1.findByIDCalls = w.findByIDCalls + 1 ∧ w1.setUserCalls = w.setUserCalls + 1 ∧
      ∀ d : Nat, (d : Int) < DefaultExpireSeconds →
        ∃ entry, (w1.advance d).live (getUserKey r.ID) = some entry ∧ entry.value = payload := by
  refine ⟨_, userService_get_cold c w r payload hrow hcold hrds hrepo hmarshal,
    by simpa using hrds, by simpa using hrepo, by simp, by simp, by simp, ?_⟩
  intro d hd
  exact ⟨_, World.live_advance_put _ _ _ _ d hd, rfl⟩

/-- C1, amended. Plain cache-aside (`userService.GetUserByID`), Redis and repository calls succeeding,
for a record `r` of the repository that survives the JSON codec and a key `user:<id>` without a
live entry: the first `GetUserByID(id)` makes exactly one `repo.FindByID` call and exactly one
cache `SetUser` call and returns `r`; a second `GetUserByID(id)` less than
`DefaultExpireSeconds` later makes no `repo.FindByID` call and returns `r` again. -/
theorem userService_cache_aside (c : Codec) (w : World) (id : Int) (r : User) (d : Nat)
    (hrow : w.rows id = some r) (hid : r.ID = id)
    (hcold : w.live (getUserKey id) = none)
    (hrds : w.rdsFaults = []) (hrepo : w.repoFaults = [])
    (hcodec : roundTrip c r = some r)
    (hd : (d : Int) < DefaultExpireSeconds) :
    let first := userService.GetUserByID c w id
    let second := userService.GetUserByID c (first.2.advance d) id
    first.1 = (some r, none) ∧
    first.2.findByIDCalls = w.findByIDCalls + 1 ∧
    first.2.setUserCalls = w.setUserCalls + 1 ∧
    second.1 = (some r, none) ∧
    second.2.findByIDCalls = first.2.findByIDCalls := by
  obtain ⟨payload, hmarshal, hunmarshal⟩ := (roundTrip_eq_some c r r).mp hcodec
  subst hid
  obtain ⟨w1, h1, hf1, -, -, hc1, hs1, hlive⟩ :=
    userService_get_cold_spec c w r payload hrow hcold hrds hrepo hmarshal
  obtain ⟨entry, hentry, hval⟩ := hlive d hd
  have h2 := userService_get_hit c (w1.advance d) r.ID entry r (by simpa using hf1) hentry
    (by rw [hval]; exact hunmarshal)
  simp only [h1, h2]
  exact ⟨trivial, hc1, hs1, trivial, by simp⟩

/-- C1, amended, at the example scenario: the record of `alice` under id 1, a cold cache, the second read
one second after the first. -/
theorem userService_cache_aside_witness :
    (userService.GetUserByID goJSON aliceWorld 1).1 = (some alice, none) ∧
    (userService.GetUserByID goJSON aliceWorld 1).2.findByIDCalls = aliceWorld.findByIDCalls + 1 ∧
    (userService.GetUserByID goJSON aliceWorld 1).2.setUserCalls = aliceWorld.setUserCalls + 1 ∧
    (userService.GetUserByID goJSON
        ((userService.GetUserByID goJSON aliceWorld 1).2.advance 1) 1).1 = (some alice, none) ∧
    (userService.GetUserByID goJSON
        ((userService.GetUserByID goJSON aliceWorld 1).2.advance 1) 1).2.findByIDCalls
      = (userService.GetUserByID goJSON aliceWorld 1).2.findByIDCalls :=
  userService_cache_aside goJSON aliceWorld 1 alice 1 (by decide) rfl rfl rfl rfl
    (goJSON_roundTrip alice alice_jsonSafe) (by decide)

set_option maxRecDepth 1000000 in
/-- C1 as stated fails for a repository record that does not survive serialization: the row of
id 2 has the invalid byte 0xff as `Username`; the first `GetUserByID(2)` returns it as the
repository holds it, the second, one second later and served from the cache without a
`repo.FindByID` call, returns a record whose `Username` is U+FFFD, not equal to the first. -/
theorem userService_cache_aside_counterexample :
    (userService.GetUserByID goJSON (emptyWorld.setRow mallory) 2).1 = (some mallory, none) ∧
    (userService.GetUserByID goJSON
        ((userService.GetUserByID goJSON (emptyWorld.setRow mallory) 2).2.advance 1) 2).1
      = (some { mallory with Username := [GoChar.rune (Char.ofNat 65533)] }, none) ∧
    (userService.GetUserByID goJSON
        ((userService.GetUserByID goJSON (emptyWorld.setRow mallory) 2).2.advance 1) 2).1
      ≠ (userService.GetUserByID goJSON (emptyWorld.setRow mallory) 2).1 := by
  decide

/-! ## Null-marker strategy -/

theorem errorsIs_wrap (msg : String) (e target : GoError) :
    errorsIs (.wrap msg e) target = ((GoError.wrap msg e == target) || errorsIs e target) := by
  rw [errorsIs]

theorem SetNullUser_ok (w : World) (id : Int) (h : w.rdsFaults = []) :
    userCacheWithPenetration.SetNullUser w id
      = (none, ((w.log (.cacheSetNullUser id)).log
          (.rdsSetex (getUserKey id) NullCacheValue NullCacheExpireSeconds)).put
          (getUserKey id) NullCacheValue NullCacheExpireSeconds) := by
  unfold userCacheWithPenetration.SetNullUser
  simp only []
  rw [rdsSetex_ok _ _ _ _ (by simpa using h) (by decide)]

/-- What `userServiceWithPenetration.GetUserByID` does for an absent id on a cold key when
nothing fails. -/
theorem penetration_get_cold (c : Codec) (w : World) (id : Int)
    (hrow : w.rows id = none) (hcold : w.live (getUserKey id) = none)
    (hrds : w.rdsFaults = []) (hrepo : w.repoFaults = []) :
    userServiceWithPenetration.GetUserByID c w id
      = ((none, some (userNotFound id)),
          (((((w.log (.cacheGetUser id)).log (.rdsGet (getUserKey id))).log
            (.repoFindByID id)).log (.cacheSetNullUser id)).log
            (.rdsSetex (getUserKey id) NullCacheValue NullCacheExpireSeconds)).put
            (getUserKey id) NullCacheValue NullCacheExpireSeconds) := by
  obtain ⟨e, he, hne⟩ := c.unmarshal_empty
  have hnull : ("" : String) ≠ NullCacheValue := by decide
  unfold userServiceWithPenetration.GetUserByID userCacheWithPenetration.GetUser
  simp only []
  rw [rdsGet_ok _ _ (by simpa using hrds)]
  simp only [World.live_log, hcold, hnull, if_false, he, errorsIs_wrap, hne, ErrNullCache,
    Option.map_some', Option.getD_some]
  rw [repoFindByID_absent _ _ (by simpa using hrepo) (by simpa using hrow)]
  cases hn : w.nilOnMiss <;>
    simp [hn, errorsIs, SetNullUser_ok _ _ (show (((w.log (.cacheGetUser id)).log
      (.rdsGet (getUserKey id))).log (.repoFindByID id)).rdsFaults = [] from by simpa using hrds)]

/-- What `userServiceWithPenetration.GetUserByID` does on a key that holds the absent-marker. -/
theorem penetration_get_marker (c : Codec) (w : World) (id : Int) (entry : Entry)
    (hrds : w.rdsFaults = []) (hlive : w.live (getUserKey id) = some entry)
    (hval : entry.value = NullCacheValue) :
    userServiceWithPenetration.GetUserByID c w id
      = ((none, some (userNotFound id)),
          (w.log (.cacheGetUser id)).log (.rdsGet (getUserKey id))) := by
  unfold userServiceWithPenetration.GetUserByID userCacheWithPenetration.GetUser
  simp only []
  rw [rdsGet_ok _ _ (by simpa using hrds)]
  simp [hlive, hval, ErrNullCache, errorsIs]

/-- C2, amended. Null-marker strategy (`userServiceWithPenetration.GetUserByID`), Redis and
repository calls succeeding, for an id with no repository record and no live cache entry: the
first `GetUserByID(id)` returns the not-found error, makes one `repo.FindByID` call and leaves
the absent-marker `"NULL"` at `user:<id>`, expiring `NullCacheExpireSeconds` later; a second
`GetUserByID(id)` less than `NullCacheExpireSeconds` later returns the not-found error and makes
no `repo.FindByID` call. -/
theorem penetration_null_marker (c : Codec) (w : World) (id : Int) (d : Nat)
    (hrow : w.rows id = none) (hcold : w.live (getUserKey id) = none)
    (hrds : w.rdsFaults = []) (hrepo : w.repoFaults = [])
    (hd : (d : Int) < NullCacheExpireSeconds) :
    let first := userServiceWithPenetration.GetUserByID c w id
    let second := userServiceWithPenetration.GetUserByID c (first.2.advance d) id
    first.1 = (none, some (userNotFound id)) ∧
    first.2.findByIDCalls = w.findByIDCalls + 1 ∧
    first.2.live (getUserKey id)
      = some { value := NullCacheValue, expireAt := w.now + NullCacheExpireSeconds.toNat } ∧
    second.1 = (none, some (userNotFound id)) ∧
    second.2.findByIDCalls = first.2.findByIDCalls := by
  have h1 := penetration_get_cold c w id hrow hcold hrds hrepo
  generalize hw0 : ((((w.log (.cacheGetUser id)).log (.rdsGet (getUserKey id))).log
    (.repoFindByID id)).log (.cacheSetNullUser id)).log
    (.rdsSetex (getUserKey id) NullCacheValue NullCacheExpireSeconds) = w0 at h1
  have hw0f : w0.rdsFaults = [] := by rw [← hw0]; simpa using hrds
  have hw0c : w0.findByIDCalls = w.findByIDCalls + 1 := by rw [← hw0]; simp
  have hw0n : w0.now = w.now := by rw [← hw0]; simp
  have hlive := World.live_advance_put w0 (getUserKey id) NullCacheValue
    NullCacheExpireSeconds d hd
  have h2 := penetration_get_marker c _ id _ (by simpa using hw0f) hlive rfl
  have hput : (w0.put (getUserKey id) NullCacheValue NullCacheExpireSeconds).live (getUserKey id)
      = some { value := NullCacheValue, expireAt := w.now + NullCacheExpireSeconds.toNat } := by
    rw [World.live_put, if_pos rfl, if_pos (by decide), hw0n]
  simp only [h1, h2]
  exact ⟨trivial, by simpa using hw0c, hput, trivial, by simp⟩

/-- C2, amended, at the id of the test: 88888 in the empty world, the second read one second
after the first. -/
theorem penetration_null_marker_witness :
    (userServiceWithPenetration.GetUserByID goJSON emptyWorld 88888).1
      = (none, some (userNotFound 88888)) ∧
    (userServiceWithPenetration.GetUserByID goJSON emptyWorld 88888).2.findByIDCalls
      = emptyWorld.findByIDCalls + 1 ∧
    (userServiceWithPenetration.GetUserByID goJSON emptyWorld 88888).2.live (getUserKey 88888)
      = some { value := NullCacheValue,
               expireAt := emptyWorld.now + NullCacheExpireSeconds.toNat } ∧
    (userServiceWithPenetration.GetUserByID goJSON
        ((userServiceWithPenetration.GetUserByID goJSON emptyWorld 88888).2.advance 1) 88888).1
      = (none, some (userNotFound 88888)) ∧
    (userServiceWithPenetration.GetUserByID goJSON
        ((userServiceWithPenetration.GetUserByID goJSON emptyWorld 88888).2.advance 1)
        88888).2.findByIDCalls
      = (userServiceWithPenetration.GetUserByID goJSON emptyWorld 88888).2.findByIDCalls :=
  penetration_null_marker goJSON emptyWorld 88888 1 rfl rfl rfl rfl (by decide)

/-- C2 as stated fails: when the `Setex` of the absent-marker fails (here the second Redis call
times out), the first `GetUserByID(88888)` returns the not-found error but leaves no marker, and
the second `GetUserByID(88888)` makes one more `repo.FindByID` call. -/
theorem penetration_null_marker_counterexample :
    (userServiceWithPenetration.GetUserByID goJSON
        (emptyWorld.setRdsFaults [none, some (.leaf "i/o timeout")]) 88888).1
      = (none, some (userNotFound 88888)) ∧
    (userServiceWithPenetration.GetUserByID goJSON
        (emptyWorld.setRdsFaults [none, some (.leaf "i/o timeout")]) 88888).2.live
        (getUserKey 88888) = none ∧
    (userServiceWithPenetration.GetUserByID goJSON
        (userServiceWithPenetration.GetUserByID goJSON
          (emptyWorld.setRdsFaults [none, some (.leaf "i/o timeout")]) 88888).2
        88888).2.findByIDCalls
      = (userServiceWithPenetration.GetUserByID goJSON
          (emptyWorld.setRdsFaults [none, some (.leaf "i/o timeout")]) 88888).2.findByIDCalls
        + 1 := by
  decide

/-! ## Bloom-gated strategy -/

theorem ExistsInBloomFilter_trace (w : World) (id : Int) :
    (userCacheWithBloom.ExistsInBloomFilter w id).2.trace
      = .bloomExists ("user:" ++ toString id) :: .cacheExistsInBloomFilter id :: w.trace := by
  unfold userCacheWithBloom.ExistsInBloomFilter bloomExists World.nextRdsFault
  simp only [World.log_rdsFaults]
  rcases hf : w.rdsFaults with _ | ⟨f, rest⟩
  · simp
  · cases f <;> simp

/-- C3, amended. Bloom-gated strategy (`userServiceWithBloom.GetUserByID`): for every id for
which `ExistsInBloomFilter(id)` answers `(false, nil)` (which it can only do for an id whose
bits are not all set), `GetUserByID(id)` returns the not-found error right after that check and
makes no cache `GetUser` call, no cache `SetUser` call and no `repo.FindByID` call. -/
theorem bloom_gate (c : Codec) (w : World) (id : Int)
    (hgate : (userCacheWithBloom.ExistsInBloomFilter w id).1 = (false, none)) :
    userServiceWithBloom.GetUserByID c w id
      = some ((none, some (userNotFound id)), (userCacheWithBloom.ExistsInBloomFilter w id).2) ∧
    (userCacheWithBloom.ExistsInBloomFilter w id).2.getUserCalls = w.getUserCalls ∧
    (userCacheWithBloom.ExistsInBloomFilter w id).2.setUserCalls = w.setUserCalls ∧
    (userCacheWithBloom.ExistsInBloomFilter w id).2.findByIDCalls = w.findByIDCalls := by
  have htr := ExistsInBloomFilter_trace w id
  rcases hres : userCacheWithBloom.ExistsInBloomFilter w id with ⟨⟨b, e⟩, w'⟩
  rw [hres] at hgate htr
  simp only [Prod.mk.injEq] at hgate
  obtain ⟨hb, he⟩ := hgate
  subst hb he
  simp only at htr
  refine ⟨by simp [userServiceWithBloom.GetUserByID, hres], ?_, ?_, ?_⟩ <;>
    simp [World.getUserCalls, World.setUserCalls, World.findByIDCalls, World.count, htr]

/-- C3, amended, at the id of the test: 99999 in the empty world, whose filter is empty. -/
theorem bloom_gate_witness :
    userServiceWithBloom.GetUserByID goJSON emptyWorld 99999
      = some ((none, some (userNotFound 99999)),
          (userCacheWithBloom.ExistsInBloomFilter emptyWorld 99999).2) ∧
    (userCacheWithBloom.ExistsInBloomFilter emptyWorld 99999).2.getUserCalls
      = emptyWorld.getUserCalls ∧
    (userCacheWithBloom.ExistsInBloomFilter emptyWorld 99999).2.setUserCalls
      = emptyWorld.setUserCalls ∧
    (userCacheWithBloom.ExistsInBloomFilter emptyWorld 99999).2.findByIDCalls
      = emptyWorld.findByIDCalls :=
  bloom_gate goJSON emptyWorld 99999 (by decide)

/-- C3 as stated fails. After only id 1 was added to the filter, id 2 was never added but passes
the filter (a false positive: both keys set the same bit), and `GetUserByID(2)` makes one cache
`GetUser` call and one `repo.FindByID` call. Likewise when the filter check itself fails (the
Redis call times out) for id 99999 on an empty filter. -/
theorem bloom_gate_counterexample :
    (userServiceWithBloom.GetUserByID goJSON
        (userCacheWithBloom.AddToBloomFilter emptyWorld 1).2 2).map
        (fun r => (r.1, r.2.getUserCalls, r.2.findByIDCalls))
      = some ((none, some (userNotFound 2)), 1, 1) ∧
    (userServiceWithBloom.GetUserByID goJSON
        (emptyWorld.setRdsFaults [some (.leaf "i/o timeout")]) 99999).map
        (fun r => (r.1, r.2.getUserCalls, r.2.findByIDCalls))
      = some ((none, some (userNotFound 99999)), 1, 1) := by
  decide

/-! ## Update strategies -/

/-- The world after a `repo.Update` that succeeded, and the struct it leaves. -/
theorem repoUpdate_success (w : World) (user : User) (h : (repoUpdate w user).1.1 = none) :
    (repoUpdate w user).2.rdsFaults = w.rdsFaults ∧
    (repoUpdate w user).2.store = w.store ∧
    (repoUpdate w user).2.now = w.now ∧
    (repoUpdate w user).2.trace = .repoUpdate user.ID :: w.trace ∧
    (repoUpdate w user).2.rows (repoUpdate w user).1.2.ID = some (repoUpdate w user).1.2 ∧
    (repoUpdate w user).1.2 = w.saved user := by
  unfold repoUpdate World.nextRepoFault at h ⊢
  simp only [World.log_repoFaults] at h ⊢
  rcases hf : w.repoFaults with _ | ⟨f, rest⟩
  · simp
  · cases f with
    | none => simp
    | some e => simp [hf] at h

/-- What `repo.Update` makes of the struct: name, mail address and age stay, the id stays when
there is one, and when the row exists `UpdatedAt` becomes the current time and nothing else
changes. -/
theorem repoUpdate_struct (w : World) (user : User) (h : (repoUpdate w user).1.1 = none) :
    (repoUpdate w user).1.2.Username = user.Username ∧
    (repoUpdate w user).1.2.Email = user.Email ∧
    (repoUpdate w user).1.2.Age = user.Age ∧
    (user.ID ≠ 0 → (repoUpdate w user).1.2.ID = user.ID) ∧
    (∀ row, user.ID ≠ 0 → w.rows user.ID = some row →
      (repoUpdate w user).1.2 = { user with UpdatedAt := w.clock }) := by
  rw [(repoUpdate_success w user h).2.2.2.2.2]
  obtain ⟨h1, h2, h3⟩ := w.saved_fields user
  exact ⟨h1, h2, h3, w.saved_ID user, fun row hid hrow => w.saved_of_row user row hid hrow⟩

/-- What `userServiceWithStrategy.GetUserByID` does on a key that holds a decodable payload. -/
theorem strategy_get_hit (c : Codec) (w : World) (id : Int) (entry : Entry) (user : User)
    (hrds : w.rdsFaults = []) (hlive : w.live (getUserKey id) = some entry)
    (hu : c.unmarshal entry.value = .ok user) :
    userServiceWithStrategy.GetUserByID c w id
      = ((some user, none), (w.log (.cacheGetUser id)).log (.rdsGet (getUserKey id))) := by
  unfold userServiceWithStrategy.GetUserByID userCache.GetUser
  rw [getUserBody_hit c _ _ entry user (by simpa using hrds) (by simpa using hlive) hu]

/-- The world after a successful `userCache.SetUser`. -/
theorem SetUser_ok_spec (c : Codec) (w : World) (r : User) (payload : String)
    (hrds : w.rdsFaults = []) (hmarshal : c.marshal r = .ok payload) :
    (userCache.SetUser c w (some r) DefaultExpireSeconds).2.rdsFaults = [] ∧
    (userCache.SetUser c w (some r) DefaultExpireSeconds).2.findByIDCalls = w.findByIDCalls ∧
    ∀ d : Nat, (d : Int) < DefaultExpireSeconds →
      ((userCache.SetUser c w (some r) DefaultExpireSeconds).2.advance d).live (getUserKey r.ID)
        = some { value := payload, expireAt := w.now + DefaultExpireSeconds.toNat } := by
  unfold userCache.SetUser
  rw [setUserBody_ok c _ r payload _ (by simpa using hrds) hmarshal (by decide)]
  refine ⟨by simpa using hrds, by simp, ?_⟩
  intro d hd
  have := World.live_advance_put ((w.log (.cacheSetUser (Option.map (·.ID) (some r))
    DefaultExpireSeconds)).log (.rdsSetex (getUserKey r.ID) payload DefaultExpireSeconds))
    (getUserKey r.ID) payload DefaultExpireSeconds d hd
  simpa using this

/-- C4, amended. Update with the refresh policy (plain `userService`, and
`userServiceWithStrategy` with `UpdateCache`): for every record `r` for which `repo.Update(r)`
succeeds and which, as `repo.Update` leaves it, survives the JSON codec, when the Redis calls
succeed, `UpdateUser(r)` returns nil, and a `GetUserByID(r.ID)` less than `DefaultExpireSeconds`
later returns the updated `r`, that is `r` as `repo.Update` left it, and makes no
`repo.FindByID` call. `repo.Update` leaves name, mail address and age of `r` as they were, and
the id when there is one; when the row exists it sets `UpdatedAt` to the current time and
changes nothing else. -/
theorem update_refresh (c : Codec) (w : World) (r : User) (d : Nat)
    (hupdate : (repoUpdate w r).1.1 = none) (hrds : w.rdsFaults = [])
    (hcodec : roundTrip c (repoUpdate w r).1.2 = some (repoUpdate w r).1.2)
    (hd : (d : Int) < DefaultExpireSeconds) :
    (userService.UpdateUser c w r).1 = none ∧
    (userService.GetUserByID c ((userService.UpdateUser c w r).2.advance d)
        (repoUpdate w r).1.2.ID).1
      = (some (repoUpdate w r).1.2, none) ∧
    (userService.GetUserByID c ((userService.UpdateUser c w r).2.advance d)
        (repoUpdate w r).1.2.ID).2.findByIDCalls
      = (userService.UpdateUser c w r).2.findByIDCalls ∧
    (userServiceWithStrategy.UpdateUser c UpdateCache w r).1 = none ∧
    (userServiceWithStrategy.GetUserByID c
        ((userServiceWithStrategy.UpdateUser c UpdateCache w r).2.advance d)
        (repoUpdate w r).1.2.ID).1
      = (some (repoUpdate w r).1.2, none) ∧
    (userServiceWithStrategy.GetUserByID c
        ((userServiceWithStrategy.UpdateUser c UpdateCache w r).2.advance d)
        (repoUpdate w r).1.2.ID).2.findByIDCalls
      = (userServiceWithStrategy.UpdateUser c UpdateCache w r).2.findByIDCalls ∧
    (repoUpdate w r).1.2.Username = r.Username ∧
    (repoUpdate w r).1.2.Email = r.Email ∧
    (repoUpdate w r).1.2.Age = r.Age ∧
    (r.ID ≠ 0 → (repoUpdate w r).1.2.ID = r.ID) ∧
    (∀ row, r.ID ≠ 0 → w.rows r.ID = some row →
      (repoUpdate w r).1.2 = { r with UpdatedAt := w.clock }) := by
  obtain ⟨payload, hmarshal, hunmarshal⟩ :=
    (roundTrip_eq_some c (repoUpdate w r).1.2 (repoUpdate w r).1.2).mp hcodec
  obtain ⟨hf, -, -, -, -, -⟩ := repoUpdate_success w r hupdate
  have hstruct := repoUpdate_struct w r hupdate
  rcases hres : repoUpdate w r with ⟨⟨e, u⟩, w0⟩
  rw [hres] at hupdate hf hmarshal hunmarshal hstruct
  simp only at hupdate hf hmarshal hunmarshal hstruct
  subst hupdate
  obtain ⟨hsf, -, hlive⟩ := SetUser_ok_spec c w0 u payload (hf.trans hrds) hmarshal
  have hplain : userService.UpdateUser c w r
      = (none, (userCache.SetUser c w0 (some u) DefaultExpireSeconds).2) := by
    simp [userService.UpdateUser, hres]
  have hstrat : userServiceWithStrategy.UpdateUser c UpdateCache w r
      = (none, (userCache.SetUser c w0 (some u) DefaultExpireSeconds).2) := by
    simp [userServiceWithStrategy.UpdateUser, hres]
  have hget := userService_get_hit c _ u.ID _ u (by simpa using hsf) (hlive d hd) hunmarshal
  have hget' := strategy_get_hit c _ u.ID _ u (by simpa using hsf) (hlive d hd) hunmarshal
  rw [hplain, hstrat]
  simp only [hget, hget']
  refine ⟨trivial, trivial, ?_, trivial, trivial, ?_, hstruct⟩ <;> simp

set_option maxRecDepth 1000000 in
/-- C4, amended, at the example scenario: `alice` with age 26 is saved at `saveTime`, then read
one second later; the record read is `alice26` with `UpdatedAt` at `saveTime`. -/
theorem update_refresh_witness :
    (repoUpdate aliceWorld alice26).1 = (none, alice26Saved) ∧
    (userService.UpdateUser goJSON aliceWorld alice26).1 = none ∧
    (userService.GetUserByID goJSON
        ((userService.UpdateUser goJSON aliceWorld alice26).2.advance 1) 1).1
      = (some alice26Saved, none) ∧
    (userService.GetUserByID goJSON
        ((userService.UpdateUser goJSON aliceWorld alice26).2.advance 1) 1).2.findByIDCalls
      = (userService.UpdateUser goJSON aliceWorld alice26).2.findByIDCalls ∧
    (userServiceWithStrategy.UpdateUser goJSON UpdateCache aliceWorld alice26).1 = none ∧
    (userServiceWithStrategy.GetUserByID goJSON
        ((userServiceWithStrategy.UpdateUser goJSON UpdateCache aliceWorld alice26).2.advance 1)
        1).1
      = (some alice26Saved, none) ∧
    (userServiceWithStrategy.GetUserByID goJSON
        ((userServiceWithStrategy.UpdateUser goJSON UpdateCache aliceWorld alice26).2.advance 1)
        1).2.findByIDCalls
      = (userServiceWithStrategy.UpdateUser goJSON UpdateCache aliceWorld alice26).2.findByIDCalls :=
  have h := update_refresh goJSON aliceWorld alice26 1 rfl rfl
    (goJSON_roundTrip alice26Saved (by decide)) (by decide)
  ⟨rfl, h.1, h.2.1, h.2.2.1, h.2.2.2.1, h.2.2.2.2.1, h.2.2.2.2.2.1⟩

set_option maxRecDepth 1000000 in
/-- C4 as stated fails: when the `Setex` of the refresh fails (here the Redis call times out),
`UpdateUser(alice26)` still returns nil, and the `GetUserByID(1)` that follows makes one
`repo.FindByID` call; so in the plain service and under `UpdateCache`. And for a record that
does not survive serialization (the invalid byte 0xff as `Username`), the `GetUserByID(2)` after
a successful `UpdateUser` returns a record whose `Username` is U+FFFD, not the `Username` of the
updated record. -/
theorem update_refresh_counterexample :
    (repoUpdate emptyWorld mallory).1 = (none, { mallory with UpdatedAt := saveTime }) ∧
    (userService.GetUserByID goJSON (userService.UpdateUser goJSON emptyWorld mallory).2 2).1
      = (some { mallory with Username := [GoChar.rune (Char.ofNat 65533)],
                             UpdatedAt := saveTime }, none) ∧
    (userService.UpdateUser goJSON
        (aliceWorld.setRdsFaults [some (.leaf "i/o timeout")]) alice26).1 = none ∧
    (userService.GetUserByID goJSON
        (userService.UpdateUser goJSON
          (aliceWorld.setRdsFaults [some (.leaf "i/o timeout")]) alice26).2 1).2.findByIDCalls
      = (userService.UpdateUser goJSON
          (aliceWorld.setRdsFaults [some (.leaf "i/o timeout")]) alice26).2.findByIDCalls + 1 ∧
    (userServiceWithStrategy.UpdateUser goJSON UpdateCache
        (aliceWorld.setRdsFaults [some (.leaf "i/o timeout")]) alice26).1 = none ∧
    (userServiceWithStrategy.GetUserByID goJSON
        (userServiceWithStrategy.UpdateUser goJSON UpdateCache
          (aliceWorld.setRdsFaults [some (.leaf "i/o timeout")]) alice26).2 1).2.findByIDCalls
      = (userServiceWithStrategy.UpdateUser goJSON UpdateCache
          (aliceWorld.setRdsFaults [some (.leaf "i/o timeout")]) alice26).2.findByIDCalls + 1 := by
  decide
theorem rdsSetex_findByIDCalls (w : World) (key value : String) (seconds : Int) :
    (rdsSetex w key value seconds).2.findByIDCalls = w.findByIDCalls := by
  unfold rdsSetex World.nextRdsFault
  simp only [World.log_rdsFaults]
  rcases hf : w.rdsFaults with _ | ⟨f, rest⟩
  · by_cases hs : seconds ≤ 0 <;> simp [hs]
  · cases f with
    | none => by_cases hs : seconds ≤ 0 <;> simp [hs]
    | some e => simp

/-- A cache `SetUser` makes no `repo.FindByID` call, whatever its outcome. -/
theorem SetUser_findByIDCalls (c : Codec) (w : World) (user : Option User) (seconds : Int) :
    (userCache.SetUser c w user seconds).2.findByIDCalls = w.findByIDCalls := by
  unfold userCache.SetUser setUserBody
  cases user with
  | none => simp
  | some u =>
    simp only []
    cases hm : c.marshal u with
    | error e => simp
    | ok data =>
      simp only [Option.map_some']
      have := rdsSetex_findByIDCalls
        (w.log (.cacheSetUser (some u.ID) seconds)) (getUserKey u.ID) data
        (if seconds ≤ 0 then DefaultExpireSeconds else seconds)
      rcases hres : rdsSetex (w.log (.cacheSetUser (some u.ID) seconds))
        (getUserKey u.ID) data (if seconds ≤ 0 then DefaultExpireSeconds else seconds)
        with ⟨e, w1⟩
      rw [hres] at this
      cases e <;> simpa using this

@[simp]
theorem World.setRow_rows_self (w : World) (user : User) :
    (w.setRow user).rows user.ID = some user := by
  simp [World.setRow]

/-- What `userServiceWithStrategy.GetUserByID` returns on a cold key for a record of the
repository, whatever the outcome of the cache write. -/
theorem strategy_get_cold (c : Codec) (w : World) (r : User)
    (hrow : w.rows r.ID = some r) (hcold : w.live (getUserKey r.ID) = none)
    (hrds : w.rdsFaults = []) (hrepo : w.repoFaults = []) :
    (userServiceWithStrategy.GetUserByID c w r.ID).1 = (some r, none) ∧
    (userServiceWithStrategy.GetUserByID c w r.ID).2.findByIDCalls = w.findByIDCalls + 1 := by
  obtain ⟨e, he, -⟩ := c.unmarshal_empty
  unfold userServiceWithStrategy.GetUserByID userCache.GetUser
  rw [getUserBody_miss c _ _ e (by simpa using hrds) (by simpa using hcold) he]
  simp only []
  rw [repoFindByID_found _ _ r (by simpa using hrepo) (by simpa using hrow)]
  simp only []
  refine ⟨trivial, ?_⟩
  rw [SetUser_findByIDCalls]
  simp

/-- C5, amended. Update with the invalidate policy (`userServiceWithStrategy` with
`DeleteCache`): for every record `r`, when the Redis and repository calls succeed,
`UpdateUser(r)` returns nil, and the `GetUserByID(r.ID)` that follows (at any later time) makes
exactly one `repo.FindByID` call and returns the repository's updated record, which is `r` as
`repo.Update` left it, whatever the cache held before the update. `repo.Update` leaves name,
mail address and age of `r` as they were, and the id when there is one; when the row exists it
sets `UpdatedAt` to the current time and changes nothing else. -/
theorem update_invalidate (c : Codec) (w : World) (r : User) (d : Nat)
    (hrds : w.rdsFaults = []) (hrepo : w.repoFaults = []) :
    (userServiceWithStrategy.UpdateUser c DeleteCache w r).1 = none ∧
    (userServiceWithStrategy.UpdateUser c DeleteCache w r).2.rows (repoUpdate w r).1.2.ID
      = some (repoUpdate w r).1.2 ∧
    (userServiceWithStrategy.GetUserByID c
        ((userServiceWithStrategy.UpdateUser c DeleteCache w r).2.advance d)
        (repoUpdate w r).1.2.ID).1
      = (some (repoUpdate w r).1.2, none) ∧
    (userServiceWithStrategy.GetUserByID c
        ((userServiceWithStrategy.UpdateUser c DeleteCache w r).2.advance d)
        (repoUpdate w r).1.2.ID).2.findByIDCalls
      = (userServiceWithStrategy.UpdateUser c DeleteCache w r).2.findByIDCalls + 1 ∧
    (repoUpdate w r).1.2.Username = r.Username ∧
    (repoUpdate w r).1.2.Email = r.Email ∧
    (repoUpdate w r).1.2.Age = r.Age ∧
    (r.ID ≠ 0 → (repoUpdate w r).1.2.ID = r.ID) ∧
    (∀ row, r.ID ≠ 0 → w.rows r.ID = some row →
      (repoUpdate w r).1.2 = { r with UpdatedAt := w.clock }) := by
  have hne : (DeleteCache : UpdateStrategy) ≠ UpdateCache := by decide
  have hok := repoUpdate_ok w r hrepo
  have hstruct := repoUpdate_struct w r (by rw [hok])
  have hup : userServiceWithStrategy.UpdateUser c DeleteCache w r
      = (none, ((((w.log (.repoUpdate r.ID)).saveRow (w.saved r)).log
          (.cacheDeleteUser (w.saved r).ID)).log
          (.rdsDel (getUserKey (w.saved r).ID))).del (getUserKey (w.saved r).ID)) := by
    unfold userServiceWithStrategy.UpdateUser userCache.DeleteUser
    rw [hok]
    simp only [hne, if_false, if_true]
    rw [deleteUserBody_ok _ _ (by simpa using hrds)]
  have hsaved : (repoUpdate w r).1.2 = w.saved r := by rw [hok]
  rw [hsaved] at hstruct ⊢
  rw [hup]
  have hcold : (((((w.log (.repoUpdate r.ID)).saveRow (w.saved r)).log
      (.cacheDeleteUser (w.saved r).ID)).log
      (.rdsDel (getUserKey (w.saved r).ID))).del (getUserKey (w.saved r).ID)).live
        (getUserKey (w.saved r).ID) = none := by
    simp
  have hrow : (((((w.log (.repoUpdate r.ID)).saveRow (w.saved r)).log
      (.cacheDeleteUser (w.saved r).ID)).log
      (.rdsDel (getUserKey (w.saved r).ID))).del (getUserKey (w.saved r).ID)).rows
        (w.saved r).ID = some (w.saved r) := by
    simp
  obtain ⟨h1, h2⟩ := strategy_get_cold c
    ((((((w.log (.repoUpdate r.ID)).saveRow (w.saved r)).log
      (.cacheDeleteUser (w.saved r).ID)).log
      (.rdsDel (getUserKey (w.saved r).ID))).del (getUserKey (w.saved r).ID)).advance d)
    (w.saved r) (by simp)
    (World.live_advance_none _ _ d hcold) (by simpa using hrds) (by simpa using hrepo)
  exact ⟨rfl, hrow, h1, by simpa using h2, hstruct⟩

set_option maxRecDepth 1000000 in
/-- C5, amended, at the example scenario: `alice` with age 26 is saved at `saveTime` under
`DeleteCache`, then read one second later; the record read is the row, `alice26` with
`UpdatedAt` at `saveTime`. -/
theorem update_invalidate_witness :
    (repoUpdate aliceWorld alice26).1 = (none, alice26Saved) ∧
    (userServiceWithStrategy.UpdateUser goJSON DeleteCache aliceWorld alice26).1 = none ∧
    (userServiceWithStrategy.UpdateUser goJSON DeleteCache aliceWorld alice26).2.rows 1
      = some alice26Saved ∧
    (userServiceWithStrategy.GetUserByID goJSON
        ((userServiceWithStrategy.UpdateUser goJSON DeleteCache aliceWorld alice26).2.advance 1)
        1).1
      = (some alice26Saved, none) ∧
    (userServiceWithStrategy.GetUserByID goJSON
        ((userServiceWithStrategy.UpdateUser goJSON DeleteCache aliceWorld alice26).2.advance 1)
        1).2.findByIDCalls
      = (userServiceWithStrategy.UpdateUser goJSON DeleteCache aliceWorld alice26).2.findByIDCalls
        + 1 :=
  have h := update_invalidate goJSON aliceWorld alice26 1 rfl rfl
  ⟨rfl, h.1, h.2.1, h.2.2.1, h.2.2.2.1⟩

set_option maxRecDepth 1000000 in
/-- C5 as stated fails: the cache holds `alice` (age 25) from an earlier read; the `Del` of
`UpdateUser(alice26)` fails (the Redis call times out) and `UpdateUser` still returns nil; the
`GetUserByID(1)` that follows is served from the cache: it returns the stale `alice`, not the
saved `alice26`, and makes no `repo.FindByID` call. -/
theorem update_invalidate_counterexample :
    (userServiceWithStrategy.UpdateUser goJSON DeleteCache
        ((userServiceWithStrategy.GetUserByID goJSON aliceWorld 1).2.setRdsFaults
          [some (.leaf "i/o timeout")]) alice26).1 = none ∧
    (userServiceWithStrategy.GetUserByID goJSON
        (userServiceWithStrategy.UpdateUser goJSON DeleteCache
          ((userServiceWithStrategy.GetUserByID goJSON aliceWorld 1).2.setRdsFaults
            [some (.leaf "i/o timeout")]) alice26).2 1).1 = (some alice, none) ∧
    (userServiceWithStrategy.GetUserByID goJSON
        (userServiceWithStrategy.UpdateUser goJSON DeleteCache
          ((userServiceWithStrategy.GetUserByID goJSON aliceWorld 1).2.setRdsFaults
            [some (.leaf "i/o timeout")]) alice26).2 1).2.findByIDCalls
      = (userServiceWithStrategy.UpdateUser goJSON DeleteCache
          ((userServiceWithStrategy.GetUserByID goJSON aliceWorld 1).2.setRdsFaults
            [some (.leaf "i/o timeout")]) alice26).2.findByIDCalls := by
  decide

/-! ## The serialization round trip -/

/-- C6, amended. For every `User` whose `ID` and `Age` fit their integer types, whose
`Username` and `Email` are valid UTF-8, and whose timestamps have a year in `[0, 9999]` and a
zone offset of whole minutes within a day, `json.Unmarshal` of the payload of `json.Marshal`
yields the same `User` field for field; and `GetUser` right after a successful `SetUser` of the
record returns it. -/
theorem json_round_trip (u : User) (h : u.jsonSafe) :
    roundTrip goJSON u = some u ∧
    ∀ w : World, w.rdsFaults = [] →
      (userCache.GetUser goJSON
        (userCache.SetUser goJSON w (some u) DefaultExpireSeconds).2 u.ID).1 = (some u, none) := by
  have hrt := goJSON_roundTrip u h
  refine ⟨hrt, ?_⟩
  intro w hrds
  obtain ⟨payload, hm, hun⟩ := (roundTrip_eq_some goJSON u u).1 hrt
  obtain ⟨hf, -, hlive⟩ := SetUser_ok_spec goJSON w u payload hrds hm
  have hl := hlive 0 (by decide)
  unfold userCache.GetUser
  rw [getUserBody_hit goJSON _ u.ID { value := payload, expireAt := w.now + DefaultExpireSeconds.toNat } u
    (by simpa using hf) (by simpa using hl) hun]

/-- C6, amended, at the record `alice`. -/
theorem json_round_trip_witness :
    alice.jsonSafe ∧ roundTrip goJSON alice = some alice ∧
    ∀ w : World, w.rdsFaults = [] →
      (userCache.GetUser goJSON
        (userCache.SetUser goJSON w (some alice) DefaultExpireSeconds).2 alice.ID).1
        = (some alice, none) :=
  ⟨by decide, json_round_trip alice (by decide)⟩

set_option maxRecDepth 1000000 in
/-- C6 as stated fails for a `User` whose `Username` is the invalid byte 0xff: `json.Marshal`
writes U+FFFD in its place, so the decoded record differs from the original in `Username`. -/
theorem json_round_trip_counterexample :
    roundTrip goJSON mallory = some { mallory with Username := [GoChar.rune (Char.ofNat 65533)] } ∧
    roundTrip goJSON mallory ≠ some mallory := by
  decide

/-! ## The random expiry -/

/-- On a value that fits `int`, the wrap-around is the identity. -/
theorem wrapInt_of_fits (x : Int) (h : IsInt x) : wrapInt x = x := by
  unfold IsInt maxInt at h
  unfold wrapInt
  omega

/-- Recording a call leaves the upcoming draw as it was. -/
theorem World.nextRand_log (w : World) (e : Event) :
    (w.log e).nextRand = (w.nextRand.1, w.nextRand.2.log e) := by
  unfold World.nextRand
  cases h : w.rand <;> simp [h, World.log, World.setRand]

/-- Taking a draw leaves the trace as it was. -/
theorem World.nextRand_trace (w : World) : w.nextRand.2.trace = w.trace := by
  unfold World.nextRand
  cases h : w.rand <;> simp

/-- A `Setex` call is recorded whatever its outcome. -/
theorem rdsSetex_trace (w : World) (key value : String) (seconds : Int) :
    (rdsSetex w key value seconds).2.trace = .rdsSetex key value seconds :: w.trace := by
  unfold rdsSetex World.nextRdsFault
  simp only [World.log_rdsFaults]
  rcases hf : w.rdsFaults with _ | ⟨f, rest⟩
  · by_cases hs : seconds ≤ 0 <;> simp [hs]
  · cases f with
    | none => by_cases hs : seconds ≤ 0 <;> simp [hs]
    | some e => simp

/-- The expiry that `SetUserWithRandomExpire` hands to `Setex` is the value that
`GetRandomExpireTime` computes from the same base and the same draw. -/
theorem SetUserWithRandomExpire_setex (c : Codec) (w : World) (user : User) (data : String)
    (B t : Int) (hm : c.marshal user = .ok data)
    (ht : GetRandomExpireTime B w.nextRand.1 = some t) :
    ∃ res, userCacheWithAvalanche.SetUserWithRandomExpire c w (some user) B = some res ∧
      lastSetexSeconds res.2.trace = some t := by
  unfold GetRandomExpireTime at ht
  unfold userCacheWithAvalanche.SetUserWithRandomExpire
  simp only [hm, World.nextRand_log]
  simp only [] at ht
  cases hr : randIntn (if (wrapInt ((if B ≤ 0 then DefaultExpireSeconds else B)
      * AvalancheRandomRangePercent)).tdiv 100 = 0 then 1
      else (wrapInt ((if B ≤ 0 then DefaultExpireSeconds else B)
      * AvalancheRandomRangePercent)).tdiv 100) w.nextRand.1 with
  | none => rw [hr] at ht; cases ht
  | some x =>
    rw [hr] at ht
    simp only [Option.some.injEq] at ht
    simp only []
    have htr := rdsSetex_trace (w.nextRand.2.log
      (.cacheSetUserWithRandomExpire (Option.map (·.ID) (some user)) B))
      (getUserKey user.ID) data (wrapInt ((if B ≤ 0 then DefaultExpireSeconds else B) + x))
    rcases hs : rdsSetex (w.nextRand.2.log
      (.cacheSetUserWithRandomExpire (Option.map (·.ID) (some user)) B))
      (getUserKey user.ID) data (wrapInt ((if B ≤ 0 then DefaultExpireSeconds else B) + x))
      with ⟨e, w2⟩
    rw [hs] at htr
    simp only at htr
    cases e with
    | none => exact ⟨_, rfl, by simp [htr, lastSetexSeconds, ht]⟩
    | some e => exact ⟨_, rfl, by simp [htr, lastSetexSeconds, ht]⟩

/-- The value of `GetRandomExpireTime` on a positive base whose tenfold fits `int`. -/
theorem GetRandomExpireTime_fits (B : Int) (draw : Nat) (hpos : 0 < B)
    (hfit : B ≤ 922337203685477580) :
    GetRandomExpireTime B draw
      = some (B + (draw : Int) % (if B * 10 / 100 = 0 then 1 else B * 10 / 100)) := by
  have hw : wrapInt (B * 10) = B * 10 := wrapInt_of_fits _ (by unfold IsInt maxInt; omega)
  have hd : (B * 10).tdiv 100 = B * 10 / 100 := Int.tdiv_eq_ediv (by omega) (by omega)
  have hn : ¬ B ≤ 0 := by omega
  unfold GetRandomExpireTime randIntn
  simp only [hn, if_false, AvalancheRandomRangePercent, hw, hd]
  by_cases h0 : B * 10 / 100 = 0
  · simp only [h0, if_true]
    have : wrapInt B = B := wrapInt_of_fits _ (by unfold IsInt maxInt; omega)
    simp [this]
  · have hp : 0 < B * 10 / 100 := by omega
    have hlt := Int.emod_lt_of_pos (draw : Int) hp
    have hge := Int.emod_nonneg (draw : Int) h0
    have hle : ¬ B * 10 / 100 ≤ 0 := by omega
    have : wrapInt (B + (draw : Int) % (B * 10 / 100)) = B + (draw : Int) % (B * 10 / 100) :=
      wrapInt_of_fits _ (by unfold IsInt maxInt; omega)
    simp only [h0, if_false, hle, this]

/-- C7, amended. For every base TTL `B` with `0 < B ≤ 922337203685477580` (the bases whose
tenfold fits a 64-bit `int`) and every outcome of the random draw, `GetRandomExpireTime(B)`
returns a TTL in `[B, B + ceil(B*10/100)]`, and `SetUserWithRandomExpire(user, B)` hands that same
TTL to `Setex` for every user that can be serialized. -/
theorem random_ttl_bounds (B : Int) (draw : Nat) (hpos : 0 < B)
    (hfit : B ≤ 922337203685477580) :
    ∃ t, GetRandomExpireTime B draw = some t ∧ B ≤ t ∧
      t ≤ B + (B * AvalancheRandomRangePercent + 99) / 100 ∧
      ∀ (c : Codec) (w : World) (user : User) (data : String),
        c.marshal user = .ok data → w.nextRand.1 = draw →
        ∃ res, userCacheWithAvalanche.SetUserWithRandomExpire c w (some user) B = some res ∧
          lastSetexSeconds res.2.trace = some t := by
  have hval := GetRandomExpireTime_fits B draw hpos hfit
  refine ⟨_, hval, ?_, ?_, ?_⟩
  · by_cases h0 : B * 10 / 100 = 0
    · simp only [h0, if_true]; omega
    · simp only [h0, if_false]
      have := Int.emod_nonneg (draw : Int) h0
      omega
  · unfold AvalancheRandomRangePercent
    by_cases h0 : B * 10 / 100 = 0
    · simp only [h0, if_true]; omega
    · simp only [h0, if_false]
      have hp : 0 < B * 10 / 100 := by omega
      have := Int.emod_lt_of_pos (draw : Int) hp
      omega
  · intro c w user data hm hdraw
    exact SetUserWithRandomExpire_setex c w user data B _ hm (by rw [hdraw]; exact hval)

/-- C7, amended, at the base of the demo: `B = 60`, draw 4, TTL 64. -/
theorem random_ttl_bounds_witness :
    ∃ t, GetRandomExpireTime 60 4 = some t ∧ (60 : Int) ≤ t ∧
      t ≤ 60 + (60 * AvalancheRandomRangePercent + 99) / 100 ∧
      ∀ (c : Codec) (w : World) (user : User) (data : String),
        c.marshal user = .ok data → w.nextRand.1 = 4 →
        ∃ res, userCacheWithAvalanche.SetUserWithRandomExpire c w (some user) 60 = some res ∧
          lastSetexSeconds res.2.trace = some t :=
  random_ttl_bounds 60 4 (by decide) (by decide)

set_option maxRecDepth 1000000 in
/-- C7 as stated fails at `B = 922337203685477581`: `B * 10` overflows the 64-bit `int` to a
negative number, the range is negative and `rand.Intn` panics; no TTL is returned or written. -/
theorem random_ttl_bounds_counterexample :
    GetRandomExpireTime 922337203685477581 0 = none ∧
    (userCacheWithAvalanche.SetUserWithRandomExpire goJSON emptyWorld (some alice)
      922337203685477581).isNone = true := by
  decide

/-- From a base of 20 seconds on (tenfold fitting `int`), the draws 0 and 1 give different
TTLs. -/
theorem random_ttl_varies_from_20 (B : Int) (h20 : 20 ≤ B) (hfit : B ≤ 922337203685477580) :
    GetRandomExpireTime B 0 ≠ GetRandomExpireTime B 1 := by
  rw [GetRandomExpireTime_fits B 0 (by omega) hfit, GetRandomExpireTime_fits B 1 (by omega) hfit]
  have h0 : ¬ B * 10 / 100 = 0 := by omega
  have h1 : ((1 : Nat) : Int) % (B * 10 / 100) = 1 := Int.emod_eq_of_lt (by decide) (by omega)
  simp only [h0, if_false, h1]
  simp

/-- C8 fails in the code. For every base TTL `B` with `0 < B < 20` the range `B*10/100` is 0 or 1,
and is 1 after the floor; `rand.Intn(1)` is 0 for every draw, so `GetRandomExpireTime(B)` returns
`B` and `SetUserWithRandomExpire(user, B)` hands `B` to `Setex` whatever the draw: the written TTLs
are all equal. -/
theorem random_ttl_constant_below_20 (B : Int) (draw : Nat) (hpos : 0 < B) (hlt : B < 20) :
    GetRandomExpireTime B draw = some B ∧
    ∀ (c : Codec) (w : World) (user : User) (data : String),
      c.marshal user = .ok data → w.nextRand.1 = draw →
      ∃ res, userCacheWithAvalanche.SetUserWithRandomExpire c w (some user) B = some res ∧
        lastSetexSeconds res.2.trace = some B := by
  have hval : GetRandomExpireTime B draw = some B := by
    rw [GetRandomExpireTime_fits B draw hpos (by omega)]
    by_cases h0 : B * 10 / 100 = 0
    · simp only [h0, if_true]; simp
    · have h1 : B * 10 / 100 = 1 := by omega
      simp only [h1]; simp
  refine ⟨hval, ?_⟩
  intro c w user data hm hdraw
  exact SetUserWithRandomExpire_setex c w user data B B hm (by rw [hdraw]; exact hval)

/-- C8 at the base `B = 5` with the draw 7: the TTL is 5. -/
theorem random_ttl_constant_below_20_witness :
    GetRandomExpireTime 5 7 = some 5 ∧
    ∀ (c : Codec) (w : World) (user : User) (data : String),
      c.marshal user = .ok data → w.nextRand.1 = 7 →
      ∃ res, userCacheWithAvalanche.SetUserWithRandomExpire c w (some user) 5 = some res ∧
        lastSetexSeconds res.2.trace = some 5 :=
  random_ttl_constant_below_20 5 7 (by decide) (by decide)

/-! ## Error handling on the read path -/

/-- A `repo.FindByID` is recorded once, whatever its outcome. -/
theorem repoFindByID_findByIDCalls (w : World) (id : Int) :
    (repoFindByID w id).2.findByIDCalls = w.findByIDCalls + 1 := by
  unfold repoFindByID World.nextRepoFault
  simp only [World.log_repoFaults]
  rcases hf : w.repoFaults with _ | ⟨f, rest⟩
  · cases hr : w.rows id <;> cases hn : w.nilOnMiss <;> simp [hr, hn]
  · cases f with
    | none => cases hr : w.rows id <;> cases hn : w.nilOnMiss <;> simp [hr, hn]
    | some e => simp

/-- The strategy variant on a cache miss followed by a failing `repo.FindByID`: every error,
`gorm.ErrRecordNotFound` included, comes back wrapped as a query failure; the plain variant
tells the two apart. -/
theorem strategy_taxonomy (c : Codec) (w : World) (id : Int) (err : GoError)
    (hmiss : ∀ u, (userCache.GetUser c w id).1 ≠ (some u, none))
    (herr : (repoFindByID (userCache.GetUser c w id).2 id).1.2 = some err) :
    (userServiceWithStrategy.GetUserByID c w id).1 = (none, some (queryFailed err)) ∧
    (userService.GetUserByID c w id).1
      = (none, some (if errorsIs err .recordNotFound then userNotFound id else queryFailed err)) := by
  rcases hg : userCache.GetUser c w id with ⟨⟨u, e⟩, w1⟩
  rw [hg] at hmiss herr
  simp only at hmiss herr
  rcases hf : repoFindByID w1 id with ⟨⟨u2, e2⟩, w2⟩
  rw [hf] at herr
  simp only at herr
  subst herr
  unfold userServiceWithStrategy.GetUserByID userService.GetUserByID
  rw [hg]
  cases u with
  | none =>
    simp only [hf]
    by_cases hi : errorsIs err .recordNotFound = true <;> simp [hi]
  | some u =>
    cases e with
    | none => exact absurd rfl (hmiss u)
    | some e =>
      simp only [hf]
      by_cases hi : errorsIs err .recordNotFound = true <;> simp [hi]

/-- The divergence at the id of the demo: 99999 is absent, `repo.FindByID` reports
`gorm.ErrRecordNotFound`; the strategy variant answers "查询用户失败: record not found", the
plain variant "用户不存在: user_id=99999". -/
theorem strategy_taxonomy_witness :
    (userServiceWithStrategy.GetUserByID goJSON emptyWorld 99999).1
      = (none, some (queryFailed .recordNotFound)) ∧
    (userService.GetUserByID goJSON emptyWorld 99999).1
      = (none, some (if errorsIs .recordNotFound .recordNotFound then userNotFound 99999
          else queryFailed .recordNotFound)) :=
  strategy_taxonomy goJSON emptyWorld 99999 .recordNotFound
    (by
      have hval : (userCache.GetUser goJSON emptyWorld 99999).1.1 = none := by decide
      intro u h
      rw [h] at hval
      cases hval)
    (by decide)

/-- C10, amended. For every id whose cache key holds a payload that cannot be decoded as a
`User` (Redis calls succeeding), the cache `GetUser(id)` returns a nil user and the
serialization error, but `userService.GetUserByID(id)` treats the entry as a miss: it makes
exactly one `repo.FindByID` call and, when the repository has the record, returns it with a nil
error. -/
theorem corrupt_payload_is_a_miss (c : Codec) (w : World) (id : Int) (entry : Entry)
    (e : GoError) (hrds : w.rdsFaults = []) (hlive : w.live (getUserKey id) = some entry)
    (hbad : c.unmarshal entry.value = .error e) :
    (userCache.GetUser c w id).1 = (none, some (.wrap "反序列化用户数据失败: " e)) ∧
    (userService.GetUserByID c w id).2.findByIDCalls = w.findByIDCalls + 1 ∧
    ∀ r, w.repoFaults = [] → w.rows id = some r →
      (userService.GetUserByID c w id).1 = (some r, none) := by
  have hg : userCache.GetUser c w id
      = ((none, some (.wrap "反序列化用户数据失败: " e)),
          (w.log (.cacheGetUser id)).log (.rdsGet (getUserKey id))) := by
    unfold userCache.GetUser
    rw [getUserBody_corrupt c _ _ entry e (by simpa using hrds) (by simpa using hlive) hbad]
  refine ⟨by rw [hg], ?_, ?_⟩
  · have hcount := repoFindByID_findByIDCalls
      ((w.log (.cacheGetUser id)).log (.rdsGet (getUserKey id))) id
    unfold userService.GetUserByID
    rw [hg]
    simp only []
    rcases hf : repoFindByID ((w.log (.cacheGetUser id)).log (.rdsGet (getUserKey id))) id
      with ⟨⟨u, err⟩, w2⟩
    rw [hf] at hcount
    simp only [World.findByIDCalls_log, add_zero] at hcount
    cases err with
    | some err =>
      by_cases hi : errorsIs err .recordNotFound = true <;> simpa [hi] using hcount
    | none =>
      cases u with
      | none => simpa using hcount
      | some u =>
        simp only []
        rw [SetUser_findByIDCalls]
        exact hcount
  · intro r hrepo hrow
    unfold userService.GetUserByID
    rw [hg]
    simp only []
    rw [repoFindByID_found _ _ r (by simpa using hrepo) (by simpa using hrow)]

/-- C10, amended, at the example scenario: the key `user:1` holds the text "not json" and the
repository has `alice`. -/
theorem corrupt_payload_is_a_miss_witness :
    (userCache.GetUser goJSON (aliceWorld.put (getUserKey 1) "not json" 300) 1).1
      = (none, some (.wrap "反序列化用户数据失败: " (.leaf "invalid character in JSON input"))) ∧
    (userService.GetUserByID goJSON
        (aliceWorld.put (getUserKey 1) "not json" 300) 1).2.findByIDCalls
      = (aliceWorld.put (getUserKey 1) "not json" 300).findByIDCalls + 1 ∧
    ∀ r, (aliceWorld.put (getUserKey 1) "not json" 300).repoFaults = [] →
      (aliceWorld.put (getUserKey 1) "not json" 300).rows 1 = some r →
      (userService.GetUserByID goJSON (aliceWorld.put (getUserKey 1) "not json" 300) 1).1
        = (some r, none) :=
  corrupt_payload_is_a_miss goJSON (aliceWorld.put (getUserKey 1) "not json" 300) 1
    { value := "not json", expireAt := 300 } (.leaf "invalid character in JSON input")
    rfl (by decide) rfl

/-- C10 as stated fails: with the undecodable text "not json" at `user:1` and `alice` in the
repository, `GetUserByID(1)` returns `alice` with a nil error after one `repo.FindByID` call. -/
theorem corrupt_payload_counterexample :
    (userService.GetUserByID goJSON (aliceWorld.put (getUserKey 1) "not json" 300) 1).1
      = (some alice, none) ∧
    (userService.GetUserByID goJSON
        (aliceWorld.put (getUserKey 1) "not json" 300) 1).2.findByIDCalls = 1 := by
  decide

/-! ## What each call records and what it leaves unchanged -/

@[simp]
theorem World.delRow_trace (w : World) (id : Int) : (w.delRow id).trace = w.trace := rfl

@[simp]
theorem World.delRow_store (w : World) (id : Int) : (w.delRow id).store = w.store := rfl

@[simp]
theorem World.delRow_rdsFaults (w : World) (id : Int) :
    (w.delRow id).rdsFaults = w.rdsFaults := rfl

@[simp]
theorem World.delRow_now (w : World) (id : Int) : (w.delRow id).now = w.now := rfl

@[simp]
theorem World.live_delRow (w : World) (id : Int) (k : String) :
    (w.delRow id).live k = w.live k := rfl

@[simp]
theorem World.put_store_self (w : World) (key value : String) (seconds : Int) :
    (w.put key value seconds).store key
      = some { value := value, expireAt := w.now + seconds.toNat } := by
  simp [World.put]

/-- The reply of `rds.Get` does not depend on the calls recorded so far. -/
theorem rdsGet_log (w : World) (e : Event) (key : String) :
    (rdsGet (w.log e) key).1 = (rdsGet w key).1 := by
  unfold rdsGet World.nextRdsFault
  simp only [World.log_rdsFaults]
  rcases hf : w.rdsFaults with _ | ⟨f, rest⟩
  · cases hl : w.live key <;> simp [hl]
  · cases f with
    | none => cases hl : w.live key <;> simp [hl]
    | some err => simp

/-- The reply of `rds.Get` is an error of the store, or the value of the live entry (the empty
string when there is none). -/
theorem rdsGet_outcome (w : World) (key : String) :
    (∃ err, (rdsGet w key).1 = ("", some err)) ∨
    (rdsGet w key).1 = ((match w.live key with | some e => e.value | none => ""), none) := by
  unfold rdsGet World.nextRdsFault
  simp only [World.log_rdsFaults]
  rcases hf : w.rdsFaults with _ | ⟨f, rest⟩
  · cases hl : w.live key <;> simp [hl]
  · cases f with
    | none => cases hl : w.live key <;> simp [hl]
    | some err => simp

theorem rdsGet_trace (w : World) (key : String) :
    (rdsGet w key).2.trace = .rdsGet key :: w.trace := by
  unfold rdsGet World.nextRdsFault
  simp only [World.log_rdsFaults]
  rcases hf : w.rdsFaults with _ | ⟨f, rest⟩
  · cases hl : w.live key <;> simp [hl]
  · cases f with
    | none => cases hl : w.live key <;> simp [hl]
    | some err => simp

theorem rdsGet_store (w : World) (key : String) :
    (rdsGet w key).2.store = w.store ∧ (rdsGet w key).2.bloomBits = w.bloomBits := by
  unfold rdsGet World.nextRdsFault
  simp only [World.log_rdsFaults]
  rcases hf : w.rdsFaults with _ | ⟨f, rest⟩
  · cases hl : w.live key <;> simp [hl]
  · cases f with
    | none => cases hl : w.live key <;> simp [hl]
    | some err => simp

theorem rdsDel_trace (w : World) (key : String) :
    (rdsDel w key).2.trace = .rdsDel key :: w.trace := by
  unfold rdsDel World.nextRdsFault
  simp only [World.log_rdsFaults]
  rcases hf : w.rdsFaults with _ | ⟨f, rest⟩
  · simp
  · cases f <;> simp

theorem bloomExists_trace (w : World) (key : String) :
    (bloomExists w key).2.trace = .bloomExists key :: w.trace := by
  unfold bloomExists World.nextRdsFault
  simp only [World.log_rdsFaults]
  rcases hf : w.rdsFaults with _ | ⟨f, rest⟩
  · simp
  · cases f <;> simp

theorem bloomExists_store (w : World) (key : String) :
    (bloomExists w key).2.store = w.store ∧ (bloomExists w key).2.bloomBits = w.bloomBits := by
  unfold bloomExists World.nextRdsFault
  simp only [World.log_rdsFaults]
  rcases hf : w.rdsFaults with _ | ⟨f, rest⟩
  · simp
  · cases f <;> simp

theorem bloomAdd_trace (w : World) (key : String) :
    (bloomAdd w key).2.trace = .bloomAdd key :: w.trace := by
  unfold bloomAdd World.nextRdsFault
  simp only [World.log_rdsFaults]
  rcases hf : w.rdsFaults with _ | ⟨f, rest⟩
  · simp
  · cases f <;> simp

theorem repoFindByID_trace (w : World) (id : Int) :
    (repoFindByID w id).2.trace = .repoFindByID id :: w.trace := by
  unfold repoFindByID World.nextRepoFault
  simp only [World.log_repoFaults]
  rcases hf : w.repoFaults with _ | ⟨f, rest⟩
  · cases hr : w.rows id <;> cases hn : w.nilOnMiss <;> simp [hr, hn]
  · cases f with
    | none => cases hr : w.rows id <;> cases hn : w.nilOnMiss <;> simp [hr, hn]
    | some e => simp

theorem repoFindByID_store (w : World) (id : Int) :
    (repoFindByID w id).2.store = w.store ∧ (repoFindByID w id).2.bloomBits = w.bloomBits := by
  unfold repoFindByID World.nextRepoFault
  simp only [World.log_repoFaults]
  rcases hf : w.repoFaults with _ | ⟨f, rest⟩
  · cases hr : w.rows id <;> cases hn : w.nilOnMiss <;> simp [hr, hn]
  · cases f with
    | none => cases hr : w.rows id <;> cases hn : w.nilOnMiss <;> simp [hr, hn]
    | some e => simp

theorem repoUpdate_trace (w : World) (user : User) :
    (repoUpdate w user).2.trace = .repoUpdate user.ID :: w.trace := by
  unfold repoUpdate World.nextRepoFault
  simp only [World.log_repoFaults]
  rcases hf : w.repoFaults with _ | ⟨f, rest⟩
  · simp
  · cases f <;> simp

theorem repoUpdate_store (w : World) (user : User) :
    (repoUpdate w user).2.store = w.store := by
  unfold repoUpdate World.nextRepoFault
  simp only [World.log_repoFaults]
  rcases hf : w.repoFaults with _ | ⟨f, rest⟩
  · simp
  · cases f <;> simp

theorem repoDelete_trace (w : World) (id : Int) :
    (repoDelete w id).2.trace = .repoDelete id :: w.trace := by
  unfold repoDelete World.nextRepoFault
  simp only [World.log_repoFaults]
  rcases hf : w.repoFaults with _ | ⟨f, rest⟩
  · simp
  · cases f <;> simp

theorem repoDelete_store (w : World) (id : Int) :
    (repoDelete w id).2.store = w.store := by
  unfold repoDelete World.nextRepoFault
  simp only [World.log_repoFaults]
  rcases hf : w.repoFaults with _ | ⟨f, rest⟩
  · simp
  · cases f <;> simp

/-- The world after `GetUser` of the plain, avalanche and Bloom variants is the world after its
`rds.Get`. -/
theorem getUserBody_world (c : Codec) (w : World) (id : Int) :
    (getUserBody c w id).2 = (rdsGet w (getUserKey id)).2 := by
  unfold getUserBody
  rcases hg : rdsGet w (getUserKey id) with ⟨⟨val, err⟩, w1⟩
  cases err with
  | some err => simp [hg]
  | none => cases hu : c.unmarshal val <;> simp [hg, hu]

/-- The world after `userCacheWithPenetration.GetUser` is the world after its `rds.Get`. -/
theorem penetration_GetUser_world (c : Codec) (w : World) (id : Int) :
    (userCacheWithPenetration.GetUser c w id).2
      = (rdsGet (w.log (.cacheGetUser id)) (getUserKey id)).2 := by
  unfold userCacheWithPenetration.GetUser
  rcases hg : rdsGet (w.log (.cacheGetUser id)) (getUserKey id) with ⟨⟨val, err⟩, w1⟩
  cases err with
  | some err => simp [hg]
  | none =>
    by_cases hv : val = NullCacheValue
    · simp [hg, hv]
    · cases hu : c.unmarshal val <;> simp [hg, hv, hu]

theorem World.cacheWriteCalls_congr {w w' : World} (h : w'.trace = w.trace) :
    w'.cacheWriteCalls = w.cacheWriteCalls := by
  simp [World.cacheWriteCalls, World.count, h]

theorem World.deleteUserCalls_congr {w w' : World} (h : w'.trace = w.trace) :
    w'.deleteUserCalls = w.deleteUserCalls := by
  simp [World.deleteUserCalls, World.count, h]

/-! ## Reading the cache: corrupt payloads and the sentinel -/

/-- The outcome of `getUserBody` on a key whose live entry cannot be decoded: an error of the
store, or the wrapped decoding error. -/
theorem getUserBody_corrupt_outcome (c : Codec) (w : World) (id : Int) (entry : Entry)
    (e : GoError) (hlive : w.live (getUserKey id) = some entry)
    (hbad : c.unmarshal entry.value = .error e) :
    (∃ err, (getUserBody c w id).1 = (none, some err)) ∧
    (w.rdsFaults = [] →
      (getUserBody c w id).1 = (none, some (.wrap "反序列化用户数据失败: " e))) := by
  refine ⟨?_, ?_⟩
  · unfold getUserBody
    rcases hg : rdsGet w (getUserKey id) with ⟨⟨val, err⟩, w1⟩
    have ho := rdsGet_outcome w (getUserKey id)
    rw [hg, hlive] at ho
    cases err with
    | some err => exact ⟨err, by simp [hg]⟩
    | none =>
      rcases ho with ⟨err, ho⟩ | ho
      · simp at ho
      · simp only [Prod.mk.injEq, and_true] at ho
        subst ho
        exact ⟨.wrap "反序列化用户数据失败: " e, by simp [hg, hbad]⟩
  · intro hrds
    rw [getUserBody_corrupt c w id entry e hrds hlive hbad]

/-- C11. In every cache variant, when the key `user:<id>` holds a string that `json.Unmarshal`
rejects, `GetUser(id)` returns a nil user together with a non-nil error, whatever the store does;
when the `Get` succeeds the error is the decoding error wrapped as "反序列化用户数据失败"
(in the penetration variant for a string other than the sentinel). -/
theorem corrupt_payload_read (c : Codec) (w : World) (id : Int) (entry : Entry) (e : GoError)
    (hlive : w.live (getUserKey id) = some entry)
    (hbad : c.unmarshal entry.value = .error e) :
    (∃ err, (userCache.GetUser c w id).1 = (none, some err)) ∧
    (∃ err, (userCacheWithAvalanche.GetUser c w id).1 = (none, some err)) ∧
    (∃ err, (userCacheWithBloom.GetUser c w id).1 = (none, some err)) ∧
    (∃ err, (userCacheWithPenetration.GetUser c w id).1 = (none, some err)) ∧
    (w.rdsFaults = [] →
      (userCache.GetUser c w id).1 = (none, some (.wrap "反序列化用户数据失败: " e)) ∧
      (userCacheWithAvalanche.GetUser c w id).1
        = (none, some (.wrap "反序列化用户数据失败: " e)) ∧
      (userCacheWithBloom.GetUser c w id).1 = (none, some (.wrap "反序列化用户数据失败: " e)) ∧
      (entry.value ≠ NullCacheValue →
        (userCacheWithPenetration.GetUser c w id).1
          = (none, some (.wrap "反序列化用户数据失败: " e)))) := by
  have hb := getUserBody_corrupt_outcome c (w.log (.cacheGetUser id)) id entry e
    (by simpa using hlive) hbad
  have hpen : (∃ err, (userCacheWithPenetration.GetUser c w id).1 = (none, some err)) ∧
      (w.rdsFaults = [] → entry.value ≠ NullCacheValue →
        (userCacheWithPenetration.GetUser c w id).1
          = (none, some (.wrap "反序列化用户数据失败: " e))) := by
    unfold userCacheWithPenetration.GetUser
    refine ⟨?_, ?_⟩
    · rcases hg : rdsGet (w.log (.cacheGetUser id)) (getUserKey id) with ⟨⟨val, err⟩, w1⟩
      have ho := rdsGet_outcome (w.log (.cacheGetUser id)) (getUserKey id)
      rw [hg, World.live_log, hlive] at ho
      cases err with
      | some err => exact ⟨err, by simp [hg]⟩
      | none =>
        rcases ho with ⟨err, ho⟩ | ho
        · simp at ho
        · simp only [Prod.mk.injEq, and_true] at ho
          subst ho
          by_cases hv : entry.value = NullCacheValue
          · exact ⟨ErrNullCache, by simp [hg, hv]⟩
          · exact ⟨.wrap "反序列化用户数据失败: " e, by simp [hg, hv, hbad]⟩
    · intro hrds hv
      simp [rdsGet_ok (w.log (.cacheGetUser id)) _ (by simpa using hrds), hlive, hv, hbad]
  refine ⟨hb.1, hb.1, hb.1, hpen.1, ?_⟩
  intro hrds
  have h := hb.2 (by simpa using hrds)
  exact ⟨h, h, h, hpen.2 hrds⟩

/-- C11 at a key that holds the text "not json", with the `Get` failing in the first three
conjuncts' world and succeeding in the last. -/
theorem corrupt_payload_read_witness :
    (∃ err, (userCache.GetUser goJSON
        ((emptyWorld.put (getUserKey 1) "not json" 300).setRdsFaults
          [some (.leaf "i/o timeout")]) 1).1 = (none, some err)) ∧
    (userCacheWithPenetration.GetUser goJSON (emptyWorld.put (getUserKey 1) "not json" 300) 1).1
      = (none, some (.wrap "反序列化用户数据失败: " (.leaf "invalid character in JSON input"))) :=
  ⟨(corrupt_payload_read goJSON
      ((emptyWorld.put (getUserKey 1) "not json" 300).setRdsFaults [some (.leaf "i/o timeout")])
      1 { value := "not json", expireAt := 300 } (.leaf "invalid character in JSON input")
      (by decide) rfl).1,
   ((corrupt_payload_read goJSON (emptyWorld.put (getUserKey 1) "not json" 300)
      1 { value := "not json", expireAt := 300 } (.leaf "invalid character in JSON input")
      (by decide) rfl).2.2.2.2 rfl).2.2.2 (by decide)⟩

/-- An error that wraps another is not the sentinel error. -/
theorem wrap_ne_ErrNullCache (msg : String) (e : GoError) : GoError.wrap msg e ≠ ErrNullCache := by
  unfold ErrNullCache
  intro h
  cases h

/-- C12. In the penetration cache, when the store's own errors are not `ErrNullCache`,
`GetUser(id)` returns `(nil, ErrNullCache)` if and only if the store returns the value "NULL" for
`user:<id>` without error; then the result is `(nil, ErrNullCache)` whatever the decoder would
make of "NULL" (the codec is arbitrary), and `IsNullCache(id)` returns `(true, nil)`. -/
theorem sentinel_interpretation (c : Codec) (w : World) (id : Int)
    (hstore : ∀ val, (rdsGet w (getUserKey id)).1 ≠ (val, some ErrNullCache)) :
    ((userCacheWithPenetration.GetUser c w id).1 = (none, some ErrNullCache) ↔
      (rdsGet w (getUserKey id)).1 = (NullCacheValue, none)) ∧
    ((rdsGet w (getUserKey id)).1 = (NullCacheValue, none) →
      (userCacheWithPenetration.IsNullCache w id).1 = (true, none)) := by
  have hlog := rdsGet_log w (.cacheGetUser id) (getUserKey id)
  refine ⟨?_, ?_⟩
  · unfold userCacheWithPenetration.GetUser
    rcases hg : rdsGet (w.log (.cacheGetUser id)) (getUserKey id) with ⟨⟨val, err⟩, w1⟩
    rw [hg] at hlog
    simp only at hlog
    rw [← hlog]
    cases err with
    | some err =>
      simp only [hg, Prod.mk.injEq, Option.some.injEq, true_and]
      constructor
      · intro h
        subst h
        exact absurd hlog.symm (hstore val)
      · intro h
        exact absurd h.2 (by simp)
    | none =>
      by_cases hv : val = NullCacheValue
      · simp [hg, hv]
      · cases hu : c.unmarshal val with
        | error e2 =>
          simp only [hg, hv, hu, if_false, Prod.mk.injEq, Option.some.injEq, true_and, and_true]
          exact ⟨fun h => absurd h (wrap_ne_ErrNullCache _ _), fun h => h.elim⟩
        | ok u => simp [hg, hv, hu]
  · intro h
    unfold userCacheWithPenetration.IsNullCache
    rcases hg : rdsGet w (getUserKey id) with ⟨⟨val, err⟩, w1⟩
    rw [hg] at h
    simp only [Prod.mk.injEq] at h
    obtain ⟨hv, he⟩ := h
    subst hv he
    simp [hg]

/-- C12 at the key `user:88888` holding the sentinel, with a decoder that would accept "NULL":
`GetUser` still answers `(nil, ErrNullCache)`, and `IsNullCache` answers `(true, nil)`. -/
theorem sentinel_interpretation_witness :
    acceptAll.unmarshal NullCacheValue = .ok alice ∧
    (userCacheWithPenetration.GetUser acceptAll
        (emptyWorld.put (getUserKey 88888) NullCacheValue 60) 88888).1
      = (none, some ErrNullCache) ∧
    (userCacheWithPenetration.IsNullCache
        (emptyWorld.put (getUserKey 88888) NullCacheValue 60) 88888).1 = (true, none) :=
  have h := sentinel_interpretation acceptAll
    (emptyWorld.put (getUserKey 88888) NullCacheValue 60) 88888
    (by
      have h : (rdsGet (emptyWorld.put (getUserKey 88888) NullCacheValue 60)
          (getUserKey 88888)).1.2 = none := by decide
      intro val hv
      rw [hv] at h
      cases h)
  ⟨rfl, h.1.2 (by decide), h.2 (by decide)⟩

/-! ## Writing the cache -/

namespace Json

/-- The text of `json.Marshal(user)` starts with an opening brace. -/
theorem marshalUser_head (u : User) (cs : List Char) (h : marshalUser u = .ok cs) :
    ∃ rest, cs = '{' :: rest := by
  cases hc : formatTime u.CreatedAt with
  | error e => simp [marshalUser, hc] at h
  | ok created =>
    cases hu : formatTime u.UpdatedAt with
    | error e => simp [marshalUser, hc, hu] at h
    | ok updated =>
      rw [marshalUser_text u created updated hc hu] at h
      simp only [Except.ok.injEq] at h
      exact ⟨_, h.symm⟩

end Json

/-- The payload of `json.Marshal(user)` is not the sentinel. -/
theorem goJSON_marshal_ne_null (u : User) (payload : String)
    (hm : goJSON.marshal u = .ok payload) : payload ≠ NullCacheValue := by
  cases hmu : Json.marshalUser u with
  | error e => simp [goJSON, hmu, Except.map] at hm
  | ok cs =>
    obtain ⟨rest, hrest⟩ := Json.marshalUser_head u cs hmu
    simp only [goJSON, hmu, Except.map, Except.ok.injEq] at hm
    subst hm hrest
    intro h
    have hd := congrArg String.data h
    simp [NullCacheValue] at hd

/-- C13. For every `User` that `json.Marshal` accepts, the payload that `SetUser` stores is
different from the absent-marker "NULL", and `GetUser` right after a successful `SetUser` of the
record does not answer `(nil, ErrNullCache)`. -/
theorem sentinel_disjoint (u : User) (payload : String)
    (hm : goJSON.marshal u = .ok payload) :
    payload ≠ NullCacheValue ∧
    ∀ w : World, w.rdsFaults = [] →
      (userCacheWithPenetration.SetUser goJSON w (some u) DefaultExpireSeconds).1 = none ∧
      (userCacheWithPenetration.GetUser goJSON
        (userCacheWithPenetration.SetUser goJSON w (some u) DefaultExpireSeconds).2 u.ID).1
        ≠ (none, some ErrNullCache) := by
  have hne := goJSON_marshal_ne_null u payload hm
  refine ⟨hne, ?_⟩
  intro w hrds
  unfold userCacheWithPenetration.SetUser
  rw [setUserBody_ok goJSON _ u payload _ (by simpa using hrds) hm (by decide)]
  refine ⟨rfl, ?_⟩
  unfold userCacheWithPenetration.GetUser
  simp only []
  rw [rdsGet_ok _ _ (by simpa using hrds)]
  have hl : ((((w.log (.cacheSetUser (Option.map (·.ID) (some u)) DefaultExpireSeconds)).log
      (.rdsSetex (getUserKey u.ID) payload DefaultExpireSeconds)).put (getUserKey u.ID) payload
      DefaultExpireSeconds).log (.cacheGetUser u.ID)).live (getUserKey u.ID)
      = some { value := payload, expireAt := w.now + DefaultExpireSeconds.toNat } := by
    have := World.live_advance_put ((w.log (.cacheSetUser (Option.map (·.ID) (some u))
      DefaultExpireSeconds)).log (.rdsSetex (getUserKey u.ID) payload DefaultExpireSeconds))
      (getUserKey u.ID) payload DefaultExpireSeconds 0 (by decide)
    simpa using this
  rw [hl]
  simp only [hne, if_false]
  cases hu : goJSON.unmarshal payload with
  | error e =>
    simp only [hu]
    intro h
    simp only [Prod.mk.injEq, Option.some.injEq, true_and] at h
    exact wrap_ne_ErrNullCache _ _ h
  | ok v =>
    simp only [hu]
    intro h
    simp at h

/-- C13 at the record `alice`. -/
theorem sentinel_disjoint_witness :
    ∃ payload, goJSON.marshal alice = .ok payload ∧ payload ≠ NullCacheValue ∧
      ∀ w : World, w.rdsFaults = [] →
        (userCacheWithPenetration.SetUser goJSON w (some alice) DefaultExpireSeconds).1 = none ∧
        (userCacheWithPenetration.GetUser goJSON
          (userCacheWithPenetration.SetUser goJSON w (some alice) DefaultExpireSeconds).2
          alice.ID).1 ≠ (none, some ErrNullCache) := by
  obtain ⟨payload, hm, -⟩ :=
    (roundTrip_eq_some goJSON alice alice).1 (goJSON_roundTrip alice alice_jsonSafe)
  exact ⟨payload, hm, sentinel_disjoint alice payload hm⟩

/-- C14. In every cache variant, `SetUser` (and `SetUserWithRandomExpire`,
`SetUserWithFixedExpire`) with a nil user returns the error "用户数据不能为空" for every TTL, makes
no store call and leaves the keyspace as it was. -/
theorem nil_record_rejected (c : Codec) (w : World) (ttl : Int) :
    ((userCache.SetUser c w none ttl).1 = some (.leaf "用户数据不能为空") ∧
      (userCache.SetUser c w none ttl).2.redisCalls = w.redisCalls ∧
      (userCache.SetUser c w none ttl).2.store = w.store) ∧
    ((userCacheWithAvalanche.SetUserWithRandomExpire c w none ttl).map (·.1)
        = some (some (.leaf "用户数据不能为空")) ∧
      (userCacheWithAvalanche.SetUserWithRandomExpire c w none ttl).map (·.2.redisCalls)
        = some w.redisCalls ∧
      (userCacheWithAvalanche.SetUserWithRandomExpire c w none ttl).map (·.2.store)
        = some w.store) ∧
    ((userCacheWithAvalanche.SetUserWithFixedExpire c w none ttl).1
        = some (.leaf "用户数据不能为空") ∧
      (userCacheWithAvalanche.SetUserWithFixedExpire c w none ttl).2.redisCalls = w.redisCalls ∧
      (userCacheWithAvalanche.SetUserWithFixedExpire c w none ttl).2.store = w.store) ∧
    ((userCacheWithPenetration.SetUser c w none ttl).1 = some (.leaf "用户数据不能为空") ∧
      (userCacheWithPenetration.SetUser c w none ttl).2.redisCalls = w.redisCalls ∧
      (userCacheWithPenetration.SetUser c w none ttl).2.store = w.store) ∧
    ((userCacheWithBloom.SetUser c w none ttl).1 = some (.leaf "用户数据不能为空") ∧
      (userCacheWithBloom.SetUser c w none ttl).2.redisCalls = w.redisCalls ∧
      (userCacheWithBloom.SetUser c w none ttl).2.store = w.store) := by
  refine ⟨?_, ?_, ?_, ?_, ?_⟩ <;>
    simp [userCache.SetUser, userCacheWithAvalanche.SetUserWithRandomExpire,
      userCacheWithAvalanche.SetUserWithFixedExpire, userCacheWithPenetration.SetUser,
      userCacheWithBloom.SetUser, setUserBody]

/-- C15, amended. For every user that `json.Marshal` accepts and every integer `expireSeconds`,
`userCache.SetUser(u, expireSeconds)` issues exactly one `Setex`, at the key `user:<u.ID>`, with
the payload of `json.Marshal` and with the TTL `expireSeconds` when `expireSeconds > 0` and
`DefaultExpireSeconds = 300` otherwise. -/
theorem plain_write_ttl (c : Codec) (w : World) (u : User) (payload : String)
    (expireSeconds : Int) (hm : c.marshal u = .ok payload) :
    (userCache.SetUser c w (some u) expireSeconds).2.trace
      = .rdsSetex (getUserKey u.ID) payload
          (if 0 < expireSeconds then expireSeconds else DefaultExpireSeconds)
        :: .cacheSetUser (some u.ID) expireSeconds :: w.trace ∧
    DefaultExpireSeconds = 300 := by
  refine ⟨?_, rfl⟩
  unfold userCache.SetUser setUserBody
  simp only [hm, Option.map_some']
  have htr := rdsSetex_trace (w.log (.cacheSetUser (some u.ID) expireSeconds))
    (getUserKey u.ID) payload (if expireSeconds ≤ 0 then DefaultExpireSeconds else expireSeconds)
  have hif : (if expireSeconds ≤ 0 then DefaultExpireSeconds else expireSeconds)
      = (if 0 < expireSeconds then expireSeconds else DefaultExpireSeconds) := by
    by_cases h : expireSeconds ≤ 0
    · have h2 : ¬ 0 < expireSeconds := by omega
      simp [h, h2]
    · have h2 : 0 < expireSeconds := by omega
      simp [h, h2]
  rw [hif] at htr ⊢
  rcases hs : rdsSetex (w.log (.cacheSetUser (some u.ID) expireSeconds))
    (getUserKey u.ID) payload (if 0 < expireSeconds then expireSeconds else DefaultExpireSeconds)
    with ⟨e, w2⟩
  rw [hs] at htr
  simp only [World.log_trace] at htr
  cases e <;> exact htr

/-- C15, amended, for `alice`: a TTL of 60 is kept, a TTL of 0 becomes 300. -/
theorem plain_write_ttl_witness :
    ∃ payload, goJSON.marshal alice = .ok payload ∧
      (userCache.SetUser goJSON emptyWorld (some alice) 60).2.trace
        = [.rdsSetex (getUserKey 1) payload 60, .cacheSetUser (some 1) 60] ∧
      (userCache.SetUser goJSON emptyWorld (some alice) 0).2.trace
        = [.rdsSetex (getUserKey 1) payload 300, .cacheSetUser (some 1) 0] := by
  obtain ⟨payload, hm, -⟩ :=
    (roundTrip_eq_some goJSON alice alice).1 (goJSON_roundTrip alice alice_jsonSafe)
  exact ⟨payload, hm, (plain_write_ttl goJSON emptyWorld alice payload 60 hm).1,
    (plain_write_ttl goJSON emptyWorld alice payload 0 hm).1⟩

set_option maxRecDepth 1000000 in
/-- C15 as stated fails for a user that `json.Marshal` rejects: `CreatedAt` in the year 10000
makes `Time.MarshalJSON` fail, `SetUser(u, 60)` returns the serialization error and issues no
`Setex`. -/
theorem plain_write_ttl_counterexample :
    (userCache.SetUser goJSON emptyWorld (some farFuture) 60).1
      = some (.wrap "序列化用户数据失败: "
          (.wrap "json: error calling MarshalJSON for type time.Time: "
            (.leaf "Time.MarshalJSON: year outside of range [0,9999]"))) ∧
    (userCache.SetUser goJSON emptyWorld (some farFuture) 60).2.trace
      = [.cacheSetUser (some 3) 60] ∧
    (userCache.SetUser goJSON emptyWorld (some farFuture) 60).2.redisCalls = 0 := by
  decide

/-! ## The cache key -/

namespace Json

/-- Lean's digit characters are the ones of `digitChar` below ten. -/
theorem digitChar_eq (d : Nat) (h : d < 10) : Nat.digitChar d = digitChar d := by
  interval_cases d <;> rfl

/-- Lean's decimal printing of a natural number yields the digits of `natDigitsAux`. -/
theorem toDigitsCore_eq (fuel n : Nat) (acc : List Char) :
    Nat.toDigitsCore 10 fuel n acc = natDigitsAux fuel n acc := by
  induction fuel generalizing n acc with
  | zero => rfl
  | succ fuel ih =>
    unfold Nat.toDigitsCore natDigitsAux
    by_cases h : n < 10
    · have h0 : n / 10 = 0 := by omega
      have hm : n % 10 = n := by omega
      simp [h, h0, hm, digitChar_eq n h]
    · have h0 : ¬ n / 10 = 0 := by omega
      simp [h, h0, ih, digitChar_eq (n % 10) (by omega)]

theorem repr_eq_natDigits (n : Nat) : Nat.repr n = String.mk (natDigits n) := by
  simp [Nat.repr, Nat.toDigits, toDigitsCore_eq, natDigits, List.asString]

/-- The text `%d` prints for an integer is its decimal representation `encodeInt`. -/
theorem toString_eq_encodeInt (n : Int) : toString n = String.mk (encodeInt n) := by
  cases n with
  | ofNat m =>
    have h : ¬ ((m : Int) < 0) := by omega
    show Nat.repr m = _
    simp [encodeInt, h, repr_eq_natDigits]
  | negSucc m =>
    have h : Int.negSucc m < 0 := Int.negSucc_lt_zero m
    show "-" ++ Nat.repr (m + 1) = _
    rw [repr_eq_natDigits]
    simp only [encodeInt, h, if_true, Int.natAbs_negSucc]
    rfl

/-- The decimal representation determines the integer. -/
theorem encodeInt_injective (a b : Int) (h : encodeInt a = encodeInt b) : a = b := by
  obtain ⟨-, hva, ca, ra, hca, -⟩ := natDigits_spec a.natAbs
  obtain ⟨-, hvb, cb, rb, hcb, -⟩ := natDigits_spec b.natAbs
  obtain ⟨da, dra, hda, hdig_a⟩ := head_natDigits a.natAbs
  obtain ⟨db, drb, hdb, hdig_b⟩ := head_natDigits b.natAbs
  have hminus : isDigit '-' = false := by decide
  unfold encodeInt at h
  by_cases ha : a < 0 <;> by_cases hb : b < 0
  · simp only [ha, hb, if_true, List.cons.injEq, true_and] at h
    have : a.natAbs = b.natAbs := by rw [← hva, ← hvb, h]
    omega
  · simp only [ha, hb, if_true, if_false] at h
    rw [hdb] at h
    simp only [List.cons.injEq] at h
    rw [← h.1, hminus] at hdig_b
    cases hdig_b
  · simp only [ha, hb, if_true, if_false] at h
    rw [hda] at h
    simp only [List.cons.injEq] at h
    rw [h.1, hminus] at hdig_a
    cases hdig_a
  · simp only [ha, hb, if_false] at h
    have : a.natAbs = b.natAbs := by rw [← hva, ← hvb, h]
    omega

end Json

/-- The key is the prefix followed by the decimal representation of the id. -/
theorem getUserKey_eq (id : Int) :
    getUserKey id = "user:" ++ String.mk (Json.encodeInt id) := by
  unfold getUserKey UserCacheKeyPrefix
  rw [Json.toString_eq_encodeInt]

/-- C16. In all four cache variants `getUserKey(id)` is the string "user:" followed by the
decimal representation of `id` (`strconv`'s, as `%d` prints it); id 1 gives "user:1"; and two
ids have the same key only when they are equal. -/
theorem getUserKey_format (id : Int) :
    getUserKey id = "user:" ++ String.mk (Json.encodeInt id) ∧
    userCacheWithAvalanche.getUserKey id = "user:" ++ String.mk (Json.encodeInt id) ∧
    userCacheWithPenetration.getUserKey id = "user:" ++ String.mk (Json.encodeInt id) ∧
    userCacheWithBloom.getUserKey id = "user:" ++ String.mk (Json.encodeInt id) ∧
    getUserKey 1 = "user:1" ∧
    ∀ other : Int, getUserKey id = getUserKey other ↔ id = other := by
  refine ⟨getUserKey_eq id, getUserKey_eq id, getUserKey_eq id, getUserKey_eq id, by decide, ?_⟩
  intro other
  constructor
  · intro h
    rw [getUserKey_eq, getUserKey_eq] at h
    have hd := congrArg String.data h
    simp only [String.data_append, List.append_cancel_left_eq] at hd
    exact Json.encodeInt_injective id other hd
  · intro h
    rw [h]

/-! ## The read path when the repository fails or the cache cannot be filled -/

/-- A cache read followed by `repo.FindByID` records no cache write and leaves the keyspace and
the Bloom filter as they were. -/
theorem read_then_find_frame (c : Codec) (w : World) (id : Int) :
    (repoFindByID (getUserBody c (w.log (.cacheGetUser id)) id).2 id).2.cacheWriteCalls
      = w.cacheWriteCalls ∧
    (repoFindByID (getUserBody c (w.log (.cacheGetUser id)) id).2 id).2.store = w.store ∧
    (repoFindByID (getUserBody c (w.log (.cacheGetUser id)) id).2 id).2.bloomBits
      = w.bloomBits := by
  have h1 := repoFindByID_trace (getUserBody c (w.log (.cacheGetUser id)) id).2 id
  have h2 := repoFindByID_store (getUserBody c (w.log (.cacheGetUser id)) id).2 id
  rw [getUserBody_world] at h1 h2 ⊢
  have h3 := rdsGet_trace (w.log (.cacheGetUser id)) (getUserKey id)
  have h4 := rdsGet_store (w.log (.cacheGetUser id)) (getUserKey id)
  rw [h3] at h1
  refine ⟨?_, ?_, ?_⟩
  · simp [World.cacheWriteCalls, World.count, h1]
  · rw [h2.1, h4.1]; rfl
  · rw [h2.2, h4.2]; rfl

/-- The same for the penetration variant's read. -/
theorem penetration_read_then_find_frame (c : Codec) (w : World) (id : Int) :
    (repoFindByID (userCacheWithPenetration.GetUser c w id).2 id).2.cacheWriteCalls
      = w.cacheWriteCalls ∧
    (repoFindByID (userCacheWithPenetration.GetUser c w id).2 id).2.store = w.store ∧
    (repoFindByID (userCacheWithPenetration.GetUser c w id).2 id).2.bloomBits
      = w.bloomBits := by
  have h1 := repoFindByID_trace (userCacheWithPenetration.GetUser c w id).2 id
  have h2 := repoFindByID_store (userCacheWithPenetration.GetUser c w id).2 id
  rw [penetration_GetUser_world] at h1 h2 ⊢
  have h3 := rdsGet_trace (w.log (.cacheGetUser id)) (getUserKey id)
  have h4 := rdsGet_store (w.log (.cacheGetUser id)) (getUserKey id)
  rw [h3] at h1
  refine ⟨?_, ?_, ?_⟩
  · simp [World.cacheWriteCalls, World.count, h1]
  · rw [h2.1, h4.1]; rfl
  · rw [h2.2, h4.2]; rfl

/-- The filter check records no cache write and leaves the keyspace and the filter as they
were. -/
theorem ExistsInBloomFilter_frame (w : World) (id : Int) :
    (userCacheWithBloom.ExistsInBloomFilter w id).2.cacheWriteCalls = w.cacheWriteCalls ∧
    (userCacheWithBloom.ExistsInBloomFilter w id).2.store = w.store ∧
    (userCacheWithBloom.ExistsInBloomFilter w id).2.bloomBits = w.bloomBits := by
  unfold userCacheWithBloom.ExistsInBloomFilter
  have h1 := bloomExists_trace (w.log (.cacheExistsInBloomFilter id)) ("user:" ++ toString id)
  have h2 := bloomExists_store (w.log (.cacheExistsInBloomFilter id)) ("user:" ++ toString id)
  refine ⟨?_, ?_, ?_⟩
  · simp [World.cacheWriteCalls, World.count, h1]
  · rw [h2.1]; rfl
  · rw [h2.2]; rfl

theorem userService_repo_error (c : Codec) (w : World) (id : Int) (err : GoError)
    (hnot : errorsIs err .recordNotFound = false)
    (hmiss : (userCache.GetUser c w id).1.1 = none)
    (herr : (repoFindByID (userCache.GetUser c w id).2 id).1.2 = some err) :
    userService.GetUserByID c w id
      = ((none, some (queryFailed err)), (repoFindByID (userCache.GetUser c w id).2 id).2) := by
  unfold userService.GetUserByID
  rcases hg : userCache.GetUser c w id with ⟨⟨u, e⟩, w1⟩
  rw [hg] at hmiss herr
  simp only at hmiss herr
  subst hmiss
  rcases hf : repoFindByID w1 id with ⟨⟨u2, e2⟩, w2⟩
  rw [hf] at herr
  simp only at herr
  subst herr
  simp [hf, hnot]

theorem strategy_repo_error (c : Codec) (w : World) (id : Int) (err : GoError)
    (hmiss : (userCache.GetUser c w id).1.1 = none)
    (herr : (repoFindByID (userCache.GetUser c w id).2 id).1.2 = some err) :
    userServiceWithStrategy.GetUserByID c w id
      = ((none, some (queryFailed err)), (repoFindByID (userCache.GetUser c w id).2 id).2) := by
  unfold userServiceWithStrategy.GetUserByID
  rcases hg : userCache.GetUser c w id with ⟨⟨u, e⟩, w1⟩
  rw [hg] at hmiss herr
  simp only at hmiss herr
  subst hmiss
  rcases hf : repoFindByID w1 id with ⟨⟨u2, e2⟩, w2⟩
  rw [hf] at herr
  simp only at herr
  subst herr
  simp [hf]

theorem avalanche_repo_error (c : Codec) (mode : ExpireMode) (base : Int) (w : World) (id : Int)
    (err : GoError) (hnot : errorsIs err .recordNotFound = false)
    (hmiss : (userCacheWithAvalanche.GetUser c w id).1.1 = none)
    (herr : (repoFindByID (userCacheWithAvalanche.GetUser c w id).2 id).1.2 = some err) :
    userServiceWithAvalanche.GetUserByID c mode base w id
      = some ((none, some (queryFailed err)),
          (repoFindByID (userCacheWithAvalanche.GetUser c w id).2 id).2) := by
  unfold userServiceWithAvalanche.GetUserByID
  rcases hg : userCacheWithAvalanche.GetUser c w id with ⟨⟨u, e⟩, w1⟩
  rw [hg] at hmiss herr
  simp only at hmiss herr
  subst hmiss
  rcases hf : repoFindByID w1 id with ⟨⟨u2, e2⟩, w2⟩
  rw [hf] at herr
  simp only at herr
  subst herr
  simp [hf, hnot]

theorem penetration_repo_error (c : Codec) (w : World) (id : Int) (err : GoError)
    (hnot : errorsIs err .recordNotFound = false)
    (hmiss : (userCacheWithPenetration.GetUser c w id).1.1 = none)
    (hnull : ∀ e, (userCacheWithPenetration.GetUser c w id).1.2 = some e →
      errorsIs e ErrNullCache = false)
    (herr : (repoFindByID (userCacheWithPenetration.GetUser c w id).2 id).1.2 = some err) :
    userServiceWithPenetration.GetUserByID c w id
      = ((none, some (queryFailed err)),
          (repoFindByID (userCacheWithPenetration.GetUser c w id).2 id).2) := by
  unfold userServiceWithPenetration.GetUserByID
  rcases hg : userCacheWithPenetration.GetUser c w id with ⟨⟨u, e⟩, w1⟩
  rw [hg] at hmiss herr hnull
  simp only at hmiss herr hnull
  subst hmiss
  rcases hf : repoFindByID w1 id with ⟨⟨u2, e2⟩, w2⟩
  rw [hf] at herr
  simp only at herr
  subst herr
  cases e with
  | none => simp [hf, hnot]
  | some e =>
    have := hnull e rfl
    simp [hf, hnot, this]

theorem bloom_repo_error (c : Codec) (w : World) (id : Int) (err : GoError)
    (hnot : errorsIs err .recordNotFound = false)
    (hpass : (userCacheWithBloom.ExistsInBloomFilter w id).1 ≠ (false, none))
    (hmiss : (userCacheWithBloom.GetUser c
      (userCacheWithBloom.ExistsInBloomFilter w id).2 id).1.1 = none)
    (herr : (repoFindByID (userCacheWithBloom.GetUser c
      (userCacheWithBloom.ExistsInBloomFilter w id).2 id).2 id).1.2 = some err) :
    userServiceWithBloom.GetUserByID c w id
      = some ((none, some (queryFailed err)),
          (repoFindByID (userCacheWithBloom.GetUser c
            (userCacheWithBloom.ExistsInBloomFilter w id).2 id).2 id).2) := by
  unfold userServiceWithBloom.GetUserByID
  rcases hx : userCacheWithBloom.ExistsInBloomFilter w id with ⟨⟨b, xe⟩, w0⟩
  rw [hx] at hpass hmiss herr
  simp only at hpass hmiss herr
  rcases hg : userCacheWithBloom.GetUser c w0 id with ⟨⟨u, e⟩, w1⟩
  rw [hg] at hmiss herr
  simp only at hmiss herr
  subst hmiss
  rcases hf : repoFindByID w1 id with ⟨⟨u2, e2⟩, w2⟩
  rw [hf] at herr
  simp only at herr
  subst herr
  cases b with
  | true => simp [hg, hf, hnot]
  | false =>
    cases xe with
    | none => exact absurd rfl hpass
    | some xe => simp [hg, hf, hnot]

/-- C17. In every service variant, when the cache read is not a hit (and, in the Bloom variant,
the filter lets the id pass; in the penetration variant, the read is not the sentinel) and
`repo.FindByID(id)` fails with an error `err` for which `errors.Is(err, gorm.ErrRecordNotFound)`
is false, `GetUserByID(id)` returns "查询用户失败" wrapping `err`, calls no cache method that
writes, and leaves the keyspace and the Bloom filter as they were. -/
theorem repo_error_leaves_cache (c : Codec) (w : World) (id : Int) (err : GoError)
    (mode : ExpireMode) (base : Int) (hnot : errorsIs err .recordNotFound = false) :
    (queryFailed err).unwrap = some err ∧
    ((userCache.GetUser c w id).1.1 = none →
      (repoFindByID (userCache.GetUser c w id).2 id).1.2 = some err →
      ((userService.GetUserByID c w id).1 = (none, some (queryFailed err)) ∧
        (userService.GetUserByID c w id).2.cacheWriteCalls = w.cacheWriteCalls ∧
        (userService.GetUserByID c w id).2.store = w.store) ∧
      ((userServiceWithStrategy.GetUserByID c w id).1 = (none, some (queryFailed err)) ∧
        (userServiceWithStrategy.GetUserByID c w id).2.cacheWriteCalls = w.cacheWriteCalls ∧
        (userServiceWithStrategy.GetUserByID c w id).2.store = w.store)) ∧
    ((userCacheWithAvalanche.GetUser c w id).1.1 = none →
      (repoFindByID (userCacheWithAvalanche.GetUser c w id).2 id).1.2 = some err →
      ∃ w', userServiceWithAvalanche.GetUserByID c mode base w id
          = some ((none, some (queryFailed err)), w') ∧
        w'.cacheWriteCalls = w.cacheWriteCalls ∧ w'.store = w.store) ∧
    ((userCacheWithPenetration.GetUser c w id).1.1 = none →
      (∀ e, (userCacheWithPenetration.GetUser c w id).1.2 = some e →
        errorsIs e ErrNullCache = false) →
      (repoFindByID (userCacheWithPenetration.GetUser c w id).2 id).1.2 = some err →
      (userServiceWithPenetration.GetUserByID c w id).1 = (none, some (queryFailed err)) ∧
      (userServiceWithPenetration.GetUserByID c w id).2.cacheWriteCalls = w.cacheWriteCalls ∧
      (userServiceWithPenetration.GetUserByID c w id).2.store = w.store) ∧
    ((userCacheWithBloom.ExistsInBloomFilter w id).1 ≠ (false, none) →
      (userCacheWithBloom.GetUser c
        (userCacheWithBloom.ExistsInBloomFilter w id).2 id).1.1 = none →
      (repoFindByID (userCacheWithBloom.GetUser c
        (userCacheWithBloom.ExistsInBloomFilter w id).2 id).2 id).1.2 = some err →
      ∃ w', userServiceWithBloom.GetUserByID c w id
          = some ((none, some (queryFailed err)), w') ∧
        w'.cacheWriteCalls = w.cacheWriteCalls ∧ w'.store = w.store ∧
        w'.bloomBits = w.bloomBits) := by
  have hframe := read_then_find_frame c w id
  refine ⟨rfl, ?_, ?_, ?_, ?_⟩
  · intro hmiss herr
    rw [userService_repo_error c w id err hnot hmiss herr,
      strategy_repo_error c w id err hmiss herr]
    exact ⟨⟨rfl, hframe.1, hframe.2.1⟩, ⟨rfl, hframe.1, hframe.2.1⟩⟩
  · intro hmiss herr
    exact ⟨_, avalanche_repo_error c mode base w id err hnot hmiss herr, hframe.1, hframe.2.1⟩
  · intro hmiss hnull herr
    have hp := penetration_read_then_find_frame c w id
    rw [penetration_repo_error c w id err hnot hmiss hnull herr]
    exact ⟨rfl, hp.1, hp.2.1⟩
  · intro hpass hmiss herr
    have hx := ExistsInBloomFilter_frame w id
    have hb := read_then_find_frame c (userCacheWithBloom.ExistsInBloomFilter w id).2 id
    refine ⟨_, bloom_repo_error c w id err hnot hpass hmiss herr, ?_, ?_, ?_⟩
    · exact hb.1.trans hx.1
    · exact hb.2.1.trans hx.2.1
    · exact hb.2.2.trans hx.2.2

/-- C17 with a repository that refuses the connection, for `alice` (id 1, in the Bloom filter,
not in the cache). -/
theorem repo_error_leaves_cache_witness :
    ((userService.GetUserByID goJSON repoDownWorld 1).1
        = (none, some (queryFailed (.leaf "connection refused"))) ∧
      (userService.GetUserByID goJSON repoDownWorld 1).2.cacheWriteCalls
        = repoDownWorld.cacheWriteCalls ∧
      (userService.GetUserByID goJSON repoDownWorld 1).2.store = repoDownWorld.store) ∧
    (∃ w', userServiceWithAvalanche.GetUserByID goJSON RandomExpire 60 repoDownWorld 1
        = some ((none, some (queryFailed (.leaf "connection refused"))), w') ∧
      w'.cacheWriteCalls = repoDownWorld.cacheWriteCalls ∧ w'.store = repoDownWorld.store) ∧
    ((userServiceWithPenetration.GetUserByID goJSON repoDownWorld 1).1
        = (none, some (queryFailed (.leaf "connection refused"))) ∧
      (userServiceWithPenetration.GetUserByID goJSON repoDownWorld 1).2.cacheWriteCalls
        = repoDownWorld.cacheWriteCalls ∧
      (userServiceWithPenetration.GetUserByID goJSON repoDownWorld 1).2.store
        = repoDownWorld.store) ∧
    (∃ w', userServiceWithBloom.GetUserByID goJSON repoDownWorld 1
        = some ((none, some (queryFailed (.leaf "connection refused"))), w') ∧
      w'.cacheWriteCalls = repoDownWorld.cacheWriteCalls ∧ w'.store = repoDownWorld.store ∧
      w'.bloomBits = repoDownWorld.bloomBits) :=
  have h := repo_error_leaves_cache goJSON repoDownWorld 1 (.leaf "connection refused")
    RandomExpire 60 rfl
  ⟨(h.2.1 (by decide) (by decide)).1, h.2.2.1 (by decide) (by decide),
    h.2.2.2.1 (by decide)
      (by
        have hv : (userCacheWithPenetration.GetUser goJSON repoDownWorld 1).1.2
            = some (.wrap "反序列化用户数据失败: " (.leaf "unexpected end of JSON input")) := by
          decide
        intro e he
        rw [hv] at he
        cases he
        decide)
      (by decide),
    h.2.2.2.2 (by decide) (by decide) (by decide)⟩

theorem userService_populate (c : Codec) (w : World) (id : Int) (r : User)
    (hmiss : (userCache.GetUser c w id).1.1 = none)
    (hfound : (repoFindByID (userCache.GetUser c w id).2 id).1 = (some r, none)) :
    (userService.GetUserByID c w id).1 = (some r, none) ∧
    (userServiceWithStrategy.GetUserByID c w id).1 = (some r, none) := by
  unfold userService.GetUserByID userServiceWithStrategy.GetUserByID
  rcases hg : userCache.GetUser c w id with ⟨⟨u, e⟩, w1⟩
  rw [hg] at hmiss hfound
  simp only at hmiss hfound
  subst hmiss
  rcases hf : repoFindByID w1 id with ⟨⟨u2, e2⟩, w2⟩
  rw [hf] at hfound
  simp only [Prod.mk.injEq] at hfound
  obtain ⟨h1, h2⟩ := hfound
  subst h1 h2
  simp [hf]

theorem avalanche_populate (c : Codec) (mode : ExpireMode) (base : Int) (w : World) (id : Int)
    (r : User)
    (hmiss : (userCacheWithAvalanche.GetUser c w id).1.1 = none)
    (hfound : (repoFindByID (userCacheWithAvalanche.GetUser c w id).2 id).1 = (some r, none))
    (hret : mode = RandomExpire →
      (userCacheWithAvalanche.SetUserWithRandomExpire c
        (repoFindByID (userCacheWithAvalanche.GetUser c w id).2 id).2 (some r) base).isSome
        = true) :
    ∃ w', userServiceWithAvalanche.GetUserByID c mode base w id = some ((some r, none), w') := by
  unfold userServiceWithAvalanche.GetUserByID
  rcases hg : userCacheWithAvalanche.GetUser c w id with ⟨⟨u, e⟩, w1⟩
  rw [hg] at hmiss hfound hret
  simp only at hmiss hfound hret
  subst hmiss
  rcases hf : repoFindByID w1 id with ⟨⟨u2, e2⟩, w2⟩
  rw [hf] at hfound hret
  simp only [Prod.mk.injEq] at hfound hret
  obtain ⟨h1, h2⟩ := hfound
  subst h1 h2
  have hne : ¬ RandomExpire = FixedExpire := by decide
  by_cases hfix : mode = FixedExpire
  · exact ⟨(userCacheWithAvalanche.SetUserWithFixedExpire c w2 (some r) base).2,
      by simp [hf, hfix]⟩
  · by_cases hrand : mode = RandomExpire
    · have hsome := hret hrand
      subst hrand
      rcases hs : userCacheWithAvalanche.SetUserWithRandomExpire c w2 (some r) base with _ | res
      · rw [hs] at hsome
        cases hsome
      · exact ⟨res.2, by simp [hf, hne, hs]⟩
    · exact ⟨w2, by simp [hf, hfix, hrand]⟩

theorem penetration_populate (c : Codec) (w : World) (id : Int) (r : User)
    (hmiss : (userCacheWithPenetration.GetUser c w id).1.1 = none)
    (hnull : ∀ e, (userCacheWithPenetration.GetUser c w id).1.2 = some e →
      errorsIs e ErrNullCache = false)
    (hfound : (repoFindByID (userCacheWithPenetration.GetUser c w id).2 id).1
      = (some r, none)) :
    (userServiceWithPenetration.GetUserByID c w id).1 = (some r, none) := by
  unfold userServiceWithPenetration.GetUserByID
  rcases hg : userCacheWithPenetration.GetUser c w id with ⟨⟨u, e⟩, w1⟩
  rw [hg] at hmiss hfound hnull
  simp only at hmiss hfound hnull
  subst hmiss
  rcases hf : repoFindByID w1 id with ⟨⟨u2, e2⟩, w2⟩
  rw [hf] at hfound
  simp only [Prod.mk.injEq] at hfound
  obtain ⟨h1, h2⟩ := hfound
  subst h1 h2
  cases e with
  | none => simp [hf]
  | some e =>
    have := hnull e rfl
    simp [hf, this]

theorem bloom_populate (c : Codec) (w : World) (id : Int) (r : User)
    (hpass : (userCacheWithBloom.ExistsInBloomFilter w id).1 ≠ (false, none))
    (hmiss : (userCacheWithBloom.GetUser c
      (userCacheWithBloom.ExistsInBloomFilter w id).2 id).1.1 = none)
    (hfound : (repoFindByID (userCacheWithBloom.GetUser c
      (userCacheWithBloom.ExistsInBloomFilter w id).2 id).2 id).1 = (some r, none)) :
    ∃ w', userServiceWithBloom.GetUserByID c w id = some ((some r, none), w') := by
  unfold userServiceWithBloom.GetUserByID
  rcases hx : userCacheWithBloom.ExistsInBloomFilter w id with ⟨⟨b, xe⟩, w0⟩
  rw [hx] at hpass hmiss hfound
  simp only at hpass hmiss hfound
  rcases hg : userCacheWithBloom.GetUser c w0 id with ⟨⟨u, e⟩, w1⟩
  rw [hg] at hmiss hfound
  simp only at hmiss hfound
  subst hmiss
  rcases hf : repoFindByID w1 id with ⟨⟨u2, e2⟩, w2⟩
  rw [hf] at hfound
  simp only [Prod.mk.injEq] at hfound
  obtain ⟨h1, h2⟩ := hfound
  subst h1 h2
  cases b with
  | true =>
    exact ⟨(userCacheWithBloom.AddToBloomFilter
      (userCacheWithBloom.SetUser c w2 (some r) DefaultExpireSeconds).2 id).2, by simp [hg, hf]⟩
  | false =>
    cases xe with
    | none => exact absurd rfl hpass
    | some xe =>
      exact ⟨(userCacheWithBloom.AddToBloomFilter
        (userCacheWithBloom.SetUser c w2 (some r) DefaultExpireSeconds).2 id).2,
        by simp [hg, hf]⟩

/-! ## The write path -/

/-- The body of `SetUser` only adds calls to the trace. -/
theorem setUserBody_trace (c : Codec) (w : World) (user : Option User) (expireSeconds : Int) :
    ∃ later, (setUserBody c w user expireSeconds).2.trace = later ++ w.trace := by
  unfold setUserBody
  cases user with
  | none => exact ⟨[], rfl⟩
  | some u =>
    cases hm : c.marshal u with
    | error e => exact ⟨[], by simp [hm]⟩
    | ok data =>
      simp only [hm]
      have htr := rdsSetex_trace w (getUserKey u.ID) data
        (if expireSeconds ≤ 0 then DefaultExpireSeconds else expireSeconds)
      rcases hs : rdsSetex w (getUserKey u.ID) data
        (if expireSeconds ≤ 0 then DefaultExpireSeconds else expireSeconds) with ⟨e, w2⟩
      rw [hs] at htr
      simp only at htr
      refine ⟨[.rdsSetex (getUserKey u.ID) data
        (if expireSeconds ≤ 0 then DefaultExpireSeconds else expireSeconds)], ?_⟩
      cases e <;> simpa [hs] using htr

/-- The method `SetUserWithRandomExpire`, when it returns, only adds calls to the trace. -/
theorem SetUserWithRandomExpire_trace (c : Codec) (w : World) (user : Option User) (base : Int)
    (res : Option GoError × World)
    (h : userCacheWithAvalanche.SetUserWithRandomExpire c w user base = some res) :
    ∃ later, res.2.trace = later ++ w.trace := by
  unfold userCacheWithAvalanche.SetUserWithRandomExpire at h
  cases user with
  | none =>
    simp only [Option.some.injEq] at h
    subst h
    exact ⟨[.cacheSetUserWithRandomExpire none base], rfl⟩
  | some u =>
    cases hm : c.marshal u with
    | error e =>
      simp only [hm, Option.some.injEq] at h
      subst h
      exact ⟨[.cacheSetUserWithRandomExpire (some u.ID) base], rfl⟩
    | ok data =>
      simp only [hm, World.nextRand_log] at h
      cases hr : randIntn (if (wrapInt ((if base ≤ 0 then DefaultExpireSeconds else base)
          * AvalancheRandomRangePercent)).tdiv 100 = 0 then 1
          else (wrapInt ((if base ≤ 0 then DefaultExpireSeconds else base)
          * AvalancheRandomRangePercent)).tdiv 100) w.nextRand.1 with
      | none =>
        rw [hr] at h
        exact absurd h (by simp)
      | some x =>
        simp only [hr] at h
        have htr := rdsSetex_trace (w.nextRand.2.log
          (.cacheSetUserWithRandomExpire (Option.map (·.ID) (some u)) base))
          (getUserKey u.ID) data (wrapInt ((if base ≤ 0 then DefaultExpireSeconds else base) + x))
        rcases hs : rdsSetex (w.nextRand.2.log
          (.cacheSetUserWithRandomExpire (Option.map (·.ID) (some u)) base))
          (getUserKey u.ID) data (wrapInt ((if base ≤ 0 then DefaultExpireSeconds else base) + x))
          with ⟨e, w2⟩
        rw [hs] at htr h
        simp only [World.log_trace, World.nextRand_trace] at htr
        refine ⟨[.rdsSetex (getUserKey u.ID) data
          (wrapInt ((if base ≤ 0 then DefaultExpireSeconds else base) + x)),
          .cacheSetUserWithRandomExpire (Option.map (·.ID) (some u)) base], ?_⟩
        cases e with
        | none =>
          simp only [Option.some.injEq] at h
          subst h
          simpa using htr
        | some e =>
          simp only [Option.some.injEq] at h
          subst h
          simpa using htr

/-- The function `GetRandomExpireTime` returns for every base whose tenfold fits `int`; a
non-positive base stands for `DefaultExpireSeconds`. -/
theorem GetRandomExpireTime_returns (B : Int) (draw : Nat) (hfit : B ≤ 922337203685477580) :
    ∃ t, GetRandomExpireTime B draw = some t := by
  by_cases hpos : 0 < B
  · exact ⟨_, GetRandomExpireTime_fits B draw hpos hfit⟩
  · have hle : B ≤ 0 := by omega
    have h300 : GetRandomExpireTime B draw = GetRandomExpireTime 300 draw := by
      unfold GetRandomExpireTime
      simp [hle, DefaultExpireSeconds]
    rw [h300]
    exact ⟨_, GetRandomExpireTime_fits 300 draw (by decide) (by decide)⟩

/-- The method `SetUserWithRandomExpire` returns (with nil or with an error) for every base
whose tenfold fits `int`. -/
theorem SetUserWithRandomExpire_returns (c : Codec) (w : World) (user : Option User)
    (base : Int) (hfit : base ≤ 922337203685477580) :
    (userCacheWithAvalanche.SetUserWithRandomExpire c w user base).isSome = true := by
  cases user with
  | none => simp [userCacheWithAvalanche.SetUserWithRandomExpire]
  | some u =>
    cases hm : c.marshal u with
    | error e => simp [userCacheWithAvalanche.SetUserWithRandomExpire, hm]
    | ok data =>
      obtain ⟨t, ht⟩ := GetRandomExpireTime_returns base w.nextRand.1 hfit
      obtain ⟨res, hres, -⟩ := SetUserWithRandomExpire_setex c w u data base t hm ht
      rw [hres]
      rfl

/-- The cache `DeleteUser` records itself and its `Del`. -/
theorem deleteUserBody_trace (w : World) (id : Int) :
    (deleteUserBody (w.log (.cacheDeleteUser id)) id).2.trace
      = .rdsDel (getUserKey id) :: .cacheDeleteUser id :: w.trace := by
  unfold deleteUserBody
  rw [rdsDel_trace]
  rfl

theorem strategy_DeleteUser_eq (w : World) (id : Int) :
    userServiceWithStrategy.DeleteUser w id = userService.DeleteUser w id := rfl

theorem avalanche_DeleteUser_eq (w : World) (id : Int) :
    userServiceWithAvalanche.DeleteUser w id = userService.DeleteUser w id := rfl

theorem bloom_DeleteUser_eq (w : World) (id : Int) :
    userServiceWithBloom.DeleteUser w id = userService.DeleteUser w id := rfl

theorem penetration_DeleteUser_eq (w : World) (id : Int) :
    userServiceWithPenetration.DeleteUser w id = userService.DeleteUser w id := rfl

theorem bloom_UpdateUser_eq (c : Codec) (w : World) (u : User) :
    userServiceWithBloom.UpdateUser c w u = userService.UpdateUser c w u := rfl

theorem penetration_UpdateUser_eq (c : Codec) (w : World) (u : User) :
    userServiceWithPenetration.UpdateUser c w u = userService.UpdateUser c w u := rfl

/-- The plain `UpdateUser` when `repo.Update` fails. -/
theorem userService_update_failed (c : Codec) (w : World) (u : User) (err : GoError)
    (hfail : (repoUpdate w u).1.1 = some err) :
    userService.UpdateUser c w u = (some (updateFailed err), (repoUpdate w u).2) := by
  unfold userService.UpdateUser
  rcases hr : repoUpdate w u with ⟨⟨e, v⟩, w1⟩
  rw [hr] at hfail
  simp only at hfail
  subst hfail
  rfl

theorem strategy_update_failed (c : Codec) (strategy : UpdateStrategy) (w : World) (u : User)
    (err : GoError) (hfail : (repoUpdate w u).1.1 = some err) :
    userServiceWithStrategy.UpdateUser c strategy w u
      = (some (updateFailed err), (repoUpdate w u).2) := by
  unfold userServiceWithStrategy.UpdateUser
  rcases hr : repoUpdate w u with ⟨⟨e, v⟩, w1⟩
  rw [hr] at hfail
  simp only at hfail
  subst hfail
  rfl

theorem avalanche_update_failed (c : Codec) (mode : ExpireMode) (base : Int) (w : World)
    (u : User) (err : GoError) (hfail : (repoUpdate w u).1.1 = some err) :
    userServiceWithAvalanche.UpdateUser c mode base w u
      = some (some (updateFailed err), (repoUpdate w u).2) := by
  unfold userServiceWithAvalanche.UpdateUser
  rcases hr : repoUpdate w u with ⟨⟨e, v⟩, w1⟩
  rw [hr] at hfail
  simp only at hfail
  subst hfail
  rfl

/-- The plain `UpdateUser`: its result is nil exactly when `repo.Update` returns nil, and the
first call it records is `repo.Update`. -/
theorem userService_update_shape (c : Codec) (w : World) (u : User) :
    ((userService.UpdateUser c w u).1 = none ↔ (repoUpdate w u).1.1 = none) ∧
    ∃ later, (userService.UpdateUser c w u).2.trace = later ++ .repoUpdate u.ID :: w.trace := by
  have htr := repoUpdate_trace w u
  unfold userService.UpdateUser
  rcases hr : repoUpdate w u with ⟨⟨e, v⟩, w1⟩
  rw [hr] at htr
  simp only at htr
  cases e with
  | some e => exact ⟨by simp, [], by simpa using htr⟩
  | none =>
    obtain ⟨later, hl⟩ := setUserBody_trace c
      (w1.log (.cacheSetUser (Option.map (·.ID) (some v)) DefaultExpireSeconds)) (some v)
      DefaultExpireSeconds
    refine ⟨by simp, later ++ [.cacheSetUser (some v.ID) DefaultExpireSeconds], ?_⟩
    simp only [userCache.SetUser]
    rw [hl]
    simp [htr]

theorem strategy_update_shape (c : Codec) (strategy : UpdateStrategy) (w : World) (u : User) :
    ((userServiceWithStrategy.UpdateUser c strategy w u).1 = none ↔ (repoUpdate w u).1.1 = none) ∧
    ∃ later, (userServiceWithStrategy.UpdateUser c strategy w u).2.trace
      = later ++ .repoUpdate u.ID :: w.trace := by
  have htr := repoUpdate_trace w u
  unfold userServiceWithStrategy.UpdateUser
  rcases hr : repoUpdate w u with ⟨⟨e, v⟩, w1⟩
  rw [hr] at htr
  simp only at htr
  cases e with
  | some e => exact ⟨by simp, [], by simpa using htr⟩
  | none =>
    by_cases h1 : strategy = UpdateCache
    · obtain ⟨later, hl⟩ := setUserBody_trace c
        (w1.log (.cacheSetUser (Option.map (·.ID) (some v)) DefaultExpireSeconds)) (some v)
        DefaultExpireSeconds
      refine ⟨by simp [h1], later ++ [.cacheSetUser (some v.ID) DefaultExpireSeconds], ?_⟩
      simp only [h1, if_true, userCache.SetUser]
      rw [hl]
      simp [htr]
    · by_cases h2 : strategy = DeleteCache
      · have hne : ¬ DeleteCache = UpdateCache := by decide
        subst h2
        refine ⟨by simp [hne], [.rdsDel (getUserKey v.ID), .cacheDeleteUser v.ID], ?_⟩
        simp only [hne, if_true, if_false, userCache.DeleteUser]
        rw [deleteUserBody_trace, htr]
        rfl
      · exact ⟨by simp [h1, h2], [], by simp [h1, h2, htr]⟩

theorem avalanche_update_shape (c : Codec) (mode : ExpireMode) (base : Int) (w : World)
    (u : User) (res : Option GoError × World)
    (h : userServiceWithAvalanche.UpdateUser c mode base w u = some res) :
    (res.1 = none ↔ (repoUpdate w u).1.1 = none) ∧
    ∃ later, res.2.trace = later ++ .repoUpdate u.ID :: w.trace := by
  have htr := repoUpdate_trace w u
  unfold userServiceWithAvalanche.UpdateUser at h
  rcases hr : repoUpdate w u with ⟨⟨e, v⟩, w1⟩
  rw [hr] at htr h
  simp only at htr h
  cases e with
  | some e =>
    simp only [Option.some.injEq] at h
    subst h
    exact ⟨by simp, [], by simpa using htr⟩
  | none =>
    by_cases h1 : mode = FixedExpire
    · simp only [h1, if_true, Option.some.injEq] at h
      subst h
      obtain ⟨later, hl⟩ := setUserBody_trace c
        (w1.log (.cacheSetUserWithFixedExpire (Option.map (·.ID) (some v)) base)) (some v) base
      refine ⟨by simp, later ++ [.cacheSetUserWithFixedExpire (some v.ID) base], ?_⟩
      simp only [userCacheWithAvalanche.SetUserWithFixedExpire]
      rw [hl]
      simp [htr]
    · by_cases h2 : mode = RandomExpire
      · have hne : ¬ RandomExpire = FixedExpire := by decide
        subst h2
        simp only [hne, if_true, if_false] at h
        rcases hs : userCacheWithAvalanche.SetUserWithRandomExpire c w1 (some v) base
          with _ | res2
        · simp [hs] at h
        · simp only [hs, Option.some.injEq] at h
          subst h
          obtain ⟨later, hl⟩ := SetUserWithRandomExpire_trace c w1 (some v) base res2 hs
          exact ⟨by simp, later, by simp [hl, htr]⟩
      · simp only [h1, h2, if_false, Option.some.injEq] at h
        subst h
        exact ⟨by simp, [], by simpa using htr⟩

/-- The avalanche `UpdateUser` returns when, in random mode, the tenfold of the base TTL fits
`int`. -/
theorem avalanche_update_returns (c : Codec) (mode : ExpireMode) (base : Int) (w : World)
    (u : User) (hbase : mode = RandomExpire → base ≤ 922337203685477580) :
    (userServiceWithAvalanche.UpdateUser c mode base w u).isSome = true := by
  unfold userServiceWithAvalanche.UpdateUser
  rcases hr : repoUpdate w u with ⟨⟨e, v⟩, w1⟩
  cases e with
  | some e => rfl
  | none =>
    by_cases h1 : mode = FixedExpire
    · simp [h1]
    · by_cases h2 : mode = RandomExpire
      · have hs := SetUserWithRandomExpire_returns c w1 (some v) base (hbase h2)
        have hne : ¬ RandomExpire = FixedExpire := by decide
        subst h2
        rcases hx : userCacheWithAvalanche.SetUserWithRandomExpire c w1 (some v) base
          with _ | res2
        · rw [hx] at hs
          cases hs
        · simp [hne, hx]
      · simp [h1, h2]

/-- The plain `DeleteUser`: its result is nil exactly when `repo.Delete` returns nil; after a
failed `repo.Delete` no cache call is made, after a successful one the cache `DeleteUser(id)` is
called once. -/
theorem userService_delete_shape (w : World) (id : Int) :
    ((userService.DeleteUser w id).1 = none ↔ (repoDelete w id).1 = none) ∧
    ((repoDelete w id).1 = none →
      (userService.DeleteUser w id).2.trace
        = .rdsDel (getUserKey id) :: .cacheDeleteUser id :: .repoDelete id :: w.trace ∧
      (userService.DeleteUser w id).2.deleteUserCalls = w.deleteUserCalls + 1) ∧
    (∀ err, (repoDelete w id).1 = some err →
      (userService.DeleteUser w id).1 = some (deleteFailed err) ∧
      (userService.DeleteUser w id).2.trace = .repoDelete id :: w.trace ∧
      (userService.DeleteUser w id).2.store = w.store) := by
  have htr := repoDelete_trace w id
  have hst := repoDelete_store w id
  unfold userService.DeleteUser
  rcases hr : repoDelete w id with ⟨e, w1⟩
  rw [hr] at htr hst
  simp only at htr hst
  cases e with
  | some e =>
    refine ⟨by simp, by simp, ?_⟩
    intro err herr
    simp only [Option.some.injEq] at herr
    subst herr
    exact ⟨rfl, htr, hst⟩
  | none =>
    have hd := deleteUserBody_trace w1 id
    rw [htr] at hd
    refine ⟨by simp, ?_, by simp⟩
    intro _
    simp only [userCache.DeleteUser]
    refine ⟨hd, ?_⟩
    simp [World.deleteUserCalls, World.count, hd]

/-! ## The result of a lookup that fills the cache -/

/-- C18, as far as it holds. In every service variant, when the cache read is not a hit (and, in
the Bloom variant, the filter lets the id pass; in the penetration variant, the read is not the
sentinel) and `repo.FindByID(id)` returns a record `r`, `GetUserByID(id)` returns `(r, nil)`, for
every outcome of the store calls of the cache write that follows; in the random mode of the
avalanche variant this is for a base TTL of at most 922337203685477580. -/
theorem populate_failure_swallowed (c : Codec) (w : World) (id : Int) (r : User)
    (mode : ExpireMode) (base : Int) :
    ((userCache.GetUser c w id).1.1 = none →
      (repoFindByID (userCache.GetUser c w id).2 id).1 = (some r, none) →
      (userService.GetUserByID c w id).1 = (some r, none) ∧
      (userServiceWithStrategy.GetUserByID c w id).1 = (some r, none)) ∧
    ((userCacheWithAvalanche.GetUser c w id).1.1 = none →
      (repoFindByID (userCacheWithAvalanche.GetUser c w id).2 id).1 = (some r, none) →
      (mode = RandomExpire → base ≤ 922337203685477580) →
      ∃ w', userServiceWithAvalanche.GetUserByID c mode base w id
        = some ((some r, none), w')) ∧
    ((userCacheWithPenetration.GetUser c w id).1.1 = none →
      (∀ e, (userCacheWithPenetration.GetUser c w id).1.2 = some e →
        errorsIs e ErrNullCache = false) →
      (repoFindByID (userCacheWithPenetration.GetUser c w id).2 id).1 = (some r, none) →
      (userServiceWithPenetration.GetUserByID c w id).1 = (some r, none)) ∧
    ((userCacheWithBloom.ExistsInBloomFilter w id).1 ≠ (false, none) →
      (userCacheWithBloom.GetUser c
        (userCacheWithBloom.ExistsInBloomFilter w id).2 id).1.1 = none →
      (repoFindByID (userCacheWithBloom.GetUser c
        (userCacheWithBloom.ExistsInBloomFilter w id).2 id).2 id).1 = (some r, none) →
      ∃ w', userServiceWithBloom.GetUserByID c w id = some ((some r, none), w')) :=
  ⟨userService_populate c w id r,
    fun hmiss hfound hbase => avalanche_populate c mode base w id r hmiss hfound
      (fun hmode => SetUserWithRandomExpire_returns c _ (some r) base (hbase hmode)),
    penetration_populate c w id r, bloom_populate c w id r⟩

set_option maxRecDepth 1000000 in
/-- C18 with a store whose calls all fail: the read fails, `repo.FindByID(1)` returns `alice`,
the cache write fails, and every variant returns `(alice, nil)`. -/
theorem populate_failure_swallowed_witness :
    (userCache.SetUser goJSON
        (repoFindByID (userCache.GetUser goJSON redisDownWorld 1).2 1).2 (some alice)
        DefaultExpireSeconds).1
      = some (.wrap "设置缓存失败: " (.leaf "i/o timeout")) ∧
    (userService.GetUserByID goJSON redisDownWorld 1).1 = (some alice, none) ∧
    (userServiceWithStrategy.GetUserByID goJSON redisDownWorld 1).1 = (some alice, none) ∧
    (∃ w', userServiceWithAvalanche.GetUserByID goJSON RandomExpire 60 redisDownWorld 1
      = some ((some alice, none), w')) ∧
    (userServiceWithPenetration.GetUserByID goJSON redisDownWorld 1).1 = (some alice, none) ∧
    (∃ w', userServiceWithBloom.GetUserByID goJSON redisDownWorld 1
      = some ((some alice, none), w')) :=
  have h := populate_failure_swallowed goJSON redisDownWorld 1 alice RandomExpire 60
  ⟨by decide, (h.1 (by decide) (by decide)).1, (h.1 (by decide) (by decide)).2,
    h.2.1 (by decide) (by decide) (fun _ => by decide),
    h.2.2.1 (by decide)
      (by
        have hv : (userCacheWithPenetration.GetUser goJSON redisDownWorld 1).1.2
            = some (.leaf "i/o timeout") := by decide
        intro e he
        rw [hv] at he
        cases he
        decide)
      (by decide),
    h.2.2.2 (by decide) (by decide) (by decide)⟩

set_option maxRecDepth 1000000 in
/-- C18 fails in the random mode of the avalanche variant with the base TTL 922337203685477581,
store and repository answering: the cache read of id 1 is a miss, `repo.FindByID(1)` returns
`alice`, and `GetUserByID(1)` does not return `(alice, nil)`: it panics in the `rand.Intn` of
`GetRandomExpireTime`. With the base TTL 60 the same lookup returns `(alice, nil)`. -/
theorem populate_failure_swallowed_counterexample :
    (userCacheWithAvalanche.GetUser goJSON aliceWorld 1).1.1 = none ∧
    (repoFindByID (userCacheWithAvalanche.GetUser goJSON aliceWorld 1).2 1).1
      = (some alice, none) ∧
    GetRandomExpireTime 922337203685477581 0 = none ∧
    userServiceWithAvalanche.GetUserByID goJSON RandomExpire 922337203685477581 aliceWorld 1
      = none ∧
    (userServiceWithAvalanche.GetUserByID goJSON RandomExpire 60 aliceWorld 1).map (·.1)
      = some (some alice, none) := by
  refine ⟨by decide, by decide, by decide, by rfl, by decide⟩

/-- C19. In every service variant the first call `UpdateUser(u)` makes is `repo.Update(u)`
(every other call it records comes later), and when `repo.Update(u)` fails with `err`,
`UpdateUser` returns "更新用户失败" wrapping `err`, makes no further call and leaves the keyspace
as it was. -/
theorem update_repo_first (c : Codec) (w : World) (u : User) (strategy : UpdateStrategy)
    (mode : ExpireMode) (base : Int) :
    ((∃ later, (userService.UpdateUser c w u).2.trace = later ++ .repoUpdate u.ID :: w.trace) ∧
      (∃ later, (userServiceWithStrategy.UpdateUser c strategy w u).2.trace
        = later ++ .repoUpdate u.ID :: w.trace) ∧
      (∀ res, userServiceWithAvalanche.UpdateUser c mode base w u = some res →
        ∃ later, res.2.trace = later ++ .repoUpdate u.ID :: w.trace) ∧
      (∃ later, (userServiceWithBloom.UpdateUser c w u).2.trace
        = later ++ .repoUpdate u.ID :: w.trace) ∧
      (∃ later, (userServiceWithPenetration.UpdateUser c w u).2.trace
        = later ++ .repoUpdate u.ID :: w.trace)) ∧
    ∀ err, (repoUpdate w u).1.1 = some err →
      (updateFailed err).unwrap = some err ∧
      (repoUpdate w u).2.trace = .repoUpdate u.ID :: w.trace ∧
      (repoUpdate w u).2.store = w.store ∧
      userService.UpdateUser c w u = (some (updateFailed err), (repoUpdate w u).2) ∧
      userServiceWithStrategy.UpdateUser c strategy w u
        = (some (updateFailed err), (repoUpdate w u).2) ∧
      userServiceWithAvalanche.UpdateUser c mode base w u
        = some (some (updateFailed err), (repoUpdate w u).2) ∧
      userServiceWithBloom.UpdateUser c w u = (some (updateFailed err), (repoUpdate w u).2) ∧
      userServiceWithPenetration.UpdateUser c w u
        = (some (updateFailed err), (repoUpdate w u).2) := by
  refine ⟨⟨(userService_update_shape c w u).2, (strategy_update_shape c strategy w u).2,
    fun res h => (avalanche_update_shape c mode base w u res h).2, ?_, ?_⟩, ?_⟩
  · rw [bloom_UpdateUser_eq]
    exact (userService_update_shape c w u).2
  · rw [penetration_UpdateUser_eq]
    exact (userService_update_shape c w u).2
  · intro err hfail
    refine ⟨rfl, repoUpdate_trace w u, repoUpdate_store w u,
      userService_update_failed c w u err hfail, strategy_update_failed c strategy w u err hfail,
      avalanche_update_failed c mode base w u err hfail, ?_, ?_⟩
    · rw [bloom_UpdateUser_eq]
      exact userService_update_failed c w u err hfail
    · rw [penetration_UpdateUser_eq]
      exact userService_update_failed c w u err hfail

/-- C19 with a repository that refuses the connection: `UpdateUser(alice26)` returns the wrapped
error and the only call recorded is `repo.Update`. -/
theorem update_repo_first_witness :
    (repoUpdate repoDownWorld alice26).2.trace = [.repoUpdate 1] ∧
    userService.UpdateUser goJSON repoDownWorld alice26
      = (some (updateFailed (.leaf "connection refused")), (repoUpdate repoDownWorld alice26).2) ∧
    userServiceWithStrategy.UpdateUser goJSON DeleteCache repoDownWorld alice26
      = (some (updateFailed (.leaf "connection refused")), (repoUpdate repoDownWorld alice26).2) ∧
    userServiceWithAvalanche.UpdateUser goJSON RandomExpire 60 repoDownWorld alice26
      = some (some (updateFailed (.leaf "connection refused")),
          (repoUpdate repoDownWorld alice26).2) :=
  have h := (update_repo_first goJSON repoDownWorld alice26 DeleteCache RandomExpire 60).2
    (.leaf "connection refused") (by decide)
  ⟨h.2.1, h.2.2.2.1, h.2.2.2.2.1, h.2.2.2.2.2.1⟩

/-- C20, amended. In every service variant, `UpdateUser(u)` returns nil exactly when
`repo.Update(u)` returns nil and `DeleteUser(id)` returns nil exactly when `repo.Delete(id)`
returns nil, whatever the store calls of the cache operation that follows do; in the avalanche
variant's random mode this holds for a base TTL of at most 922337203685477580, for which
`UpdateUser` returns. After a successful `repo.Delete`, every variant calls the cache
`DeleteUser` exactly once, with `id`, and nothing else. -/
theorem write_result_follows_repo (c : Codec) (w : World) (u : User) (id : Int)
    (strategy : UpdateStrategy) (mode : ExpireMode) (base : Int) :
    (((userService.UpdateUser c w u).1 = none ↔ (repoUpdate w u).1.1 = none) ∧
      ((userServiceWithStrategy.UpdateUser c strategy w u).1 = none
        ↔ (repoUpdate w u).1.1 = none) ∧
      ((userServiceWithBloom.UpdateUser c w u).1 = none ↔ (repoUpdate w u).1.1 = none) ∧
      ((userServiceWithPenetration.UpdateUser c w u).1 = none
        ↔ (repoUpdate w u).1.1 = none) ∧
      ((mode = RandomExpire → base ≤ 922337203685477580) →
        ∃ res, userServiceWithAvalanche.UpdateUser c mode base w u = some res ∧
          (res.1 = none ↔ (repoUpdate w u).1.1 = none))) ∧
    (((userService.DeleteUser w id).1 = none ↔ (repoDelete w id).1 = none) ∧
      ((userServiceWithStrategy.DeleteUser w id).1 = none ↔ (repoDelete w id).1 = none) ∧
      ((userServiceWithAvalanche.DeleteUser w id).1 = none ↔ (repoDelete w id).1 = none) ∧
      ((userServiceWithBloom.DeleteUser w id).1 = none ↔ (repoDelete w id).1 = none) ∧
      ((userServiceWithPenetration.DeleteUser w id).1 = none
        ↔ (repoDelete w id).1 = none)) ∧
    ((repoDelete w id).1 = none →
      ((userService.DeleteUser w id).2.deleteUserCalls = w.deleteUserCalls + 1 ∧
        (userService.DeleteUser w id).2.trace
          = .rdsDel (getUserKey id) :: .cacheDeleteUser id :: .repoDelete id :: w.trace) ∧
      ((userServiceWithStrategy.DeleteUser w id).2.deleteUserCalls = w.deleteUserCalls + 1 ∧
        (userServiceWithStrategy.DeleteUser w id).2.trace
          = .rdsDel (getUserKey id) :: .cacheDeleteUser id :: .repoDelete id :: w.trace) ∧
      ((userServiceWithAvalanche.DeleteUser w id).2.deleteUserCalls = w.deleteUserCalls + 1 ∧
        (userServiceWithAvalanche.DeleteUser w id).2.trace
          = .rdsDel (getUserKey id) :: .cacheDeleteUser id :: .repoDelete id :: w.trace) ∧
      ((userServiceWithBloom.DeleteUser w id).2.deleteUserCalls = w.deleteUserCalls + 1 ∧
        (userServiceWithBloom.DeleteUser w id).2.trace
          = .rdsDel (getUserKey id) :: .cacheDeleteUser id :: .repoDelete id :: w.trace) ∧
      ((userServiceWithPenetration.DeleteUser w id).2.deleteUserCalls = w.deleteUserCalls + 1 ∧
        (userServiceWithPenetration.DeleteUser w id).2.trace
          = .rdsDel (getUserKey id) :: .cacheDeleteUser id :: .repoDelete id :: w.trace)) := by
  have hd := userService_delete_shape w id
  refine ⟨⟨(userService_update_shape c w u).1, (strategy_update_shape c strategy w u).1,
    ?_, ?_, ?_⟩, ⟨hd.1, ?_, ?_, ?_, ?_⟩, ?_⟩
  · rw [bloom_UpdateUser_eq]
    exact (userService_update_shape c w u).1
  · rw [penetration_UpdateUser_eq]
    exact (userService_update_shape c w u).1
  · intro hbase
    have hsome := avalanche_update_returns c mode base w u hbase
    rcases hres : userServiceWithAvalanche.UpdateUser c mode base w u with _ | res
    · rw [hres] at hsome
      cases hsome
    · exact ⟨res, rfl, (avalanche_update_shape c mode base w u res hres).1⟩
  · rw [strategy_DeleteUser_eq]; exact hd.1
  · rw [avalanche_DeleteUser_eq]; exact hd.1
  · rw [bloom_DeleteUser_eq]; exact hd.1
  · rw [penetration_DeleteUser_eq]; exact hd.1
  · intro hok
    have h := hd.2.1 hok
    rw [strategy_DeleteUser_eq, avalanche_DeleteUser_eq, bloom_DeleteUser_eq,
      penetration_DeleteUser_eq]
    exact ⟨⟨h.2, h.1⟩, ⟨h.2, h.1⟩, ⟨h.2, h.1⟩, ⟨h.2, h.1⟩, ⟨h.2, h.1⟩⟩

set_option maxRecDepth 1000000 in
/-- C20, amended, with a store whose calls all fail: the `Setex` of `UpdateUser(alice26)` and the
`Del` of `DeleteUser(1)` fail, both return nil, and the cache `DeleteUser(1)` is called once;
with a repository that refuses the connection both return an error. -/
theorem write_result_follows_repo_witness :
    (userCache.SetUser goJSON (repoUpdate redisDownWorld alice26).2 (some alice26Saved)
        DefaultExpireSeconds).1 = some (.wrap "设置缓存失败: " (.leaf "i/o timeout")) ∧
    (userCache.DeleteUser (repoDelete redisDownWorld 1).2 1).1 = some (.leaf "i/o timeout") ∧
    (userService.UpdateUser goJSON redisDownWorld alice26).1 = none ∧
    (∃ res, userServiceWithAvalanche.UpdateUser goJSON RandomExpire 60 redisDownWorld alice26
        = some res ∧
      (res.1 = none ↔ (repoUpdate redisDownWorld alice26).1.1 = none)) ∧
    (userService.DeleteUser redisDownWorld 1).1 = none ∧
    (userServiceWithBloom.DeleteUser redisDownWorld 1).2.trace
      = [.rdsDel (getUserKey 1), .cacheDeleteUser 1, .repoDelete 1] ∧
    (userService.UpdateUser goJSON repoDownWorld alice26).1 ≠ none ∧
    (userService.DeleteUser repoDownWorld 1).1 ≠ none :=
  have h := write_result_follows_repo goJSON redisDownWorld alice26 1 UpdateCache RandomExpire 60
  have h2 := write_result_follows_repo goJSON repoDownWorld alice26 1 UpdateCache RandomExpire 60
  ⟨by decide, by decide, h.1.1.2 (by decide), h.1.2.2.2.2 (fun _ => by decide),
    h.2.1.1.2 (by decide), (h.2.2 (by decide)).2.2.2.1.2,
    fun hn => absurd (h2.1.1.1 hn) (by decide),
    fun hn => absurd (h2.2.1.1.1 hn) (by decide)⟩

set_option maxRecDepth 1000000 in
/-- C20 as stated fails in the avalanche variant's random mode with the base TTL
922337203685477581: `repo.Update(alice26)` returns nil, and `UpdateUser(alice26)` returns
neither nil nor an error, it panics in `rand.Intn` (the tenfold of the base overflows `int`). -/
theorem write_result_follows_repo_counterexample :
    (repoUpdate aliceWorld alice26).1.1 = none ∧
    (userServiceWithAvalanche.UpdateUser goJSON RandomExpire 922337203685477581 aliceWorld
      alice26).isNone = true := by
  decide

/-! ## The Bloom membership -/

/-- A call that records one event that `p` does not count leaves the count as it was. -/
theorem World.count_cons_false {w w' : World} {e : Event} (p : Event → Bool)
    (h : w'.trace = e :: w.trace) (hp : p e = false) : w'.count p = w.count p := by
  simp [World.count, h, hp]

/-- A call that records one event that `p` counts adds one to the count. -/
theorem World.count_cons_true {w w' : World} {e : Event} (p : Event → Bool)
    (h : w'.trace = e :: w.trace) (hp : p e = true) : w'.count p = w.count p + 1 := by
  simp [World.count, h, hp]

theorem World.count_log (w : World) (e : Event) (p : Event → Bool) :
    (w.log e).count p = w.count p + (if p e then 1 else 0) := by
  by_cases hp : p e = true <;> simp [World.count, World.log, hp]

theorem rdsSetex_bloomBits (w : World) (key value : String) (seconds : Int) :
    (rdsSetex w key value seconds).2.bloomBits = w.bloomBits := by
  unfold rdsSetex World.nextRdsFault
  simp only [World.log_rdsFaults]
  rcases hf : w.rdsFaults with _ | ⟨f, rest⟩
  · by_cases hs : seconds ≤ 0 <;> simp [hs]
  · cases f with
    | none => by_cases hs : seconds ≤ 0 <;> simp [hs]
    | some e => simp

theorem rdsDel_bloomBits (w : World) (key : String) :
    (rdsDel w key).2.bloomBits = w.bloomBits := by
  unfold rdsDel World.nextRdsFault
  simp only [World.log_rdsFaults]
  rcases hf : w.rdsFaults with _ | ⟨f, rest⟩
  · simp
  · cases f <;> simp

theorem repoUpdate_bloomBits (w : World) (user : User) :
    (repoUpdate w user).2.bloomBits = w.bloomBits := by
  unfold repoUpdate World.nextRepoFault
  simp only [World.log_repoFaults]
  rcases hf : w.repoFaults with _ | ⟨f, rest⟩
  · simp
  · cases f <;> simp

theorem repoDelete_bloomBits (w : World) (id : Int) :
    (repoDelete w id).2.bloomBits = w.bloomBits := by
  unfold repoDelete World.nextRepoFault
  simp only [World.log_repoFaults]
  rcases hf : w.repoFaults with _ | ⟨f, rest⟩
  · rfl
  · cases f <;> rfl

/-- The call `repo.Create` records itself and leaves the keyspace and the filter as they
were. -/
theorem repoCreate_frame (w : World) (user : User) :
    (repoCreate w user).2.trace = .repoCreate user.ID :: w.trace ∧
    (repoCreate w user).2.store = w.store ∧
    (repoCreate w user).2.bloomBits = w.bloomBits ∧
    (repoCreate w user).2.now = w.now ∧
    (repoCreate w user).2.rdsFaults = w.rdsFaults := by
  unfold repoCreate World.nextRepoFault
  simp only [World.log_repoFaults]
  rcases hf : w.repoFaults with _ | ⟨f, rest⟩
  · simp only []
    split <;> exact ⟨rfl, rfl, rfl, rfl, rfl⟩
  · cases f with
    | none =>
      simp only []
      split <;> exact ⟨rfl, rfl, rfl, rfl, rfl⟩
    | some e => exact ⟨rfl, rfl, rfl, rfl, rfl⟩

/-- The body of `SetUser` records at most a `Setex` and leaves the filter as it was. -/
theorem setUserBody_frame (c : Codec) (w : World) (user : Option User) (expireSeconds : Int)
    (p : Event → Bool) (hp : ∀ k v s, p (.rdsSetex k v s) = false) :
    (setUserBody c w user expireSeconds).2.count p = w.count p ∧
    (setUserBody c w user expireSeconds).2.bloomBits = w.bloomBits := by
  unfold setUserBody
  cases user with
  | none => exact ⟨rfl, rfl⟩
  | some u =>
    cases hm : c.marshal u with
    | error e => exact ⟨by simp [hm], by simp [hm]⟩
    | ok data =>
      simp only [hm]
      have htr := rdsSetex_trace w (getUserKey u.ID) data
        (if expireSeconds ≤ 0 then DefaultExpireSeconds else expireSeconds)
      have hb := rdsSetex_bloomBits w (getUserKey u.ID) data
        (if expireSeconds ≤ 0 then DefaultExpireSeconds else expireSeconds)
      rcases hs : rdsSetex w (getUserKey u.ID) data
        (if expireSeconds ≤ 0 then DefaultExpireSeconds else expireSeconds) with ⟨e, w2⟩
      rw [hs] at htr hb
      simp only at htr hb
      cases e <;> exact ⟨World.count_cons_false p htr (hp _ _ _), hb⟩

/-- The body of `GetUser` records a `Get` and leaves the filter as it was. -/
theorem getUserBody_frame (c : Codec) (w : World) (id : Int) (p : Event → Bool)
    (hp : ∀ k, p (.rdsGet k) = false) :
    (getUserBody c w id).2.count p = w.count p ∧
    (getUserBody c w id).2.bloomBits = w.bloomBits := by
  rw [getUserBody_world]
  exact ⟨World.count_cons_false p (rdsGet_trace w _) (hp _), (rdsGet_store w _).2⟩

/-- The body of `DeleteUser` records a `Del` and leaves the filter as it was. -/
theorem deleteUserBody_frame (w : World) (id : Int) (p : Event → Bool)
    (hp : ∀ k, p (.rdsDel k) = false) :
    (deleteUserBody w id).2.count p = w.count p ∧
    (deleteUserBody w id).2.bloomBits = w.bloomBits := by
  unfold deleteUserBody
  exact ⟨World.count_cons_false p (rdsDel_trace w _) (hp _), rdsDel_bloomBits w _⟩

/-- The filter check records no `AddToBloomFilter` and leaves the filter as it was. -/
theorem ExistsInBloomFilter_adds (w : World) (id : Int) :
    (userCacheWithBloom.ExistsInBloomFilter w id).2.addToBloomCalls = w.addToBloomCalls ∧
    (userCacheWithBloom.ExistsInBloomFilter w id).2.bloomBits = w.bloomBits := by
  unfold userCacheWithBloom.ExistsInBloomFilter World.addToBloomCalls
  refine ⟨?_, ?_⟩
  · rw [World.count_cons_false _ (bloomExists_trace _ _) rfl, World.count_log]
    rfl
  · rw [(bloomExists_store _ _).2]
    rfl

/-- The method `AddToBloomFilter` records itself once, after what was recorded before. -/
theorem AddToBloomFilter_adds (w : World) (id : Int) :
    (userCacheWithBloom.AddToBloomFilter w id).2.addToBloomCalls = w.addToBloomCalls + 1 ∧
    (userCacheWithBloom.AddToBloomFilter w id).2.trace
      = .bloomAdd ("user:" ++ toString id) :: .cacheAddToBloomFilter id :: w.trace := by
  unfold userCacheWithBloom.AddToBloomFilter World.addToBloomCalls
  refine ⟨?_, ?_⟩
  · rw [World.count_cons_false _ (bloomAdd_trace _ _) rfl, World.count_log]
    rfl
  · rw [bloomAdd_trace]
    rfl

/-- What `userServiceWithBloom.GetUserByID` does to the Bloom membership: nothing, unless
`repo.FindByID` returned a record, which is then the result. -/
theorem bloom_get_adds (c : Codec) (w : World) (id : Int)
    (res : (Option User × Option GoError) × World)
    (h : userServiceWithBloom.GetUserByID c w id = some res) :
    (res.2.addToBloomCalls = w.addToBloomCalls ∧ res.2.bloomBits = w.bloomBits) ∨
    (∃ r, (repoFindByID (userCacheWithBloom.GetUser c
        (userCacheWithBloom.ExistsInBloomFilter w id).2 id).2 id).1 = (some r, none) ∧
      res.1 = (some r, none) ∧ res.2.addToBloomCalls = w.addToBloomCalls + 1) := by
  have hx := ExistsInBloomFilter_adds w id
  have hg1 : (userCacheWithBloom.GetUser c
      (userCacheWithBloom.ExistsInBloomFilter w id).2 id).2.addToBloomCalls = w.addToBloomCalls ∧
      (userCacheWithBloom.GetUser c
        (userCacheWithBloom.ExistsInBloomFilter w id).2 id).2.bloomBits = w.bloomBits := by
    have hg := getUserBody_frame c ((userCacheWithBloom.ExistsInBloomFilter w id).2.log
      (.cacheGetUser id)) id Event.isAddToBloomFilter (fun _ => rfl)
    unfold userCacheWithBloom.GetUser World.addToBloomCalls
    rw [hg.1, hg.2, World.count_log]
    exact ⟨hx.1, hx.2⟩
  have hf1 : (repoFindByID (userCacheWithBloom.GetUser c
      (userCacheWithBloom.ExistsInBloomFilter w id).2 id).2 id).2.addToBloomCalls
        = w.addToBloomCalls ∧
      (repoFindByID (userCacheWithBloom.GetUser c
        (userCacheWithBloom.ExistsInBloomFilter w id).2 id).2 id).2.bloomBits = w.bloomBits := by
    refine ⟨?_, (repoFindByID_store _ id).2.trans hg1.2⟩
    unfold World.addToBloomCalls
    rw [World.count_cons_false Event.isAddToBloomFilter (repoFindByID_trace _ id) rfl]
    exact hg1.1
  have hadd : ∀ r : User, (userCacheWithBloom.AddToBloomFilter (userCacheWithBloom.SetUser c
      (repoFindByID (userCacheWithBloom.GetUser c
        (userCacheWithBloom.ExistsInBloomFilter w id).2 id).2 id).2 (some r)
      DefaultExpireSeconds).2 id).2.addToBloomCalls = w.addToBloomCalls + 1 := by
    intro r
    rw [(AddToBloomFilter_adds _ id).1]
    have hset := (setUserBody_frame c ((repoFindByID (userCacheWithBloom.GetUser c
      (userCacheWithBloom.ExistsInBloomFilter w id).2 id).2 id).2.log
      (.cacheSetUser (Option.map (·.ID) (some r)) DefaultExpireSeconds)) (some r)
      DefaultExpireSeconds Event.isAddToBloomFilter (fun _ _ _ => rfl)).1
    unfold userCacheWithBloom.SetUser World.addToBloomCalls
    rw [hset, World.count_log]
    exact congrArg (· + 1) hf1.1
  unfold userServiceWithBloom.GetUserByID at h
  split at h
  · next w0 hxe =>
    simp only [Option.some.injEq] at h
    subst h
    rw [hxe] at hx
    exact Or.inl hx
  · next xr w0 hnb hxe =>
    rw [hxe] at hg1 hf1 hadd ⊢
    simp only at hg1 hf1 hadd h ⊢
    split at h
    · next user w1 hge =>
      simp only [Option.some.injEq] at h
      subst h
      rw [hge] at hg1
      exact Or.inl hg1
    · next gr w1 hnh hge =>
      rw [hge] at hf1 hadd ⊢
      simp only at hf1 hadd h ⊢
      split at h
      · next fu err w2 hfe =>
        rw [hfe] at hf1
        left
        by_cases hi : errorsIs err .recordNotFound = true
        · simp only [hi, if_true, Option.some.injEq] at h
          subst h
          exact hf1
        · simp only [hi, Bool.false_eq_true, if_false, Option.some.injEq] at h
          subst h
          exact hf1
      · simp at h
      · next r w2 hfe =>
        rw [hfe] at hadd ⊢
        simp only [Option.some.injEq] at h
        subst h
        exact Or.inr ⟨r, rfl, rfl, hadd r⟩

/-! ## What enters the Bloom filter -/

/-- A call that records one event adds it to the count when `p` counts it. -/
theorem World.count_cons {w w' : World} {e : Event} (p : Event → Bool)
    (h : w'.trace = e :: w.trace) : w'.count p = w.count p + (if p e then 1 else 0) := by
  by_cases hp : p e = true <;> simp [World.count, h, hp]

/-- A predicate that counts only filter writes does not count any other call. -/
theorem Event.not_counted (p : Event → Bool) (hp : ∀ e, p e = true → e.isFilterWrite = true)
    (e : Event) (he : e.isFilterWrite = false) : p e = false := by
  cases h : p e with
  | false => rfl
  | true =>
    have := hp e h
    rw [he] at this
    cases this

/-- The bits after `bloomFilter.Add(key)`: as they were, or with the positions of the key set;
the positions a key has do not change. -/
theorem bloomAdd_bits_cases (w : World) (key : String) :
    ((bloomAdd w key).2.bloomBits = w.bloomBits ∨
      (bloomAdd w key).2.bloomBits = w.bloomHash key ++ w.bloomBits) ∧
    (bloomAdd w key).2.bloomHash = w.bloomHash := by
  unfold bloomAdd World.nextRdsFault
  simp only [World.log_rdsFaults]
  rcases hf : w.rdsFaults with _ | ⟨f, rest⟩
  · exact ⟨Or.inr rfl, rfl⟩
  · cases f with
    | none => exact ⟨Or.inr rfl, rfl⟩
    | some e => exact ⟨Or.inl rfl, rfl⟩

/-- The method `AddToBloomFilter(id)` records itself and the `Add` of the key of `id`, and sets
at most the positions of that key. -/
theorem AddToBloomFilter_count (w : World) (id : Int) :
    (∀ p : Event → Bool, (userCacheWithBloom.AddToBloomFilter w id).2.count p
      = w.count p + (if p (.cacheAddToBloomFilter id) then 1 else 0)
        + (if p (.bloomAdd ("user:" ++ toString id)) then 1 else 0)) ∧
    ((userCacheWithBloom.AddToBloomFilter w id).2.bloomBits = w.bloomBits ∨
      (userCacheWithBloom.AddToBloomFilter w id).2.bloomBits
        = w.bloomHash ("user:" ++ toString id) ++ w.bloomBits) := by
  unfold userCacheWithBloom.AddToBloomFilter
  refine ⟨fun p => ?_, ?_⟩
  · rw [World.count_cons p (bloomAdd_trace _ _), World.count_log]
  · exact (bloomAdd_bits_cases (w.log (.cacheAddToBloomFilter id)) ("user:" ++ toString id)).1

theorem rdsGet_bloomHash (w : World) (key : String) :
    (rdsGet w key).2.bloomHash = w.bloomHash := by
  unfold rdsGet World.nextRdsFault
  simp only [World.log_rdsFaults]
  rcases hf : w.rdsFaults with _ | ⟨f, rest⟩
  · simp only []
    split <;> rfl
  · cases f with
    | none =>
      simp only []
      split <;> rfl
    | some e => rfl

theorem rdsSetex_bloomHash (w : World) (key value : String) (seconds : Int) :
    (rdsSetex w key value seconds).2.bloomHash = w.bloomHash := by
  unfold rdsSetex World.nextRdsFault
  simp only [World.log_rdsFaults]
  rcases hf : w.rdsFaults with _ | ⟨f, rest⟩
  · by_cases hs : seconds ≤ 0 <;> simp [hs]
  · cases f with
    | none => by_cases hs : seconds ≤ 0 <;> simp [hs]
    | some e => simp

theorem setUserBody_bloomHash (c : Codec) (w : World) (user : Option User)
    (expireSeconds : Int) :
    (setUserBody c w user expireSeconds).2.bloomHash = w.bloomHash := by
  unfold setUserBody
  cases user with
  | none => rfl
  | some u =>
    cases hm : c.marshal u with
    | error e => simp [hm]
    | ok data =>
      simp only [hm]
      have h := rdsSetex_bloomHash w (getUserKey u.ID) data
        (if expireSeconds ≤ 0 then DefaultExpireSeconds else expireSeconds)
      rcases hs : rdsSetex w (getUserKey u.ID) data
        (if expireSeconds ≤ 0 then DefaultExpireSeconds else expireSeconds) with ⟨r, w1⟩
      rw [hs] at h
      cases r <;> exact h

theorem bloomExists_bloomHash (w : World) (key : String) :
    (bloomExists w key).2.bloomHash = w.bloomHash := by
  unfold bloomExists World.nextRdsFault
  simp only [World.log_rdsFaults]
  rcases hf : w.rdsFaults with _ | ⟨f, rest⟩
  · rfl
  · cases f <;> rfl

theorem repoFindByID_bloomHash (w : World) (id : Int) :
    (repoFindByID w id).2.bloomHash = w.bloomHash := by
  unfold repoFindByID World.nextRepoFault
  simp only [World.log_repoFaults]
  rcases hf : w.repoFaults with _ | ⟨f, rest⟩
  · simp only []
    split
    · rfl
    · split <;> rfl
  · cases f with
    | none =>
      simp only []
      split
      · rfl
      · split <;> rfl
    | some e => rfl

theorem repoCreate_bloomHash (w : World) (user : User) :
    (repoCreate w user).2.bloomHash = w.bloomHash := by
  unfold repoCreate World.nextRepoFault
  simp only [World.log_repoFaults]
  rcases hf : w.repoFaults with _ | ⟨f, rest⟩
  · simp only []
    split <;> rfl
  · cases f with
    | none =>
      simp only []
      split <;> rfl
    | some e => rfl

/-- What `userServiceWithBloom.GetUserByID` writes to the filter, counted by any `p` that counts
only filter writes: nothing, unless `repo.FindByID` returned a record; then that record is the
result, and the writes are one `AddToBloomFilter(id)` with its `Add` of the key of `id`. -/
theorem bloom_get_count (c : Codec) (w : World) (id : Int)
    (res : (Option User × Option GoError) × World)
    (h : userServiceWithBloom.GetUserByID c w id = some res) :
    ((∀ p : Event → Bool, (∀ e, p e = true → e.isFilterWrite = true) →
        res.2.count p = w.count p) ∧ res.2.bloomBits = w.bloomBits) ∨
    (∃ r, (repoFindByID (userCacheWithBloom.GetUser c
        (userCacheWithBloom.ExistsInBloomFilter w id).2 id).2 id).1 = (some r, none) ∧
      res.1 = (some r, none) ∧
      (∀ p : Event → Bool, (∀ e, p e = true → e.isFilterWrite = true) →
        res.2.count p = w.count p + (if p (.cacheAddToBloomFilter id) then 1 else 0)
          + (if p (.bloomAdd ("user:" ++ toString id)) then 1 else 0)) ∧
      (res.2.bloomBits = w.bloomBits ∨
        res.2.bloomBits = w.bloomHash ("user:" ++ toString id) ++ w.bloomBits)) := by
  have hx : (∀ p : Event → Bool, (∀ e, p e = true → e.isFilterWrite = true) →
        (userCacheWithBloom.ExistsInBloomFilter w id).2.count p = w.count p) ∧
      (userCacheWithBloom.ExistsInBloomFilter w id).2.bloomBits = w.bloomBits ∧
      (userCacheWithBloom.ExistsInBloomFilter w id).2.bloomHash = w.bloomHash := by
    unfold userCacheWithBloom.ExistsInBloomFilter
    refine ⟨fun p hp => ?_, ?_, ?_⟩
    · rw [World.count_cons_false p (bloomExists_trace _ _) (Event.not_counted p hp _ rfl),
        World.count_log, Event.not_counted p hp (.cacheExistsInBloomFilter id) rfl]
      rfl
    · rw [(bloomExists_store _ _).2]
      rfl
    · rw [bloomExists_bloomHash]
      rfl
  have hg1 : (∀ p : Event → Bool, (∀ e, p e = true → e.isFilterWrite = true) →
        (userCacheWithBloom.GetUser c
          (userCacheWithBloom.ExistsInBloomFilter w id).2 id).2.count p = w.count p) ∧
      (userCacheWithBloom.GetUser c
        (userCacheWithBloom.ExistsInBloomFilter w id).2 id).2.bloomBits = w.bloomBits ∧
      (userCacheWithBloom.GetUser c
        (userCacheWithBloom.ExistsInBloomFilter w id).2 id).2.bloomHash = w.bloomHash := by
    unfold userCacheWithBloom.GetUser
    refine ⟨fun p hp => ?_, ?_, ?_⟩
    · have hg := getUserBody_frame c ((userCacheWithBloom.ExistsInBloomFilter w id).2.log
        (.cacheGetUser id)) id p (fun _ => Event.not_counted p hp _ rfl)
      rw [hg.1, World.count_log, Event.not_counted p hp (.cacheGetUser id) rfl]
      exact hx.1 p hp
    · have hg := getUserBody_frame c ((userCacheWithBloom.ExistsInBloomFilter w id).2.log
        (.cacheGetUser id)) id Event.isFilterWrite (fun _ => rfl)
      rw [hg.2]
      exact hx.2.1
    · rw [getUserBody_world, rdsGet_bloomHash]
      exact hx.2.2
  have hf1 : (∀ p : Event → Bool, (∀ e, p e = true → e.isFilterWrite = true) →
        (repoFindByID (userCacheWithBloom.GetUser c
          (userCacheWithBloom.ExistsInBloomFilter w id).2 id).2 id).2.count p = w.count p) ∧
      (repoFindByID (userCacheWithBloom.GetUser c
        (userCacheWithBloom.ExistsInBloomFilter w id).2 id).2 id).2.bloomBits = w.bloomBits ∧
      (repoFindByID (userCacheWithBloom.GetUser c
        (userCacheWithBloom.ExistsInBloomFilter w id).2 id).2 id).2.bloomHash
          = w.bloomHash := by
    refine ⟨fun p hp => ?_, (repoFindByID_store _ id).2.trans hg1.2.1, ?_⟩
    · rw [World.count_cons_false p (repoFindByID_trace _ id) (Event.not_counted p hp _ rfl)]
      exact hg1.1 p hp
    · rw [repoFindByID_bloomHash]
      exact hg1.2.2
  have hset : ∀ r : User,
      (∀ p : Event → Bool, (∀ e, p e = true → e.isFilterWrite = true) →
        (userCacheWithBloom.SetUser c
          (repoFindByID (userCacheWithBloom.GetUser c
            (userCacheWithBloom.ExistsInBloomFilter w id).2 id).2 id).2 (some r)
          DefaultExpireSeconds).2.count p = w.count p) ∧
      (userCacheWithBloom.SetUser c
      (repoFindByID (userCacheWithBloom.GetUser c
        (userCacheWithBloom.ExistsInBloomFilter w id).2 id).2 id).2 (some r)
      DefaultExpireSeconds).2.bloomBits = w.bloomBits ∧
      (userCacheWithBloom.SetUser c
      (repoFindByID (userCacheWithBloom.GetUser c
        (userCacheWithBloom.ExistsInBloomFilter w id).2 id).2 id).2 (some r)
      DefaultExpireSeconds).2.bloomHash = w.bloomHash := by
    intro r
    unfold userCacheWithBloom.SetUser
    refine ⟨fun p hp => ?_, ?_, ?_⟩
    · have hs := setUserBody_frame c ((repoFindByID (userCacheWithBloom.GetUser c
        (userCacheWithBloom.ExistsInBloomFilter w id).2 id).2 id).2.log
        (.cacheSetUser (Option.map (·.ID) (some r)) DefaultExpireSeconds)) (some r)
        DefaultExpireSeconds p (fun _ _ _ => Event.not_counted p hp _ rfl)
      rw [hs.1, World.count_log, Event.not_counted p hp
        (.cacheSetUser (Option.map (·.ID) (some r)) DefaultExpireSeconds) rfl]
      exact hf1.1 p hp
    · have hs := setUserBody_frame c ((repoFindByID (userCacheWithBloom.GetUser c
        (userCacheWithBloom.ExistsInBloomFilter w id).2 id).2 id).2.log
        (.cacheSetUser (Option.map (·.ID) (some r)) DefaultExpireSeconds)) (some r)
        DefaultExpireSeconds Event.isFilterWrite (fun _ _ _ => rfl)
      rw [hs.2]
      exact hf1.2.1
    · rw [setUserBody_bloomHash]
      exact hf1.2.2
  have hadd : ∀ r : User,
      (∀ p : Event → Bool, (∀ e, p e = true → e.isFilterWrite = true) →
        (userCacheWithBloom.AddToBloomFilter (userCacheWithBloom.SetUser c
          (repoFindByID (userCacheWithBloom.GetUser c
            (userCacheWithBloom.ExistsInBloomFilter w id).2 id).2 id).2 (some r)
          DefaultExpireSeconds).2 id).2.count p
          = w.count p + (if p (.cacheAddToBloomFilter id) then 1 else 0)
            + (if p (.bloomAdd ("user:" ++ toString id)) then 1 else 0)) ∧
      ((userCacheWithBloom.AddToBloomFilter (userCacheWithBloom.SetUser c
        (repoFindByID (userCacheWithBloom.GetUser c
          (userCacheWithBloom.ExistsInBloomFilter w id).2 id).2 id).2 (some r)
        DefaultExpireSeconds).2 id).2.bloomBits = w.bloomBits ∨
       (userCacheWithBloom.AddToBloomFilter (userCacheWithBloom.SetUser c
        (repoFindByID (userCacheWithBloom.GetUser c
          (userCacheWithBloom.ExistsInBloomFilter w id).2 id).2 id).2 (some r)
        DefaultExpireSeconds).2 id).2.bloomBits
          = w.bloomHash ("user:" ++ toString id) ++ w.bloomBits) := by
    intro r
    have ha := AddToBloomFilter_count (userCacheWithBloom.SetUser c
        (repoFindByID (userCacheWithBloom.GetUser c
          (userCacheWithBloom.ExistsInBloomFilter w id).2 id).2 id).2 (some r)
        DefaultExpireSeconds).2 id
    rw [(hset r).2.1, (hset r).2.2] at ha
    refine ⟨fun p hp => ?_, ha.2⟩
    rw [ha.1 p, (hset r).1 p hp]
  unfold userServiceWithBloom.GetUserByID at h
  split at h
  · next w0 hxe =>
    simp only [Option.some.injEq] at h
    subst h
    rw [hxe] at hx
    exact Or.inl ⟨hx.1, hx.2.1⟩
  · next xr w0 hnb hxe =>
    rw [hxe] at hg1 hf1 hadd ⊢
    simp only at hg1 hf1 hadd h ⊢
    split at h
    · next user w1 hge =>
      simp only [Option.some.injEq] at h
      subst h
      rw [hge] at hg1
      exact Or.inl ⟨hg1.1, hg1.2.1⟩
    · next gr w1 hnh hge =>
      rw [hge] at hf1 hadd ⊢
      simp only at hf1 hadd h ⊢
      split at h
      · next fu err w2 hfe =>
        rw [hfe] at hf1
        left
        by_cases hi : errorsIs err .recordNotFound = true
        · simp only [hi, if_true, Option.some.injEq] at h
          subst h
          exact ⟨hf1.1, hf1.2.1⟩
        · simp only [hi, Bool.false_eq_true, if_false, Option.some.injEq] at h
          subst h
          exact ⟨hf1.1, hf1.2.1⟩
      · simp at h
      · next r w2 hfe =>
        rw [hfe] at hadd ⊢
        simp only [Option.some.injEq] at h
        subst h
        exact Or.inr ⟨r, rfl, rfl, (hadd r).1, (hadd r).2⟩

/-- The plain (and Bloom) `UpdateUser` and `DeleteUser` write nothing to the filter, counted by
any `p` that counts only filter writes, and leave the bits as they were. -/
theorem update_delete_count (c : Codec) (w : World) (u : User) (id : Int) (p : Event → Bool)
    (hp : ∀ e, p e = true → e.isFilterWrite = true) :
    ((userService.UpdateUser c w u).2.count p = w.count p ∧
      (userService.UpdateUser c w u).2.bloomBits = w.bloomBits) ∧
    ((userService.DeleteUser w id).2.count p = w.count p ∧
      (userService.DeleteUser w id).2.bloomBits = w.bloomBits) := by
  have hu : (repoUpdate w u).2.count p = w.count p :=
    World.count_cons_false p (repoUpdate_trace w u) (Event.not_counted p hp _ rfl)
  have hub := repoUpdate_bloomBits w u
  have hd : (repoDelete w id).2.count p = w.count p :=
    World.count_cons_false p (repoDelete_trace w id) (Event.not_counted p hp _ rfl)
  have hdb := repoDelete_bloomBits w id
  refine ⟨?_, ?_⟩
  · unfold userService.UpdateUser
    split
    · next err v w1 hr =>
      rw [hr] at hu hub
      exact ⟨hu, hub⟩
    · next v w1 hr =>
      rw [hr] at hu hub
      have hs := setUserBody_frame c (w1.log (.cacheSetUser (Option.map (·.ID) (some v))
        DefaultExpireSeconds)) (some v) DefaultExpireSeconds p
        (fun _ _ _ => Event.not_counted p hp _ rfl)
      simp only [userCache.SetUser]
      rw [hs.1, hs.2, World.count_log, Event.not_counted p hp
        (.cacheSetUser (Option.map (·.ID) (some v)) DefaultExpireSeconds) rfl]
      exact ⟨hu, hub⟩
  · unfold userService.DeleteUser
    split
    · next err w1 hr =>
      rw [hr] at hd hdb
      exact ⟨hd, hdb⟩
    · next w1 hr =>
      rw [hr] at hd hdb
      have hs := deleteUserBody_frame (w1.log (.cacheDeleteUser id)) id p
        (fun _ => Event.not_counted p hp _ rfl)
      simp only [userCache.DeleteUser]
      rw [hs.1, hs.2, World.count_log, Event.not_counted p hp (.cacheDeleteUser id) rfl]
      exact ⟨hd, hdb⟩

/-- The predicates that count the `AddToBloomFilter(j)` calls, the `Add(k)` calls and all
`AddToBloomFilter` calls count only filter writes. -/
theorem filterWrite_predicates (j : Int) (k : String) :
    (∀ e, decide (e = Event.cacheAddToBloomFilter j) = true → e.isFilterWrite = true) ∧
    (∀ e, decide (e = Event.bloomAdd k) = true → e.isFilterWrite = true) ∧
    (∀ e, Event.isAddToBloomFilter e = true → e.isFilterWrite = true) := by
  refine ⟨?_, ?_, ?_⟩
  · intro e he
    rw [decide_eq_true_eq] at he
    subst he
    rfl
  · intro e he
    rw [decide_eq_true_eq] at he
    subst he
    rfl
  · intro e he
    cases e <;> first | rfl | cases he

/-- C21. In `userServiceWithBloom`, for every id `j` and filter key `k`: `GetUserByID(id)` makes
no `AddToBloomFilter(j)` call and no `Add(k)` call on the filter and leaves the bits as they
were, unless `repo.FindByID(id)` returned a record; then that record is the result, the only
additions are one `AddToBloomFilter(id)` call and its one `Add` of the key of `id`, and the bits
are as before or with the positions of that key set. `CreateUser(u)` calls nothing but
`repo.Create` and leaves the bits as they were when `repo.Create(u)` fails; when it succeeds it
calls, after `repo.Create`, `AddToBloomFilter` with the id of the created row, which adds the key
of that id and sets at most the positions of that key. `UpdateUser` and `DeleteUser` make no
`AddToBloomFilter` call and no `Add` call and leave the bits as they were. -/
theorem bloom_membership_guard (c : Codec) (w : World) (id : Int) (u : User) :
    (∀ res, userServiceWithBloom.GetUserByID c w id = some res →
      ((∀ j, res.2.addCalls j = w.addCalls j) ∧ (∀ k, res.2.filterAdds k = w.filterAdds k) ∧
        res.2.addToBloomCalls = w.addToBloomCalls ∧ res.2.bloomBits = w.bloomBits) ∨
      (∃ r, (repoFindByID (userCacheWithBloom.GetUser c
          (userCacheWithBloom.ExistsInBloomFilter w id).2 id).2 id).1 = (some r, none) ∧
        res.1 = (some r, none) ∧
        (∀ j, res.2.addCalls j = w.addCalls j + (if j = id then 1 else 0)) ∧
        (∀ k, res.2.filterAdds k
          = w.filterAdds k + (if k = "user:" ++ toString id then 1 else 0)) ∧
        res.2.addToBloomCalls = w.addToBloomCalls + 1 ∧
        (res.2.bloomBits = w.bloomBits ∨
          res.2.bloomBits = w.bloomHash ("user:" ++ toString id) ++ w.bloomBits))) ∧
    (∀ err, (repoCreate w u).1.1 = some err →
      (userServiceWithBloom.CreateUser w u).1.1 = some (createFailed err) ∧
      (userServiceWithBloom.CreateUser w u).2.trace = .repoCreate u.ID :: w.trace ∧
      (userServiceWithBloom.CreateUser w u).2.bloomBits = w.bloomBits) ∧
    ((repoCreate w u).1.1 = none →
      (userServiceWithBloom.CreateUser w u).1 = (none, (repoCreate w u).1.2) ∧
      (userServiceWithBloom.CreateUser w u).2.trace
        = .bloomAdd ("user:" ++ toString (repoCreate w u).1.2.ID)
          :: .cacheAddToBloomFilter (repoCreate w u).1.2.ID :: .repoCreate u.ID :: w.trace ∧
      ((userServiceWithBloom.CreateUser w u).2.bloomBits = w.bloomBits ∨
        (userServiceWithBloom.CreateUser w u).2.bloomBits
          = w.bloomHash ("user:" ++ toString (repoCreate w u).1.2.ID) ++ w.bloomBits)) ∧
    ((∀ j, (userServiceWithBloom.UpdateUser c w u).2.addCalls j = w.addCalls j) ∧
      (∀ k, (userServiceWithBloom.UpdateUser c w u).2.filterAdds k = w.filterAdds k) ∧
      (userServiceWithBloom.UpdateUser c w u).2.bloomBits = w.bloomBits) ∧
    ((∀ j, (userServiceWithBloom.DeleteUser w id).2.addCalls j = w.addCalls j) ∧
      (∀ k, (userServiceWithBloom.DeleteUser w id).2.filterAdds k = w.filterAdds k) ∧
      (userServiceWithBloom.DeleteUser w id).2.bloomBits = w.bloomBits) := by
  have hc := repoCreate_frame w u
  have hch := repoCreate_bloomHash w u
  refine ⟨?_, ?_, ?_, ?_, ?_⟩
  · intro res h
    rcases bloom_get_count c w id res h with ⟨hcount, hbits⟩ | ⟨r, hr1, hr2, hcount, hbits⟩
    · exact Or.inl ⟨fun j => hcount _ (filterWrite_predicates j "").1,
        fun k => hcount _ (filterWrite_predicates 0 k).2.1,
        hcount _ (filterWrite_predicates 0 "").2.2, hbits⟩
    · refine Or.inr ⟨r, hr1, hr2, fun j => ?_, fun k => ?_, ?_, hbits⟩
      · unfold World.addCalls
        rw [hcount _ (filterWrite_predicates j "").1]
        by_cases hj : j = id
        · simp [hj]
        · have hj2 : ¬ id = j := fun h => hj h.symm
          simp [hj, hj2]
      · unfold World.filterAdds
        rw [hcount _ (filterWrite_predicates 0 k).2.1]
        by_cases hk : k = "user:" ++ toString id
        · simp [hk]
        · have hk2 : ¬ "user:" ++ toString id = k := fun h => hk h.symm
          simp [hk, hk2]
      · unfold World.addToBloomCalls
        rw [hcount _ (filterWrite_predicates 0 "").2.2]
        simp [Event.isAddToBloomFilter]
  · intro err herr
    unfold userServiceWithBloom.CreateUser
    rcases hr : repoCreate w u with ⟨⟨e, u1⟩, w1⟩
    rw [hr] at herr hc
    simp only at herr hc
    subst herr
    exact ⟨rfl, hc.1, hc.2.2.1⟩
  · intro hok
    unfold userServiceWithBloom.CreateUser
    rcases hr : repoCreate w u with ⟨⟨e, u1⟩, w1⟩
    rw [hr] at hok hc hch
    simp only at hok hc hch
    subst hok
    have ha := (AddToBloomFilter_count w1 u1.ID).2
    rw [hc.2.2.1, hch] at ha
    refine ⟨rfl, ?_, ha⟩
    simp only []
    rw [(AddToBloomFilter_adds w1 u1.ID).2, hc.1]
  · rw [bloom_UpdateUser_eq]
    exact ⟨fun j => (update_delete_count c w u id _ (filterWrite_predicates j "").1).1.1,
      fun k => (update_delete_count c w u id _ (filterWrite_predicates 0 k).2.1).1.1,
      (update_delete_count c w u id _ (filterWrite_predicates 0 "").1).1.2⟩
  · rw [bloom_DeleteUser_eq]
    exact ⟨fun j => (update_delete_count c w u id _ (filterWrite_predicates j "").1).2.1,
      fun k => (update_delete_count c w u id _ (filterWrite_predicates 0 k).2.1).2.1,
      (update_delete_count c w u id _ (filterWrite_predicates 0 "").1).2.2⟩

set_option maxRecDepth 1000000 in
/-- C21 on the world of `alice` with her key in the filter: the lookup of id 1 adds the key of
id 1 and no other; the lookup of id 7, which the filter lets pass and the repository does not
know, adds nothing. -/
theorem bloom_membership_guard_examples :
    (userServiceWithBloom.GetUserByID goJSON filterUpWorld 1).map
        (fun res => (res.1, res.2.addCalls 1, res.2.addCalls 7, res.2.filterAdds "user:1"))
      = some ((some alice, none), 1, 0, 1) ∧
    (userServiceWithBloom.GetUserByID goJSON filterUpWorld 7).map
        (fun res => (res.1, res.2.addCalls 7, res.2.filterAdds "user:7",
          decide (res.2.bloomBits = filterUpWorld.bloomBits)))
      = some ((none, some (userNotFound 7)), 0, 0, true) := by
  decide

/-! ## The plain variant on a repository miss -/

/-- The call `rds.Get` leaves the clock and the repository as they were. -/
theorem rdsGet_repo (w : World) (key : String) :
    (rdsGet w key).2.now = w.now ∧ (rdsGet w key).2.rows = w.rows ∧
    (rdsGet w key).2.repoFaults = w.repoFaults ∧ (rdsGet w key).2.nilOnMiss = w.nilOnMiss := by
  unfold rdsGet World.nextRdsFault
  simp only [World.log_rdsFaults]
  rcases hf : w.rdsFaults with _ | ⟨f, rest⟩
  · cases hl : w.live key <;> simp [hl]
  · cases f with
    | none => cases hl : w.live key <;> simp [hl]
    | some err => simp

/-- One `userService.GetUserByID` for an id that is neither in the repository nor live in the
cache, the repository answering: not found, one `repo.FindByID`, and the same situation again. -/
theorem userService_get_absent (c : Codec) (w : World) (id : Int)
    (hrow : w.rows id = none) (hcold : w.live (getUserKey id) = none)
    (hrepo : w.repoFaults = []) :
    (userService.GetUserByID c w id).1 = (none, some (userNotFound id)) ∧
    (userService.GetUserByID c w id).2.findByIDCalls = w.findByIDCalls + 1 ∧
    (userService.GetUserByID c w id).2.store = w.store ∧
    (userService.GetUserByID c w id).2.rows id = none ∧
    (userService.GetUserByID c w id).2.live (getUserKey id) = none ∧
    (userService.GetUserByID c w id).2.repoFaults = [] := by
  have hmiss : (userCache.GetUser c w id).1.1 = none := by
    unfold userCache.GetUser getUserBody
    have ho := rdsGet_outcome (w.log (.cacheGetUser id)) (getUserKey id)
    rw [World.live_log, hcold] at ho
    obtain ⟨e0, he0, -⟩ := c.unmarshal_empty
    rcases hg : rdsGet (w.log (.cacheGetUser id)) (getUserKey id) with ⟨⟨val, err⟩, w1⟩
    rw [hg] at ho
    cases err with
    | some err => simp [hg]
    | none =>
      rcases ho with ⟨err, ho⟩ | ho
      · simp at ho
      · simp only [Prod.mk.injEq, and_true] at ho
        subst ho
        simp [hg, he0]
  have hw1 : (userCache.GetUser c w id).2
      = (rdsGet (w.log (.cacheGetUser id)) (getUserKey id)).2 := by
    unfold userCache.GetUser
    exact getUserBody_world c _ id
  have hr := rdsGet_repo (w.log (.cacheGetUser id)) (getUserKey id)
  have hs := rdsGet_store (w.log (.cacheGetUser id)) (getUserKey id)
  have htr := rdsGet_trace (w.log (.cacheGetUser id)) (getUserKey id)
  rw [← hw1] at hr hs htr
  have hfind := repoFindByID_absent (userCache.GetUser c w id).2 id
    (by rw [hr.2.2.1]; exact hrepo) (by rw [hr.2.1]; exact hrow)
  unfold userService.GetUserByID
  rcases hg : userCache.GetUser c w id with ⟨⟨u, e⟩, w1⟩
  rw [hg] at hmiss hr hs htr hfind
  simp only at hmiss hr hs htr hfind
  subst hmiss
  have hres : (match repoFindByID w1 id with
      | ((_, some err), w) =>
        if errorsIs err .recordNotFound then ((none, some (userNotFound id)), w)
        else ((none, some (queryFailed err)), w)
      | ((none, none), w) => ((none, some (userNotFound id)), w)
      | ((some user, none), w) =>
        match userCache.SetUser c w (some user) DefaultExpireSeconds with
        | (_, w) => ((some user, none), w))
      = ((none, some (userNotFound id)), w1.log (.repoFindByID id)) := by
    rw [hfind]
    cases hn : w1.nilOnMiss <;> simp [errorsIs]
  have hfinal : (match ((none, e), w1) with
      | ((some user, none), w) => ((some user, none), w)
      | (_, w) =>
        match repoFindByID w id with
        | ((_, some err), w) =>
          if errorsIs err .recordNotFound then ((none, some (userNotFound id)), w)
          else ((none, some (queryFailed err)), w)
        | ((none, none), w) => ((none, some (userNotFound id)), w)
        | ((some user, none), w) =>
          match userCache.SetUser c w (some user) DefaultExpireSeconds with
          | (_, w) => ((some user, none), w))
      = ((none, some (userNotFound id)), w1.log (.repoFindByID id)) := hres
  rw [hfinal]
  refine ⟨rfl, ?_, ?_, ?_, ?_, ?_⟩
  · simp [World.findByIDCalls, World.count, htr]
  · simpa using hs.1
  · simpa [hr.2.1] using hrow
  · have : (w1.log (.repoFindByID id)).live (getUserKey id) = w.live (getUserKey id) := by
      unfold World.live
      simp [hs.1, hr.1]
    rw [this, hcold]
  · simpa [hr.2.2.1] using hrepo

/-- The world after `n` consecutive `userService.GetUserByID(id)`. -/
theorem userService_get_absent_iterate (c : Codec) (id : Int) (n : Nat) :
    ∀ w : World, w.rows id = none → w.live (getUserKey id) = none → w.repoFaults = [] →
      (Nat.iterate (fun v => (userService.GetUserByID c v id).2) n w).findByIDCalls
        = w.findByIDCalls + n ∧
      (Nat.iterate (fun v => (userService.GetUserByID c v id).2) n w).store = w.store := by
  induction n with
  | zero => intro w _ _ _; exact ⟨rfl, rfl⟩
  | succ n ih =>
    intro w hrow hcold hrepo
    obtain ⟨-, h2, h3, h4, h5, h6⟩ := userService_get_absent c w id hrow hcold hrepo
    obtain ⟨i1, i2⟩ := ih (userService.GetUserByID c w id).2 h4 h5 h6
    simp only [Function.iterate_succ, Function.comp]
    exact ⟨by rw [i1, h2]; omega, by rw [i2, h3]⟩

/-- C22, amended. For every id with no repository record and no live cache entry, the
repository answering, `userService.GetUserByID(id)` returns the not-found error and leaves the
keyspace unchanged, so `n` consecutive calls for the id perform exactly `n` `repo.FindByID`
calls, whatever the store calls do. -/
theorem plain_miss_does_nothing (c : Codec) (w : World) (id : Int) (n : Nat)
    (hrow : w.rows id = none) (hcold : w.live (getUserKey id) = none)
    (hrepo : w.repoFaults = []) :
    (userService.GetUserByID c w id).1 = (none, some (userNotFound id)) ∧
    (userService.GetUserByID c w id).2.store = w.store ∧
    (Nat.iterate (fun v => (userService.GetUserByID c v id).2) n w).findByIDCalls
      = w.findByIDCalls + n ∧
    (Nat.iterate (fun v => (userService.GetUserByID c v id).2) n w).store = w.store := by
  obtain ⟨h1, -, h3, -, -, -⟩ := userService_get_absent c w id hrow hcold hrepo
  exact ⟨h1, h3, userService_get_absent_iterate c id n w hrow hcold hrepo⟩

/-- C22, amended, at the id of the test: three calls for 99999 on the empty world. -/
theorem plain_miss_does_nothing_witness :
    (userService.GetUserByID goJSON emptyWorld 99999).1 = (none, some (userNotFound 99999)) ∧
    (userService.GetUserByID goJSON emptyWorld 99999).2.store = emptyWorld.store ∧
    (Nat.iterate (fun v => (userService.GetUserByID goJSON v 99999).2) 3
        emptyWorld).findByIDCalls = emptyWorld.findByIDCalls + 3 ∧
    (Nat.iterate (fun v => (userService.GetUserByID goJSON v 99999).2) 3 emptyWorld).store
      = emptyWorld.store :=
  plain_miss_does_nothing goJSON emptyWorld 99999 3 rfl rfl rfl

set_option maxRecDepth 1000000 in
/-- C22 as stated fails when the cache still holds the record: `alice` is read (and cached), her
row is deleted while the `Del` of the cache fails; id 1 has no repository record, but
`GetUserByID(1)` returns the cached `alice` with a nil error and without a `repo.FindByID`. It
also fails when the repository does not answer: for id 99999, which has no record, the result is
the error "查询用户失败" wrapping the failure. -/
theorem plain_miss_does_nothing_counterexample :
    (userService.DeleteUser ((userService.GetUserByID goJSON aliceWorld 1).2.setRdsFaults
        [some (.leaf "i/o timeout")]) 1).1 = none ∧
    (userService.DeleteUser ((userService.GetUserByID goJSON aliceWorld 1).2.setRdsFaults
        [some (.leaf "i/o timeout")]) 1).2.rows 1 = none ∧
    (userService.GetUserByID goJSON
      (userService.DeleteUser ((userService.GetUserByID goJSON aliceWorld 1).2.setRdsFaults
        [some (.leaf "i/o timeout")]) 1).2 1).1 = (some alice, none) ∧
    (userService.GetUserByID goJSON
      (userService.DeleteUser ((userService.GetUserByID goJSON aliceWorld 1).2.setRdsFaults
        [some (.leaf "i/o timeout")]) 1).2 1).2.findByIDCalls
      = (userService.DeleteUser ((userService.GetUserByID goJSON aliceWorld 1).2.setRdsFaults
        [some (.leaf "i/o timeout")]) 1).2.findByIDCalls ∧
    repoDownWorld.rows 99999 = none ∧
    (userService.GetUserByID goJSON repoDownWorld 99999).1
      = (none, some (queryFailed (.leaf "connection refused"))) := by
  decide

/-! ## The filter behind the cache wrapper -/

/-- A successful `bloomFilter.Add(key)` sets the bits of the key. -/
theorem bloomAdd_ok_bits (w : World) (key : String) (h : (bloomAdd w key).1 = none) :
    (bloomAdd w key).2.bloomBits = w.bloomHash key ++ w.bloomBits ∧
    (bloomAdd w key).2.bloomHash = w.bloomHash := by
  unfold bloomAdd World.nextRdsFault at h ⊢
  simp only [World.log_rdsFaults] at h ⊢
  rcases hf : w.rdsFaults with _ | ⟨f, rest⟩
  · simp [World.setBits]
  · cases f with
    | none => simp [World.setBits, World.setRdsFaults]
    | some e => simp [hf] at h

/-- The answer of `bloomFilter.Exists(key)` when all bits of the key are set: true, or an error
of the store. -/
theorem bloomExists_of_bits (w : World) (key : String)
    (h : ∀ i ∈ w.bloomHash key, i ∈ w.bloomBits) :
    ((bloomExists w key).1 = (true, none) ∨ ∃ err, (bloomExists w key).1 = (false, some err)) ∧
    (w.rdsFaults = [] → (bloomExists w key).1 = (true, none)) := by
  have hall : ((w.bloomHash key).all fun i => w.bloomBits.contains i) = true := by
    rw [List.all_eq_true]
    intro i hi
    simpa using h i hi
  unfold bloomExists World.nextRdsFault
  simp only [World.log_rdsFaults]
  rcases hf : w.rdsFaults with _ | ⟨f, rest⟩
  · simpa using hall
  · cases f with
    | none => simpa using hall
    | some e => simp

/-- C23. For every id, `AddToBloomFilter(id)` and `ExistsInBloomFilter(id)` hand the same
string, "user:" followed by the decimal id, to the filter; two ids give the same string only
when they are equal; and after a successful `AddToBloomFilter(id)`, with a filter that answers
true for a key whose bits are all set, `ExistsInBloomFilter(id)` never answers `(false, nil)`:
it returns `(true, nil)` whenever its filter call is answered. -/
theorem bloom_no_false_negative (w : World) (id : Int) :
    ((userCacheWithBloom.AddToBloomFilter w id).2.trace
        = .bloomAdd ("user:" ++ String.mk (Json.encodeInt id))
          :: .cacheAddToBloomFilter id :: w.trace ∧
      (userCacheWithBloom.ExistsInBloomFilter w id).2.trace
        = .bloomExists ("user:" ++ String.mk (Json.encodeInt id))
          :: .cacheExistsInBloomFilter id :: w.trace) ∧
    (∀ other : Int, "user:" ++ String.mk (Json.encodeInt id)
        = "user:" ++ String.mk (Json.encodeInt other) ↔ id = other) ∧
    ((userCacheWithBloom.AddToBloomFilter w id).1 = none →
      ((userCacheWithBloom.ExistsInBloomFilter
          (userCacheWithBloom.AddToBloomFilter w id).2 id).1 = (true, none) ∨
        ∃ err, (userCacheWithBloom.ExistsInBloomFilter
          (userCacheWithBloom.AddToBloomFilter w id).2 id).1 = (false, some err)) ∧
      ((userCacheWithBloom.AddToBloomFilter w id).2.rdsFaults = [] →
        (userCacheWithBloom.ExistsInBloomFilter
          (userCacheWithBloom.AddToBloomFilter w id).2 id).1 = (true, none))) := by
  refine ⟨⟨?_, ?_⟩, ?_, ?_⟩
  · rw [(AddToBloomFilter_adds w id).2, Json.toString_eq_encodeInt]
  · unfold userCacheWithBloom.ExistsInBloomFilter
    rw [bloomExists_trace, Json.toString_eq_encodeInt]
    rfl
  · intro other
    constructor
    · intro h
      have hd := congrArg String.data h
      simp only [String.data_append, List.append_cancel_left_eq] at hd
      exact Json.encodeInt_injective id other hd
    · intro h
      rw [h]
  · intro hok
    have hb := bloomAdd_ok_bits (w.log (.cacheAddToBloomFilter id)) ("user:" ++ toString id)
      (by simpa [userCacheWithBloom.AddToBloomFilter] using hok)
    have hbits : ∀ i ∈ ((userCacheWithBloom.AddToBloomFilter w id).2.log
        (.cacheExistsInBloomFilter id)).bloomHash ("user:" ++ toString id),
        i ∈ ((userCacheWithBloom.AddToBloomFilter w id).2.log
          (.cacheExistsInBloomFilter id)).bloomBits := by
      intro i hi
      simp only [userCacheWithBloom.AddToBloomFilter, World.log_bloomHash,
        World.log_bloomBits] at hi ⊢
      rw [hb.1]
      rw [hb.2] at hi
      exact List.mem_append_left _ hi
    have he := bloomExists_of_bits ((userCacheWithBloom.AddToBloomFilter w id).2.log
      (.cacheExistsInBloomFilter id)) ("user:" ++ toString id) hbits
    unfold userCacheWithBloom.ExistsInBloomFilter
    exact ⟨he.1, fun hf => he.2 (by simpa using hf)⟩

/-- C23 at id 1 on the empty world. -/
theorem bloom_no_false_negative_witness :
    (userCacheWithBloom.AddToBloomFilter emptyWorld 1).1 = none ∧
    (userCacheWithBloom.ExistsInBloomFilter emptyWorld 1).1 = (false, none) ∧
    (userCacheWithBloom.ExistsInBloomFilter
      (userCacheWithBloom.AddToBloomFilter emptyWorld 1).2 1).1 = (true, none) :=
  ⟨by decide, by decide,
    ((bloom_no_false_negative emptyWorld 1).2.2 (by decide)).2 (by decide)⟩

/-- With the base of the demo, 60 seconds, the range is `60*10/100 = 6` and `rand.Intn(6)`
draws from 0 to 5: `GetRandomExpireTime(60)` is `60 + draw % 6`. -/
theorem GetRandomExpireTime_demo (draw : Nat) :
    GetRandomExpireTime AvalancheBaseExpireSeconds draw = some (60 + (draw : Int) % 6) := by
  have := GetRandomExpireTime_fits 60 draw (by decide) (by decide)
  simpa [AvalancheBaseExpireSeconds] using this

/-- C24, as far as it holds. With the base of the demo, 60 seconds, `GetRandomExpireTime(60)`
and the TTL that `SetUserWithRandomExpire(user, 60)` hands to `Setex` are `60 + draw % 6`: every
value from 60 to 65 occurs for some draw and no value outside 60 to 65 does; in particular 66,
the `maxExpire` of the service's log line, never does. -/
theorem random_ttl_demo_range (draw : Nat) :
    GetRandomExpireTime AvalancheBaseExpireSeconds draw = some (60 + (draw : Int) % 6) ∧
    (60 : Int) ≤ 60 + (draw : Int) % 6 ∧ 60 + (draw : Int) % 6 ≤ 65 ∧
    GetRandomExpireTime AvalancheBaseExpireSeconds draw ≠ some 66 ∧
    AvalancheBaseExpireSeconds
      + AvalancheBaseExpireSeconds * AvalancheRandomRangePercent / 100 = 66 ∧
    (∀ v : Int, 60 ≤ v → v ≤ 65 →
      GetRandomExpireTime AvalancheBaseExpireSeconds (v - 60).toNat = some v) ∧
    (∀ (c : Codec) (w : World) (user : User) (data : String),
      c.marshal user = .ok data → w.nextRand.1 = draw →
      ∃ res, userCacheWithAvalanche.SetUserWithRandomExpire c w (some user)
          AvalancheBaseExpireSeconds = some res ∧
        lastSetexSeconds res.2.trace = some (60 + (draw : Int) % 6)) := by
  have hlo := Int.emod_nonneg (draw : Int) (by decide : (6 : Int) ≠ 0)
  have hhi := Int.emod_lt_of_pos (draw : Int) (by decide : (0 : Int) < 6)
  refine ⟨GetRandomExpireTime_demo draw, by omega, by omega, ?_, by decide, ?_, ?_⟩
  · rw [GetRandomExpireTime_demo draw]
    intro h
    simp only [Option.some.injEq] at h
    omega
  · intro v h1 h2
    rw [GetRandomExpireTime_demo]
    have : ((v - 60).toNat : Int) = v - 60 := Int.toNat_of_nonneg (by omega)
    rw [this]
    have : (v - 60) % 6 = v - 60 := Int.emod_eq_of_lt (by omega) (by omega)
    rw [this]
    simp
  · intro c w user data hm hdraw
    exact SetUserWithRandomExpire_setex c w user data AvalancheBaseExpireSeconds _ hm
      (by rw [hdraw]; exact GetRandomExpireTime_demo draw)

/-- C24 at the draws 0, 5, 6 and 11: the TTLs are 60, 65, 60 and 65; and with the draw 5,
`SetUserWithRandomExpire(alice, 60)` hands 65 to `Setex`. -/
theorem random_ttl_demo_range_witness :
    GetRandomExpireTime AvalancheBaseExpireSeconds 0 = some 60 ∧
    GetRandomExpireTime AvalancheBaseExpireSeconds 5 = some 65 ∧
    GetRandomExpireTime AvalancheBaseExpireSeconds 6 = some 60 ∧
    GetRandomExpireTime AvalancheBaseExpireSeconds 11 = some 65 ∧
    (∃ res, userCacheWithAvalanche.SetUserWithRandomExpire goJSON (aliceWorld.setRand [5])
        (some alice) AvalancheBaseExpireSeconds = some res ∧
      lastSetexSeconds res.2.trace = some 65) := by
  obtain ⟨payload, hm, -⟩ :=
    (roundTrip_eq_some goJSON alice alice).1 (goJSON_roundTrip alice alice_jsonSafe)
  exact ⟨(random_ttl_demo_range 0).1, (random_ttl_demo_range 5).1,
    (random_ttl_demo_range 6).1, (random_ttl_demo_range 11).1,
    (random_ttl_demo_range 5).2.2.2.2.2.2 goJSON (aliceWorld.setRand [5]) alice payload hm
      (by rfl)⟩

/-- C24 fails at its upper end: 66 is `base + base*AvalancheRandomRangePercent/100` for the
base 60, and no draw makes `GetRandomExpireTime(60)` return 66 or makes
`SetUserWithRandomExpire(alice, 60)` hand 66 to `Setex`. -/
theorem random_ttl_demo_range_counterexample :
    AvalancheBaseExpireSeconds
      + AvalancheBaseExpireSeconds * AvalancheRandomRangePercent / 100 = 66 ∧
    (¬ ∃ draw : Nat, GetRandomExpireTime AvalancheBaseExpireSeconds draw = some 66) ∧
    (¬ ∃ (w : World) (res : Option GoError × World),
      userCacheWithAvalanche.SetUserWithRandomExpire goJSON w (some alice)
        AvalancheBaseExpireSeconds = some res ∧
      lastSetexSeconds res.2.trace = some 66) := by
  have hne : ∀ d : Nat, (60 : Int) + (d : Int) % 6 ≠ 66 := by
    intro d
    have hhi := Int.emod_lt_of_pos (d : Int) (by decide : (0 : Int) < 6)
    omega
  refine ⟨by decide, ?_, ?_⟩
  · rintro ⟨d, hd⟩
    rw [GetRandomExpireTime_demo d] at hd
    simp only [Option.some.injEq] at hd
    exact hne d hd
  · rintro ⟨w, res, hres, hlast⟩
    obtain ⟨payload, hm, -⟩ :=
      (roundTrip_eq_some goJSON alice alice).1 (goJSON_roundTrip alice alice_jsonSafe)
    obtain ⟨res2, hres2, hlast2⟩ := SetUserWithRandomExpire_setex goJSON w alice
      payload AvalancheBaseExpireSeconds _ hm (GetRandomExpireTime_demo w.nextRand.1)
    rw [hres] at hres2
    simp only [Option.some.injEq] at hres2
    subst hres2
    rw [hlast] at hlast2
    simp only [Option.some.injEq] at hlast2
    exact hne _ hlast2.symm

/-! ## The Bloom check on a failing filter -/

/-- When the Bloom check does not reject, `userServiceWithBloom.GetUserByID` goes on to the
cache lookup, and after a lookup without a user to `repo.FindByID`. -/
theorem bloom_get_proceeds (c : Codec) (w : World) (id : Int)
    (res : (Option User × Option GoError) × World)
    (hpass : (userCacheWithBloom.ExistsInBloomFilter w id).1 ≠ (false, none))
    (h : userServiceWithBloom.GetUserByID c w id = some res) :
    (∃ later, res.2.trace = later ++ (userCacheWithBloom.GetUser c
      (userCacheWithBloom.ExistsInBloomFilter w id).2 id).2.trace) ∧
    ((userCacheWithBloom.GetUser c
        (userCacheWithBloom.ExistsInBloomFilter w id).2 id).1.1 = none →
      ∃ later, res.2.trace = later ++ (repoFindByID (userCacheWithBloom.GetUser c
        (userCacheWithBloom.ExistsInBloomFilter w id).2 id).2 id).2.trace) := by
  have hf1 := repoFindByID_trace (userCacheWithBloom.GetUser c
      (userCacheWithBloom.ExistsInBloomFilter w id).2 id).2 id
  have hadd : ∀ r : User, ∃ later, (userCacheWithBloom.AddToBloomFilter
      (userCacheWithBloom.SetUser c
      (repoFindByID (userCacheWithBloom.GetUser c
        (userCacheWithBloom.ExistsInBloomFilter w id).2 id).2 id).2 (some r)
      DefaultExpireSeconds).2 id).2.trace = later ++ (repoFindByID (userCacheWithBloom.GetUser c
        (userCacheWithBloom.ExistsInBloomFilter w id).2 id).2 id).2.trace := by
    intro r
    rw [(AddToBloomFilter_adds _ id).2]
    obtain ⟨later, hl⟩ := setUserBody_trace c ((repoFindByID (userCacheWithBloom.GetUser c
      (userCacheWithBloom.ExistsInBloomFilter w id).2 id).2 id).2.log
      (.cacheSetUser (Option.map (·.ID) (some r)) DefaultExpireSeconds)) (some r)
      DefaultExpireSeconds
    unfold userCacheWithBloom.SetUser
    rw [hl]
    exact ⟨.bloomAdd ("user:" ++ toString id) :: .cacheAddToBloomFilter id :: later
      ++ [.cacheSetUser (Option.map (·.ID) (some r)) DefaultExpireSeconds], by simp [World.log]⟩
  unfold userServiceWithBloom.GetUserByID at h
  split at h
  · next w0 hxe =>
    rw [hxe] at hpass
    exact absurd rfl hpass
  · next xr w0 hnb hxe =>
    rw [hxe] at hf1 hadd ⊢
    simp only at hf1 hadd h ⊢
    split at h
    · next user w1 hge =>
      simp only [Option.some.injEq] at h
      subst h
      rw [hge]
      exact ⟨⟨[], rfl⟩, fun hn => by simp at hn⟩
    · next gr w1 hnh hge =>
      rw [hge] at hf1 hadd ⊢
      simp only at hf1 hadd h ⊢
      split at h
      · next fu err w2 hfe =>
        rw [hfe] at hf1 ⊢
        simp only at hf1 ⊢
        by_cases hi : errorsIs err .recordNotFound = true
        · simp only [hi, if_true, Option.some.injEq] at h
          subst h
          exact ⟨⟨[.repoFindByID id], by simp [hf1]⟩, fun _ => ⟨[], rfl⟩⟩
        · simp only [hi, Bool.false_eq_true, if_false, Option.some.injEq] at h
          subst h
          exact ⟨⟨[.repoFindByID id], by simp [hf1]⟩, fun _ => ⟨[], rfl⟩⟩
      · simp at h
      · next r w2 hfe =>
        rw [hfe] at hadd hf1 ⊢
        simp only [Option.some.injEq] at h
        subst h
        simp only at hf1 hadd ⊢
        obtain ⟨later, hl⟩ := hadd r
        exact ⟨⟨later ++ [.repoFindByID id], by simp [hl, hf1]⟩, fun _ => ⟨later, hl⟩⟩

/-- C25. In `userServiceWithBloom.GetUserByID`, when `ExistsInBloomFilter(id)` returns an
error, the call gives the result it gives from any state in which the filter answers true and
leaves the same state behind; the cache lookup is made; a cached user is returned; and on a
cache miss the repository is read and an existing record is returned. -/
theorem bloom_fails_open (c : Codec) (w : World) (id : Int) (b : Bool) (err : GoError)
    (herr : (userCacheWithBloom.ExistsInBloomFilter w id).1 = (b, some err)) :
    (∀ w2, (userCacheWithBloom.ExistsInBloomFilter w2 id).1 = (true, none) →
      (userCacheWithBloom.ExistsInBloomFilter w2 id).2
        = (userCacheWithBloom.ExistsInBloomFilter w id).2 →
      userServiceWithBloom.GetUserByID c w id = userServiceWithBloom.GetUserByID c w2 id) ∧
    (∀ u, (userCacheWithBloom.GetUser c
        (userCacheWithBloom.ExistsInBloomFilter w id).2 id).1 = (some u, none) →
      userServiceWithBloom.GetUserByID c w id
        = some ((some u, none), (userCacheWithBloom.GetUser c
            (userCacheWithBloom.ExistsInBloomFilter w id).2 id).2)) ∧
    (∀ r, (userCacheWithBloom.GetUser c
        (userCacheWithBloom.ExistsInBloomFilter w id).2 id).1.1 = none →
      (repoFindByID (userCacheWithBloom.GetUser c
        (userCacheWithBloom.ExistsInBloomFilter w id).2 id).2 id).1 = (some r, none) →
      ∃ w', userServiceWithBloom.GetUserByID c w id = some ((some r, none), w')) ∧
    (∀ res, userServiceWithBloom.GetUserByID c w id = some res →
      (∃ later, res.2.trace = later ++ .rdsGet (getUserKey id) :: .cacheGetUser id
        :: (userCacheWithBloom.ExistsInBloomFilter w id).2.trace) ∧
      ((userCacheWithBloom.GetUser c
          (userCacheWithBloom.ExistsInBloomFilter w id).2 id).1.1 = none →
        ∃ later, res.2.trace = later ++ .repoFindByID id :: .rdsGet (getUserKey id)
          :: .cacheGetUser id :: (userCacheWithBloom.ExistsInBloomFilter w id).2.trace)) := by
  have hpass : (userCacheWithBloom.ExistsInBloomFilter w id).1 ≠ (false, none) := by
    rw [herr]
    simp
  refine ⟨?_, ?_, ?_, ?_⟩
  · intro w2 h2 hw2
    unfold userServiceWithBloom.GetUserByID
    rcases hx : userCacheWithBloom.ExistsInBloomFilter w id with ⟨⟨b1, xe⟩, w0⟩
    rcases hx2 : userCacheWithBloom.ExistsInBloomFilter w2 id with ⟨⟨b2, xe2⟩, w02⟩
    rw [hx] at herr hw2
    rw [hx2] at h2 hw2
    simp only [Prod.mk.injEq] at herr h2 hw2
    obtain ⟨hb, he⟩ := herr
    obtain ⟨hb2, he2⟩ := h2
    subst hb he hb2 he2 hw2
    cases b1 <;> rfl
  · intro u hu
    unfold userServiceWithBloom.GetUserByID
    rcases hx : userCacheWithBloom.ExistsInBloomFilter w id with ⟨⟨b1, xe⟩, w0⟩
    rw [hx] at herr hu
    simp only [Prod.mk.injEq] at herr
    obtain ⟨hb, he⟩ := herr
    subst hb he
    rcases hg : userCacheWithBloom.GetUser c w0 id with ⟨⟨gu, ge⟩, w1⟩
    rw [hg] at hu
    simp only [Prod.mk.injEq] at hu
    obtain ⟨h1, h2⟩ := hu
    subst h1 h2
    cases b1 <;> simp [hg]
  · intro r hmiss hfound
    exact bloom_populate c w id r hpass hmiss hfound
  · intro res hres
    have hp := bloom_get_proceeds c w id res hpass hres
    have hg : (userCacheWithBloom.GetUser c
        (userCacheWithBloom.ExistsInBloomFilter w id).2 id).2.trace
        = .rdsGet (getUserKey id) :: .cacheGetUser id
          :: (userCacheWithBloom.ExistsInBloomFilter w id).2.trace := by
      unfold userCacheWithBloom.GetUser
      rw [getUserBody_world, rdsGet_trace]
      rfl
    rw [repoFindByID_trace, hg] at hp
    exact hp

set_option maxRecDepth 1000000 in
/-- C25 on the world of `alice` whose filter call times out: the call returns `alice`, as it
does when the filter answers true. -/
theorem bloom_fails_open_witness :
    (userCacheWithBloom.ExistsInBloomFilter filterDownWorld 1).1
      = (false, some (.leaf "i/o timeout")) ∧
    (userCacheWithBloom.ExistsInBloomFilter filterUpWorld 1).1 = (true, none) ∧
    (userServiceWithBloom.GetUserByID goJSON filterDownWorld 1).map (·.1)
      = some (some alice, none) ∧
    userServiceWithBloom.GetUserByID goJSON filterDownWorld 1
      = userServiceWithBloom.GetUserByID goJSON filterUpWorld 1 :=
  ⟨by decide, by decide, by decide,
    (bloom_fails_open goJSON filterDownWorld 1 false (.leaf "i/o timeout") (by decide)).1
      filterUpWorld (by decide) rfl⟩

/-! ## Create after a miss; a repository that returns `(nil, nil)` -/

/-- The struct as `Create` leaves it, the id given to it being `k`. -/
theorem World.created_eq (w : World) (user : User) (k : Int)
    (hk : (if user.ID = 0 then w.autoIncrement else user.ID) = k) :
    w.created user = { user with ID := k, CreatedAt := fillTime w.clock user.CreatedAt,
                                 UpdatedAt := fillTime w.clock user.UpdatedAt } := by
  unfold World.created
  rw [hk]

/-- The call `repo.Create(user)` on a repository that answers, the id being free. -/
theorem repoCreate_ok (w : World) (user : User) (k : Int)
    (hk : (if user.ID = 0 then w.autoIncrement else user.ID) = k)
    (hrepo : w.repoFaults = []) (hfree : w.rows k = none) :
    repoCreate w user = ((none, w.created user),
      (w.log (.repoCreate user.ID)).insertRow (w.created user)) := by
  have hid : (w.created user).ID = k := by
    rw [World.created_eq w user k hk]
  unfold repoCreate World.nextRepoFault
  simp only [World.log_repoFaults, hrepo]
  split
  · next row hrow =>
    have hrow2 : w.rows (w.created user).ID = some row := hrow
    rw [hid, hfree] at hrow2
    cases hrow2
  · rfl

/-- The method `userServiceWithPenetration.CreateUser` when repository and store answer and the
id is free. -/
theorem penetration_create_ok (w : World) (user : User) (k : Int)
    (hk : (if user.ID = 0 then w.autoIncrement else user.ID) = k)
    (hrds : w.rdsFaults = []) (hrepo : w.repoFaults = []) (hfree : w.rows k = none) :
    userServiceWithPenetration.CreateUser w user = ((none, w.created user),
      ((((w.log (.repoCreate user.ID)).insertRow (w.created user)).log
        (.cacheDeleteUser k)).log (.rdsDel (getUserKey k))).del (getUserKey k)) := by
  have hid : (w.created user).ID = k := by
    rw [World.created_eq w user k hk]
  unfold userServiceWithPenetration.CreateUser
  rw [repoCreate_ok w user k hk hrepo hfree]
  simp only [hid]
  unfold userCacheWithPenetration.DeleteUser deleteUserBody
  rw [rdsDel_ok _ _ (by simpa [World.insertRow] using hrds)]

/-- The method `userServiceWithPenetration.GetUserByID` on a key without a live entry whose
record exists, store and repository answering: one `repo.FindByID` call, and the record. -/
theorem penetration_get_cold_found (c : Codec) (w : World) (id : Int) (r : User)
    (hrow : w.rows id = some r) (hcold : w.live (getUserKey id) = none)
    (hrds : w.rdsFaults = []) (hrepo : w.repoFaults = []) :
    (userServiceWithPenetration.GetUserByID c w id).1 = (some r, none) ∧
    (userServiceWithPenetration.GetUserByID c w id).2.findByIDCalls = w.findByIDCalls + 1 := by
  obtain ⟨e, he, hne⟩ := c.unmarshal_empty
  have hnull : ("" : String) ≠ NullCacheValue := by decide
  unfold userServiceWithPenetration.GetUserByID userCacheWithPenetration.GetUser
  simp only []
  rw [rdsGet_ok _ _ (by simpa using hrds)]
  simp only [World.live_log, hcold, hnull, if_false, he, errorsIs_wrap, hne, ErrNullCache,
    Option.map_some', Option.getD_some]
  rw [repoFindByID_found _ _ r (by simpa using hrepo) (by simpa using hrow)]
  have hw : (GoError.wrap "反序列化用户数据失败: " e == GoError.nullCache) = false := by
    rfl
  simp only [hw, Bool.or_false, Bool.false_eq_true, if_false]
  refine ⟨trivial, ?_⟩
  have := SetUser_findByIDCalls c (((w.log (.cacheGetUser id)).log
    (.rdsGet (getUserKey id))).log (.repoFindByID id)) (some r) DefaultExpireSeconds
  unfold userCache.SetUser at this
  unfold userCacheWithPenetration.SetUser
  rw [this]
  simp [World.findByIDCalls_log]

/-- C26. In `userServiceWithPenetration`, repository and store calls succeeding: when
`CreateUser(u)` creates the row under the free id `k` (the id of `u`, or the next
auto-increment id when `u.ID` is 0), it returns nil and leaves in `u` the created user: `u` with
`ID = k` and with each of `CreatedAt` and `UpdatedAt` that was the zero time set to the current
time, the other fields as they were. The row `k` is the created user, and afterwards `user:<k>`
holds no entry, whatever it held before; the next `GetUserByID(k)` makes one `repo.FindByID`
call and returns the created user. Before the create, a live absent-marker at `user:<k>` made
`GetUserByID(k)` return the not-found error. -/
theorem create_clears_marker (c : Codec) (w : World) (u : User) (k : Int)
    (hk : (if u.ID = 0 then w.autoIncrement else u.ID) = k)
    (hrds : w.rdsFaults = []) (hrepo : w.repoFaults = []) (hfree : w.rows k = none) :
    (userServiceWithPenetration.CreateUser w u).1.1 = none ∧
    (userServiceWithPenetration.CreateUser w u).1.2
      = { u with ID := k,
                 CreatedAt := if u.CreatedAt = GoTime.zero then w.clock else u.CreatedAt,
                 UpdatedAt := if u.UpdatedAt = GoTime.zero then w.clock else u.UpdatedAt } ∧
    (userServiceWithPenetration.CreateUser w u).2.rows k
      = some (userServiceWithPenetration.CreateUser w u).1.2 ∧
    (userServiceWithPenetration.CreateUser w u).2.store (getUserKey k) = none ∧
    (userServiceWithPenetration.GetUserByID c
      (userServiceWithPenetration.CreateUser w u).2 k).1
        = (some (userServiceWithPenetration.CreateUser w u).1.2, none) ∧
    (userServiceWithPenetration.GetUserByID c
      (userServiceWithPenetration.CreateUser w u).2 k).2.findByIDCalls
        = (userServiceWithPenetration.CreateUser w u).2.findByIDCalls + 1 ∧
    (∀ entry, w.live (getUserKey k) = some entry → entry.value = NullCacheValue →
      (userServiceWithPenetration.GetUserByID c w k).1 = (none, some (userNotFound k))) := by
  have hc := penetration_create_ok w u k hk hrds hrepo hfree
  have hid : (w.created u).ID = k := by
    rw [World.created_eq w u k hk]
  have hres : (userServiceWithPenetration.CreateUser w u).1.2 = w.created u := by
    rw [hc]
  have hrow : (userServiceWithPenetration.CreateUser w u).2.rows k = some (w.created u) := by
    rw [hc]
    simp [World.del, World.log, World.insertRow, hid]
  have hstore : (userServiceWithPenetration.CreateUser w u).2.store (getUserKey k) = none := by
    rw [hc]
    simp [World.del]
  have hcold : (userServiceWithPenetration.CreateUser w u).2.live (getUserKey k) = none := by
    unfold World.live
    rw [hstore]
  have hrds2 : (userServiceWithPenetration.CreateUser w u).2.rdsFaults = [] := by
    rw [hc]
    simpa [World.del, World.log, World.insertRow] using hrds
  have hrepo2 : (userServiceWithPenetration.CreateUser w u).2.repoFaults = [] := by
    rw [hc]
    simpa [World.del, World.log, World.insertRow] using hrepo
  have hget := penetration_get_cold_found c _ k _ hrow hcold hrds2 hrepo2
  rw [hres]
  refine ⟨by rw [hc], ?_, hrow, hstore, hget.1, hget.2, ?_⟩
  · rw [World.created_eq w u k hk]
    rfl
  · intro entry hlive hval
    rw [penetration_get_marker c w k entry hrds hlive hval]

set_option maxRecDepth 1000000 in
/-- C26 on an empty table whose key `user:1` holds the absent-marker: the lookup of id 1 is
refused, then the create gives the row id 1 and the lookup returns it. -/
theorem create_clears_marker_witness :
    (markerWorld.live (getUserKey 1)).map (·.value) = some NullCacheValue ∧
    (userServiceWithPenetration.GetUserByID goJSON markerWorld 1).1
      = (none, some (userNotFound 1)) ∧
    (userServiceWithPenetration.CreateUser markerWorld newAlice).1 = (none, alice) ∧
    (userServiceWithPenetration.CreateUser markerWorld newAlice).2.store (getUserKey 1)
      = none ∧
    (userServiceWithPenetration.GetUserByID goJSON
      (userServiceWithPenetration.CreateUser markerWorld newAlice).2 1).1
      = (some (userServiceWithPenetration.CreateUser markerWorld newAlice).1.2, none) :=
  have h := create_clears_marker goJSON markerWorld newAlice 1 (by decide) (by decide)
    (by decide) (by decide)
  ⟨by decide, by decide, by decide, h.2.2.2.1, h.2.2.2.2.1⟩

set_option maxRecDepth 1000000 in
/-- C26 for a user built the way the demo builds its users, without id and timestamps: the
create gives the row id 1 and sets both timestamps to the current time, and the lookup returns
the user so created. -/
theorem create_clears_marker_examples :
    (userServiceWithPenetration.CreateUser markerWorld
        { newAlice with CreatedAt := GoTime.zero, UpdatedAt := GoTime.zero }).1
      = (none, { alice with CreatedAt := saveTime, UpdatedAt := saveTime }) ∧
    (userServiceWithPenetration.GetUserByID goJSON
      (userServiceWithPenetration.CreateUser markerWorld
        { newAlice with CreatedAt := GoTime.zero, UpdatedAt := GoTime.zero }).2 1).1
      = (some { alice with CreatedAt := saveTime, UpdatedAt := saveTime }, none) := by
  decide

/-- C27, as far as it holds. When the cache lookup gives no user and `repo.FindByID(id)`
returns a nil user with a nil error, `GetUserByID(id)` of the plain, strategy and avalanche
variants returns the not-found error and makes no further call; that of the penetration variant
(the cache error not being the absent-marker) writes the absent-marker with `SetNullUser(id)`
and returns the not-found error; that of the Bloom variant, once the filter has not rejected,
panics on the nil dereference `user.Username`. -/
theorem nil_result_handling (c : Codec) (w : World) (id : Int) :
    ((userCache.GetUser c w id).1.1 = none →
      (repoFindByID (userCache.GetUser c w id).2 id).1 = (none, none) →
      userService.GetUserByID c w id = ((none, some (userNotFound id)),
        (repoFindByID (userCache.GetUser c w id).2 id).2) ∧
      userServiceWithStrategy.GetUserByID c w id = ((none, some (userNotFound id)),
        (repoFindByID (userCache.GetUser c w id).2 id).2)) ∧
    (∀ mode base, (userCacheWithAvalanche.GetUser c w id).1.1 = none →
      (repoFindByID (userCacheWithAvalanche.GetUser c w id).2 id).1 = (none, none) →
      userServiceWithAvalanche.GetUserByID c mode base w id = some ((none, some (userNotFound id)),
        (repoFindByID (userCacheWithAvalanche.GetUser c w id).2 id).2)) ∧
    ((userCacheWithPenetration.GetUser c w id).1.1 = none →
      (∀ e, (userCacheWithPenetration.GetUser c w id).1.2 = some e →
        errorsIs e ErrNullCache = false) →
      (repoFindByID (userCacheWithPenetration.GetUser c w id).2 id).1 = (none, none) →
      userServiceWithPenetration.GetUserByID c w id = ((none, some (userNotFound id)),
        (userCacheWithPenetration.SetNullUser
          (repoFindByID (userCacheWithPenetration.GetUser c w id).2 id).2 id).2)) ∧
    ((userCacheWithBloom.ExistsInBloomFilter w id).1 ≠ (false, none) →
      (userCacheWithBloom.GetUser c
        (userCacheWithBloom.ExistsInBloomFilter w id).2 id).1.1 = none →
      (repoFindByID (userCacheWithBloom.GetUser c
        (userCacheWithBloom.ExistsInBloomFilter w id).2 id).2 id).1 = (none, none) →
      userServiceWithBloom.GetUserByID c w id = none) := by
  refine ⟨?_, ?_, ?_, ?_⟩
  · intro hmiss hnil
    unfold userService.GetUserByID userServiceWithStrategy.GetUserByID
    rcases hg : userCache.GetUser c w id with ⟨⟨u, e⟩, w1⟩
    rw [hg] at hmiss hnil
    simp only at hmiss hnil
    subst hmiss
    rcases hf : repoFindByID w1 id with ⟨⟨u2, e2⟩, w2⟩
    rw [hf] at hnil
    simp only [Prod.mk.injEq] at hnil
    obtain ⟨h1, h2⟩ := hnil
    subst h1 h2
    constructor <;> simp [hf]
  · intro mode base hmiss hnil
    unfold userServiceWithAvalanche.GetUserByID
    rcases hg : userCacheWithAvalanche.GetUser c w id with ⟨⟨u, e⟩, w1⟩
    rw [hg] at hmiss hnil
    simp only at hmiss hnil
    subst hmiss
    rcases hf : repoFindByID w1 id with ⟨⟨u2, e2⟩, w2⟩
    rw [hf] at hnil
    simp only [Prod.mk.injEq] at hnil
    obtain ⟨h1, h2⟩ := hnil
    subst h1 h2
    simp [hf]
  · intro hmiss hnull hnil
    unfold userServiceWithPenetration.GetUserByID
    rcases hg : userCacheWithPenetration.GetUser c w id with ⟨⟨u, e⟩, w1⟩
    rw [hg] at hmiss hnil hnull
    simp only at hmiss hnil hnull
    subst hmiss
    rcases hf : repoFindByID w1 id with ⟨⟨u2, e2⟩, w2⟩
    rw [hf] at hnil
    simp only [Prod.mk.injEq] at hnil
    obtain ⟨h1, h2⟩ := hnil
    subst h1 h2
    cases e with
    | none => simp [hf]
    | some e =>
      have := hnull e rfl
      simp [hf, this]
  · intro hpass hmiss hnil
    unfold userServiceWithBloom.GetUserByID
    rcases hx : userCacheWithBloom.ExistsInBloomFilter w id with ⟨⟨b, xe⟩, w0⟩
    rw [hx] at hpass hmiss hnil
    simp only at hpass hmiss hnil
    rcases hg : userCacheWithBloom.GetUser c w0 id with ⟨⟨u, e⟩, w1⟩
    rw [hg] at hmiss hnil
    simp only at hmiss hnil
    subst hmiss
    rcases hf : repoFindByID w1 id with ⟨⟨u2, e2⟩, w2⟩
    rw [hf] at hnil
    simp only [Prod.mk.injEq] at hnil
    obtain ⟨h1, h2⟩ := hnil
    subst h1 h2
    cases b with
    | true => simp [hg, hf]
    | false =>
      cases xe with
      | none => exact absurd rfl hpass
      | some xe => simp [hg, hf]

set_option maxRecDepth 1000000 in
/-- C27 at id 7 over a `UserRepo` that returns `(nil, nil)` for an absent row, the filter
passing id 7 because the key of id 1 sets the same bits: the plain variant returns the
not-found error, the Bloom variant panics. -/
theorem nil_result_handling_witness :
    (userCacheWithBloom.ExistsInBloomFilter nilRepoWorld 7).1 = (true, none) ∧
    (repoFindByID nilRepoWorld 7).1 = (none, none) ∧
    (userService.GetUserByID goJSON nilRepoWorld 7).1 = (none, some (userNotFound 7)) ∧
    userServiceWithBloom.GetUserByID goJSON nilRepoWorld 7 = none :=
  ⟨by decide, by decide, by decide,
    (nil_result_handling goJSON nilRepoWorld 7).2.2.2 (by decide) (by decide) (by decide)⟩

/-! ## What is read back from a written record -/

namespace Json

/-- The zone is read back in whole minutes when its hour is below 24. -/
theorem parseZone_formatZone_trunc (offset : Int)
    (hz : (offset.tdiv 60).natAbs / 60 < 24) :
    parseZone (formatZone offset) = some (60 * offset.tdiv 60) := by
  unfold formatZone
  by_cases h0 : offset = 0
  · simp [h0, parseZone]
  · simp only [h0, if_false]
    generalize offset.tdiv 60 = k at hz ⊢
    have hh : k.natAbs / 60 < 100 := by omega
    have hm : k.natAbs % 60 < 100 := by omega
    have h1 := parseUint_two _ 0 23 hh (by omega) (by omega)
    have h2 := parseUint_two _ 0 59 hm (by omega) (by omega)
    rw [appendInt_two _ hh, appendInt_two _ hm]
    simp only [List.cons_append, List.nil_append]
    by_cases hneg : k < 0
    · simp only [hneg, if_true]
      simp only [parseZone, h1, h2]
      have : ('-' : Char) ≠ '+' := by decide
      simp only [this, if_false, if_true, Option.some.injEq]
      omega
    · simp only [hneg, if_false]
      simp only [parseZone, h1, h2]
      simp only [if_true, Option.some.injEq]
      omega

theorem formatZone_plain_trunc (offset : Int) (hz : (offset.tdiv 60).natAbs / 60 < 24) :
    ∀ c ∈ formatZone offset, plainChar c := by
  intro c hc
  unfold formatZone at hc
  by_cases h0 : offset = 0
  · simp only [h0, if_true, List.mem_singleton] at hc
    subst hc
    exact plainChar_of_toNat _ (by decide) (by decide) (by decide)
  · simp only [h0, if_false] at hc
    generalize offset.tdiv 60 = k at hz hc
    have hh : k.natAbs / 60 < 100 := by omega
    have hm : k.natAbs % 60 < 100 := by omega
    rw [appendInt_two _ hh, appendInt_two _ hm] at hc
    simp only [List.cons_append, List.nil_append, List.mem_cons, List.mem_singleton,
      List.not_mem_nil, or_false] at hc
    rcases hc with hc | hc | hc | hc | hc | hc
    · subst hc
      split_ifs <;> exact plainChar_of_toNat _ (by decide) (by decide) (by decide)
    · subst hc; exact plainChar_digitChar _ (by omega)
    · subst hc; exact plainChar_digitChar _ (by omega)
    · subst hc; exact plainChar_of_toNat _ (by decide) (by decide) (by decide)
    · subst hc; exact plainChar_digitChar _ (by omega)
    · subst hc; exact plainChar_digitChar _ (by omega)

theorem timeText_plain_trunc (t : GoTime) (h : t.civil) (hy0 : 0 ≤ t.year)
    (hy1 : t.year ≤ 9999) (hz : (t.offset.tdiv 60).natAbs / 60 < 24) :
    ∀ c ∈ appendInt t.year 4 ++ '-' :: appendInt t.month 2 ++ '-' :: appendInt t.day 2 ++
          'T' :: appendInt t.hour 2 ++ ':' :: appendInt t.minute 2 ++ ':' ::
          appendInt t.second 2 ++ formatNano t.nano ++ formatZone t.offset, plainChar c := by
  obtain ⟨hm0, hm1, hd0, hd1, hh, hmi, hs, hn⟩ := h
  obtain ⟨y, hy⟩ : ∃ y : Nat, t.year = (y : Int) := ⟨t.year.toNat, by omega⟩
  have hylt : y < 10000 := by omega
  have hdl : t.day ≤ 31 := by
    have : daysIn t.month t.year.toNat ≤ 31 := by
      unfold daysIn
      split_ifs <;> omega
    omega
  rw [hy, appendInt_four y hylt, appendInt_two t.month (by omega), appendInt_two t.day (by omega),
    appendInt_two t.hour (by omega), appendInt_two t.minute (by omega),
    appendInt_two t.second (by omega)]
  intro c hc
  simp only [List.cons_append, List.nil_append, List.append_assoc, List.mem_cons,
    List.mem_append] at hc
  rcases hc with hc | hc | hc | hc | hc | hc | hc | hc | hc | hc | hc | hc | hc | hc | hc | hc |
    hc | hc | hc | hc | hc
  all_goals first
    | exact formatNano_plain t.nano hn c hc
    | exact formatZone_plain_trunc t.offset hz c hc
    | (subst hc; apply plainChar_of_toNat <;> decide)
    | (subst hc; apply plainChar_digitChar; omega)

/-- A timestamp that `Time.MarshalJSON` accepts is read back from its RFC 3339 text with its
zone offset cut to whole minutes. -/
theorem parseTime_formatTime_trunc (t : GoTime) (h : t.civil) (hy0 : 0 ≤ t.year)
    (hy1 : t.year ≤ 9999) (hz : (t.offset.tdiv 60).natAbs / 60 < 24) :
    parseTime (appendInt t.year 4 ++ '-' :: appendInt t.month 2 ++ '-' :: appendInt t.day 2 ++
          'T' :: appendInt t.hour 2 ++ ':' :: appendInt t.minute 2 ++ ':' ::
          appendInt t.second 2 ++ formatNano t.nano ++ formatZone t.offset)
      = some { t with offset := 60 * t.offset.tdiv 60 } := by
  obtain ⟨hm0, hm1, hd0, hd1, hh, hmi, hs, hn⟩ := h
  obtain ⟨y, hy⟩ : ∃ y : Nat, t.year = (y : Int) := ⟨t.year.toNat, by omega⟩
  have hylt : y < 10000 := by omega
  have hdl : t.day ≤ 31 := by
    have : daysIn t.month t.year.toNat ≤ 31 := by
      unfold daysIn
      split_ifs <;> omega
    omega
  rw [hy] at hd1
  simp only [Int.toNat_ofNat] at hd1
  obtain ⟨hz1, hz2⟩ := splitFraction_format t.nano t.offset hn
  rw [hy, appendInt_four y hylt, appendInt_two t.month (by omega), appendInt_two t.day (by omega),
    appendInt_two t.hour (by omega), appendInt_two t.minute (by omega),
    appendInt_two t.second (by omega)]
  simp only [List.cons_append, List.nil_append, List.append_assoc, parseTime]
  rw [parseUint_four y 0 9999 hylt (by omega) (by omega),
    parseUint_two t.month 1 12 (by omega) hm0 hm1]
  simp only []
  rw [parseUint_two t.day 1 _ (by omega) hd0 hd1,
    parseUint_two t.hour 0 23 (by omega) (by omega) hh,
    parseUint_two t.minute 0 59 (by omega) (by omega) hmi,
    parseUint_two t.second 0 59 (by omega) (by omega) hs]
  simp only [hz1, hz2, parseZone_formatZone_trunc t.offset hz]

/-- When `Time.MarshalJSON` accepts a timestamp, its year is in `[0, 9999]`, its zone hour is
below 24, and the text is the RFC 3339 text. -/
theorem formatTime_accepts (t : GoTime) (text : List Char) (h : formatTime t = .ok text) :
    0 ≤ t.year ∧ t.year ≤ 9999 ∧ (t.offset.tdiv 60).natAbs / 60 < 24 ∧
    formatTime t
      = .ok (appendInt t.year 4 ++ '-' :: appendInt t.month 2 ++ '-' :: appendInt t.day 2 ++
          'T' :: appendInt t.hour 2 ++ ':' :: appendInt t.minute 2 ++ ':' ::
          appendInt t.second 2 ++ formatNano t.nano ++ formatZone t.offset) := by
  unfold formatTime at h ⊢
  by_cases h1 : t.year < 0 ∨ 9999 < t.year
  · rw [if_pos h1] at h
    cases h
  · by_cases h2 : 24 ≤ (t.offset.tdiv 60).natAbs / 60
    · rw [if_neg h1, if_pos h2] at h
      cases h
    · simp only [h1, h2, if_false]
      exact ⟨by omega, by omega, by omega, trivial⟩

/-- What `json.Unmarshal` reads from any text that `json.Marshal` wrote for a user: the user with
its strings coerced to valid UTF-8 and the zone offsets of its timestamps cut to whole minutes;
the id is the id that was written. -/
theorem unmarshal_marshal_written (u : User) (hw : u.wellTyped) (cs : List Char)
    (hm : marshalUser u = .ok cs) :
    unmarshalUser cs = .ok { u with
        Username := (u.Username.map coerced).map GoChar.rune,
        Email := (u.Email.map coerced).map GoChar.rune,
        CreatedAt := { u.CreatedAt with offset := 60 * u.CreatedAt.offset.tdiv 60 },
        UpdatedAt := { u.UpdatedAt with offset := 60 * u.UpdatedAt.offset.tdiv 60 } } := by
  obtain ⟨hid, hage, hcc, huc⟩ := hw
  obtain ⟨p1, p2, p3, p4, p5, p6⟩ := plain_keys
  have hfc : ∃ text, formatTime u.CreatedAt = .ok text := by
    unfold marshalUser at hm
    cases h : formatTime u.CreatedAt with
    | ok text => exact ⟨text, rfl⟩
    | error e => simp [h] at hm
  have hfu : ∃ text, formatTime u.UpdatedAt = .ok text := by
    unfold marshalUser at hm
    cases h : formatTime u.UpdatedAt with
    | ok text => exact ⟨text, rfl⟩
    | error e =>
      cases h2 : formatTime u.CreatedAt <;> simp [h, h2] at hm
  obtain ⟨tc, htc⟩ := hfc
  obtain ⟨tu, htu⟩ := hfu
  have hc := formatTime_accepts _ _ htc
  have hu := formatTime_accepts _ _ htu
  rw [marshalUser_text u _ _ hc.2.2.2 hu.2.2.2] at hm
  simp only [Except.ok.injEq] at hm
  subst hm
  generalize hcre : appendInt u.CreatedAt.year 4 ++ '-' :: appendInt u.CreatedAt.month 2 ++ '-' ::
    appendInt u.CreatedAt.day 2 ++ 'T' :: appendInt u.CreatedAt.hour 2 ++ ':' ::
    appendInt u.CreatedAt.minute 2 ++ ':' :: appendInt u.CreatedAt.second 2 ++
    formatNano u.CreatedAt.nano ++ formatZone u.CreatedAt.offset = created
  generalize hupd : appendInt u.UpdatedAt.year 4 ++ '-' :: appendInt u.UpdatedAt.month 2 ++ '-' ::
    appendInt u.UpdatedAt.day 2 ++ 'T' :: appendInt u.UpdatedAt.hour 2 ++ ':' ::
    appendInt u.UpdatedAt.minute 2 ++ ':' :: appendInt u.UpdatedAt.second 2 ++
    formatNano u.UpdatedAt.nano ++ formatZone u.UpdatedAt.offset = updated
  have hcp : ∀ c ∈ created, plainChar c :=
    hcre ▸ timeText_plain_trunc _ hcc hc.1 hc.2.1 hc.2.2.1
  have hup : ∀ c ∈ updated, plainChar c :=
    hupd ▸ timeText_plain_trunc _ huc hu.1 hu.2.1 hu.2.2.1
  have hct : parseTime created
      = some { u.CreatedAt with offset := 60 * u.CreatedAt.offset.tdiv 60 } :=
    hcre ▸ parseTime_formatTime_trunc _ hcc hc.1 hc.2.1 hc.2.2.1
  have hut : parseTime updated
      = some { u.UpdatedAt with offset := 60 * u.UpdatedAt.offset.tdiv 60 } :=
    hupd ▸ parseTime_formatTime_trunc _ huc hu.1 hu.2.1 hu.2.2.1
  -- the members, from the last to the first
  have m6 : ∀ f, parseMembers (f + 2) ('"' :: (['u', 'p', 'd', 'a', 't', 'e', 'd', '_', 'a', 't'] ++
      '"' :: ':' :: (('"' :: (updated ++ ['"'])) ++ ['}'])))
      = some ([(['u', 'p', 'd', 'a', 't', 'e', 'd', '_', 'a', 't'], .str updated updated)], []) := by
    intro f
    apply parseMembers_last f _ _ _ p6
    have := parseValue_plain f updated ['}'] hup
    simpa using this
  have m5 : ∀ f, parseMembers (f + 3)
      ('"' :: (['c', 'r', 'e', 'a', 't', 'e', 'd', '_', 'a', 't'] ++ '"' :: ':' ::
        (('"' :: (created ++ ['"'])) ++ ',' ::
      '"' :: (['u', 'p', 'd', 'a', 't', 'e', 'd', '_', 'a', 't'] ++
      '"' :: ':' :: (('"' :: (updated ++ ['"'])) ++ ['}'])))))
      = some ([(['c', 'r', 'e', 'a', 't', 'e', 'd', '_', 'a', 't'], .str created created),
          (['u', 'p', 'd', 'a', 't', 'e', 'd', '_', 'a', 't'], .str updated updated)], []) := by
    intro f
    rw [parseMembers_cons (f + 1) _ _ _ (.str created created) p5 (by
      have := parseValue_plain (f + 1) created (',' :: '"' ::
        (['u', 'p', 'd', 'a', 't', 'e', 'd', '_', 'a', 't'] ++
          '"' :: ':' :: (('"' :: (updated ++ ['"'])) ++ ['}']))) hcp
      simpa using this), m6 f]
  have m4 : ∀ f, parseMembers (f + 4) ('"' :: (['a', 'g', 'e'] ++ '"' :: ':' :: (encodeInt u.Age ++ ',' ::
      '"' :: (['c', 'r', 'e', 'a', 't', 'e', 'd', '_', 'a', 't'] ++ '"' :: ':' ::
        (('"' :: (created ++ ['"'])) ++ ',' ::
      '"' :: (['u', 'p', 'd', 'a', 't', 'e', 'd', '_', 'a', 't'] ++
      '"' :: ':' :: (('"' :: (updated ++ ['"'])) ++ ['}'])))))))
      = some ([(['a', 'g', 'e'], .num (decide (u.Age < 0)) (natDigits u.Age.natAbs) true),
          (['c', 'r', 'e', 'a', 't', 'e', 'd', '_', 'a', 't'], .str created created),
          (['u', 'p', 'd', 'a', 't', 'e', 'd', '_', 'a', 't'], .str updated updated)], []) := by
    intro f
    rw [parseMembers_cons (f + 2) _ _ _ _ p4 (parseValue_encodeInt (f + 2) u.Age _), m5 f]
  have m3 : ∀ f, parseMembers (f + 5) ('"' :: (['e', 'm', 'a', 'i', 'l'] ++ '"' :: ':' ::
      (encodeString u.Email ++ ',' ::
      '"' :: (['a', 'g', 'e'] ++ '"' :: ':' :: (encodeInt u.Age ++ ',' ::
      '"' :: (['c', 'r', 'e', 'a', 't', 'e', 'd', '_', 'a', 't'] ++ '"' :: ':' ::
        (('"' :: (created ++ ['"'])) ++ ',' ::
      '"' :: (['u', 'p', 'd', 'a', 't', 'e', 'd', '_', 'a', 't'] ++
      '"' :: ':' :: (('"' :: (updated ++ ['"'])) ++ ['}'])))))))))
      = some ([(['e', 'm', 'a', 'i', 'l'], .str (escapeAll u.Email) (u.Email.map coerced)),
          (['a', 'g', 'e'], .num (decide (u.Age < 0)) (natDigits u.Age.natAbs) true),
          (['c', 'r', 'e', 'a', 't', 'e', 'd', '_', 'a', 't'], .str created created),
          (['u', 'p', 'd', 'a', 't', 'e', 'd', '_', 'a', 't'], .str updated updated)], []) := by
    intro f
    rw [parseMembers_cons (f + 3) _ _ _ _ p3 (parseValue_encodeString (f + 3) u.Email _), m4 f]
  have m2 : ∀ f, parseMembers (f + 6) ('"' :: (['u', 's', 'e', 'r', 'n', 'a', 'm', 'e'] ++ '"' :: ':' ::
      (encodeString u.Username ++ ',' ::
      '"' :: (['e', 'm', 'a', 'i', 'l'] ++ '"' :: ':' :: (encodeString u.Email ++ ',' ::
      '"' :: (['a', 'g', 'e'] ++ '"' :: ':' :: (encodeInt u.Age ++ ',' ::
      '"' :: (['c', 'r', 'e', 'a', 't', 'e', 'd', '_', 'a', 't'] ++ '"' :: ':' ::
        (('"' :: (created ++ ['"'])) ++ ',' ::
      '"' :: (['u', 'p', 'd', 'a', 't', 'e', 'd', '_', 'a', 't'] ++
      '"' :: ':' :: (('"' :: (updated ++ ['"'])) ++ ['}'])))))))))))
      = some ([(['u', 's', 'e', 'r', 'n', 'a', 'm', 'e'],
            .str (escapeAll u.Username) (u.Username.map coerced)),
          (['e', 'm', 'a', 'i', 'l'], .str (escapeAll u.Email) (u.Email.map coerced)),
          (['a', 'g', 'e'], .num (decide (u.Age < 0)) (natDigits u.Age.natAbs) true),
          (['c', 'r', 'e', 'a', 't', 'e', 'd', '_', 'a', 't'], .str created created),
          (['u', 'p', 'd', 'a', 't', 'e', 'd', '_', 'a', 't'], .str updated updated)], []) := by
    intro f
    rw [parseMembers_cons (f + 4) _ _ _ _ p2 (parseValue_encodeString (f + 4) u.Username _), m3 f]
  have m1 : ∀ f, parseMembers (f + 7) ('"' :: (['i', 'd'] ++ '"' :: ':' :: (encodeInt u.ID ++ ',' ::
      '"' :: (['u', 's', 'e', 'r', 'n', 'a', 'm', 'e'] ++ '"' :: ':' ::
      (encodeString u.Username ++ ',' ::
      '"' :: (['e', 'm', 'a', 'i', 'l'] ++ '"' :: ':' :: (encodeString u.Email ++ ',' ::
      '"' :: (['a', 'g', 'e'] ++ '"' :: ':' :: (encodeInt u.Age ++ ',' ::
      '"' :: (['c', 'r', 'e', 'a', 't', 'e', 'd', '_', 'a', 't'] ++ '"' :: ':' ::
        (('"' :: (created ++ ['"'])) ++ ',' ::
      '"' :: (['u', 'p', 'd', 'a', 't', 'e', 'd', '_', 'a', 't'] ++
      '"' :: ':' :: (('"' :: (updated ++ ['"'])) ++ ['}'])))))))))))))
      = some ([(['i', 'd'], .num (decide (u.ID < 0)) (natDigits u.ID.natAbs) true),
          (['u', 's', 'e', 'r', 'n', 'a', 'm', 'e'],
            .str (escapeAll u.Username) (u.Username.map coerced)),
          (['e', 'm', 'a', 'i', 'l'], .str (escapeAll u.Email) (u.Email.map coerced)),
          (['a', 'g', 'e'], .num (decide (u.Age < 0)) (natDigits u.Age.natAbs) true),
          (['c', 'r', 'e', 'a', 't', 'e', 'd', '_', 'a', 't'], .str created created),
          (['u', 'p', 'd', 'a', 't', 'e', 'd', '_', 'a', 't'], .str updated updated)], []) := by
    intro f
    rw [parseMembers_cons (f + 5) _ _ _ _ p1 (parseValue_encodeInt (f + 5) u.ID _), m2 f]
  have hparse := parseJson_object _ _ m1 (by
    simp only [List.length_cons, List.length_append, List.length_nil]
    omega)
  unfold unmarshalUser
  rw [if_neg (by simp), hparse]
  simp only [setFields, setField_id, setField_username, setField_email, setField_age,
    setField_created_at, setField_updated_at, decodeInt_encodeInt u.ID hid,
    decodeInt_encodeInt u.Age hage, hct, hut, Except.map, zeroUser]

end Json

/-! ## The records under the user keys -/

theorem getUserKey_injective (a b : Int) (h : getUserKey a = getUserKey b) : a = b := by
  rw [getUserKey_eq, getUserKey_eq] at h
  have hd := congrArg String.data h
  simp only [String.data_append, List.append_cancel_left_eq] at hd
  exact Json.encodeInt_injective a b hd

/-- The absent-marker is not the JSON text of a user. -/
theorem goJSON_unmarshal_null : ∃ e, goJSON.unmarshal NullCacheValue = .error e :=
  ⟨_, rfl⟩

/-- What `json.Unmarshal` reads from a text that `json.Marshal` wrote has the id that was
written. -/
theorem goJSON_written_id (u : User) (hw : u.wellTyped) (data : String)
    (hm : goJSON.marshal u = .ok data) :
    ∃ v, goJSON.unmarshal data = .ok v ∧ v.ID = u.ID := by
  cases hmu : Json.marshalUser u with
  | error e => simp [goJSON, hmu, Except.map] at hm
  | ok cs =>
    simp only [goJSON, hmu, Except.map, Except.ok.injEq] at hm
    subst hm
    exact ⟨_, Json.unmarshal_marshal_written u hw cs hmu, rfl⟩

/-- The keyspace after `Setex`: every key is as before, or it is the key of the call and holds
the value of the call. -/
theorem rdsSetex_store_cases (w : World) (key value : String) (seconds : Int) (k : String) :
    (rdsSetex w key value seconds).2.store k = w.store k ∨
    (k = key ∧ ∃ e, (rdsSetex w key value seconds).2.store k = some e ∧ e.value = value) := by
  unfold rdsSetex World.nextRdsFault
  simp only [World.log_rdsFaults]
  have hput : ∀ w0 : World, w0.store = w.store →
      (w0.put key value seconds).store k = w.store k ∨
      (k = key ∧ ∃ e, (w0.put key value seconds).store k = some e ∧ e.value = value) := by
    intro w0 h0
    by_cases hk : k = key
    · exact Or.inr ⟨hk, ⟨value, w0.now + seconds.toNat⟩, by simp [World.put, hk], rfl⟩
    · exact Or.inl (by simp [World.put, hk, h0])
  rcases hf : w.rdsFaults with _ | ⟨f, rest⟩
  · by_cases hs : seconds ≤ 0
    · simp [hs]
    · simpa [hs] using hput _ rfl
  · cases f with
    | none =>
      by_cases hs : seconds ≤ 0
      · simp [hs, World.setRdsFaults]
      · simpa [hs] using hput _ rfl
    | some e => simp [World.setRdsFaults]

/-- The keyspace after `Del`: every key is as before, or it is gone. -/
theorem rdsDel_store_cases (w : World) (key : String) (k : String) :
    (rdsDel w key).2.store k = w.store k ∨ (rdsDel w key).2.store k = none := by
  unfold rdsDel World.nextRdsFault
  simp only [World.log_rdsFaults]
  rcases hf : w.rdsFaults with _ | ⟨f, rest⟩
  · by_cases hk : k = key <;> simp [World.del, hk]
  · cases f with
    | none => by_cases hk : k = key <;> simp [World.del, hk, World.setRdsFaults]
    | some e => simp [World.setRdsFaults]

/-- A step that leaves every user key as it was, empties it, or puts there the absent-marker or
a text that decodes to a user of that key, keeps the records under their keys. -/
theorem KeyRecordInv_step (w w' : World) (h : KeyRecordInv w)
    (hstep : ∀ k, w'.store (getUserKey k) = w.store (getUserKey k) ∨
      w'.store (getUserKey k) = none ∨
      ∃ e, w'.store (getUserKey k) = some e ∧
        (e.value = NullCacheValue ∨ ∃ u, goJSON.unmarshal e.value = .ok u ∧ u.ID = k)) :
    KeyRecordInv w' := by
  intro k entry hentry hne
  rcases hstep k with hsame | hnone | ⟨e, he, hval⟩
  · rw [hsame] at hentry
    exact h k entry hentry hne
  · rw [hnone] at hentry
    cases hentry
  · rw [he] at hentry
    simp only [Option.some.injEq] at hentry
    subst hentry
    rcases hval with hnull | hu
    · exact absurd hnull hne
    · exact hu

/-- The body of `SetUser` keeps the records under their keys. -/
theorem setUserBody_inv (w : World) (user : Option User) (expireSeconds : Int)
    (h : KeyRecordInv w) (hw : ∀ u, user = some u → u.wellTyped) :
    KeyRecordInv (setUserBody goJSON w user expireSeconds).2 := by
  apply KeyRecordInv_step w _ h
  intro k
  unfold setUserBody
  cases user with
  | none => exact Or.inl rfl
  | some u =>
    cases hm : goJSON.marshal u with
    | error e => exact Or.inl (by simp [hm])
    | ok data =>
      simp only [hm]
      have hc := rdsSetex_store_cases w (getUserKey u.ID) data
        (if expireSeconds ≤ 0 then DefaultExpireSeconds else expireSeconds) (getUserKey k)
      rcases hs : rdsSetex w (getUserKey u.ID) data
        (if expireSeconds ≤ 0 then DefaultExpireSeconds else expireSeconds) with ⟨r, w1⟩
      rw [hs] at hc
      simp only at hc
      have hgoal : w1.store (getUserKey k) = w.store (getUserKey k) ∨
          w1.store (getUserKey k) = none ∨
          ∃ e, w1.store (getUserKey k) = some e ∧
            (e.value = NullCacheValue ∨ ∃ v, goJSON.unmarshal e.value = .ok v ∧ v.ID = k) := by
        rcases hc with hsame | ⟨hk, e, he, hval⟩
        · exact Or.inl hsame
        · have hid : k = u.ID := getUserKey_injective k u.ID hk
          obtain ⟨v, hv, hvid⟩ := goJSON_written_id u (hw u rfl) data hm
          exact Or.inr (Or.inr ⟨e, he, Or.inr ⟨v, by rw [hval]; exact hv, by rw [hvid, hid]⟩⟩)
      cases r <;> exact hgoal

/-- The method `SetUserWithRandomExpire` keeps the records under their keys. -/
theorem SetUserWithRandomExpire_inv (w : World) (user : Option User) (baseExpireSeconds : Int)
    (res : Option GoError × World) (h : KeyRecordInv w)
    (hw : ∀ u, user = some u → u.wellTyped)
    (hres : userCacheWithAvalanche.SetUserWithRandomExpire goJSON w user baseExpireSeconds
      = some res) :
    KeyRecordInv res.2 := by
  apply KeyRecordInv_step w _ h
  intro k
  unfold userCacheWithAvalanche.SetUserWithRandomExpire at hres
  cases user with
  | none =>
    simp only [Option.some.injEq] at hres
    subst hres
    exact Or.inl rfl
  | some u =>
    simp only [] at hres
    cases hm : goJSON.marshal u with
    | error e =>
      simp only [hm, Option.some.injEq] at hres
      subst hres
      exact Or.inl rfl
    | ok data =>
      simp only [hm] at hres
      split at hres
      · cases hres
      · next randomExpire hr =>
        have hc := rdsSetex_store_cases
          (w.log (.cacheSetUserWithRandomExpire (Option.map (·.ID) (some u))
            baseExpireSeconds)).nextRand.2 (getUserKey u.ID) data
          (wrapInt ((if baseExpireSeconds ≤ 0 then DefaultExpireSeconds
            else baseExpireSeconds) + randomExpire)) (getUserKey k)
        have hrand : (w.log (.cacheSetUserWithRandomExpire (Option.map (·.ID) (some u))
            baseExpireSeconds)).nextRand.2.store = w.store := by
          unfold World.nextRand
          split <;> rfl
        rw [hrand] at hc
        have hgoal : ∀ w1 : World, (w1.store (getUserKey k) = w.store (getUserKey k) ∨
            (getUserKey k = getUserKey u.ID ∧
              ∃ e, w1.store (getUserKey k) = some e ∧ e.value = data)) →
            w1.store (getUserKey k) = w.store (getUserKey k) ∨
            w1.store (getUserKey k) = none ∨
            ∃ e, w1.store (getUserKey k) = some e ∧
              (e.value = NullCacheValue ∨
                ∃ v, goJSON.unmarshal e.value = .ok v ∧ v.ID = k) := by
          intro w1 hc1
          rcases hc1 with hsame | ⟨hk, e, he, hval⟩
          · exact Or.inl hsame
          · have hid : k = u.ID := getUserKey_injective k u.ID hk
            obtain ⟨v, hv, hvid⟩ := goJSON_written_id u (hw u rfl) data hm
            exact Or.inr (Or.inr ⟨e, he, Or.inr ⟨v, by rw [hval]; exact hv, by rw [hvid, hid]⟩⟩)
        split at hres
        · next err w1 hs =>
          simp only [Option.some.injEq] at hres
          subst hres
          rw [hs] at hc
          exact hgoal w1 hc
        · next w1 hs =>
          simp only [Option.some.injEq] at hres
          subst hres
          rw [hs] at hc
          exact hgoal w1 hc

/-- The method `SetNullUser` keeps the records under their keys. -/
theorem SetNullUser_inv (w : World) (id : Int) (h : KeyRecordInv w) :
    KeyRecordInv (userCacheWithPenetration.SetNullUser w id).2 := by
  apply KeyRecordInv_step w _ h
  intro k
  unfold userCacheWithPenetration.SetNullUser
  simp only []
  have hc := rdsSetex_store_cases (w.log (.cacheSetNullUser id)) (getUserKey id) NullCacheValue
    NullCacheExpireSeconds (getUserKey k)
  rcases hs : rdsSetex (w.log (.cacheSetNullUser id)) (getUserKey id) NullCacheValue
    NullCacheExpireSeconds with ⟨r, w1⟩
  rw [hs] at hc
  simp only [World.log_store] at hc
  have hgoal : w1.store (getUserKey k) = w.store (getUserKey k) ∨
      w1.store (getUserKey k) = none ∨
      ∃ e, w1.store (getUserKey k) = some e ∧
        (e.value = NullCacheValue ∨ ∃ v, goJSON.unmarshal e.value = .ok v ∧ v.ID = k) := by
    rcases hc with hsame | ⟨-, e, he, hval⟩
    · exact Or.inl hsame
    · exact Or.inr (Or.inr ⟨e, he, Or.inl hval⟩)
  cases r <;> exact hgoal

/-- The body of `DeleteUser` keeps the records under their keys. -/
theorem deleteUserBody_inv (w : World) (id : Int) (h : KeyRecordInv w) :
    KeyRecordInv (deleteUserBody w id).2 := by
  apply KeyRecordInv_step w _ h
  intro k
  unfold deleteUserBody
  rcases rdsDel_store_cases w (getUserKey id) (getUserKey k) with hc | hc
  · exact Or.inl hc
  · exact Or.inr (Or.inl hc)

/-- The records are under their keys in every world whose user keys were written by the cache
operations only. -/
theorem ServiceWritten_inv (w : World) (h : ServiceWritten w) : KeyRecordInv w := by
  induction h with
  | fresh w hempty =>
    intro k entry hentry
    rw [hempty k] at hentry
    cases hentry
  | other w w' _ hsame ih => exact KeyRecordInv_step w w' ih (fun k => Or.inl (hsame k))
  | setUser w user secs _ hw ih =>
    exact setUserBody_inv _ user secs (KeyRecordInv_step w _ ih (fun _ => Or.inl rfl)) hw
  | setUserWithFixedExpire w user secs _ hw ih =>
    exact setUserBody_inv _ user secs (KeyRecordInv_step w _ ih (fun _ => Or.inl rfl)) hw
  | setUserWithRandomExpire w user base res _ hw hres ih =>
    exact SetUserWithRandomExpire_inv w user base res ih hw hres
  | penetrationSetUser w user secs _ hw ih =>
    exact setUserBody_inv _ user secs (KeyRecordInv_step w _ ih (fun _ => Or.inl rfl)) hw
  | bloomSetUser w user secs _ hw ih =>
    exact setUserBody_inv _ user secs (KeyRecordInv_step w _ ih (fun _ => Or.inl rfl)) hw
  | setNullUser w id _ ih => exact SetNullUser_inv w id ih
  | deleteUser w id _ ih =>
    exact deleteUserBody_inv _ id (KeyRecordInv_step w _ ih (fun _ => Or.inl rfl))
  | avalancheDeleteUser w id _ ih =>
    exact deleteUserBody_inv _ id (KeyRecordInv_step w _ ih (fun _ => Or.inl rfl))
  | penetrationDeleteUser w id _ ih =>
    exact deleteUserBody_inv _ id (KeyRecordInv_step w _ ih (fun _ => Or.inl rfl))
  | bloomDeleteUser w id _ ih =>
    exact deleteUserBody_inv _ id (KeyRecordInv_step w _ ih (fun _ => Or.inl rfl))

/-- The value that `Get` returns without an error is the empty string or the value of the entry
at the key. -/
theorem rdsGet_value (w : World) (key val : String) (w1 : World)
    (h : rdsGet w key = ((val, none), w1)) :
    val = "" ∨ ∃ e, w.store key = some e ∧ e.value = val := by
  have ho := rdsGet_outcome w key
  rw [h] at ho
  rcases ho with ⟨err, herr⟩ | hval
  · simp at herr
  · simp only [Prod.mk.injEq, and_true] at hval
    cases hl : w.live key with
    | none =>
      rw [hl] at hval
      exact Or.inl hval
    | some e =>
      rw [hl] at hval
      refine Or.inr ⟨e, ?_, hval.symm⟩
      unfold World.live at hl
      cases hst : w.store key with
      | none => simp [hst] at hl
      | some e2 =>
        rw [hst] at hl
        simp only at hl
        split at hl
        · simp only [Option.some.injEq] at hl
          rw [hl]
        · cases hl

/-- A user that the shared body of `GetUser` returns has the id that was asked for, when the
records are under their keys. -/
theorem getUserBody_hit_id (w : World) (id : Int) (u : User) (h : KeyRecordInv w)
    (hhit : (getUserBody goJSON w id).1 = (some u, none)) : u.ID = id := by
  unfold getUserBody at hhit
  simp only [] at hhit
  rcases hg : rdsGet w (getUserKey id) with ⟨⟨val, err⟩, w1⟩
  rw [hg] at hhit
  cases err with
  | some err => simp at hhit
  | none =>
    simp only at hhit
    cases hu : goJSON.unmarshal val with
    | error e => simp [hu] at hhit
    | ok v =>
      simp only [hu, Prod.mk.injEq, Option.some.injEq, and_true] at hhit
      subst hhit
      rcases rdsGet_value w (getUserKey id) val w1 hg with hempty | ⟨e, he, hval⟩
      · subst hempty
        obtain ⟨e, he, -⟩ := goJSON.unmarshal_empty
        rw [he] at hu
        cases hu
      · have hne : e.value ≠ NullCacheValue := by
          intro hnull
          obtain ⟨e2, he2⟩ := goJSON_unmarshal_null
          rw [hval] at hnull
          rw [hnull, he2] at hu
          cases hu
        obtain ⟨v2, hv2, hid⟩ := h id e he hne
        rw [hval, hu] at hv2
        simp only [Except.ok.injEq] at hv2
        rw [hv2]
        exact hid

/-- A user that `userCacheWithPenetration.GetUser` returns has the id that was asked for, when
the records are under their keys. -/
theorem penetration_GetUser_hit_id (w : World) (id : Int) (u : User) (h : KeyRecordInv w)
    (hhit : (userCacheWithPenetration.GetUser goJSON w id).1 = (some u, none)) : u.ID = id := by
  unfold userCacheWithPenetration.GetUser at hhit
  simp only [] at hhit
  rcases hg : rdsGet (w.log (.cacheGetUser id)) (getUserKey id) with ⟨⟨val, err⟩, w1⟩
  rw [hg] at hhit
  cases err with
  | some err => simp at hhit
  | none =>
    simp only at hhit
    by_cases hnull : val = NullCacheValue
    · simp [hnull] at hhit
    · simp only [hnull, if_false] at hhit
      cases hu : goJSON.unmarshal val with
      | error e => simp [hu] at hhit
      | ok v =>
        simp only [hu, Prod.mk.injEq, Option.some.injEq, and_true] at hhit
        subst hhit
        rcases rdsGet_value _ (getUserKey id) val w1 hg with hempty | ⟨e, he, hval⟩
        · subst hempty
          obtain ⟨e, he, -⟩ := goJSON.unmarshal_empty
          rw [he] at hu
          cases hu
        · obtain ⟨v2, hv2, hid⟩ := h id e he (by rw [hval]; exact hnull)
          rw [hval, hu] at hv2
          simp only [Except.ok.injEq] at hv2
          rw [hv2]
          exact hid

/-- The records stay under their keys when a call is recorded. -/
theorem KeyRecordInv_log (w : World) (e : Event) (h : KeyRecordInv w) :
    KeyRecordInv (w.log e) :=
  KeyRecordInv_step w _ h (fun _ => Or.inl rfl)

/-- C28. When the entries under the keys `user:<k>` were written by the cache operations only
(`SetUser` and its variants, `SetNullUser`, `DeleteUser`, with users of the Go type
`model.User`), every entry at `user:<k>` that is not the absent-marker decodes to a user whose
id is `k`; and in every service variant, when the cache lookup of `GetUserByID(id)` returns a
user, `GetUserByID(id)` returns that user and its id is `id`. -/
theorem key_record_consistency (w : World) (h : ServiceWritten w) :
    (∀ (k : Int) (entry : Entry), w.store (getUserKey k) = some entry →
      entry.value ≠ NullCacheValue →
      ∃ u, goJSON.unmarshal entry.value = .ok u ∧ u.ID = k) ∧
    (∀ id u, (userCache.GetUser goJSON w id).1 = (some u, none) →
      u.ID = id ∧ (userService.GetUserByID goJSON w id).1 = (some u, none) ∧
      (userServiceWithStrategy.GetUserByID goJSON w id).1 = (some u, none)) ∧
    (∀ id u mode base, (userCacheWithAvalanche.GetUser goJSON w id).1 = (some u, none) →
      u.ID = id ∧
      (userServiceWithAvalanche.GetUserByID goJSON mode base w id).map (·.1)
        = some (some u, none)) ∧
    (∀ id u, (userCacheWithPenetration.GetUser goJSON w id).1 = (some u, none) →
      u.ID = id ∧ (userServiceWithPenetration.GetUserByID goJSON w id).1 = (some u, none)) ∧
    (∀ id u, (userCacheWithBloom.ExistsInBloomFilter w id).1 ≠ (false, none) →
      (userCacheWithBloom.GetUser goJSON
        (userCacheWithBloom.ExistsInBloomFilter w id).2 id).1 = (some u, none) →
      u.ID = id ∧
      (userServiceWithBloom.GetUserByID goJSON w id).map (·.1) = some (some u, none)) := by
  have hinv := ServiceWritten_inv w h
  refine ⟨hinv, ?_, ?_, ?_, ?_⟩
  · intro id u hhit
    have hid : u.ID = id :=
      getUserBody_hit_id _ id u (KeyRecordInv_log w (.cacheGetUser id) hinv) hhit
    refine ⟨hid, ?_, ?_⟩
    · unfold userService.GetUserByID
      rcases hg : userCache.GetUser goJSON w id with ⟨⟨gu, ge⟩, w1⟩
      rw [hg] at hhit
      simp only [Prod.mk.injEq] at hhit
      obtain ⟨h1, h2⟩ := hhit
      subst h1 h2
      rfl
    · unfold userServiceWithStrategy.GetUserByID
      rcases hg : userCache.GetUser goJSON w id with ⟨⟨gu, ge⟩, w1⟩
      rw [hg] at hhit
      simp only [Prod.mk.injEq] at hhit
      obtain ⟨h1, h2⟩ := hhit
      subst h1 h2
      rfl
  · intro id u mode base hhit
    have hid : u.ID = id :=
      getUserBody_hit_id _ id u (KeyRecordInv_log w (.cacheGetUser id) hinv) hhit
    refine ⟨hid, ?_⟩
    unfold userServiceWithAvalanche.GetUserByID
    rcases hg : userCacheWithAvalanche.GetUser goJSON w id with ⟨⟨gu, ge⟩, w1⟩
    rw [hg] at hhit
    simp only [Prod.mk.injEq] at hhit
    obtain ⟨h1, h2⟩ := hhit
    subst h1 h2
    rfl
  · intro id u hhit
    have hid : u.ID = id := penetration_GetUser_hit_id w id u hinv hhit
    refine ⟨hid, ?_⟩
    unfold userServiceWithPenetration.GetUserByID
    rcases hg : userCacheWithPenetration.GetUser goJSON w id with ⟨⟨gu, ge⟩, w1⟩
    rw [hg] at hhit
    simp only [Prod.mk.injEq] at hhit
    obtain ⟨h1, h2⟩ := hhit
    subst h1 h2
    rfl
  · intro id u hpass hhit
    have hx : KeyRecordInv (userCacheWithBloom.ExistsInBloomFilter w id).2 :=
      KeyRecordInv_step w _ hinv (fun k => Or.inl (by
        unfold userCacheWithBloom.ExistsInBloomFilter
        rw [(bloomExists_store _ _).1]
        rfl))
    have hid : u.ID = id :=
      getUserBody_hit_id _ id u (KeyRecordInv_log _ (.cacheGetUser id) hx) hhit
    refine ⟨hid, ?_⟩
    unfold userServiceWithBloom.GetUserByID
    rcases hxe : userCacheWithBloom.ExistsInBloomFilter w id with ⟨⟨b, xe⟩, w0⟩
    rw [hxe] at hpass hhit
    simp only at hpass hhit
    rcases hg : userCacheWithBloom.GetUser goJSON w0 id with ⟨⟨gu, ge⟩, w1⟩
    rw [hg] at hhit
    simp only [Prod.mk.injEq] at hhit
    obtain ⟨h1, h2⟩ := hhit
    subst h1 h2
    cases b with
    | true => simp [hg]
    | false =>
      cases xe with
      | none => exact absurd rfl hpass
      | some xe => simp [hg]

set_option maxRecDepth 1000000 in
/-- C28 on the world of `alice` after `SetUser(alice, DefaultExpireSeconds)`: the entry at
`user:1` decodes to a user of id 1, and `GetUserByID(1)` returns `alice`. -/
theorem key_record_consistency_witness :
    ServiceWritten cachedAliceWorld ∧
    (cachedAliceWorld.store (getUserKey 1)).isSome = true ∧
    alice.ID = 1 ∧
    (userService.GetUserByID goJSON cachedAliceWorld 1).1 = (some alice, none) :=
  have hw : ServiceWritten cachedAliceWorld :=
    ServiceWritten.setUser aliceWorld (some alice) DefaultExpireSeconds
      (ServiceWritten.fresh aliceWorld (fun _ => rfl))
      (fun u hu => by
        simp only [Option.some.injEq] at hu
        subst hu
        decide)
  have h := (key_record_consistency cachedAliceWorld hw).2.1 1 alice (by decide)
  ⟨hw, by decide, h.1, h.2.1⟩

/-! ## The retry decorator -/

namespace Experiments

theorem stateBefore_succ {σ : Type} (fn : σ → Option GoError × σ) (k : Nat) (s : σ) :
    stateBefore fn (k + 1) s = stateBefore fn k (fn s).2 := by
  unfold stateBefore
  rw [Function.iterate_succ_apply]

/-- The loop of `retryDecorator` from index `i` on, with the iterations that remain as fuel:
it returns; either some call returns nil, the first such call is the last one made and the
result is nil, or every call fails, all are made and the result wraps the last error. -/
theorem retryLoop_spec {σ : Type} (maxRetries delay : Int) (fn : σ → Option GoError × σ)
    (fuel : Nat) : ∀ (i : Int) (lastErr : Option GoError) (run : RetryRun σ),
    (fuel : Int) = maxRetries - i →
    ∃ out, retryLoop maxRetries delay fn fuel i lastErr run = some out ∧
      ((∃ k, k < fuel ∧ (fn (stateBefore fn k run.state)).1 = none ∧
          (∀ j, j < k → (fn (stateBefore fn j run.state)).1 ≠ none) ∧
          out.result = none ∧ out.calls = run.calls + (k + 1) ∧
          out.state = stateBefore fn (k + 1) run.state) ∨
       ((∀ k, k < fuel → (fn (stateBefore fn k run.state)).1 ≠ none) ∧
          out.calls = run.calls + fuel ∧ out.state = stateBefore fn fuel run.state ∧
          out.result = some (retryExhausted maxRetries
            (if fuel = 0 then lastErr else (fn (stateBefore fn (fuel - 1) run.state)).1)))) := by
  induction fuel with
  | zero =>
    intro i lastErr run hf
    have hi : ¬ i < maxRetries := by omega
    refine ⟨{ run with result := some (retryExhausted maxRetries lastErr) },
      by simp [retryLoop, hi], Or.inr ⟨?_, rfl, rfl, rfl⟩⟩
    intro k hk
    omega
  | succ fuel ih =>
    intro i lastErr run hf
    have hi : i < maxRetries := by omega
    rcases hfn : fn run.state with ⟨r, s⟩
    cases r with
    | none =>
      refine ⟨{ run with result := none, state := s, calls := run.calls + 1 },
        by simp [retryLoop, hi, hfn], Or.inl ⟨0, by omega, ?_, ?_, rfl, rfl, ?_⟩⟩
      · simp [stateBefore, hfn]
      · intro j hj
        omega
      · simp [stateBefore, hfn]
    | some err =>
      obtain ⟨out, hout, hcases⟩ := ih (i + 1) (some err)
        { run with state := s, calls := run.calls + 1,
                   sleeps := if i < maxRetries - 1 then delay :: run.sleeps else run.sleeps }
        (by push_cast at hf ⊢; omega)
      have hs : ∀ k, stateBefore fn (k + 1) run.state = stateBefore fn k s := by
        intro k
        rw [stateBefore_succ, hfn]
      refine ⟨out, by simp [retryLoop, hi, hfn, hout], ?_⟩
      rcases hcases with ⟨k, hk, hnil, hbefore, hres, hcalls, hstate⟩ | ⟨hall, hcalls, hstate, hres⟩
      · refine Or.inl ⟨k + 1, by omega, ?_, ?_, hres, ?_, ?_⟩
        · rw [hs]
          exact hnil
        · intro j hj
          cases j with
          | zero => simp [stateBefore, hfn]
          | succ j =>
            rw [hs]
            exact hbefore j (by omega)
        · simp only at hcalls
          omega
        · rw [hs]
          exact hstate
      · refine Or.inr ⟨?_, ?_, ?_, ?_⟩
        · intro k hk
          cases k with
          | zero => simp [stateBefore, hfn]
          | succ k =>
            rw [hs]
            exact hall k (by omega)
        · simp only at hcalls
          omega
        · rw [hs]
          exact hstate
        · rw [hres]
          congr 1
          cases fuel with
          | zero => simp [stateBefore, hfn]
          | succ n =>
            simp only [Nat.add_one_ne_zero, if_false, Nat.add_sub_cancel]
            rw [hs]

end Experiments

/-- C29. The function returned by `retryDecorator(maxRetries, delay, fn)` returns. For
`maxRetries ≥ 1` it calls `fn` at most `maxRetries` times; when some call among the first
`maxRetries` returns nil, the first such call is the last call made and the result is nil; when
all `maxRetries` calls fail, the result is the non-nil error "重试 N 次后仍然失败: " wrapping
the error of the last call. For `maxRetries ≤ 0` it makes no call and returns a non-nil
error. -/
theorem retry_decorator_contract {σ : Type} (maxRetries delay : Int)
    (fn : σ → Option GoError × σ) (s : σ) :
    (1 ≤ maxRetries →
      ∃ out, Experiments.retryDecorator maxRetries delay fn s = some out ∧
        (out.calls : Int) ≤ maxRetries ∧
        (∀ k : Nat, (k : Int) < maxRetries →
          (fn (Experiments.stateBefore fn k s)).1 = none →
          (∀ j, j < k → (fn (Experiments.stateBefore fn j s)).1 ≠ none) →
          out.result = none ∧ out.calls = k + 1 ∧
          out.state = Experiments.stateBefore fn (k + 1) s) ∧
        ((∀ k : Nat, (k : Int) < maxRetries →
            (fn (Experiments.stateBefore fn k s)).1 ≠ none) →
          (out.calls : Int) = maxRetries ∧
          ∃ lastErr, (fn (Experiments.stateBefore fn (maxRetries.toNat - 1) s)).1 = some lastErr ∧
            out.result = some (.wrap ("重试 " ++ toString maxRetries ++ " 次后仍然失败: ") lastErr) ∧
            (∀ result, out.result = some result → errorsIs result lastErr = true))) ∧
    (maxRetries ≤ 0 →
      Experiments.retryDecorator maxRetries delay fn s
        = some { result := some (.leaf ("重试 " ++ toString maxRetries
                    ++ " 次后仍然失败: %!w(<nil>)")),
                 state := s, calls := 0, sleeps := [] }) := by
  constructor
  · intro h1
    obtain ⟨out, hout, hcases⟩ := Experiments.retryLoop_spec maxRetries delay fn maxRetries.toNat 0
      none { result := none, state := s, calls := 0, sleeps := [] }
      (by rw [Int.toNat_of_nonneg (by omega)]; omega)
    have hn : (maxRetries.toNat : Int) = maxRetries := Int.toNat_of_nonneg (by omega)
    refine ⟨out, hout, ?_, ?_, ?_⟩
    · rcases hcases with ⟨k, hk, -, -, -, hcalls, -⟩ | ⟨-, hcalls, -, -⟩
      · simp only at hcalls
        omega
      · simp only at hcalls
        omega
    · intro k hk hnil hbefore
      rcases hcases with ⟨k2, hk2, hnil2, hbefore2, hres, hcalls, hstate⟩ | ⟨hall, -, -, -⟩
      · simp only at hnil2 hbefore2 hcalls hstate
        have hkk : k = k2 := by
          rcases Nat.lt_trichotomy k k2 with hlt | heq | hgt
          · exact absurd hnil (hbefore2 k hlt)
          · exact heq
          · exact absurd hnil2 (hbefore k2 hgt)
        subst hkk
        exact ⟨hres, by omega, hstate⟩
      · exact absurd hnil (hall k (by omega))
    · intro hall
      rcases hcases with ⟨k2, hk2, hnil2, -, -, -, -⟩ | ⟨-, hcalls, -, hres⟩
      · exact absurd hnil2 (hall k2 (by omega))
      · simp only at hcalls hres
        have hne : ¬ maxRetries.toNat = 0 := by omega
        simp only [hne, if_false] at hres
        have hlast := hall (maxRetries.toNat - 1) (by omega)
        rcases hl : (fn (Experiments.stateBefore fn (maxRetries.toNat - 1) s)).1 with _ | lastErr
        · exact absurd hl hlast
        · rw [hl] at hres
          refine ⟨by omega, lastErr, rfl, hres, ?_⟩
          intro result hr
          rw [hres] at hr
          simp only [Option.some.injEq, Experiments.retryExhausted] at hr
          subst hr
          rw [errorsIs]
          cases lastErr <;> simp [errorsIs]
  · intro h0
    have hn : maxRetries.toNat = 0 := Int.toNat_eq_zero.mpr h0
    have hi : ¬ (0 : Int) < maxRetries := by omega
    unfold Experiments.retryDecorator
    rw [hn]
    simp [Experiments.retryLoop, hi, Experiments.retryExhausted]

set_option maxRecDepth 1000000 in
/-- The retry decorator on an operation that fails twice: three calls and nil with
`maxRetries = 3`, two calls and the wrapped error with `maxRetries = 2`, no call and an error
that wraps nothing with `maxRetries = 0`. -/
theorem retry_decorator_examples :
    (Experiments.retryDecorator 3 1000 Experiments.failsTwice 0).map
        (fun out => (out.result, out.state, out.calls, out.sleeps))
      = some (none, 3, 3, [1000, 1000]) ∧
    (Experiments.retryDecorator 2 1000 Experiments.failsTwice 0).map
        (fun out => (out.result, out.state, out.calls, out.sleeps))
      = some (some (.wrap "重试 2 次后仍然失败: " (.leaf "操作失败")), 2, 2, [1000]) ∧
    (Experiments.retryDecorator 0 1000 Experiments.failsTwice 0).map
        (fun out => (out.result, out.state, out.calls, out.sleeps))
      = some (some (.leaf "重试 0 次后仍然失败: %!w(<nil>)"), 0, 0, []) :=
  ⟨by rfl, by rfl, by rfl⟩

/-! ## The distributed-lock demo -/

namespace LockDemo

theorem clampInt_isInt (v : Int) : IsInt (clampInt v).1 := by
  unfold clampInt
  by_cases h1 : maxInt < v
  · simp only [h1, if_true]
    unfold IsInt maxInt
    omega
  · by_cases h2 : v < minInt
    · simp only [h1, h2, if_true, if_false]
      unfold IsInt maxInt minInt
      omega
    · simp only [h1, h2, if_false]
      unfold IsInt
      unfold minInt at h2
      omega

theorem atoiDigits_isInt (neg : Bool) (ds : List Char) : IsInt (atoiDigits neg ds).1 := by
  unfold atoiDigits
  by_cases h : (ds.isEmpty || !(ds.all Char.isDigit)) = true
  · simp only [h, if_true]
    unfold IsInt maxInt
    omega
  · simp only [h, if_false]
    exact clampInt_isInt _

/-- The value that `strconv.Atoi` returns is an `int`. -/
theorem Atoi_isInt (s : String) : IsInt (Atoi s).1 := by
  unfold Atoi
  split <;> exact atoiDigits_isInt _ _

theorem SetsAllowed_cons (e : LockEvent) (earlier : List LockEvent)
    (he : ∀ key value, e ≠ .rdsSet key value) :
    SetsAllowed (e :: earlier) ↔ SetsAllowed earlier := by
  cases e with
  | rdsSet key value => exact absurd rfl (he key value)
  | _ => simp [SetsAllowed]

/-- Every `Set` of an allowed trace is allowed after the calls before it. -/
theorem SetsAllowed_split (trace : List LockEvent) (h : SetsAllowed trace) :
    ∀ later key value earlier, trace = later ++ .rdsSet key value :: earlier →
      SetAllowed earlier key value := by
  induction trace with
  | nil =>
    intro later key value earlier heq
    simp at heq
  | cons e rest ih =>
    intro later key value earlier heq
    cases later with
    | nil =>
      simp only [List.nil_append, List.cons.injEq] at heq
      obtain ⟨he, hrest⟩ := heq
      subst he hrest
      exact h.1
    | cons l later =>
      simp only [List.cons_append, List.cons.injEq] at heq
      obtain ⟨-, hrest⟩ := heq
      have hr : SetsAllowed rest := by
        cases e with
        | rdsSet k v => exact h.2
        | _ => exact h
      exact ih hr later key value earlier hrest

/-- The wait loop from index `i` on, with the iterations that remain as fuel: it returns; it
makes only `Sleep` and `Lock` calls, at most as many `Lock` calls as iterations remain, and it
lets `main` go on only when its last `Lock` call, there being one, was granted. -/
theorem waitForLock_spec (fuel : Nat) : ∀ (i : Int) (r : Run),
    (fuel : Int) = maxRetries - i → 0 < fuel →
    ∃ go out, waitForLock fuel i r = some (go, out) ∧
      ∃ calls, out.trace = calls ++ r.trace ∧
        (∀ e ∈ calls, (∃ n, e = .sleep n) ∨ ∃ k x ok err, e = .lock k x ok err) ∧
        1 ≤ lockCalls calls ∧ lockCalls calls ≤ fuel ∧
        (go = true → lastLock calls = some (true, none)) := by
  induction fuel with
  | zero =>
    intro i r hf hpos
    omega
  | succ fuel ih =>
    intro i r hf _
    have hi : i < maxRetries := by omega
    have hlock : ∀ ok err rest, (∀ e ∈ rest, (∃ n, e = LockEvent.sleep n) ∨
        ∃ k x ok err, e = LockEvent.lock k x ok err) →
        ∀ e ∈ rest ++ [LockEvent.lock lockKey 10 ok err, LockEvent.sleep 1],
          (∃ n, e = LockEvent.sleep n) ∨ ∃ k x ok err, e = LockEvent.lock k x ok err := by
      intro ok err rest hrest e he
      simp only [List.mem_append, List.mem_cons, List.mem_singleton, List.not_mem_nil,
        or_false] at he
      rcases he with he | he | he
      · exact hrest e he
      · exact Or.inr ⟨_, _, _, _, he⟩
      · exact Or.inl ⟨_, he⟩
    rcases hl : Lock (sleep r 1) lockKey 10 with ⟨⟨ok, err⟩, r1⟩
    have htr : r1.trace = [.lock lockKey 10 ok err, .sleep 1] ++ r.trace := by
      unfold Lock sleep at hl
      simp only [] at hl
      split at hl
      · simp only [Prod.mk.injEq] at hl
        obtain ⟨⟨h1, h2⟩, h3⟩ := hl
        subst h1 h2 h3
        rfl
      · simp only [Prod.mk.injEq] at hl
        obtain ⟨⟨h1, h2⟩, h3⟩ := hl
        subst h1 h2 h3
        rfl
    cases err with
    | some err =>
      refine ⟨false, r1, by simp [waitForLock, hi, hl], _, htr, hlock ok (some err) [] (by simp),
        by simp [lockCalls], by simp [lockCalls], by simp⟩
    | none =>
      cases ok with
      | true =>
        refine ⟨true, r1, by simp [waitForLock, hi, hl], _, htr, hlock true none [] (by simp),
          by simp [lockCalls], by simp [lockCalls], fun _ => rfl⟩
      | false =>
        by_cases hlast : i = maxRetries - 1
        · refine ⟨false, r1, by simp [waitForLock, hi, hl, hlast], _, htr,
            hlock false none [] (by simp), by simp [lockCalls], by simp [lockCalls], by simp⟩
        · have hfuel : 0 < fuel := by
            push_cast at hf
            omega
          obtain ⟨go, out, hout, calls, hcalls, honly, hone, hle, hgo⟩ := ih (i + 1) r1
            (by push_cast at hf ⊢; omega) hfuel
          have hcount : ∀ cs : List LockEvent,
              lockCalls (cs ++ [.lock lockKey 10 false none, .sleep 1]) = lockCalls cs + 1 := by
            intro cs
            induction cs with
            | nil => rfl
            | cons c cs ihc => cases c <;> simp [lockCalls, ihc]
          have hlastc : ∀ cs : List LockEvent, 1 ≤ lockCalls cs →
              lastLock (cs ++ [.lock lockKey 10 false none, .sleep 1]) = lastLock cs := by
            intro cs
            induction cs with
            | nil => intro h; simp [lockCalls] at h
            | cons c cs ihc =>
              intro h
              cases c <;> simp only [lockCalls, List.cons_append, lastLock] at h ⊢ <;>
                exact ihc h
          refine ⟨go, out, by simp [waitForLock, hi, hl, hlast, hout],
            calls ++ [.lock lockKey 10 false none, .sleep 1], ?_, hlock false none calls honly,
            ?_, ?_, ?_⟩
          · rw [hcalls, htr]
            simp
          · rw [hcount]
            omega
          · rw [hcount]
            omega
          · intro hg
            rw [hlastc calls hone]
            exact hgo hg

theorem lockCalls_append (calls rest : List LockEvent) :
    lockCalls (calls ++ rest) = lockCalls calls + lockCalls rest := by
  induction calls with
  | nil => simp [lockCalls]
  | cons c cs ih =>
    cases c <;> simp [lockCalls, ih]
    omega

theorem lastLock_append (calls rest : List LockEvent) (h : 1 ≤ lockCalls calls) :
    lastLock (calls ++ rest) = lastLock calls := by
  induction calls with
  | nil => simp [lockCalls] at h
  | cons c cs ih =>
    cases c <;> simp only [lockCalls, List.cons_append, lastLock] at h ⊢ <;> exact ih h

theorem SetsAllowed_append (calls rest : List LockEvent)
    (h : ∀ e ∈ calls, (∃ n, e = LockEvent.sleep n) ∨
      ∃ k x ok err, e = LockEvent.lock k x ok err)
    (hrest : SetsAllowed rest) : SetsAllowed (calls ++ rest) := by
  induction calls with
  | nil => exact hrest
  | cons c cs ih =>
    have hc := h c (List.mem_cons_self _ _)
    have hcs := ih (fun e he => h e (List.mem_cons_of_mem _ he))
    rw [List.cons_append, SetsAllowed_cons]
    · exact hcs
    · intro key value heq
      rcases hc with ⟨n, hn⟩ | ⟨k, x, ok, err, hl⟩
      · rw [hn] at heq
        cases heq
      · rw [hl] at heq
        cases heq

theorem lockDemo_rdsGet_trace (r : Run) (key : String) :
    (rdsGet r key).2.trace = .rdsGet key (rdsGet r key).1 :: r.trace := by
  unfold rdsGet
  split <;> rfl

theorem Lock_trace (r : Run) (key : String) (expire : Int) :
    (Lock r key expire).2.trace
      = .lock key expire (Lock r key expire).1.1 (Lock r key expire).1.2 :: r.trace := by
  unfold Lock
  split <;> rfl

/-- The part of `main` under the lock keeps a trace allowed. -/
theorem deductStock_allowed (r : Run) (hlock : lastLock r.trace = some (true, none))
    (hcalls : lockCalls r.trace ≤ 31) (h : SetsAllowed r.trace) :
    SetsAllowed (deductStock r).trace := by
  unfold deductStock
  have hg := lockDemo_rdsGet_trace r stockKey
  rcases hr : rdsGet r stockKey with ⟨currentStock, r1⟩
  rw [hr] at hg
  simp only at hg ⊢
  by_cases hlow : (Atoi currentStock).1 < purchaseQuantity
  · simp only [hlow, if_true, ReleaseLock, hg]
    exact h
  · simp only [hlow, if_false]
    have hg2 := lockDemo_rdsGet_trace (rdsSet (sleep r1 1) stockKey
      (Itoa (wrapInt ((Atoi currentStock).1 - purchaseQuantity)))) stockKey
    rcases hr2 : rdsGet (rdsSet (sleep r1 1) stockKey
      (Itoa (wrapInt ((Atoi currentStock).1 - purchaseQuantity)))) stockKey with ⟨final, r2⟩
    rw [hr2] at hg2
    simp only [ReleaseLock]
    simp only at hg2
    rw [hg2]
    simp only [rdsSet, sleep, hg]
    have hint := Atoi_isInt currentStock
    have hfit : wrapInt ((Atoi currentStock).1 - purchaseQuantity)
        = (Atoi currentStock).1 - purchaseQuantity := by
      apply wrapInt_of_fits
      unfold IsInt maxInt at hint ⊢
      unfold purchaseQuantity at hlow ⊢
      omega
    refine ⟨Or.inr ⟨hlock, hcalls, rfl, currentStock, rfl, by omega, by rw [hfit], by omega⟩, h⟩

end LockDemo

/-- C30. The distributed-lock demo returns, and every `Set` it makes is either the set-up
write of "100", made before any `Lock` call, or the deduction: a `Set` of `stockKey` that comes
after at most 1 + 30 `Lock` calls, the most recent of which returned `ok = true` with a nil
error, and after a `Get` whose reply, the re-read stock, is at least `purchaseQuantity`; the
value written is that stock minus `purchaseQuantity`, which is not negative. -/
theorem stock_written_under_lock (env : LockDemo.Env) :
    ∃ r, LockDemo.main env = some r ∧
      ∀ later key value earlier, r.trace = later ++ .rdsSet key value :: earlier →
        (LockDemo.lockCalls earlier = 0 ∧
          earlier = [.rdsExists LockDemo.stockKey false] ∧
          key = LockDemo.stockKey ∧ value = "100") ∨
        (LockDemo.lastLock earlier = some (true, none) ∧ LockDemo.lockCalls earlier ≤ 31 ∧
          key = LockDemo.stockKey ∧
          ∃ reply, LockDemo.lastGet earlier = some reply ∧
            LockDemo.purchaseQuantity ≤ (LockDemo.Atoi reply).1 ∧
            value = LockDemo.Itoa ((LockDemo.Atoi reply).1 - LockDemo.purchaseQuantity) ∧
            0 ≤ (LockDemo.Atoi reply).1 - LockDemo.purchaseQuantity) := by
  suffices h : ∃ r, LockDemo.main env = some r ∧ LockDemo.SetsAllowed r.trace by
    obtain ⟨r, hr, hall⟩ := h
    exact ⟨r, hr, LockDemo.SetsAllowed_split r.trace hall⟩
  unfold LockDemo.main
  simp only [LockDemo.rdsExists]
  have hinit : ∀ r : LockDemo.Run,
      r = (if (!env.stockExists) = true then
            LockDemo.rdsSet { env := env, trace := [.rdsExists LockDemo.stockKey env.stockExists] }
              LockDemo.stockKey "100"
          else { env := env, trace := [.rdsExists LockDemo.stockKey env.stockExists] }) →
      LockDemo.SetsAllowed r.trace ∧ LockDemo.lockCalls r.trace = 0 := by
    intro r hr
    cases hx : env.stockExists with
    | true =>
      rw [hx] at hr
      simp only [Bool.not_true, Bool.false_eq_true, if_false] at hr
      subst hr
      exact ⟨trivial, rfl⟩
    | false =>
      rw [hx] at hr
      simp only [Bool.not_false, if_true, LockDemo.rdsSet] at hr
      subst hr
      exact ⟨⟨Or.inl ⟨rfl, rfl, rfl, rfl⟩, trivial⟩, rfl⟩
  generalize hr0 : (if (!env.stockExists) = true then
            LockDemo.rdsSet { env := env, trace := [.rdsExists LockDemo.stockKey env.stockExists] }
              LockDemo.stockKey "100"
          else { env := env, trace := [.rdsExists LockDemo.stockKey env.stockExists] }) = r0
  obtain ⟨hall0, hcount0⟩ := hinit r0 hr0.symm
  have hg := LockDemo.lockDemo_rdsGet_trace r0 LockDemo.stockKey
  rcases hr1 : LockDemo.rdsGet r0 LockDemo.stockKey with ⟨currentStock, r1⟩
  rw [hr1] at hg
  simp only at hg ⊢
  have hl := LockDemo.Lock_trace r1 LockDemo.lockKey 10
  rcases hr2 : LockDemo.Lock r1 LockDemo.lockKey 10 with ⟨⟨ok, err⟩, r2⟩
  rw [hr2] at hl
  simp only at hl
  have hall2 : LockDemo.SetsAllowed r2.trace := by
    rw [hl, hg]
    exact hall0
  have hcount2 : LockDemo.lockCalls r2.trace = 1 := by
    rw [hl, hg]
    simp [LockDemo.lockCalls, hcount0]
  cases err with
  | some err => exact ⟨r2, by simp, hall2⟩
  | none =>
    cases ok with
    | true =>
      refine ⟨LockDemo.deductStock r2, by simp,
        LockDemo.deductStock_allowed r2 ?_ (by omega) hall2⟩
      rw [hl]
      rfl
    | false =>
      obtain ⟨go, out, hout, calls, hcalls, honly, hone, hle, hgo⟩ :=
        LockDemo.waitForLock_spec LockDemo.maxRetries.toNat 0 r2 (by decide) (by decide)
      have hallout : LockDemo.SetsAllowed out.trace := by
        rw [hcalls]
        exact LockDemo.SetsAllowed_append calls r2.trace honly hall2
      simp only [hout]
      cases go with
      | false => exact ⟨out, by simp, hallout⟩
      | true =>
        refine ⟨LockDemo.deductStock out, by simp,
          LockDemo.deductStock_allowed out ?_ ?_ hallout⟩
        · rw [hcalls, LockDemo.lastLock_append calls r2.trace hone]
          exact hgo rfl
        · rw [hcalls, LockDemo.lockCalls_append, hcount2]
          have : LockDemo.maxRetries.toNat = 30 := by decide
          omega

set_option maxRecDepth 1000000 in
/-- The demo when the lock is granted at the third attempt with a stock of 25 (it writes 15),
and when the lock is never granted (31 `Lock` calls, and no write besides the set-up). -/
theorem stock_written_under_lock_examples :
    (LockDemo.main LockDemo.busyEnv).map (fun r => r.trace)
      = some [.release, .rdsGet LockDemo.stockKey "15", .rdsSet LockDemo.stockKey "15",
          .sleep 1, .rdsGet LockDemo.stockKey "25",
          .lock LockDemo.lockKey 10 true none, .sleep 1,
          .lock LockDemo.lockKey 10 false none, .sleep 1,
          .lock LockDemo.lockKey 10 false none,
          .rdsGet LockDemo.stockKey "25", .rdsExists LockDemo.stockKey true] ∧
    (LockDemo.main LockDemo.heldEnv).map
        (fun r => (LockDemo.lockCalls r.trace, LockDemo.lastLock r.trace,
          r.trace.filter (fun e => match e with | .rdsSet _ _ => true | _ => false)))
      = some (31, some (false, none), [.rdsSet LockDemo.stockKey "100"]) :=
  ⟨by rfl, by rfl⟩
end CacheDemo
